import Mathlib

/-!
# Pack-transfer core of go-git: server receive-pack, advertisement, capability checks,
reference selection, wants, haves, negotiation, the update of the local references,
the transport registry and the upload-archive response

A shallow embedding of the Go sources into Lean 4.  Go values become Lean
values, methods that mutate a storer become functions that take the storer
state and return the new state, `error` becomes `Option GoError`
(`none` is Go's `nil`), and a Go `map` becomes an association list with
unique keys.
-/

set_option autoImplicit false

namespace GoGit

/-! ## Basic data: errors, hashes, references -/

/-- A Go `error` value.  `ident` stands for the identity of the error value
(the package variable created by `errors.New`, or the call site of
`fmt.Errorf`), `text` is what `Error()` returns.  Go compares errors with
`==` by identity, so two errors with the same text need not be equal. -/
structure GoError where
  ident : String
  text : String
deriving DecidableEq, Repr

/-- The method `Error()` of a Go error. -/
def GoError.Error (e : GoError) : String := e.text

/-- The value `plumbing.ErrReferenceNotFound`. -/
def ErrReferenceNotFound : GoError := ⟨"plumbing.ErrReferenceNotFound", "reference not found"⟩

/-- The value `plumbing.ErrInvalidType`. -/
def ErrInvalidType : GoError := ⟨"plumbing.ErrInvalidType", "invalid type"⟩

/-- The value `server.ErrUpdateReference` (receivepack.go, line 16). -/
def ErrUpdateReference : GoError := ⟨"server.ErrUpdateReference", "failed to update ref"⟩

/-- The value `transport.ErrEmptyRemoteRepository`. -/
def ErrEmptyRemoteRepository : GoError :=
  ⟨"transport.ErrEmptyRemoteRepository", "remote repository is empty"⟩

/-- The value `fetch.ErrExactSHA1NotSupported` (fetch.go, line 26). -/
def ErrExactSHA1NotSupported : GoError :=
  ⟨"fetch.ErrExactSHA1NotSupported", "server does not support exact SHA1 refspec"⟩

/-- An error built by `fmt.Errorf` with the formatted message `msg`. -/
def Errorf (msg : String) : GoError := ⟨"fmt.Errorf", msg⟩

/-- The type `plumbing.Hash`: an object identifier, compared byte-wise.  The
identifier is represented by its numeric value. -/
abbrev Hash := Nat

/-- The value `plumbing.ZeroHash`: the all-zero identifier. -/
def ZeroHash : Hash := 0

/-- The type `plumbing.ReferenceName`. -/
abbrev ReferenceName := String

/-- The constant `plumbing.HEAD`. -/
def HEAD : ReferenceName := "HEAD"

/-- The type `plumbing.ReferenceType`. -/
inductive ReferenceType where
  | InvalidReference
  | HashReference
  | SymbolicReference
deriving DecidableEq, Repr

/-- The type `plumbing.Reference`: a name with its kind and its target (an
object identifier for a hash reference, a name for a symbolic one). -/
structure Reference where
  t : ReferenceType
  n : ReferenceName
  h : Hash
  target : ReferenceName
deriving DecidableEq, Repr

/-- The constructor `plumbing.NewHashReference`. -/
def NewHashReference (n : ReferenceName) (h : Hash) : Reference :=
  { t := ReferenceType.HashReference, n := n, h := h, target := "" }

/-- The constructor `plumbing.NewSymbolicReference`. -/
def NewSymbolicReference (n target : ReferenceName) : Reference :=
  { t := ReferenceType.SymbolicReference, n := n, h := ZeroHash, target := target }

/-! ## Go maps

A Go `map` is an association list in which every key occurs at most once.
The order of the list stands for one of the iteration orders Go may choose;
statements about the result of a `range` over a map are made up to
permutation. -/

/-- The assignment `m[k] = v`. -/
def mapSet {κ ν : Type} [DecidableEq κ] : List (κ × ν) → κ → ν → List (κ × ν)
  | [], k, v => [(k, v)]
  | (k', v') :: rest, k, v =>
    if k' = k then (k, v) :: rest else (k', v') :: mapSet rest k v

/-- The lookup `v, ok := m[k]`. -/
def mapGet {κ ν : Type} [DecidableEq κ] : List (κ × ν) → κ → Option ν
  | [], _ => none
  | (k', v') :: rest, k => if k' = k then some v' else mapGet rest k

/-- The statement `delete(m, k)`. -/
def mapDelete {κ ν : Type} [DecidableEq κ] (m : List (κ × ν)) (k : κ) : List (κ × ν) :=
  m.filter (fun e => !decide (e.1 = k))

/-! ## Update commands (packp/upreq.go) -/

/-- The type `packp.Action` with its four constants. -/
inductive Action where
  | Create
  | Update
  | Delete
  | Invalid
deriving DecidableEq, Repr

/-- The type `packp.Command`. -/
structure Command where
  Name : ReferenceName
  Old : Hash
  New : Hash
deriving DecidableEq, Repr

/-- The method `Command.Action` (upreq.go, lines 96-110). -/
def Command.Action (c : Command) : Action :=
  if c.Old = ZeroHash ∧ c.New = ZeroHash then
    Action.Invalid
  else if c.Old = ZeroHash then
    Action.Create
  else if c.New = ZeroHash then
    Action.Delete
  else
    Action.Update

/-! ## Storers -/

/-- The interface `storer.ReferenceStorer`, over a storer whose state has
type `σ`.  A method that may write takes the state and returns the new state
with its error; a method that only reads returns its result.  A failure of
the iterator is represented as a failure of `IterReferences`. -/
structure ReferenceStorer (σ : Type) where
  SetReference : σ → Reference → σ × Option GoError
  CheckAndSetReference : σ → Reference → Option Reference → σ × Option GoError
  Reference : σ → ReferenceName → Except GoError Reference
  IterReferences : σ → Except GoError (List GoGit.Reference)
  RemoveReference : σ → ReferenceName → σ × Option GoError

/-- An attached packfile stream, seen through the two things the server does
with it: `UpdateObjectStorage` is the effect and the error of
`packfile.UpdateObjectStorage(st, r)` on a storer state, `Close` is what
`r.Close()` returns. -/
structure PackStream (σ : Type) where
  UpdateObjectStorage : σ → σ × Option GoError
  Close : Option GoError

/-! ## Capability lists -/

/-- The type `capability.Capability`. -/
abbrev Capability := String

/-- Modelled from the spec: the type `capability.List` of package
`plumbing/protocol/packp/capability`, which is not among the sources.  The
spec (4.2) describes it as an ordered collection of `(key, values…)` entries
with `Supports`, `Set` and `Delete`. -/
structure CapabilityList where
  entries : List (Capability × List String)
deriving DecidableEq, Repr

/-- Modelled from the spec: `capability.NewList`, the list without entries. -/
def NewList : CapabilityList := ⟨[]⟩

/-- Modelled from the spec: `List.Supports`, the membership test on keys. -/
def CapabilityList.Supports (l : CapabilityList) (c : Capability) : Bool :=
  l.entries.any (fun e => decide (e.1 = c))

/-- Modelled from the spec: `List.All`, the keys of the list in order. -/
def CapabilityList.All (l : CapabilityList) : List Capability :=
  l.entries.map (fun e => e.1)

/-- Modelled from the spec: `List.Set`, which overwrites the values of an
existing key and enters a key that is not yet present.  The spec names no
failure of `Set`; the error result is kept because the callers test it. -/
def CapabilityList.Set (l : CapabilityList) (c : Capability) (values : List String) :
    CapabilityList × Option GoError :=
  if l.Supports c then
    (⟨l.entries.map (fun e => if e.1 = c then (c, values) else e)⟩, none)
  else
    (⟨l.entries ++ [(c, values)]⟩, none)

/-- Modelled from the spec: `List.Add`, which enters a key when it is not yet
present and appends the values to those of the key. -/
def CapabilityList.Add (l : CapabilityList) (c : Capability) (values : List String) :
    CapabilityList × Option GoError :=
  if l.Supports c then
    (⟨l.entries.map (fun e => if e.1 = c then (c, e.2 ++ values) else e)⟩, none)
  else
    (⟨l.entries ++ [(c, values)]⟩, none)

/-- Modelled from the spec: `List.Delete`, which removes all occurrences of a
key. -/
def CapabilityList.Delete (l : CapabilityList) (c : Capability) : CapabilityList :=
  ⟨l.entries.filter (fun e => !decide (e.1 = c))⟩

/-- The capability `agent`. -/
def Agent : Capability := "agent"
/-- The capability `ofs-delta`. -/
def OFSDelta : Capability := "ofs-delta"
/-- The capability `delete-refs`. -/
def DeleteRefs : Capability := "delete-refs"
/-- The capability `report-status`. -/
def ReportStatusCap : Capability := "report-status"
/-- The capability `multi_ack`. -/
def MultiACK : Capability := "multi_ack"
/-- The capability `multi_ack_detailed`. -/
def MultiACKDetailed : Capability := "multi_ack_detailed"
/-- The capability `thin-pack`. -/
def ThinPack : Capability := "thin-pack"
/-- The capability `symref`. -/
def SymRef : Capability := "symref"
/-- The capability `shallow`. -/
def Shallow : Capability := "shallow"
/-- The capability `no-progress`. -/
def NoProgress : Capability := "no-progress"
/-- The capability `include-tag`. -/
def IncludeTag : Capability := "include-tag"
/-- The capability `side-band`. -/
def Sideband : Capability := "side-band"
/-- The capability `side-band-64k`. -/
def Sideband64k : Capability := "side-band-64k"
/-- The capability `allow-tip-sha1-in-want`. -/
def AllowTipSHA1InWant : Capability := "allow-tip-sha1-in-want"
/-- The capability `allow-reachable-sha1-in-want`. -/
def AllowReachableSHA1InWant : Capability := "allow-reachable-sha1-in-want"

/-- Modelled from the spec: `capability.DefaultAgent()`, the reserved value
that identifies the implementation and its version. -/
def DefaultAgent : String := "go-git/5.x"

/-! ## Receive-pack on the server (server/receivepack.go) -/

/-- The type `packp.CommandStatus`. -/
structure CommandStatus where
  ReferenceName : String
  Status : String
deriving DecidableEq, Repr

/-- The type `packp.ReportStatus`. -/
structure ReportStatus where
  UnpackStatus : String
  CommandStatuses : List CommandStatus
deriving DecidableEq, Repr

/-- The constructor `packp.NewReportStatus`. -/
def NewReportStatus : ReportStatus := { UnpackStatus := "", CommandStatuses := [] }

/-- The type `packp.ReferenceUpdateRequest`, with the fields the server
reads: the capabilities, the commands and the attached packfile (`none` is a
nil `Packfile`). -/
structure ReferenceUpdateRequest (σ : Type) where
  Capabilities : CapabilityList
  Commands : List Command
  Packfile : Option (PackStream σ)

/-- The type `rpStatus` (receivepack.go, lines 19-23).  The map `cmdStatus`
made in `ReceivePack` is never nil; a nil map and an empty one are ranged
over alike. -/
structure rpStatus where
  cmdStatus : List (ReferenceName × Option GoError)
  firstErr : Option GoError
  unpackErr : Option GoError
deriving DecidableEq, Repr

/-- The function `referenceExists` (advrefs.go, lines 113-120). -/
def referenceExists {σ : Type} (S : ReferenceStorer σ) (s : σ) (n : ReferenceName) :
    Bool × Option GoError :=
  match S.Reference s n with
  | Except.error err =>
    if err = ErrReferenceNotFound then (false, none) else (false, some err)
  | Except.ok _ => (true, none)

/-- The function `setStatus` (receivepack.go, lines 96-101). -/
def setStatus (s : rpStatus) (ref : ReferenceName) (err : Option GoError) : rpStatus :=
  let s1 : rpStatus := { s with cmdStatus := mapSet s.cmdStatus ref err }
  match s1.firstErr, err with
  | none, some e => { s1 with firstErr := some e }
  | _, _ => s1

/-- The body of the loop of `updateReferences` (receivepack.go, lines 46-79)
for one command: the status and the storer state after the iteration. -/
def updateReferencesBody {σ : Type} (S : ReferenceStorer σ) (s : rpStatus) (st : σ)
    (cmd : Command) : rpStatus × σ :=
  match referenceExists S st cmd.Name with
  | (_, some err) => (setStatus s cmd.Name (some err), st)
  | (ok, none) =>
    match cmd.Action with
    | Action.Create =>
      if ok then
        (setStatus s cmd.Name (some ErrUpdateReference), st)
      else
        let r := S.SetReference st (NewHashReference cmd.Name cmd.New)
        (setStatus s cmd.Name r.2, r.1)
    | Action.Delete =>
      if !ok then
        (setStatus s cmd.Name (some ErrUpdateReference), st)
      else
        let r := S.RemoveReference st cmd.Name
        (setStatus s cmd.Name r.2, r.1)
    | Action.Update =>
      if !ok then
        (setStatus s cmd.Name (some ErrUpdateReference), st)
      else
        let r := S.SetReference st (NewHashReference cmd.Name cmd.New)
        (setStatus s cmd.Name r.2, r.1)
    | Action.Invalid => (s, st)

/-- The function `updateReferences` (receivepack.go, lines 44-81): the loop
over the commands of the request, in order. -/
def updateReferences {σ : Type} (S : ReferenceStorer σ) :
    rpStatus → σ → List Command → rpStatus × σ
  | s, st, [] => (s, st)
  | s, st, cmd :: rest =>
    let r := updateReferencesBody S s st cmd
    updateReferences S r.1 r.2 rest

/-- The function `writePackfile` (receivepack.go, lines 83-94). -/
def writePackfile {σ : Type} (st : σ) (r : Option (PackStream σ)) : σ × Option GoError :=
  match r with
  | none => (st, none)
  | some r =>
    match r.UpdateObjectStorage st with
    | (st1, some err) => (st1, some err)
    | (st1, none) => (st1, r.Close)

/-- The function `reportStatus` (receivepack.go, lines 103-128).  The
command statuses come out in the order of the association list, one of the
orders in which Go may range over the map. -/
def reportStatus (s : rpStatus) : ReportStatus :=
  let rs : ReportStatus := { NewReportStatus with UnpackStatus := "ok" }
  let rs : ReportStatus :=
    match s.unpackErr with
    | some e => { rs with UnpackStatus := e.Error }
    | none => rs
  { rs with CommandStatuses := rs.CommandStatuses ++ s.cmdStatus.map (fun p =>
      match p.2 with
      | some e => { ReferenceName := p.1, Status := e.Error }
      | none => { ReferenceName := p.1, Status := "ok" }) }

/-- The function `ReceivePack` (receivepack.go, lines 25-42): the storer
state afterwards, the report-status and the error. -/
def ReceivePack {σ : Type} (S : ReferenceStorer σ) (st : σ) (req : ReferenceUpdateRequest σ) :
    σ × Option ReportStatus × Option GoError :=
  let s : rpStatus := { cmdStatus := [], firstErr := none, unpackErr := none }
  match req.Packfile with
  | some pf =>
    match writePackfile st (some pf) with
    | (st1, some err) =>
      let s1 : rpStatus := { s with unpackErr := some err, firstErr := some err }
      (st1, some (reportStatus s1), some err)
    | (st1, none) =>
      let r := updateReferences S s st1 req.Commands
      (r.2, some (reportStatus r.1), r.1.firstErr)
  | none =>
    let r := updateReferences S s st req.Commands
    (r.2, some (reportStatus r.1), r.1.firstErr)

/-! ## An in-memory reference storer -/

/-- Modelled from the spec: the in-memory reference storage
`memory.ReferenceStorage` of package `storage/memory`, which is not among
the sources: a map from reference names to references, whose writes always
succeed. -/
abbrev MemRefs := List (ReferenceName × Reference)

/-- The value `storage.ErrReferenceHasChanged`. -/
def ErrReferenceHasChanged : GoError :=
  ⟨"storage.ErrReferenceHasChanged", "reference has changed concurrently"⟩

/-- Modelled from the spec: the methods of `memory.ReferenceStorage`.
`CheckAndSetReference` follows the spec's compare-and-set (4.6): the write
is committed only if the stored value still matches `old` (the same OID, or
absent with `old` nil), and is reported as failed otherwise. -/
def memStorer : ReferenceStorer MemRefs where
  SetReference := fun m r => (mapSet m r.n r, none)
  CheckAndSetReference := fun m r old =>
    if (mapGet m r.n).map (fun x => x.h) = old.map (fun x => x.h) then (mapSet m r.n r, none)
    else (m, some ErrReferenceHasChanged)
  Reference := fun m n =>
    match mapGet m n with
    | some r => Except.ok r
    | none => Except.error ErrReferenceNotFound
  IterReferences := fun m => Except.ok (m.map (fun e => e.2))
  RemoveReference := fun m n => (mapDelete m n, none)

/-! ## Notions used to state the properties of receive-pack -/

/-- The status with which `ReceivePack` starts. -/
def emptyStatus : rpStatus := { cmdStatus := [], firstErr := none, unpackErr := none }

/-- The error of one command: the error the loop body records when it
processes `cmd` alone on the storer state `st` (`none` when it records
success, or records nothing). -/
def commandError {σ : Type} (S : ReferenceStorer σ) (st : σ) (cmd : Command) : Option GoError :=
  (updateReferencesBody S emptyStatus st cmd).1.firstErr

/-- The storer state after one command has been processed on `st`. -/
def commandEffect {σ : Type} (S : ReferenceStorer σ) (st : σ) (cmd : Command) : σ :=
  (updateReferencesBody S emptyStatus st cmd).2

/-- The storer state after every command of the list has been applied in
request order, each on the state left by the one before it, whatever the
errors of the others. -/
def applyAll {σ : Type} (S : ReferenceStorer σ) : σ → List Command → σ
  | st, [] => st
  | st, cmd :: rest => applyAll S (commandEffect S st cmd) rest

/-- The error of the first failing command in request order, `none` when no
command fails. -/
def firstFailure {σ : Type} (S : ReferenceStorer σ) : σ → List Command → Option GoError
  | _, [] => none
  | st, cmd :: rest =>
    match commandError S st cmd with
    | some e => some e
    | none => firstFailure S (commandEffect S st cmd) rest

/-- The text of a status: `ok` for success, the text of the error otherwise. -/
def statusText : Option GoError → String
  | none => "ok"
  | some e => e.Error

/-- One `(name, status)` entry for each command of the list, in request
order, with the status of that command. -/
def expectedStatuses {σ : Type} (S : ReferenceStorer σ) : σ → List Command → List CommandStatus
  | _, [] => []
  | st, cmd :: rest =>
    { ReferenceName := cmd.Name, Status := statusText (commandError S st cmd) } ::
      expectedStatuses S (commandEffect S st cmd) rest

/-- The existence precondition of a command on a storer state: a create
finds its reference absent, a delete or an update finds it present. -/
def existencePrecondition {σ : Type} (S : ReferenceStorer σ) (st : σ) (cmd : Command) : Prop :=
  (cmd.Action = Action.Create ∧ referenceExists S st cmd.Name = (false, none)) ∨
  ((cmd.Action = Action.Delete ∨ cmd.Action = Action.Update) ∧
    referenceExists S st cmd.Name = (true, none))

instance existencePrecondition.decidable {σ : Type} (S : ReferenceStorer σ) (st : σ)
    (cmd : Command) : Decidable (existencePrecondition S st cmd) := by
  unfold existencePrecondition
  infer_instance

/-- Storage writes succeed: `SetReference` and `RemoveReference` return no
error, and a lookup afterwards reads the written reference, respectively
finds the removed one absent. -/
structure WritesSucceed {σ : Type} (S : ReferenceStorer σ) : Prop where
  set_ok : ∀ st r, (S.SetReference st r).2 = none
  remove_ok : ∀ st n, (S.RemoveReference st n).2 = none
  get_set : ∀ st r, S.Reference (S.SetReference st r).1 r.n = Except.ok r
  get_remove : ∀ st n,
    S.Reference (S.RemoveReference st n).1 n = Except.error ErrReferenceNotFound

/-- A write or a removal under one name leaves the lookups of all other
names as they were. -/
structure WritesFramed {σ : Type} (S : ReferenceStorer σ) : Prop where
  get_set_ne : ∀ st r n, n ≠ r.n → S.Reference (S.SetReference st r).1 n = S.Reference st n
  get_remove_ne : ∀ st n m, m ≠ n →
    S.Reference (S.RemoveReference st n).1 m = S.Reference st m

/-- What the loop body does with one command on `st`, apart from the status
it is given: the error it passes to `setStatus` (`none` when it does not call
`setStatus`) and the storer state it leaves. -/
def bodyOutcome {σ : Type} (S : ReferenceStorer σ) (st : σ) (cmd : Command) :
    Option (Option GoError) × σ :=
  match referenceExists S st cmd.Name with
  | (_, some err) => (some (some err), st)
  | (ok, none) =>
    match cmd.Action with
    | Action.Create =>
      if ok then (some (some ErrUpdateReference), st)
      else (some (S.SetReference st (NewHashReference cmd.Name cmd.New)).2,
        (S.SetReference st (NewHashReference cmd.Name cmd.New)).1)
    | Action.Delete =>
      if !ok then (some (some ErrUpdateReference), st)
      else (some (S.RemoveReference st cmd.Name).2, (S.RemoveReference st cmd.Name).1)
    | Action.Update =>
      if !ok then (some (some ErrUpdateReference), st)
      else (some (S.SetReference st (NewHashReference cmd.Name cmd.New)).2,
        (S.SetReference st (NewHashReference cmd.Name cmd.New)).1)
    | Action.Invalid => (none, st)

/-- The status after the loop body, from what it passes to `setStatus`. -/
def recordOutcome (s : rpStatus) (n : ReferenceName) : Option (Option GoError) → rpStatus
  | none => s
  | some e => setStatus s n e

/-! ## Advertised references on the server (server/advrefs.go) -/

/-- Modelled from the spec: the type `packp.AdvRefs` (3, "Advertised refs"):
a map from names to OIDs, a peeled-tag map, an optional `HEAD` OID, a
capability set and the shallow OIDs. -/
structure AdvRefs where
  Head : Option Hash
  Capabilities : CapabilityList
  References : List (String × Hash)
  Peeled : List (String × Hash)
  Shallows : List Hash
deriving DecidableEq, Repr

/-- Modelled from the spec: `packp.NewAdvRefs`, the empty advertisement. -/
def NewAdvRefs : AdvRefs :=
  { Head := none, Capabilities := NewList, References := [], Peeled := [], Shallows := [] }

/-- Modelled from the spec: `AdvRefs.IsEmpty`, an advertisement without a
head, without references, peeled references and shallows. -/
def AdvRefs.IsEmpty (a : AdvRefs) : Bool :=
  a.Head.isNone && a.References.isEmpty && a.Peeled.isEmpty && a.Shallows.isEmpty

/-- Modelled from the spec: `AdvRefs.AddReference` (4.3, step 3): a symbolic
reference is recorded as such, as a `symref` capability value `name:target`;
a hash reference is entered in the reference map. -/
def AdvRefs.AddReference (a : AdvRefs) (r : Reference) : AdvRefs × Option GoError :=
  match r.t with
  | ReferenceType.SymbolicReference =>
    let c := a.Capabilities.Add SymRef [r.n ++ ":" ++ r.target]
    ({ a with Capabilities := c.1 }, c.2)
  | ReferenceType.HashReference => ({ a with References := mapSet a.References r.n r.h }, none)
  | ReferenceType.InvalidReference => (a, some ErrInvalidType)

/-- Modelled from the spec: the bound on the depth of symbolic resolution
(9, "bound depth ≤ a small constant, e.g. 5"). -/
def MaxResolveRecursion : Nat := 5

/-- Modelled from the spec: the resolution of a reference along symbolic
links; past the bound the lookup reports "not found". -/
def resolveReference {σ : Type} (S : ReferenceStorer σ) (st : σ) :
    Nat → Reference → Except GoError Reference
  | fuel, r =>
    if r.t ≠ ReferenceType.SymbolicReference then Except.ok r
    else
      match fuel with
      | 0 => Except.error ErrReferenceNotFound
      | fuel + 1 =>
        match S.Reference st r.target with
        | Except.error err => Except.error err
        | Except.ok t => resolveReference S st fuel t

/-- Modelled from the spec: `storer.ResolveReference`, the lookup of a name
followed by its full resolution. -/
def ResolveReference {σ : Type} (S : ReferenceStorer σ) (st : σ) (n : ReferenceName) :
    Except GoError Reference :=
  match S.Reference st n with
  | Except.error err => Except.error err
  | Except.ok r => resolveReference S st MaxResolveRecursion r

/-- The loop of `setSupportedCapabilities` (advrefs.go, lines 52-56). -/
def setSupportedCapabilitiesLoop :
    CapabilityList → List (Capability × List String) → CapabilityList × Option GoError
  | c, [] => (c, none)
  | c, cap :: rest =>
    match c.Set cap.1 cap.2 with
    | (c1, some err) => (c1, some err)
    | (c1, none) => setSupportedCapabilitiesLoop c1 rest

/-- The function `setSupportedCapabilities` (advrefs.go, lines 35-59). -/
def setSupportedCapabilities (c : CapabilityList) (forPush : Bool) :
    CapabilityList × Option GoError :=
  let caps : List (Capability × List String) := [(Agent, [DefaultAgent]), (OFSDelta, [])]
  let caps := if forPush then caps ++ [(DeleteRefs, []), (ReportStatusCap, [])] else caps
  setSupportedCapabilitiesLoop c caps

/-- The function `setReferences` (advrefs.go, lines 96-111). -/
def setReferences {σ : Type} (S : ReferenceStorer σ) (s : σ) (ar : AdvRefs) :
    AdvRefs × Option GoError :=
  match S.IterReferences s with
  | Except.error err => (ar, some err)
  | Except.ok refs =>
    (refs.foldl (fun (a : AdvRefs) ref =>
        if ref.t ≠ ReferenceType.HashReference then a
        else { a with References := mapSet a.References ref.n ref.h }) ar, none)

/-- The function `setHEAD` (advrefs.go, lines 61-94). -/
def setHEAD {σ : Type} (S : ReferenceStorer σ) (s : σ) (ar : AdvRefs) : AdvRefs × Option GoError :=
  match S.Reference s HEAD with
  | Except.error err => if err = ErrReferenceNotFound then (ar, none) else (ar, some err)
  | Except.ok ref =>
    if ref.t = ReferenceType.SymbolicReference then
      match ar.AddReference ref with
      | (ar1, some _) => (ar1, none)
      | (ar1, none) =>
        match ResolveReference S s ref.target with
        | Except.error err =>
          if err = ErrReferenceNotFound then (ar1, none) else (ar1, some err)
        | Except.ok ref1 =>
          if ref1.t ≠ ReferenceType.HashReference then (ar1, some ErrInvalidType)
          else ({ ar1 with Head := some ref1.h }, none)
    else if ref.t ≠ ReferenceType.HashReference then (ar, some ErrInvalidType)
    else ({ ar with Head := some ref.h }, none)

/-- The function `advertiseReferences` (advrefs.go, lines 13-33). -/
def advertiseReferences {σ : Type} (S : ReferenceStorer σ) (st : σ) (forPush : Bool) :
    Except GoError AdvRefs :=
  let ar := NewAdvRefs
  match setSupportedCapabilities ar.Capabilities forPush with
  | (_, some err) => Except.error err
  | (caps, none) =>
    match setReferences S st { ar with Capabilities := caps } with
    | (_, some err) => Except.error err
    | (ar1, none) =>
      match setHEAD S st ar1 with
      | (_, some err) => Except.error err
      | (ar2, none) =>
        if !forPush && ar2.References.length == 0 then Except.error ErrEmptyRemoteRepository
        else Except.ok ar2

/-- The loop of `checkSupportedCapabilities` over `req.All()`. -/
def checkSupportedCapabilitiesLoop (cur : CapabilityList) : List Capability → Option GoError
  | [] => none
  | c :: rest =>
    if !cur.Supports c then some (Errorf ("unsupported capability: " ++ c))
    else checkSupportedCapabilitiesLoop cur rest

/-- The function `checkSupportedCapabilities` (advrefs.go, lines 122-130). -/
def checkSupportedCapabilities (cur req : CapabilityList) : Option GoError :=
  checkSupportedCapabilitiesLoop cur req.All

/-! ## The receive-pack service (server/server.go) -/

/-- The type `ServerCommand`, seen through what the service does with its
streams: `EncodeAdvRefs` is the error of `ar.Encode(cmd.Stdout)`,
`DecodeRequest` is the request read by `req.Decode(cmd.Stdin)` or its error,
`EncodeReport` is the error of `rs.Encode(cmd.Stdout)`. -/
structure ServerCommand (σ : Type) where
  EncodeAdvRefs : AdvRefs → Option GoError
  DecodeRequest : Except GoError (ReferenceUpdateRequest σ)
  EncodeReport : ReportStatus → Option GoError

/-- The function `ServeReceivePack` (server.go, lines 65-98), with the
function it calls to process the decoded request as the argument `receive`:
the storer state afterwards and the error. -/
def ServeReceivePackWith {σ : Type} (S : ReferenceStorer σ)
    (receive : σ → ReferenceUpdateRequest σ → σ × Option ReportStatus × Option GoError)
    (cmd : ServerCommand σ) (st : σ) : σ × Option GoError :=
  match advertiseReferences S st true with
  | Except.error err =>
    (st, some (Errorf ("internal error in advertised references: " ++ err.Error)))
  | Except.ok ar =>
    match cmd.EncodeAdvRefs ar with
    | some err => (st, some (Errorf ("error in advertised references encoding: " ++ err.Error)))
    | none =>
      match cmd.DecodeRequest with
      | Except.error err => (st, some (Errorf ("error decoding: " ++ err.Error)))
      | Except.ok req =>
        match checkSupportedCapabilities ar.Capabilities req.Capabilities with
        | some err => (st, some err)
        | none =>
          match receive st req with
          | (st1, rs, err) =>
            match (match rs with
                   | some r => cmd.EncodeReport r
                   | none => none) with
            | some err1 =>
              (st1, some (Errorf ("error in encoding report status " ++ err1.Error)))
            | none =>
              match err with
              | some e => (st1, some (Errorf ("error in receive pack: " ++ e.Error)))
              | none => (st1, none)

/-- The function `ServeReceivePack` (server.go, lines 65-98): the decoded
request is processed by `ReceivePack`. -/
def ServeReceivePack {σ : Type} (S : ReferenceStorer σ) (cmd : ServerCommand σ) (st : σ) :
    σ × Option GoError :=
  ServeReceivePackWith S (ReceivePack S) cmd st

/-! ## The client's capability filter and handshake (transport/caps.go, transport/pack.go) -/

/-- The variable `UnsupportedCapabilities` (caps.go, lines 7-11). -/
def UnsupportedCapabilities : List Capability := [MultiACK, MultiACKDetailed, ThinPack]

/-- The loop of `FilterUnsupportedCapabilities` over a list of capabilities. -/
def deleteAll : CapabilityList → List Capability → CapabilityList
  | list, [] => list
  | list, c :: rest => deleteAll (list.Delete c) rest

/-- The function `FilterUnsupportedCapabilities` (caps.go, lines 16-20). -/
def FilterUnsupportedCapabilities (list : CapabilityList) : CapabilityList :=
  deleteAll list UnsupportedCapabilities

/-- The function `strconv.Atoi` of the Go library, without its error: an
optional sign followed by decimal digits; 0 on a syntax error, the nearest
64-bit value on a range error. -/
def Atoi (s : String) : Int :=
  let cs := s.toList
  let neg : Bool := cs.head? = some '-'
  let ds : List Char :=
    match cs with
    | '-' :: r => r
    | '+' :: r => r
    | r => r
  if ds.isEmpty || !ds.all Char.isDigit then 0
  else
    let n : Nat := ds.foldl (fun a c => 10 * a + (c.toNat - 48)) 0
    if neg then (if n > 2 ^ 63 then -(2 ^ 63 : Int) else -(n : Int))
    else (if n > 2 ^ 63 - 1 then (2 ^ 63 - 1 : Int) else (n : Int))

/-- The function `strings.HasPrefix` of the Go library. -/
def HasPrefix (s p : String) : Bool := p.toList.isPrefixOf s.toList

/-- The slice `s[n:]` of a Go string (of one-byte characters). -/
def sliceFrom (s : String) (n : Nat) : String := String.mk (s.toList.drop n)

/-- The type `protocol.Version` (protocol/version.go): an unsigned byte. -/
abbrev Version := Nat

/-- The conversion `protocol.Version(v)` of an `int` to an unsigned byte. -/
def toVersion (v : Int) : Version := (v % 256).toNat

/-- The type `ServiceResponse` (pack.go, lines 22-32). -/
structure ServiceResponse where
  Version : GoGit.Version
  Capabilities : CapabilityList
  AdvRefs : Option GoGit.AdvRefs
deriving DecidableEq, Repr

/-- The type `packp.UploadRequest`, with the fields the negotiation writes;
`Depth` is the number of commits of a `packp.DepthCommits`. -/
structure UploadRequest where
  Capabilities : CapabilityList
  Wants : List Hash
  Shallows : List Hash
  Depth : Int
deriving DecidableEq, Repr

/-- The constructor `packp.NewUploadRequest`. -/
def NewUploadRequest : UploadRequest :=
  { Capabilities := NewList, Wants := [], Shallows := [], Depth := 0 }

/-- The type `packp.ShallowUpdate`. -/
structure ShallowUpdate where
  Shallows : List Hash
  Unshallows : List Hash
deriving DecidableEq, Repr

/-- A `Connection`, seen through what the session does with it.  For the
handshake: `PeekPacketString` is the result of
`pktline.PeekPacketString(r)`, `DecodeAdvRefs` is the advertisement read by
`ar.Decode(r)` into a new `AdvRefs`, or its error.  For the negotiation:
`WriteFlush`, `EncodeUploadRequest`, `EncodeUploadHaves` and `WriteDone` are
the errors of the writes `pktline.WriteFlush(conn)`, `upreq.Encode(conn)`,
`uphav.Encode(conn, true)` and `pktline.WritePacketf(conn, "done\n")`;
`DecodeShallowUpdate` is the update read by `shupd.Decode(conn)`,
`DecodeServerResponse` the error of `srvrs.Decode(conn, isMultiAck)`,
`ReadPacket` the payload read by `pktline.ReadPacket(conn)` and
`DecodeFinalResponse` the error of decoding that payload. -/
structure Connection where
  PeekPacketString : Except GoError String
  DecodeAdvRefs : Except GoError AdvRefs
  WriteFlush : Option GoError := none
  EncodeUploadRequest : UploadRequest → Option GoError := fun _ => none
  DecodeShallowUpdate : Except GoError ShallowUpdate := Except.ok ⟨[], []⟩
  EncodeUploadHaves : List Hash → Option GoError := fun _ => none
  DecodeServerResponse : Bool → Option GoError := fun _ => none
  WriteDone : Option GoError := none
  ReadPacket : Except GoError String := Except.ok "NAK"
  DecodeFinalResponse : String → Bool → Option GoError := fun _ _ => none

/-- The type `packSession` (pack.go, lines 139-148), with the fields the
handshake writes. -/
structure packSession where
  conn : Option Connection
  service : String
  srvrsp : Option ServiceResponse

/-- The constant `UploadPackServiceName`. -/
def UploadPackServiceName : String := "git-upload-pack"

/-- The constant `ReceivePackServiceName`. -/
def ReceivePackServiceName : String := "git-receive-pack"

/-- The method `packSession.Handshake` (pack.go, lines 162-212).  `connect`
is the result of `p.c.Connect` for a service name; the session afterwards
and the response or the error are returned. -/
def packSession.Handshake (p : packSession) (connect : String → Except GoError Connection)
    (forPush : Bool) : packSession × Except GoError ServiceResponse :=
  let service := if forPush then ReceivePackServiceName else UploadPackServiceName
  let p := { p with service := service }
  match connect service with
  | Except.error err => ({ p with conn := none }, Except.error err)
  | Except.ok conn =>
    let p := { p with conn := some conn }
    match conn.PeekPacketString with
    | Except.error err => (p, Except.error err)
    | Except.ok pkt =>
      let remotever : Version :=
        if HasPrefix pkt "version " then toVersion (Atoi (sliceFrom pkt 8)) else 0
      match conn.DecodeAdvRefs with
      | Except.error err => (p, Except.error err)
      | Except.ok ar =>
        if !forPush && ar.IsEmpty then (p, Except.error ErrEmptyRemoteRepository)
        else
          let ar := { ar with Capabilities := FilterUnsupportedCapabilities ar.Capabilities }
          let resp : ServiceResponse :=
            { Version := remotever, Capabilities := ar.Capabilities, AdvRefs := some ar }
          ({ p with srvrsp := some resp }, Except.ok resp)

/-! ## The exact-SHA1 gate of fetch (fetch/fetch.go) -/

/-- Modelled from the spec: the type `config.RefSpec` (3, "Refspec"), a
triple `(force, src, dst)`. -/
structure RefSpec where
  force : Bool
  src : String
  dst : String
deriving DecidableEq, Repr

/-- Modelled from the spec: `plumbing.IsHash`, whether a string is the hex
form of a SHA-1 OID: 40 hexadecimal digits. -/
def IsHash (s : String) : Bool :=
  s.length == 40 && s.toList.all (fun c =>
    c.isDigit || ('a' ≤ c && c ≤ 'f') || ('A' ≤ c && c ≤ 'F'))

/-- Modelled from the spec: `RefSpec.IsExactSHA1`, the exact-SHA1 form in
which `src` is a hex OID. -/
def RefSpec.IsExactSHA1 (s : RefSpec) : Bool := IsHash s.src

/-- Modelled from the spec: `RefSpec.IsWildcard`, the wildcard form, marked
by an asterisk. -/
def RefSpec.IsWildcard (s : RefSpec) : Bool :=
  s.src.toList.contains '*' || s.dst.toList.contains '*'

/-- The type `plumbing.TagMode`. -/
inductive TagMode where
  | InvalidTagMode
  | TagFollowing
  | AllTags
  | NoTags
deriving DecidableEq, Repr

/-- The type `FetchOptions` (fetch.go, lines 44-59); `Progress` is `none`
for a nil progress sink. -/
structure FetchOptions where
  RefSpecs : List RefSpec
  Depth : Int
  Progress : Option Unit
  Tags : TagMode
  Force : Bool

/-- The type `packp.UploadPackRequest`, with the fields `Fetch` uses. -/
structure UploadPackRequest where
  Capabilities : CapabilityList
  Wants : List Hash
  Shallows : List Hash
  Depth : Int
  Haves : List Hash
deriving DecidableEq, Repr

/-- The statement `if err := req.Capabilities.Set(c); err != nil` of
`newUploadPackRequest`. -/
def UploadPackRequest.setCapability (req : UploadPackRequest) (c : Capability) :
    Except GoError UploadPackRequest :=
  match req.Capabilities.Set c [] with
  | (_, some err) => Except.error err
  | (l, none) => Except.ok { req with Capabilities := l }

/-- The function `newUploadPackRequest` (fetch.go, lines 61-92).  The
constructor `packp.NewUploadPackRequestFromCapabilities`, which is not among
the sources, is the argument `fromCapabilities`. -/
def newUploadPackRequest (fromCapabilities : CapabilityList → UploadPackRequest)
    (o : FetchOptions) (ar : AdvRefs) : Except GoError UploadPackRequest :=
  let req := fromCapabilities ar.Capabilities
  match (if o.Depth ≠ 0 then ({ req with Depth := o.Depth }).setCapability Shallow
         else Except.ok req) with
  | Except.error err => Except.error err
  | Except.ok req1 =>
    match (if o.Progress.isNone && ar.Capabilities.Supports NoProgress then
             req1.setCapability NoProgress
           else Except.ok req1) with
    | Except.error err => Except.error err
    | Except.ok req2 =>
      let isWildcard := o.RefSpecs.all (fun s => s.IsWildcard)
      if isWildcard && decide (o.Tags = TagMode.TagFollowing) &&
          ar.Capabilities.Supports IncludeTag then
        req2.setCapability IncludeTag
      else Except.ok req2

/-- The loop of `isSupportedRefSpec` (fetch.go, lines 95-100). -/
def containsIsExact : Bool → List RefSpec → Bool
  | acc, [] => acc
  | acc, ref :: rest => containsIsExact (if ref.IsExactSHA1 then true else acc) rest

/-- The function `isSupportedRefSpec` (fetch.go, lines 94-112). -/
def isSupportedRefSpec (refs : List RefSpec) (ar : AdvRefs) : Option GoError :=
  if !containsIsExact false refs then none
  else if ar.Capabilities.Supports AllowReachableSHA1InWant ||
      ar.Capabilities.Supports AllowTipSHA1InWant then none
  else some ErrExactSHA1NotSupported

/-- The function `Fetch` (fetch.go, lines 114-184) up to the refspec gate.
`advertised` is the result of `s.AdvertisedReferencesContext(ctx)`; the
steps after the gate (lines 129-183: the reference and want computation, the
call of the session's `UploadPack`, the local updates) are the argument
`afterGate`, which is given the local storage, the advertisement and the
request.  The local storage afterwards, the returned storer and the error
are returned. -/
def Fetch {σ : Type} (fromCapabilities : CapabilityList → UploadPackRequest)
    (advertised : Except GoError AdvRefs)
    (afterGate : σ → AdvRefs → UploadPackRequest → σ × Option MemRefs × Option GoError)
    (st : σ) (o : FetchOptions) : σ × Option MemRefs × Option GoError :=
  match advertised with
  | Except.error err => (st, none, some err)
  | Except.ok ar =>
    match newUploadPackRequest fromCapabilities o ar with
    | Except.error err => (st, none, some err)
    | Except.ok req =>
      match isSupportedRefSpec o.RefSpecs ar with
      | some err => (st, none, some err)
      | none => afterGate st ar req

/-- The step of the iteration in `setReferences` (advrefs.go, lines
103-110) for one reference. -/
def setReferencesStep (a : AdvRefs) (ref : Reference) : AdvRefs :=
  if ref.t ≠ ReferenceType.HashReference then a
  else { a with References := mapSet a.References ref.n ref.h }

/-! ## Reference expansion (internal/repository/refs.go) -/

/-- Modelled from the spec: the variable `plumbing.RefRevParseRules` (4.4):
the ordered parse rules identity, `refs/<n>`, `refs/tags/<n>`,
`refs/heads/<n>`, `refs/remotes/<n>`, `refs/remotes/<n>/HEAD`.  A rule is
represented by the function `fmt.Sprintf(rule, ·)`. -/
def RefRevParseRules : List (String → String) :=
  [fun n => n, fun n => "refs/" ++ n, fun n => "refs/tags/" ++ n, fun n => "refs/heads/" ++ n,
   fun n => "refs/remotes/" ++ n, fun n => "refs/remotes/" ++ n ++ "/HEAD"]

/-- The loop of `ExpandRef` (refs.go, lines 25-33) over the rules that are
left, with the error `ret` kept so far; the reference and the error
returned. -/
def ExpandRefLoop {σ : Type} (S : ReferenceStorer σ) (s : σ) (ref : ReferenceName) :
    Option GoError → List (String → String) → Option Reference × Option GoError
  | ret, [] => (none, ret)
  | ret, rule :: rest =>
    match ResolveReference S s (rule ref) with
    | Except.ok resolvedRef => (some resolvedRef, none)
    | Except.error err =>
      ExpandRefLoop S s ref (match ret with
        | none => some err
        | some e => some e) rest

/-- The function `ExpandRef` (refs.go, lines 21-36). -/
def ExpandRef {σ : Type} (S : ReferenceStorer σ) (s : σ) (ref : ReferenceName) :
    Option Reference × Option GoError :=
  ExpandRefLoop S s ref none RefRevParseRules

/-! ## Selection of the references to fetch (fetch/fetch.go) -/

/-- The value `storer.ErrStop`, with which a callback ends an iteration. -/
def ErrStop : GoError := ⟨"storer.ErrStop", "stop iter"⟩

/-- The function `strconv.Quote` of the Go library (the verb `%q`), for
printable ASCII text: the text between double quotes, with a backslash before
a double quote and before a backslash. -/
def Quote (s : String) : String :=
  String.mk ([Char.ofNat 34] ++
    s.toList.flatMap (fun c => if c = Char.ofNat 34 ∨ c = Char.ofNat 92 then [Char.ofNat 92, c]
      else [c]) ++ [Char.ofNat 34])

/-- Modelled from the spec: the method `RefSpec.Src`. -/
def RefSpec.Src (s : RefSpec) : String := s.src

/-- The written form of a refspec, `[+]src:dst`. -/
def RefSpec.String (s : RefSpec) : String :=
  (if s.force then "+" else "") ++ s.src ++ ":" ++ s.dst

/-- The error type `NoMatchingRefSpecError` (fetch.go, lines 30-41): the
error value that carries the refspec `s`; its text is
`couldn't find remote ref %q` of the source of the refspec. -/
def NoMatchingRefSpecError (s : RefSpec) : GoError :=
  ⟨"fetch.NoMatchingRefSpecError " ++ s.String, "couldn't find remote ref " ++ Quote s.Src⟩

/-- Modelled from the spec: the method `RefSpec.Match` (3, "Refspec"): a
spec that is not a wildcard matches the name equal to its source; a wildcard
matches the names that begin with the part of the source before the
asterisk and end with the part after it. -/
def RefSpec.Match (s : RefSpec) (n : ReferenceName) : Bool :=
  if !s.IsWildcard then decide (s.Src = n)
  else
    let pre := s.src.toList.takeWhile (fun c => c ≠ '*')
    let suf := (s.src.toList.dropWhile (fun c => c ≠ '*')).drop 1
    decide (pre.length + suf.length ≤ n.length) && pre.isPrefixOf n.toList &&
      suf.isSuffixOf n.toList

/-- Modelled from the spec: the method `RefSpec.Dst` (4.6): the destination
of a spec that is not a wildcard; for a wildcard the destination in which
the asterisk is replaced by the part of the name that the asterisk of the
source captured. -/
def RefSpec.Dst (s : RefSpec) (n : ReferenceName) : ReferenceName :=
  if !s.IsWildcard then s.dst
  else
    let pre := s.src.toList.takeWhile (fun c => c ≠ '*')
    let suf := (s.src.toList.dropWhile (fun c => c ≠ '*')).drop 1
    let captured := (n.toList.drop pre.length).take (n.length - pre.length - suf.length)
    String.mk (s.dst.toList.takeWhile (fun c => c ≠ '*') ++ captured ++
      (s.dst.toList.dropWhile (fun c => c ≠ '*')).drop 1)

/-- The value of a hexadecimal digit. -/
def hexDigit (c : Char) : Nat :=
  if c.isDigit then c.toNat - 48
  else if 'a' ≤ c ∧ c ≤ 'f' then c.toNat - 87
  else if 'A' ≤ c ∧ c ≤ 'F' then c.toNat - 55
  else 0

/-- Modelled from the spec: `plumbing.NewHash`, the OID whose hex form is the
given string. -/
def NewHash (s : String) : Hash :=
  if IsHash s then s.toList.foldl (fun a c => 16 * a + hexDigit c) 0 else ZeroHash

/-- Modelled from the spec: the method `ForEach` of a reference iterator over
the references `l`: the callback is called on each reference in turn; an
error of the callback ends the iteration and is returned, except `ErrStop`,
which ends it without error. -/
def forEachReference {α : Type} (cb : α → Reference → α × Option GoError) :
    α → List Reference → α × Option GoError
  | a, [] => (a, none)
  | a, r :: rest =>
    match cb a r with
    | (a1, some err) => if err = ErrStop then (a1, none) else (a1, some err)
    | (a1, none) => forEachReference cb a1 rest

/-- The variables that the closure `onMatched` of `doCalculateRefs` writes:
`matched`, `refList` and the map `refs`. -/
structure calcState where
  matched : Bool
  refList : List Reference
  refs : MemRefs

/-- The closure `onMatched` of `doCalculateRefs` (fetch.go, lines 400-417). -/
def onMatched {σ : Type} (S : ReferenceStorer σ) (remoteRefs : σ) (cs : calcState)
    (ref : Reference) : calcState × Option GoError :=
  match (if ref.t = ReferenceType.SymbolicReference then
           match ResolveReference S remoteRefs ref.n with
           | Except.error err => Except.error err
           | Except.ok target => Except.ok (NewHashReference ref.n target.h)
         else Except.ok ref) with
  | Except.error err => (cs, some err)
  | Except.ok ref1 =>
    if ref1.t ≠ ReferenceType.HashReference then (cs, none)
    else
      let r := memStorer.SetReference cs.refs ref1
      ({ matched := true, refList := cs.refList ++ [ref1], refs := r.1 }, r.2)

/-- The function `doCalculateRefs` (fetch.go, lines 385-446): the selected
list (a nil slice is the empty list), the map `refs` afterwards and the
error.  `ExpandRef` returns a reference whenever its error is nil. -/
def doCalculateRefs {σ : Type} (S : ReferenceStorer σ) (remoteRefs : σ) (s : RefSpec)
    (refs : MemRefs) : List Reference × MemRefs × Option GoError :=
  if s.IsExactSHA1 then
    let ref := NewHashReference (s.Dst "") (NewHash s.Src)
    let r := memStorer.SetReference refs ref
    ([ref], r.1, r.2)
  else
    let cs0 : calcState := { matched := false, refList := [], refs := refs }
    if s.IsWildcard then
      match S.IterReferences remoteRefs with
      | Except.error err => ([], refs, some err)
      | Except.ok l =>
        let r := forEachReference (fun cs ref =>
          if !s.Match ref.n then (cs, none) else onMatched S remoteRefs cs ref) cs0 l
        (r.1.refList, r.1.refs, r.2)
    else
      let r : calcState × Option GoError :=
        match ExpandRef S remoteRefs s.Src with
        | (_, some err) => (cs0, some err)
        | (some resolvedRef, none) => onMatched S remoteRefs cs0 resolvedRef
        | (none, none) => (cs0, none)
      if !r.1.matched then ([], r.1.refs, some (NoMatchingRefSpecError s))
      else (r.1.refList, r.1.refs, r.2)

/-- The constant `refspecAllTags` (fetch.go, line 360). -/
def refspecAllTags : RefSpec := { force := true, src := "refs/tags/*", dst := "refs/tags/*" }

/-- The loop of `calculateRefs` (fetch.go, lines 374-380): the map `refs` and
the lists selected so far, over the specs that are left. -/
def calculateRefsLoop {σ : Type} (S : ReferenceStorer σ) (remoteRefs : σ) :
    MemRefs → List (List Reference) → List RefSpec →
      Except GoError (MemRefs × List (List Reference))
  | refs, specToRefs, [] => Except.ok (refs, specToRefs)
  | refs, specToRefs, s :: rest =>
    match doCalculateRefs S remoteRefs s refs with
    | (_, _, some err) => Except.error err
    | (l, refs1, none) => calculateRefsLoop S remoteRefs refs1 (specToRefs ++ [l]) rest

/-- The function `calculateRefs` (fetch.go, lines 362-383): the map `refs`
and the list selected for each spec, or the error. -/
def calculateRefs {σ : Type} (S : ReferenceStorer σ) (remoteRefs : σ) (spec : List RefSpec)
    (tagMode : TagMode) : Except GoError (MemRefs × List (List Reference)) :=
  calculateRefsLoop S remoteRefs [] []
    (if tagMode = TagMode.AllTags then spec ++ [refspecAllTags] else spec)

/-- The selection of a wildcard spec over the remote references `l`: the
references whose name matches, a symbolic one replaced by a hash reference
of the same name with the OID of its resolved target, a reference that is
neither symbolic nor a hash reference left out. -/
def selectWildcard {σ : Type} (S : ReferenceStorer σ) (remoteRefs : σ) (s : RefSpec)
    (l : List Reference) : List Reference :=
  l.filterMap (fun r =>
    if !s.Match r.n then none
    else if r.t = ReferenceType.SymbolicReference then
      match ResolveReference S remoteRefs r.n with
      | Except.ok target => some (NewHashReference r.n target.h)
      | Except.error _ => none
    else if r.t ≠ ReferenceType.HashReference then none
    else some r)

/-! ## Object storage -/

/-- The value `plumbing.ErrObjectNotFound`. -/
def ErrObjectNotFound : GoError := ⟨"plumbing.ErrObjectNotFound", "object not found"⟩

/-- The type `plumbing.ObjectType`. -/
inductive ObjectType where
  | InvalidObject
  | CommitObject
  | TreeObject
  | BlobObject
  | TagObject
  | OFSDeltaObject
  | REFDeltaObject
  | AnyObject
deriving DecidableEq, Repr

/-- The type `plumbing.EncodedObject`, with what the transfer core reads of
an object: its type, its OID and, for a commit, the OIDs of its parents. -/
structure EncodedObject where
  t : ObjectType
  h : Hash
  parents : List Hash
deriving DecidableEq, Repr

/-- The object and shallow part of the interface `storage.Storer`
(`storer.EncodedObjectStorer` and `storer.ShallowStorer`), over a storer
whose state has type `σ`. -/
structure ObjectStorer (σ : Type) where
  EncodedObject : σ → ObjectType → Hash → Except GoError GoGit.EncodedObject
  Shallow : σ → Except GoError (List Hash)
  SetShallow : σ → List Hash → σ × Option GoError

/-- The lookup `m[h]` in a Go `map[plumbing.Hash]bool`: false for a key that
is not in the map. -/
def mapHas (m : List (Hash × Bool)) (h : Hash) : Bool := (mapGet m h).getD false

/-- Modelled from the spec: the in-memory object storage of package
`storage/memory`, which is not among the sources: the stored objects by OID
and the shallow list. -/
structure MemObjects where
  objects : List (Hash × EncodedObject)
  shallow : List Hash
deriving DecidableEq, Repr

/-- Modelled from the spec: the methods of the in-memory object storage; an
object is found under its OID when it has the type asked for. -/
def memObjectStorer : ObjectStorer MemObjects where
  EncodedObject := fun st t h =>
    match mapGet st.objects h with
    | none => Except.error ErrObjectNotFound
    | some o =>
      if t = ObjectType.AnyObject ∨ o.t = t then Except.ok o
      else Except.error ErrObjectNotFound
  Shallow := fun st => Except.ok st.shallow
  SetShallow := fun st l => ({ st with shallow := l }, none)

/-! ## Wants (fetch/fetch.go) -/

/-- The function `objectExists` (fetch.go, lines 479-486). -/
def objectExists {σ : Type} (O : ObjectStorer σ) (s : σ) (h : Hash) : Bool × Option GoError :=
  match O.EncodedObject s ObjectType.AnyObject h with
  | Except.error err => if err = ErrObjectNotFound then (false, none) else (true, some err)
  | Except.ok _ => (true, none)

/-- The first loop of `getWants` (fetch.go, lines 459-469) over the
references of the map that are left, with the map `wants` built so far. -/
def getWantsLoop {σ : Type} (O : ObjectStorer σ) (localStorer : σ) (shallow : Bool) :
    List (Hash × Bool) → List Reference → Except GoError (List (Hash × Bool))
  | wants, [] => Except.ok wants
  | wants, ref :: rest =>
    match objectExists O localStorer ref.h with
    | (_, some err) => Except.error err
    | (ok, none) =>
      getWantsLoop O localStorer shallow
        (if !ok || shallow then mapSet wants ref.h true else wants) rest

/-- The function `getWants` (fetch.go, lines 448-477).  The shallow list of
a failing `Shallow()` is taken as empty; the result lists the keys of the
map `wants` in the order of the association list. -/
def getWants {σ : Type} (O : ObjectStorer σ) (localStorer : σ) (refs : MemRefs) (depth : Int) :
    Except GoError (List Hash) :=
  let shallow : Bool :=
    if depth ≠ 1 then
      match O.Shallow localStorer with
      | Except.ok s => decide (s.length > 0)
      | Except.error _ => false
    else false
  match getWantsLoop O localStorer shallow [] (refs.map (fun e => e.2)) with
  | Except.error err => Except.error err
  | Except.ok wants => Except.ok (wants.map (fun e => e.1))

/-! ## Haves (internal/repository/refs.go) -/

/-- The constant `maxHavesToVisitPerRef` (refs.go, lines 13-19). -/
def maxHavesToVisitPerRef : Nat := 100

/-- The value `object.ErrUnsupportedObject`. -/
def ErrUnsupportedObject : GoError := ⟨"object.ErrUnsupportedObject", "unsupported object type"⟩

/-- The type `object.Commit`, with its OID and the OIDs of its parents. -/
structure Commit where
  Hash : GoGit.Hash
  ParentHashes : List GoGit.Hash
deriving DecidableEq, Repr

/-- Modelled from the spec: `object.GetCommit`, the lookup of a commit object
and its decoding. -/
def GetCommit {σ : Type} (O : ObjectStorer σ) (s : σ) (h : Hash) : Except GoError Commit :=
  match O.EncodedObject s ObjectType.CommitObject h with
  | Except.error err => Except.error err
  | Except.ok o =>
    if o.t ≠ ObjectType.CommitObject then Except.error ErrUnsupportedObject
    else Except.ok { Hash := o.h, ParentHashes := o.parents }

/-- Modelled from the spec: the state of the commit walker of
`object.NewCommitPreorderIter` (9, "Commit-graph walker"): the commit it
starts from, the OIDs it has visited and the OIDs of the parents that it has
still to load, the parents of the commit visited last first. -/
structure commitPreIterator where
  start : Option Commit
  seen : List Hash
  pending : List Hash

/-- Modelled from the spec: `object.NewCommitPreorderIter(c, seenExternal,
nil)`; the externally supplied visited-set is passed to `Next`, as the
caller writes to it during the walk. -/
def NewCommitPreorderIter (c : Commit) : commitPreIterator :=
  { start := some c, seen := [], pending := [] }

/-- The walker after it has visited the commit `c`: `c` is marked as seen
and its parents that are not yet seen are to be loaded next. -/
def commitPreIterator.visit (seen pending : List Hash) (c : Commit) : commitPreIterator :=
  { start := none, seen := c.Hash :: seen,
    pending := c.ParentHashes.filter (fun h => !(c.Hash :: seen).contains h) ++ pending }

/-- Modelled from the spec: the search of the walker for its next commit
among the pending parents: a parent is loaded from the store (a failing
lookup ends the walk with its error); a commit that is in the visited-set of
the walker or in the external one is skipped; `none` is the end of the
walk. -/
def nextPending {σ : Type} (O : ObjectStorer σ) (s : σ) (seenExternal : Hash → Bool)
    (seen : List Hash) : List Hash → Except GoError (Option (Commit × commitPreIterator))
  | [] => Except.ok none
  | h :: hs =>
    match GetCommit O s h with
    | Except.error err => Except.error err
    | Except.ok c =>
      if seen.contains c.Hash || seenExternal c.Hash then nextPending O s seenExternal seen hs
      else Except.ok (some (c, commitPreIterator.visit seen hs c))

/-- Modelled from the spec: the method `Next` of the commit walker, in
preorder: the start commit first, then the pending parents. -/
def commitPreIterator.Next {σ : Type} (O : ObjectStorer σ) (s : σ) (seenExternal : Hash → Bool)
    (w : commitPreIterator) : Except GoError (Option (Commit × commitPreIterator)) :=
  match w.start with
  | some c =>
    if w.seen.contains c.Hash || seenExternal c.Hash then
      nextPending O s seenExternal w.seen w.pending
    else Except.ok (some (c, commitPreIterator.visit w.seen w.pending c))
  | none => nextPending O s seenExternal w.seen w.pending

/-- The walk `walker.ForEach` of `GetHavesFromRef` with its callback
(refs.go, lines 203-213), the walker having `haves` as its external
visited-set.  The counter `toVisit` is positive when the walk starts and is
written `n + 1`: `toVisit--` leaves `n`, and `toVisit == 0` is `n = 0`.  The
error of the walk is dropped, as in the source. -/
def walkHaves {σ : Type} (O : ObjectStorer σ) (s : σ) (remoteRefs : List (Hash × Bool)) :
    Nat → commitPreIterator → List (Hash × Bool) → List (Hash × Bool)
  | 0, _, haves => haves
  | toVisit + 1, w, haves =>
    match w.Next O s (mapHas haves) with
    | Except.error _ => haves
    | Except.ok none => haves
    | Except.ok (some (c, w1)) =>
      let haves1 := mapSet haves c.Hash true
      if toVisit = 0 ∨ mapHas remoteRefs c.Hash = true then haves1
      else walkHaves O s remoteRefs toVisit w1 haves1

/-- The function `GetHavesFromRef` (refs.go, lines 166-216): the map `haves`
afterwards; the error it returns is always nil.  `toVisit` is
`maxHavesToVisitPerRef`, or `depth` when `0 < depth < maxHavesToVisitPerRef`,
hence positive. -/
def GetHavesFromRef {σ : Type} (O : ObjectStorer σ) (s : σ) (ref : Reference)
    (remoteRefs : List (Hash × Bool)) (haves : List (Hash × Bool)) (depth : Int) :
    List (Hash × Bool) :=
  let h := ref.h
  if mapHas haves h then haves
  else if mapHas remoteRefs h then mapSet haves h true
  else
    match GetCommit O s h with
    | Except.error _ => mapSet haves ref.h true
    | Except.ok commit =>
      let toVisit : Nat :=
        if depth > 0 ∧ depth < maxHavesToVisitPerRef then depth.toNat
        else maxHavesToVisitPerRef
      walkHaves O s remoteRefs toVisit (NewCommitPreorderIter commit) haves

/-! ## Negotiation on the client (transport/negotiate.go, transport/fetch.go, transport/pack.go) -/

/-- The type `FetchPackRequest` (negotiate.go, lines 19-34); `Progress` is
`none` for a nil progress sink. -/
structure FetchPackRequest where
  Wants : List Hash
  Haves : List Hash
  Depth : Int
  IncludeTags : Bool
  Progress : Option Unit
deriving DecidableEq, Repr

/-- A message that the negotiation writes to the connection: a flush
packet, an upload-request, the upload-haves (with the flag of
`uphav.Encode`), and the `done` packet. -/
inductive Sent where
  | flush
  | uploadRequest (r : UploadRequest)
  | uploadHaves (haves : List Hash) (flush : Bool)
  | done
deriving DecidableEq, Repr

/-- The function `isSubset` (negotiate.go, lines 164-180). -/
def isSubset : List Hash → List Hash → Bool
  | [], _ => true
  | h :: rest, haystack =>
    if haystack.any (fun oh => decide (h = oh)) then isSubset rest haystack else false

/-- The loop of `updateShallow` (negotiate.go, lines 192-200): the received
shallow OIDs that are not yet in the list are appended to it. -/
def mergeShallows : List Hash → List Hash → List Hash
  | shallows, [] => shallows
  | shallows, s :: rest =>
    mergeShallows (if shallows.any (fun oldS => decide (s = oldS)) then shallows
      else shallows ++ [s]) rest

/-- The function `updateShallow` (negotiate.go, lines 182-203). -/
def updateShallow {σ : Type} (O : ObjectStorer σ) (st : σ) (shupd : ShallowUpdate) :
    σ × Option GoError :=
  if shupd.Shallows.length = 0 then (st, none)
  else
    match O.Shallow st with
    | Except.error err => (st, some err)
    | Except.ok shallows => O.SetShallow st (mergeShallows shallows shupd.Shallows)

/-- The statement `if s.Supports(c) { upreq.Capabilities.Set(c, values...) }`
of `Negotiate`.  A session method that does not return (a nil dereference)
is the result `none` of `Supports`, and of what calls it. -/
def setIfSupported (Supports : Capability → Option Bool) (l : CapabilityList) (c : Capability)
    (values : List String) : Option CapabilityList :=
  match Supports c with
  | none => none
  | some true => some (l.Set c values).1
  | some false => some l

/-- The statement `if s.Supports(a) { Set(a) } else if s.Supports(b) {
Set(b) }` of `Negotiate`. -/
def preferCapability (Supports : Capability → Option Bool) (l : CapabilityList)
    (a b : Capability) : Option CapabilityList :=
  match Supports a with
  | none => none
  | some true => some (l.Set a []).1
  | some false => setIfSupported Supports l b []

/-- The capabilities of the upload-request that `Negotiate` creates
(negotiate.go, lines 50-73). -/
def negotiateCapabilities (Supports : Capability → Option Bool) : Option CapabilityList :=
  (preferCapability Supports NewUploadRequest.Capabilities MultiACKDetailed MultiACK).bind
    fun c1 => (preferCapability Supports c1 Sideband64k Sideband).bind
    fun c2 => (setIfSupported Supports c2 ThinPack []).bind
    fun c3 => (setIfSupported Supports c3 OFSDelta []).bind
    fun c4 => setIfSupported Supports c4 Agent [DefaultAgent]

/-- The body of the loop of `Negotiate` (negotiate.go, lines 112-161), which
runs once, with the deferred `updateShallow`: the storage afterwards, the
messages written and the error. -/
def negotiateExchange {σ : Type} (O : ObjectStorer σ) (st : σ) (req : FetchPackRequest)
    (upreq : UploadRequest) (isMultiAck : Bool) (conn : Connection) :
    σ × List Sent × Option GoError :=
  match conn.EncodeUploadRequest upreq with
  | some err => (st, [Sent.uploadRequest upreq], some (Errorf ("sending upload-request: " ++ err.Error)))
  | none =>
    match (if req.Depth ≠ 0 then
             match conn.DecodeShallowUpdate with
             | Except.error err => Except.error err
             | Except.ok shupd => Except.ok (some shupd)
           else Except.ok none) with
    | Except.error err =>
      (st, [Sent.uploadRequest upreq],
        some (Errorf ("decoding shallow-update: " ++ err.Error)))
    | Except.ok deferred =>
      match conn.EncodeUploadHaves req.Haves with
      | some err =>
        (st, [Sent.uploadRequest upreq, Sent.uploadHaves req.Haves true],
          some (Errorf ("sending upload-haves: " ++ err.Error)))
      | none =>
        match conn.DecodeServerResponse isMultiAck with
        | some err =>
          (st, [Sent.uploadRequest upreq, Sent.uploadHaves req.Haves true],
            some (Errorf ("decoding server-response: " ++ err.Error)))
        | none =>
          match conn.WriteDone with
          | some err =>
            (st, [Sent.uploadRequest upreq, Sent.uploadHaves req.Haves true, Sent.done],
              some (Errorf ("sending done: " ++ err.Error)))
          | none =>
            match conn.ReadPacket with
            | Except.error err =>
              (st, [Sent.uploadRequest upreq, Sent.uploadHaves req.Haves true, Sent.done],
                some (Errorf ("reading final ACK/NAK: " ++ err.Error)))
            | Except.ok finalp =>
              match conn.DecodeFinalResponse finalp isMultiAck with
              | some err =>
                (st, [Sent.uploadRequest upreq, Sent.uploadHaves req.Haves true, Sent.done],
                  some (Errorf ("decoding final ACK/NAK: " ++ err.Error)))
              | none =>
                match deferred with
                | some shupd =>
                  ((updateShallow O st shupd).1,
                    [Sent.uploadRequest upreq, Sent.uploadHaves req.Haves true, Sent.done],
                    (updateShallow O st shupd).2)
                | none =>
                  (st, [Sent.uploadRequest upreq, Sent.uploadHaves req.Haves true, Sent.done],
                    none)

/-- The function `Negotiate` (negotiate.go, lines 38-162).  `Supports` is
the method of the session `s`; the result is `none` when a call of it does
not return, and otherwise the storage afterwards, the messages written to
the connection in order and the error returned. -/
def Negotiate {σ : Type} (O : ObjectStorer σ) (st : σ) (req : FetchPackRequest)
    (Supports : Capability → Option Bool) (conn : Connection) :
    Option (σ × List Sent × Option GoError) :=
  if req.Wants.length = 0 then some (st, [], some (Errorf "no wants specified"))
  else
    match negotiateCapabilities Supports with
    | none => none
    | some caps =>
      let upreq : UploadRequest :=
        { NewUploadRequest with Capabilities := caps, Wants := req.Wants }
      match (if req.Depth ≠ 0 then
               match O.Shallow st with
               | Except.error err => Except.error err
               | Except.ok shallows =>
                 Except.ok { upreq with
                   Depth := req.Depth,
                   Capabilities := (upreq.Capabilities.Set Shallow []).1,
                   Shallows := shallows }
             else Except.ok upreq) with
      | Except.error err => some (st, [], some err)
      | Except.ok upreq1 =>
        if isSubset req.Haves req.Wants && upreq1.Shallows.length == 0 then
          some (st, [Sent.flush], conn.WriteFlush)
        else
          let upreq2 : UploadRequest :=
            if req.Progress.isNone then
              { upreq1 with Capabilities := (upreq1.Capabilities.Set NoProgress []).1 }
            else upreq1
          let upreq3 : UploadRequest :=
            if req.IncludeTags then
              { upreq2 with Capabilities := (upreq2.Capabilities.Set IncludeTag []).1 }
            else upreq2
          match Supports MultiACK with
          | none => none
          | some true => some (negotiateExchange O st req upreq3 true conn)
          | some false =>
            match Supports MultiACKDetailed with
            | none => none
            | some isMultiAck => some (negotiateExchange O st req upreq3 isMultiAck conn)

/-- The type `sideband.Type`. -/
inductive SidebandType where
  | Sideband
  | Sideband64k
deriving DecidableEq, Repr

/-- The function `FetchPack` (transport/fetch.go, lines 15-37).
`UpdateObjectStorage` is the effect and the error of
`packfile.UpdateObjectStorage(st, reader)` for the connection read through
the given demultiplexer (`none`: read as it is). -/
def FetchPack {σ : Type} (Supports : Capability → Option Bool)
    (UpdateObjectStorage : Option SidebandType → σ → σ × Option GoError) (st : σ) :
    Option (σ × Option GoError) :=
  match Supports Sideband with
  | none => none
  | some true => some (UpdateObjectStorage (some SidebandType.Sideband) st)
  | some false =>
    match Supports Sideband64k with
    | none => none
    | some true => some (UpdateObjectStorage (some SidebandType.Sideband64k) st)
    | some false => some (UpdateObjectStorage none st)

/-- The method `packSession.Supports` (pack.go, lines 215-221); `none` when
the response of the handshake is missing and `p.srvrsp.AdvRefs` cannot be
read. -/
def packSession.Supports (p : packSession) (c : Capability) : Option Bool :=
  match p.srvrsp with
  | none => none
  | some rsp =>
    match rsp.AdvRefs with
    | none => some false
    | some ar => some (ar.Capabilities.Supports c)

/-- The method `packSession.Fetch` (pack.go, lines 243-253), on the storage
`p.st`: `none` when a call does not return, and otherwise the storage
afterwards, the messages written and the error. -/
def packSession.Fetch {σ : Type} (p : packSession) (O : ObjectStorer σ) (st : σ)
    (UpdateObjectStorage : Option SidebandType → σ → σ × Option GoError)
    (req : FetchPackRequest) : Option (σ × List Sent × Option GoError) :=
  match p.conn with
  | none => some (st, [], some (Errorf "connection not established"))
  | some conn =>
    match Negotiate O st req p.Supports conn with
    | none => none
    | some (st1, sent, some err) => some (st1, sent, some err)
    | some (st1, sent, none) =>
      match FetchPack p.Supports UpdateObjectStorage st1 with
      | none => none
      | some (st2, err) => some (st2, sent, err)

/-! ## The shallow list of the repository (internal/repository/refs.go) -/

/-- The function `UpdateShallow` (refs.go, lines 62-83).  Its loop is the
loop of `updateShallow`, `mergeShallows`. -/
def UpdateShallow {σ : Type} (O : ObjectStorer σ) (s : σ) (depth : Int) (shallows : List Hash) :
    σ × Option GoError :=
  if depth = 0 ∨ shallows.length = 0 then (s, none)
  else
    match O.Shallow s with
    | Except.error err => (s, some err)
    | Except.ok shas => O.SetShallow s (mergeShallows shas shallows)

/-- A shallow storer reads back what was stored: after a `SetShallow` that
succeeds, `Shallow` returns the list that was given. -/
def ShallowReadsBack {σ : Type} (O : ObjectStorer σ) : Prop :=
  ∀ (st st1 : σ) (l : List Hash), O.SetShallow st l = (st1, none) → O.Shallow st1 = Except.ok l

/-! ## Updating the local references after a fetch (fetch/fetch.go, internal/repository/refs.go) -/

/-- The value `fetch.ErrForceNeeded` (fetch.go, line 27). -/
def ErrForceNeeded : GoError := ⟨"fetch.ErrForceNeeded", "some refs were not updated"⟩

/-- A hexadecimal digit in lower case, for a value below 16. -/
def hexChar (d : Nat) : Char := if d < 10 then Char.ofNat (48 + d) else Char.ofNat (87 + d)

/-- The last `w` hexadecimal digits of a number, the most significant
first. -/
def hexDigits : Nat → Nat → List Char
  | 0, _ => []
  | w + 1, v => hexDigits w (v / 16) ++ [hexChar (v % 16)]

/-- Modelled from the spec: the method `Hash.String`, the hex form of an OID
(3, "Object identifier"): 40 hexadecimal digits. -/
def Hash.String (h : Hash) : String := String.mk (hexDigits 40 h)

/-- An OID of 20 bytes, as a number. -/
def ValidHash (h : Hash) : Prop := h < 16 ^ 40

/-- Modelled from the spec: the constant `symrefPrefix` of package
`plumbing`. -/
def symrefPrefix : String := "ref: "

/-- Modelled from the spec: the method `Reference.String` of package
`plumbing`, which is not among the sources: the target of the reference (the
hex OID of a hash reference, `ref: ` and the target name of a symbolic one),
a blank and the name; empty for an invalid reference. -/
def Reference.String (r : Reference) : String :=
  match r.t with
  | ReferenceType.HashReference => Hash.String r.h ++ " " ++ r.n
  | ReferenceType.SymbolicReference => symrefPrefix ++ r.target ++ " " ++ r.n
  | ReferenceType.InvalidReference => ""

/-- Modelled from the spec: the method `ReferenceName.IsTag`: a name under
`refs/tags/`. -/
def ReferenceName.IsTag (n : ReferenceName) : Bool := HasPrefix n "refs/tags/"

/-- Modelled from the spec: `plumbing.NewBranchReferenceName`, the name of a
branch under `refs/heads/`. -/
def NewBranchReferenceName (name : String) : ReferenceName := "refs/heads/" ++ name

/-- Modelled from the spec: the method `RefSpec.IsForceUpdate`, whether the
spec begins with `+`. -/
def RefSpec.IsForceUpdate (s : RefSpec) : Bool := s.force

/-- The function `CheckAndUpdateReferenceStorerIfNeeded` (refs.go, lines
85-103): the storage afterwards, `updated` and the error. -/
def CheckAndUpdateReferenceStorerIfNeeded {σ : Type} (S : ReferenceStorer σ) (s : σ)
    (r : Reference) (old : Option Reference) : σ × Bool × Option GoError :=
  let set : σ × Bool × Option GoError :=
    match S.CheckAndSetReference s r old with
    | (s1, some err) => (s1, false, some err)
    | (s1, none) => (s1, true, none)
  match S.Reference s r.n with
  | Except.error err => if err ≠ ErrReferenceNotFound then (s, false, some err) else set
  | Except.ok p => if r.String ≠ p.String then set else (s, false, none)

/-- The walk `iter.ForEach` of `isFastForward` with its callback (fetch.go,
lines 522-529), over the walker of `NewCommitPreorderIter(c, nil, nil)`.
`fuel` bounds the number of commits the walk may visit; `none` when it is
used up. -/
def isFastForwardWalk {σ : Type} (O : ObjectStorer σ) (s : σ) (old : Hash) :
    Nat → commitPreIterator → Option (Bool × Option GoError)
  | 0, _ => none
  | fuel + 1, w =>
    match w.Next O s (fun _ => false) with
    | Except.error err => some (false, some err)
    | Except.ok none => some (false, none)
    | Except.ok (some (c, w1)) =>
      if c.Hash ≠ old then isFastForwardWalk O s old fuel w1 else some (true, none)

/-- The function `isFastForward` (fetch.go, lines 514-531), with the fuel
of its walk. -/
def isFastForward {σ : Type} (O : ObjectStorer σ) (s : σ) (fuel : Nat) (old new : Hash) :
    Option (Bool × Option GoError) :=
  match GetCommit O s new with
  | Except.error err => some (false, some err)
  | Except.ok c => isFastForwardWalk O s old fuel (NewCommitPreorderIter c)

/-- The variables of the loop of `updateLocalReferenceStorage`: the storage
`s` as it is, `updated` and `forceNeeded`. -/
structure updateVars (σ : Type) where
  st : σ
  updated : Bool
  forceNeeded : Bool

/-- The name `localName` of `updateLocalReferenceStorage` (fetch.go, lines
252-256). -/
def localName (spec : RefSpec) (ref : Reference) : ReferenceName :=
  if !HasPrefix (spec.Dst ref.n) "refs/" then NewBranchReferenceName (spec.Dst ref.n)
  else spec.Dst ref.n

/-- The reference `old` of `updateLocalReferenceStorage` (fetch.go, line
257): the local reference resolved, nil when the resolution fails. -/
def oldReference {σ : Type} (S : ReferenceStorer σ) (s : σ) (n : ReferenceName) :
    Option Reference :=
  match ResolveReference S s n with
  | Except.ok r => some r
  | Except.error _ => none

/-- The condition under which `updateLocalReferenceStorage` makes the
fast-forward test for a local reference `old` that is not nil (fetch.go,
line 262). -/
def needsFastForward (old : Reference) (force : Bool) (spec : RefSpec) : Bool :=
  !ReferenceName.IsTag old.n && !force && !spec.IsForceUpdate

/-- The statements of `updateLocalReferenceStorage` that follow the
fast-forward test (fetch.go, lines 274-281): the update of the reference in
the storage. -/
def storeReference {σ : Type} (S : ReferenceStorer σ) (v : updateVars σ) (new : Reference)
    (old : Option Reference) : updateVars σ × Option GoError :=
  match CheckAndUpdateReferenceStorerIfNeeded S v.st new old with
  | (s1, _, some err) => ({ v with st := s1 }, some err)
  | (s1, refUpdated, none) => ({ v with st := s1, updated := v.updated || refUpdated }, none)

/-- The body of the inner loop of `updateLocalReferenceStorage` (fetch.go,
lines 248-281) for one reference.  The function `isFastForward` is the
argument `ff`, on the storage and the two OIDs.  The variables afterwards
and the error with which the function returns, if it does. -/
def updateReferenceBody {σ : Type} (S : ReferenceStorer σ)
    (ff : σ → Hash → Hash → Bool × Option GoError) (force : Bool) (spec : RefSpec)
    (v : updateVars σ) (ref : Reference) : updateVars σ × Option GoError :=
  if ref.t ≠ ReferenceType.HashReference then (v, none)
  else
    let old := oldReference S v.st (localName spec ref)
    let new := NewHashReference (localName spec ref) ref.h
    match old with
    | none => storeReference S v new old
    | some o =>
      if needsFastForward o force spec then
        match ff v.st o.h new.h with
        | (_, some err) => (v, some err)
        | (false, none) => ({ v with forceNeeded := true }, none)
        | (true, none) => storeReference S v new old
      else storeReference S v new old

/-- The inner loop of `updateLocalReferenceStorage` (fetch.go, lines
247-282) over the references of one spec. -/
def updateReferencesOfSpec {σ : Type} (S : ReferenceStorer σ)
    (ff : σ → Hash → Hash → Bool × Option GoError) (force : Bool) (spec : RefSpec) :
    updateVars σ → List Reference → updateVars σ × Option GoError
  | v, [] => (v, none)
  | v, ref :: rest =>
    match updateReferenceBody S ff force spec v ref with
    | (v1, some err) => (v1, some err)
    | (v1, none) => updateReferencesOfSpec S ff force spec v1 rest

/-- The outer loop of `updateLocalReferenceStorage` (fetch.go, lines
242-283) over the specs that are left and their reference lists
`specToRefs[i]`, for a `specToRefs` that has a list for every spec, as it has
in `Fetch`.  (A list that is missing, for which Go stops with an index out of
range, is read as empty here; the statements below leave that case out.) -/
def updateReferencesLoop {σ : Type} (S : ReferenceStorer σ)
    (ff : σ → Hash → Hash → Bool × Option GoError) (force : Bool) :
    updateVars σ → List RefSpec → List (List Reference) → updateVars σ × Option GoError
  | v, [], _ => (v, none)
  | v, spec :: specs, specToRefs =>
    match updateReferencesOfSpec S ff force spec v (specToRefs.headD []) with
    | (v1, some err) => (v1, some err)
    | (v1, none) => updateReferencesLoop S ff force v1 specs specToRefs.tail

/-- The step of the loop of `buildFetchedTags` (fetch.go, lines 311-331) for
one reference, on the storage and `updated`: the storage afterwards, the
value to return and the error with which the function returns, if it
does. -/
def buildFetchedTagsBody {σ : Type} (S : ReferenceStorer σ) (O : ObjectStorer σ)
    (s : σ) (updated : Bool) (ref : Reference) : σ × Bool × Option GoError :=
  if !ReferenceName.IsTag ref.n then (s, updated, none)
  else
    match O.EncodedObject s ObjectType.AnyObject ref.h with
    | Except.error err =>
      if err = ErrObjectNotFound then (s, updated, none) else (s, false, some err)
    | Except.ok _ =>
      match CheckAndUpdateReferenceStorerIfNeeded S s ref none with
      | (s1, _, some err) => (s1, updated, some err)
      | (s1, refUpdated, none) => (s1, updated || refUpdated, none)

/-- The loop of `buildFetchedTags` over the references that are left. -/
def buildFetchedTagsLoop {σ : Type} (S : ReferenceStorer σ) (O : ObjectStorer σ) :
    σ → Bool → List Reference → σ × Bool × Option GoError
  | s, updated, [] => (s, updated, none)
  | s, updated, ref :: rest =>
    match buildFetchedTagsBody S O s updated ref with
    | (s1, u1, some err) => (s1, u1, some err)
    | (s1, u1, none) => buildFetchedTagsLoop S O s1 u1 rest

/-- The function `buildFetchedTags` (fetch.go, lines 309-335), the
references of the map `refs` taken in the order of the association list. -/
def buildFetchedTags {σ : Type} (S : ReferenceStorer σ) (O : ObjectStorer σ) (s : σ)
    (refs : MemRefs) : σ × Bool × Option GoError :=
  buildFetchedTagsLoop S O s false (refs.map (fun e => e.2))

/-- The tags that `updateLocalReferenceStorage` looks at (fetch.go, lines
289-292): the remote references when `isWildcard` is still set after the
loop, that is when every spec is a wildcard, and the fetched ones
otherwise. -/
def tagScope (specs : List RefSpec) (fetchedRefs remoteRefs : MemRefs) : MemRefs :=
  if specs.all (fun spec => spec.IsWildcard) then remoteRefs else fetchedRefs

/-- The function `updateLocalReferenceStorage` (fetch.go, lines 231-307):
the storage afterwards, `updated` and the error. -/
def updateLocalReferenceStorage {σ : Type} (S : ReferenceStorer σ) (O : ObjectStorer σ)
    (ff : σ → Hash → Hash → Bool × Option GoError) (s : σ) (specs : List RefSpec)
    (fetchedRefs remoteRefs : MemRefs) (specToRefs : List (List Reference))
    (tagMode : TagMode) (force : Bool) : σ × Bool × Option GoError :=
  match updateReferencesLoop S ff force
      { st := s, updated := false, forceNeeded := false } specs specToRefs with
  | (v, some err) => (v.st, v.updated, some err)
  | (v, none) =>
    if tagMode = TagMode.NoTags then (v.st, v.updated, none)
    else
      match buildFetchedTags S O v.st (tagScope specs fetchedRefs remoteRefs) with
      | (s1, _, some err) => (s1, v.updated, some err)
      | (s1, tagUpdated, none) =>
        (s1, v.updated || tagUpdated, if v.forceNeeded then some ErrForceNeeded else none)

/-- A storage of references and objects in memory: the two parts of
`memory.Storage` that the transfer core uses. -/
structure MemStorage where
  refs : MemRefs
  objs : MemObjects
deriving DecidableEq, Repr

/-- The reference storer of a storage in memory. -/
def storageRefs : ReferenceStorer MemStorage where
  SetReference := fun m r => ({ m with refs := (memStorer.SetReference m.refs r).1 },
    (memStorer.SetReference m.refs r).2)
  CheckAndSetReference := fun m r old =>
    ({ m with refs := (memStorer.CheckAndSetReference m.refs r old).1 },
      (memStorer.CheckAndSetReference m.refs r old).2)
  Reference := fun m n => memStorer.Reference m.refs n
  IterReferences := fun m => memStorer.IterReferences m.refs
  RemoveReference := fun m n => ({ m with refs := (memStorer.RemoveReference m.refs n).1 },
    (memStorer.RemoveReference m.refs n).2)

/-- The object storer of a storage in memory. -/
def storageObjects : ObjectStorer MemStorage where
  EncodedObject := fun m t h => memObjectStorer.EncodedObject m.objs t h
  Shallow := fun m => memObjectStorer.Shallow m.objs
  SetShallow := fun m l => ({ m with objs := (memObjectStorer.SetShallow m.objs l).1 },
    (memObjectStorer.SetShallow m.objs l).2)

/-- The compare-and-set of a reference storer, as the transfer core relies
on it (4.6): `CheckAndSetReference(r, old)` fails and leaves the storage as
it is when the value stored under the name of `r` has not the OID of `old`
(or `old` is nil); when it succeeds, `r` is what is stored under its name,
and the other names are left as they were. -/
structure ComparesAndSets {σ : Type} (S : ReferenceStorer σ) : Prop where
  mismatch : ∀ (st : σ) (r p : Reference) (old : Option Reference),
    S.Reference st r.n = Except.ok p → old.map (fun o => o.h) ≠ some p.h →
    ∃ err, S.CheckAndSetReference st r old = (st, some err)
  readsBack : ∀ (st st1 : σ) (r : Reference) (old : Option Reference),
    S.CheckAndSetReference st r old = (st1, none) → S.Reference st1 r.n = Except.ok r
  framed : ∀ (st st1 : σ) (r : Reference) (old : Option Reference) (n : ReferenceName),
    S.CheckAndSetReference st r old = (st1, none) → n ≠ r.n →
    S.Reference st1 n = S.Reference st n

/-- A reference storer next to its count of the calls of
`CheckAndSetReference`: every call adds one to the count. -/
def countCalls {σ : Type} (S : ReferenceStorer σ) : ReferenceStorer (σ × Nat) where
  SetReference := fun s r => (((S.SetReference s.1 r).1, s.2), (S.SetReference s.1 r).2)
  CheckAndSetReference := fun s r old =>
    (((S.CheckAndSetReference s.1 r old).1, s.2 + 1), (S.CheckAndSetReference s.1 r old).2)
  Reference := fun s n => S.Reference s.1 n
  IterReferences := fun s => S.IterReferences s.1
  RemoveReference := fun s n => (((S.RemoveReference s.1 n).1, s.2), (S.RemoveReference s.1 n).2)

/-- A write of a reference leaves the objects of the storage as they are. -/
def KeepsObjects {σ : Type} (S : ReferenceStorer σ) (O : ObjectStorer σ) : Prop :=
  ∀ (st : σ) (r : Reference) (old : Option Reference) (t : ObjectType) (h : Hash),
    O.EncodedObject (S.CheckAndSetReference st r old).1 t h = O.EncodedObject st t h

/-- A `memory.ReferenceStorage` is a map from the names of its references:
no name occurs twice and every reference is under its own name. -/
def NamedByKey (m : MemRefs) : Prop :=
  (m.map (fun e => e.1)).Nodup ∧ ∀ e ∈ m, e.1 = e.2.n

/-! ## The transport registry (transport/registry.go) -/

/-- The variable `registry` (registry.go, line 10): a map from schemes to
transports.  A value of the interface `Transport` is `none` when it is nil
and `some c` for an implementation `c` of type `τ`. -/
abbrev Registry (τ : Type) := List (String × Option τ)

/-- The function `Register` (registry.go, lines 15-19): the registry
afterwards. -/
def Register {τ : Type} (registry : Registry τ) (scheme : String) (c : Option τ) : Registry τ :=
  mapSet registry scheme c

/-- The function `Unregister` (registry.go, lines 22-26): the registry
afterwards. -/
def Unregister {τ : Type} (registry : Registry τ) (scheme : String) : Registry τ :=
  mapDelete registry scheme

/-- The function `Get` (registry.go, lines 30-35): the value `t, ok :=
registry[scheme]`. -/
def Get {τ : Type} (registry : Registry τ) (scheme : String) : Option τ × Bool :=
  match mapGet registry scheme with
  | some t => (t, true)
  | none => (none, false)

/-- Modelled from the spec: the type `Endpoint` of package `transport`, with
the scheme of the URL, its field `Protocol`. -/
structure Endpoint where
  Protocol : String
deriving DecidableEq, Repr

/-- The function `getTransport` (registry.go, lines 44-54). -/
def getTransport {τ : Type} (registry : Registry τ) (endpoint : Endpoint) :
    Option τ × Option GoError :=
  match mapGet registry endpoint.Protocol with
  | none => (none, some (Errorf ("unsupported scheme " ++ Quote endpoint.Protocol)))
  | some none =>
    (none, some (Errorf ("malformed client for scheme " ++ Quote endpoint.Protocol ++
      ", client is defined as nil")))
  | some (some f) => (some f, none)

/-- The function `NewClient` (registry.go, lines 40-42). -/
def NewClient {τ : Type} (registry : Registry τ) (endpoint : Endpoint) :
    Option τ × Option GoError :=
  getTransport registry endpoint

/-! ## A session before its handshake (transport/pack.go) -/

/-- The function `NewPackSession` (pack.go, lines 130-137): a session
without a connection and without the response of a handshake. -/
def NewPackSession : packSession := { conn := none, service := "", srvrsp := none }

/-- The method `packSession.GetRemoteRefs` (pack.go, lines 224-240): the
references and then the peeled references of the advertisement, in one map;
`none` when the response of the handshake is missing and `p.srvrsp.AdvRefs`
cannot be read. -/
def packSession.GetRemoteRefs (p : packSession) :
    Option (Except GoError (List (String × Hash))) :=
  match p.srvrsp with
  | none => none
  | some rsp =>
    match rsp.AdvRefs with
    | none => some (Except.error ErrEmptyRemoteRepository)
    | some ar =>
      some (Except.ok (ar.Peeled.foldl (fun refs e => mapSet refs e.1 e.2)
        (ar.References.foldl (fun refs e => mapSet refs e.1 e.2) [])))

/-! ## The upload-archive response (packp/uparchreq.go, packp/uparchresp.go) -/

/-- The type `UploadArchiveRequest` (uparchreq.go, lines 12-22). -/
structure UploadArchiveRequest where
  Reference : ReferenceName
  Hash : GoGit.Hash
  Format : String
  Prefix : String
deriving DecidableEq, Repr

/-- The method `UploadArchiveRequest.Validate` (uparchreq.go, lines
24-31). -/
def UploadArchiveRequest.Validate (r : UploadArchiveRequest) : Option GoError :=
  if r.Reference = "" ∧ r.Hash = ZeroHash then some (Errorf "reference or hash is required")
  else none

/-- The reader that `Decode` puts in the field `data` of the response: the
stream `pr` of the archive bytes, read as it is, through a tar reader, or
through a tar reader over a gzip reader. -/
inductive ArchiveReader where
  | raw (stream : String)
  | tar (stream : String)
  | tarGzip (stream : String)
deriving DecidableEq, Repr

/-- The type `UploadArchiveResponse` (uparchresp.go, lines 14-17); `data` is
`none` for a nil reader. -/
structure UploadArchiveResponse where
  req : UploadArchiveRequest
  data : Option ArchiveReader
deriving DecidableEq, Repr

/-- The constructor `NewUploadArchiveResponse` (uparchresp.go, lines
21-25). -/
def NewUploadArchiveResponse (req : UploadArchiveRequest) : UploadArchiveResponse :=
  { req := req, data := none }

/-- Modelled from the spec: the payload `ack` of the first packet of the
response (4.8). -/
def ack : String := "ACK"

/-- Modelled from the spec: the flush packet `pktline.FlushPkt`. -/
def FlushPkt : String := "0000"

/-- Modelled from the spec: the error `NewErrUnexpectedData(msg, data)` of
package `packp`, which carries a message and the data met. -/
def NewErrUnexpectedData (msg data : String) : GoError :=
  ⟨"packp.ErrUnexpectedData " ++ msg, if data.length = 0 then msg else msg ++ " (" ++ data ++ ")"⟩

/-- A pkt-line scanner over the stream of the response, seen through what
`Decode` reads of it: the payloads that the calls of `Scan` yield one after
the other, and the error `Err()` of the scanner. -/
structure Scanner where
  packets : List String
  err : Option GoError

/-- The method `UploadArchiveResponse.Decode` (uparchresp.go, lines 31-69):
the response afterwards and the error.  The stream `pr` is what the scanner
yields after the two leading packets; `gzipNewReader` is the error of
`gzip.NewReader(pr)`.  After a `Scan` that fails `Bytes()` is read as
empty. -/
def UploadArchiveResponse.Decode (r : UploadArchiveResponse) (s : Scanner)
    (gzipNewReader : String → Option GoError) : UploadArchiveResponse × Option GoError :=
  match s.packets with
  | [] => (r, some (NewErrUnexpectedData "unexpected packet" ""))
  | first :: afterFirst =>
    if first ≠ ack then (r, some (NewErrUnexpectedData "unexpected packet" first))
    else
      match afterFirst with
      | [] => (r, some (NewErrUnexpectedData "unexpected packet" ""))
      | second :: afterSecond =>
        if second ≠ FlushPkt then (r, some (NewErrUnexpectedData "unexpected packet" second))
        else
          let pr := String.join afterSecond
          if r.req.Format = "tar" then ({ r with data := some (ArchiveReader.tar pr) }, s.err)
          else if r.req.Format = "zip" then
            ({ r with data := some (ArchiveReader.raw pr) }, s.err)
          else if r.req.Format = "tgz" ∨ r.req.Format = "tar.gz" then
            match gzipNewReader pr with
            | some err => (r, some err)
            | none => ({ r with data := some (ArchiveReader.tarGzip pr) }, s.err)
          else (r, s.err)

/-! ## The steps of a fetch after the refspec gate (fetch/fetch.go, internal/repository/refs.go) -/

/-- The value `plumbing.NoErrAlreadyUpToDate`. -/
def NoErrAlreadyUpToDate : GoError := ⟨"plumbing.NoErrAlreadyUpToDate", "already up-to-date"⟩

/-- The value `transport.ErrEmptyUploadPackRequest` (error.go, line 12). -/
def ErrEmptyUploadPackRequest : GoError :=
  ⟨"transport.ErrEmptyUploadPackRequest", "empty git-upload-pack given"⟩

/-- The function `References` (refs.go, lines 38-60): the references of the
iterator in a list; a failure of the iterator is a failure of
`IterReferences`. -/
def References {σ : Type} (S : ReferenceStorer σ) (s : σ) : Except GoError (List Reference) :=
  S.IterReferences s

/-- The function `GetRemoteRefsFromStorer` (refs.go, lines 144-162). -/
def GetRemoteRefsFromStorer {ρ : Type} (R : ReferenceStorer ρ) (remoteRefStorer : ρ) :
    Except GoError (List (Hash × Bool)) :=
  match R.IterReferences remoteRefStorer with
  | Except.error err => Except.error err
  | Except.ok refs =>
    match forEachReference
        (fun (remoteRefs : List (Hash × Bool)) ref =>
          if ref.t ≠ ReferenceType.HashReference then (remoteRefs, none)
          else (mapSet remoteRefs ref.h true, none)) [] refs with
    | (_, some err) => Except.error err
    | (remoteRefs, none) => Except.ok remoteRefs

/-- The loop of `GetHaves` (refs.go, lines 121-134) over the local
references that are left, with the map `haves` built so far; the error of
`GetHavesFromRef` is always nil. -/
def GetHavesLoop {σ : Type} (O : ObjectStorer σ) (s : σ) (remoteRefs : List (Hash × Bool))
    (depth : Int) : List (Hash × Bool) → List Reference → List (Hash × Bool)
  | haves, [] => haves
  | haves, ref :: rest =>
    if mapHas haves ref.h then GetHavesLoop O s remoteRefs depth haves rest
    else if ref.t ≠ ReferenceType.HashReference then GetHavesLoop O s remoteRefs depth haves rest
    else GetHavesLoop O s remoteRefs depth (GetHavesFromRef O s ref remoteRefs haves depth) rest

/-- The function `GetHaves` (refs.go, lines 105-142); the result lists the
keys of the map `haves` in the order of the association list. -/
def GetHaves {σ ρ : Type} (R : ReferenceStorer ρ) (O : ObjectStorer σ)
    (localRefs : List Reference) (remoteRefStorer : ρ) (s : σ) (depth : Int) :
    Except GoError (List Hash) :=
  match GetRemoteRefsFromStorer R remoteRefStorer with
  | Except.error err => Except.error err
  | Except.ok remoteRefs =>
    Except.ok ((GetHavesLoop O s remoteRefs depth [] localRefs).map (fun e => e.1))

/-- The response `packp.UploadPackResponse` of an upload-pack session, seen
through what `FetchPack` does with it: the shallow OIDs it carries, the
effect and the error of `packfile.UpdateObjectStorage(st, reader)` for the
response read through the given demultiplexer (`none`: read as it is), and
what `Close()` returns. -/
structure UploadPackResponse (σ : Type) where
  Shallows : List Hash
  UpdateObjectStorage : Option SidebandType → σ → σ × Option GoError
  Close : Option GoError

/-- The function `buildSidebandIfSupported` (fetch.go, lines 213-229): the
demultiplexer put over the reader, `none` when the reader is returned as it
is. -/
def buildSidebandIfSupported (l : CapabilityList) : Option SidebandType :=
  if l.Supports Sideband then some SidebandType.Sideband
  else if l.Supports Sideband64k then some SidebandType.Sideband64k
  else none

/-- The function `FetchPack` of package `fetch` (fetch.go, lines 186-211).
`UploadPack` is the method of the session; the deferred `CheckClose` puts
the error of `Close()` in a result that is nil. -/
def fetch.FetchPack {σ : Type} (O : ObjectStorer σ)
    (UploadPack : UploadPackRequest → Except GoError (UploadPackResponse σ)) (st : σ)
    (o : FetchOptions) (req : UploadPackRequest) : σ × Option GoError :=
  match UploadPack req with
  | Except.error err => if err = ErrEmptyUploadPackRequest then (st, none) else (st, some err)
  | Except.ok reader =>
    let checkClose : Option GoError → Option GoError := fun err =>
      match err with
      | some e => some e
      | none => reader.Close
    match UpdateShallow O st o.Depth reader.Shallows with
    | (st1, some err) => (st1, checkClose (some err))
    | (st1, none) =>
      match reader.UpdateObjectStorage (buildSidebandIfSupported req.Capabilities) st1 with
      | (st2, err) => (st2, checkClose err)

/-- The second loop of `depthChanged` (fetch.go, lines 351-355) over the
stored shallow OIDs that are left, `bm` being the map of the OIDs before. -/
def depthChangedLoop (bm : List (Hash × Bool)) : List Hash → Bool
  | [] => false
  | a :: rest => if (mapGet bm a).isNone then true else depthChangedLoop bm rest

/-- The function `depthChanged` (fetch.go, lines 337-358). -/
def depthChanged {σ : Type} (O : ObjectStorer σ) (before : List Hash) (s : σ) :
    Bool × Option GoError :=
  match O.Shallow s with
  | Except.error err => (false, some err)
  | Except.ok after =>
    if before.length ≠ after.length then (true, none)
    else (depthChangedLoop (before.foldl (fun bm b => mapSet bm b true) []) after, none)

/-- The end of `Fetch` (fetch.go, lines 172-183), from the value `updated`
of `updateLocalReferenceStorage`: the storage, the returned storer and the
error. -/
def fetchResult {σ : Type} (O : ObjectStorer σ) (remoteRefs : MemRefs) (req : UploadPackRequest)
    (st : σ) (updated : Bool) : σ × Option MemRefs × Option GoError :=
  match (if !updated then depthChanged O req.Shallows st else (updated, none)) with
  | (_, some err) => (st, none, some (Errorf ("error checking depth change: " ++ err.Error)))
  | (false, none) => (st, some remoteRefs, some NoErrAlreadyUpToDate)
  | (true, none) => (st, some remoteRefs, none)

/-- The steps of `Fetch` after the refspec gate (fetch.go, lines 129-183),
as its argument `afterGate`.  `AllReferences` is the method of the
advertisement, which is not among the sources; `UploadPack` is the method of
the session; `ff` is the function `isFastForward` on the storage. -/
def fetchAfterGate {σ : Type} (S : ReferenceStorer σ) (O : ObjectStorer σ)
    (ff : σ → Hash → Hash → Bool × Option GoError)
    (AllReferences : AdvRefs → Except GoError MemRefs)
    (UploadPack : UploadPackRequest → Except GoError (UploadPackResponse σ))
    (o : FetchOptions) (st : σ) (ar : AdvRefs) (req : UploadPackRequest) :
    σ × Option MemRefs × Option GoError :=
  match AllReferences ar with
  | Except.error err => (st, none, some err)
  | Except.ok remoteRefs =>
    match References S st with
    | Except.error err => (st, none, some err)
    | Except.ok localRefs =>
      match calculateRefs memStorer remoteRefs o.RefSpecs o.Tags with
      | Except.error err => (st, none, some err)
      | Except.ok (refs, specToRefs) =>
        match (if req.Depth ≠ 0 then
                 match O.Shallow st with
                 | Except.error _ => Except.error (Errorf "existing checkout is not shallow")
                 | Except.ok shallows => Except.ok { req with Shallows := shallows }
               else Except.ok req) with
        | Except.error err => (st, none, some err)
        | Except.ok req1 =>
          match getWants O st refs o.Depth with
          | Except.error err => (st, none, some err)
          | Except.ok wants =>
            match (if wants.length > 0 then
                     match GetHaves memStorer O localRefs remoteRefs st o.Depth with
                     | Except.error err => (st, { req1 with Wants := wants }, some err)
                     | Except.ok haves =>
                       ((fetch.FetchPack O UploadPack st o
                          { req1 with Wants := wants, Haves := haves }).1,
                        { req1 with Wants := wants, Haves := haves },
                        (fetch.FetchPack O UploadPack st o
                          { req1 with Wants := wants, Haves := haves }).2)
                   else (st, { req1 with Wants := wants }, none)) with
            | (st1, _, some err) => (st1, none, some err)
            | (st1, req2, none) =>
              match updateLocalReferenceStorage S O ff st1 o.RefSpecs refs remoteRefs specToRefs
                  o.Tags o.Force with
              | (st2, _, some err) => (st2, none, some err)
              | (st2, updated, none) => fetchResult O remoteRefs req2 st2 updated

/-- A command fails its existence check on the storage `st` (receivepack.go,
lines 53-76): a create of a reference that exists, a delete or an update of
one that does not. -/
def failsExistenceCheck {σ : Type} (S : ReferenceStorer σ) (st : σ) (cmd : Command) : Prop :=
  (cmd.Action = Action.Create ∧ referenceExists S st cmd.Name = (true, none)) ∨
  ((cmd.Action = Action.Delete ∨ cmd.Action = Action.Update) ∧
    referenceExists S st cmd.Name = (false, none))

instance failsExistenceCheck.decidable {σ : Type} (S : ReferenceStorer σ) (st : σ)
    (cmd : Command) : Decidable (failsExistenceCheck S st cmd) := by
  unfold failsExistenceCheck
  infer_instance

/-- The steps of `Negotiate` from the test of the empty request on
(negotiate.go, lines 86-161), for the upload-request `upreq1` built so
far. -/
def negotiateFrom {σ : Type} (O : ObjectStorer σ) (st : σ) (req : FetchPackRequest)
    (Supports : Capability → Option Bool) (conn : Connection) (upreq1 : UploadRequest) :
    Option (σ × List Sent × Option GoError) :=
  if isSubset req.Haves req.Wants && upreq1.Shallows.length == 0 then
    some (st, [Sent.flush], conn.WriteFlush)
  else
    let upreq2 : UploadRequest :=
      if req.Progress.isNone then
        { upreq1 with Capabilities := (upreq1.Capabilities.Set NoProgress []).1 }
      else upreq1
    let upreq3 : UploadRequest :=
      if req.IncludeTags then
        { upreq2 with Capabilities := (upreq2.Capabilities.Set IncludeTag []).1 }
      else upreq2
    match Supports MultiACK with
    | none => none
    | some true => some (negotiateExchange O st req upreq3 true conn)
    | some false =>
      match Supports MultiACKDetailed with
      | none => none
      | some isMultiAck => some (negotiateExchange O st req upreq3 isMultiAck conn)

/-- An object store has its objects under their own OIDs: the object found
for an OID has that OID. -/
def StoredUnderOID {σ : Type} (O : ObjectStorer σ) (s : σ) : Prop :=
  ∀ (t : ObjectType) (h : Hash) (o : EncodedObject), O.EncodedObject s t h = Except.ok o → o.h = h

/-! ## The upload-archive request on the wire (packp/uparchreq.go) -/

/-- Modelled from the spec: the constant `argument` of package `packp`, the
beginning of every packet of the request (4.8: "a sequence of
`argument <v>` packets"). -/
def argument : String := "argument "

/-- A packet that a pkt-line encoder writes: a payload, or a flush. -/
inductive Packet where
  | data (payload : String)
  | flush
deriving DecidableEq, Repr

/-- Modelled from the spec: the largest payload of a packet (4.1). -/
def MaxPayloadSize : Nat := 65516

/-- Modelled from the spec: the error of the pkt-line encoder for a payload
that is too long. -/
def ErrPayloadTooLong : GoError := ⟨"pktline.ErrPayloadTooLong", "payload is too long"⟩

/-- Modelled from the spec: the method `Encodef` of the pkt-line encoder on
the formatted payload: it is written as one packet after the packets
written so far, unless it is too long (4.1). -/
def Encodef (out : List Packet) (payload : String) : List Packet × Option GoError :=
  if payload.length > MaxPayloadSize then (out, some ErrPayloadTooLong)
  else (out ++ [Packet.data payload], none)

/-- The two packets of an option of the request (uparchreq.go, lines
145-161): its name and its value. -/
def encodeOption (out : List Packet) (name value : String) : List Packet × Option GoError :=
  match Encodef out (argument ++ name ++ "\n") with
  | (out1, some err) => (out1, some err)
  | (out1, none) => Encodef out1 (argument ++ value ++ "\n")

/-- The method `uaReqEncoder.Encode` (uparchreq.go, lines 130-168): the
packets written and the error. -/
def uaReqEncoder.Encode (v : UploadArchiveRequest) : List Packet × Option GoError :=
  match v.Validate with
  | some err => ([], some err)
  | none =>
    match (if v.Hash ≠ ZeroHash then Encodef [] (argument ++ Hash.String v.Hash ++ "\n")
           else Encodef [] (argument ++ v.Reference ++ "\n")) with
    | (out1, some err) => (out1, some err)
    | (out1, none) =>
      match (if v.Format ≠ "" then encodeOption out1 "--format" v.Format
             else (out1, none)) with
      | (out2, some err) => (out2, some err)
      | (out2, none) =>
        match (if v.Prefix ≠ "" then encodeOption out2 "--prefix" v.Prefix
               else (out2, none)) with
        | (out3, some err) => (out3, some err)
        | (out3, none) => (out3 ++ [Packet.flush], none)

/-- The function `bytes.Split(line, " ")` of the Go library: the parts of
the line between its blanks. -/
def splitOnBlank : List Char → List (List Char)
  | [] => [[]]
  | c :: cs =>
    if c = ' ' then [] :: splitOnBlank cs
    else
      match splitOnBlank cs with
      | [] => [[c]]
      | w :: ws => (c :: w) :: ws

/-- The first loop of `uaReqDecoder.Decode` (uparchreq.go, lines 67-82) over
the payloads that the scanner yields, with the arguments collected so
far. -/
def collectArguments : List String → List String → Except GoError (List String)
  | [], args => Except.ok args
  | line :: rest, args =>
    if !HasPrefix line argument then
      Except.error (NewErrUnexpectedData "invalid argument" line)
    else
      match splitOnBlank line.toList with
      | [_, a] => collectArguments rest (args ++ [String.mk a])
      | _ => Except.error (NewErrUnexpectedData "missing argument" line)

/-- The second loop of `uaReqDecoder.Decode` (uparchreq.go, lines 89-104)
from an index `i` that is not 0, over the arguments from `args[i]` on, with
the last payload `line` for the error: the format and the prefix, or the
error; `none` when `args[i+1]` is read past the end of the arguments and the
function does not return. -/
def decodeOptions (line : String) :
    List String → String → String → Option (Except GoError (String × String))
  | [], format, pre => some (Except.ok (format, pre))
  | [name], _, _ =>
    if name = "--format" ∨ name = "--prefix" then none
    else some (Except.error (NewErrUnexpectedData "invalid argument" line))
  | name :: value :: rest, format, pre =>
    if name = "--format" then decodeOptions line rest value pre
    else if name = "--prefix" then decodeOptions line rest format value
    else some (Except.error (NewErrUnexpectedData "invalid argument" line))

/-- The method `uaReqDecoder.Decode` (uparchreq.go, lines 58-112) on the
payloads that the scanner yields one after the other: the request decoded
and the error; `none` when the function does not return.  The index `i` of
the second loop starts at 0, where the reference is read, and moves in
steps of 2: the loop goes on from `args[2]`. -/
def uaReqDecoder.Decode (v : UploadArchiveRequest) (lines : List String) :
    Option (UploadArchiveRequest × Option GoError) :=
  match collectArguments lines [] with
  | Except.error err => some (v, some err)
  | Except.ok args =>
    if args.length % 2 ≠ 1 then
      some (v, some (NewErrUnexpectedData "invalid request" (lines.getLastD "")))
    else
      match decodeOptions (lines.getLastD "") (args.drop 2) "" "" with
      | none => none
      | some (Except.error err) => some (v, some err)
      | some (Except.ok (format, pre)) =>
        some ({ Reference := args.headD "", Hash := NewHash (args.headD ""),
                Format := format, Prefix := pre }, none)

/-- Modelled from the spec: the payloads that a pkt-line scanner yields for
packets that were written (4.1, 8: the payload of a packet is read as it was
written); a flush packet has no payload and is read as an empty one. -/
def scanPackets (packets : List Packet) : List String :=
  packets.map (fun p =>
    match p with
    | Packet.data payload => payload
    | Packet.flush => "")

/-! ## Ancestry in the commit graph -/

/-- The commit `b` is reached by the parent walk started at `a`: `a` is `b`,
or a parent of the commit `a` reaches `b`. -/
inductive Reaches {σ : Type} (O : ObjectStorer σ) (s : σ) : Hash → Hash → Prop where
  | refl (a : Hash) : Reaches O s a a
  | step (a p b : Hash) (c : Commit) : GetCommit O s a = Except.ok c → p ∈ c.ParentHashes →
      Reaches O s p b → Reaches O s a b

/-- A finite commit graph whose walk raises no error: the OIDs of `commits`
name commits of the store, found under their OIDs, whose parents are in
`commits` again. -/
def CommitGraph {σ : Type} (O : ObjectStorer σ) (s : σ) (commits : List Hash) : Prop :=
  ∀ h ∈ commits, ∃ c : Commit, GetCommit O s h = Except.ok c ∧ c.Hash = h ∧
    ∀ p ∈ c.ParentHashes, p ∈ commits

/-! ## Notions used to state the tag step of a fetch -/

/-- What a call of `CheckAndSetReference` that succeeds leaves in a reference
storer: `r` is what is stored under its name, and the other names are left
as they were.  Nothing is asked about which calls succeed. -/
structure SetsOnSuccess {σ : Type} (S : ReferenceStorer σ) : Prop where
  readsBack : ∀ (st st1 : σ) (r : Reference) (old : Option Reference),
    S.CheckAndSetReference st r old = (st1, none) → S.Reference st1 r.n = Except.ok r
  framed : ∀ (st st1 : σ) (r : Reference) (old : Option Reference) (n : ReferenceName),
    S.CheckAndSetReference st r old = (st1, none) → n ≠ r.n →
    S.Reference st1 n = S.Reference st n

/-- The tags of the references `scope` are materialized in the storage `st1`,
which was `st0` before: every tag of `scope` whose object is in the object
store is stored under its name in its written form, hence with its OID when
it is a hash reference (of OIDs of 20 bytes); the name of a tag of `scope`
whose object is absent reads as in `st0`; and so does every name that is not
that of a tag of `scope`. -/
def TagsMaterialized {σ : Type} (S : ReferenceStorer σ) (O : ObjectStorer σ) (st0 st1 : σ)
    (scope : MemRefs) : Prop :=
  (∀ e ∈ scope, ReferenceName.IsTag e.1 = true →
    (∀ o, O.EncodedObject st1 ObjectType.AnyObject e.2.h = Except.ok o →
      ∃ p, S.Reference st1 e.1 = Except.ok p ∧ p.String = e.2.String ∧
        (e.2.t = ReferenceType.HashReference → ValidHash e.2.h → ValidHash p.h →
          p.t = ReferenceType.HashReference ∧ p.h = e.2.h)) ∧
    (O.EncodedObject st1 ObjectType.AnyObject e.2.h = Except.error ErrObjectNotFound →
      S.Reference st1 e.1 = S.Reference st0 e.1)) ∧
  (∀ n : ReferenceName, (∀ e ∈ scope, ReferenceName.IsTag e.1 = true → e.1 ≠ n) →
    S.Reference st1 n = S.Reference st0 n)

/-- A reference storer of a storage in memory that compares the stored OID
with that of `old` only when `old` is given: with `old` nil it sets the
reference whatever is stored under its name. -/
def storageRefsLenient : ReferenceStorer MemStorage where
  SetReference := storageRefs.SetReference
  CheckAndSetReference := fun m r old =>
    match old with
    | none => ({ m with refs := mapSet m.refs r.n r }, none)
    | some o => storageRefs.CheckAndSetReference m r (some o)
  Reference := storageRefs.Reference
  IterReferences := storageRefs.IterReferences
  RemoveReference := storageRefs.RemoveReference

/-! ## Example data -/

/-- A storage in which `refs/heads/old` and `refs/heads/main` exist and
`refs/heads/new` does not. -/
def exampleRefs : MemRefs :=
  [("refs/heads/old", NewHashReference "refs/heads/old" 7),
   ("refs/heads/main", NewHashReference "refs/heads/main" 1)]

/-- The create / delete / update mix of scenario 5, without a packfile. -/
def exampleMix : ReferenceUpdateRequest MemRefs :=
  { Capabilities := NewList,
    Commands := [⟨"refs/heads/new", 0, 5⟩, ⟨"refs/heads/old", 7, 0⟩, ⟨"refs/heads/main", 1, 2⟩],
    Packfile := none }

/-- A packfile stream whose application to object storage fails. -/
def brokenPack : PackStream MemRefs :=
  { UpdateObjectStorage := fun st => (st, some (Errorf "malformed pack file")), Close := none }

/-- A packfile stream that is applied and closed without error. -/
def goodPack : PackStream MemRefs :=
  { UpdateObjectStorage := fun st => (st, none), Close := none }

/-- A request whose first command fails its existence check (a create of the
existing `refs/heads/main`) and whose second command is a valid create. -/
def exampleFailThenCreate : ReferenceUpdateRequest MemRefs :=
  { Capabilities := NewList,
    Commands := [⟨"refs/heads/main", 0, 5⟩, ⟨"refs/heads/new", 0, 6⟩],
    Packfile := some goodPack }

/-- Two creates of the same absent reference in one request. -/
def exampleSameName : ReferenceUpdateRequest MemRefs :=
  { Capabilities := NewList,
    Commands := [⟨"refs/heads/new", 0, 5⟩, ⟨"refs/heads/new", 0, 6⟩],
    Packfile := none }

/-- A request whose only command has a zero old and a zero new OID. -/
def exampleInvalid : ReferenceUpdateRequest MemRefs :=
  { Capabilities := NewList, Commands := [⟨"refs/heads/main", 0, 0⟩], Packfile := none }

/-- Two updates of `refs/heads/main` with the same old OID and different new
OIDs. -/
def exampleTwoUpdates : ReferenceUpdateRequest MemRefs :=
  { Capabilities := NewList,
    Commands := [⟨"refs/heads/main", 1, 2⟩, ⟨"refs/heads/main", 1, 3⟩],
    Packfile := none }

/-- An update of `refs/heads/main` whose old OID is not the stored one. -/
def exampleStaleUpdate : ReferenceUpdateRequest MemRefs :=
  { Capabilities := NewList, Commands := [⟨"refs/heads/main", 9, 2⟩], Packfile := none }

/-- A receive-pack session whose request asks for `side-band-64k`, which the
server does not advertise. -/
def exampleUnsupported : ServerCommand MemRefs :=
  { EncodeAdvRefs := fun _ => none,
    DecodeRequest := Except.ok
      { Capabilities := ⟨[("report-status", []), ("side-band-64k", [])]⟩,
        Commands := [⟨"refs/heads/new", 0, 5⟩],
        Packfile := some goodPack },
    EncodeReport := fun _ => none }

/-- A connection whose advertisement carries the three capabilities the
client refuses. -/
def exampleConnection : Connection :=
  { PeekPacketString := Except.ok "version 1",
    DecodeAdvRefs := Except.ok
      { NewAdvRefs with
        Capabilities := ⟨[("multi_ack", []), ("thin-pack", []), ("ofs-delta", []),
          ("multi_ack_detailed", []), ("thin-pack", [])]⟩,
        References := [("refs/heads/main", 1)] } }

/-- The exact-SHA1 refspec of scenario 2. -/
def exampleExactSpec : RefSpec :=
  { force := false, src := "0123456789abcdef0123456789abcdef01234567", dst := "refs/remotes/x" }

/-- An advertisement without `allow-tip-sha1-in-want` and without
`allow-reachable-sha1-in-want`. -/
def exampleAdvertisement : AdvRefs :=
  { NewAdvRefs with
    Capabilities := ⟨[("ofs-delta", []), ("no-progress", [])]⟩,
    References := [("refs/heads/main", 1)] }

/-- Options of a shallow fetch of the exact-SHA1 refspec. -/
def exampleOptions : FetchOptions :=
  { RefSpecs := [exampleExactSpec], Depth := 1, Progress := none,
    Tags := TagMode.TagFollowing, Force := false }

/-- A repository without commits: `HEAD` points to a branch that does not
exist yet, and no hash reference is stored. -/
def exampleUnborn : MemRefs :=
  [("HEAD", NewSymbolicReference "HEAD" "refs/heads/master")]

/-- A connection whose advertisement is empty apart from a capability. -/
def exampleEmptyConnection : Connection :=
  { PeekPacketString := Except.ok "0000",
    DecodeAdvRefs := Except.ok { NewAdvRefs with Capabilities := ⟨[("ofs-delta", [])]⟩ } }

/-- A repository with two branches and a symbolic `HEAD`. -/
def exampleRepository : MemRefs :=
  [("HEAD", NewSymbolicReference "HEAD" "refs/heads/main"),
   ("refs/heads/main", NewHashReference "refs/heads/main" 1),
   ("refs/heads/old", NewHashReference "refs/heads/old" 7)]

/-- Remote references with a branch and a symbolic reference whose target
does not exist. -/
def exampleDangling : MemRefs :=
  [("refs/heads/main", NewHashReference "refs/heads/main" 1),
   ("refs/heads/link", NewSymbolicReference "refs/heads/link" "refs/heads/gone")]

/-- Remote references with a branch, a tag and a symbolic reference to the
branch. -/
def exampleRemote : MemRefs :=
  [("refs/heads/main", NewHashReference "refs/heads/main" 1),
   ("refs/tags/v1", NewHashReference "refs/tags/v1" 3),
   ("refs/heads/link", NewSymbolicReference "refs/heads/link" "refs/heads/main")]

/-- The wildcard refspec of the branches. -/
def exampleHeadsSpec : RefSpec :=
  { force := true, src := "refs/heads/*", dst := "refs/remotes/origin/*" }

/-- A refspec whose source names no remote reference. -/
def exampleMissingSpec : RefSpec := { force := false, src := "nope", dst := "refs/heads/nope" }

/-- A wildcard refspec that matches no remote reference of the examples. -/
def examplePullSpec : RefSpec :=
  { force := true, src := "refs/pull/*", dst := "refs/remotes/pull/*" }

/-- A local object store that holds the commits 1 and 2 and is not shallow. -/
def exampleObjects : MemObjects :=
  { objects := [(1, ⟨ObjectType.CommitObject, 1, []⟩), (2, ⟨ObjectType.CommitObject, 2, [1]⟩)],
    shallow := [] }

/-- Selected references: two names at the stored commit 2, two at the
missing commit 5 and one at the missing commit 6. -/
def exampleSelected : MemRefs :=
  [("refs/heads/a", NewHashReference "refs/heads/a" 2),
   ("refs/heads/b", NewHashReference "refs/heads/b" 5),
   ("refs/heads/c", NewHashReference "refs/heads/c" 5),
   ("refs/heads/d", NewHashReference "refs/heads/d" 2),
   ("refs/heads/e", NewHashReference "refs/heads/e" 6)]

/-- A connection on which every write succeeds and the server answers. -/
def exampleWire : Connection :=
  { PeekPacketString := Except.ok "version 1", DecodeAdvRefs := Except.ok NewAdvRefs }

/-- A session after a handshake whose advertisement carries `ofs-delta`. -/
def exampleSession : packSession :=
  { conn := some exampleWire, service := "git-upload-pack",
    srvrsp := some
      { Version := 1, Capabilities := ⟨[("ofs-delta", [])]⟩,
        AdvRefs := some { NewAdvRefs with
          Capabilities := ⟨[("ofs-delta", [])]⟩, References := [("refs/heads/main", 7)] } } }

/-- An object store whose commits are the numbers `1` to `n`, each with the
next smaller number as its only parent: a chain of `n` commits, `n` being its
tip. -/
def chainStorer (n : Nat) : ObjectStorer Unit where
  EncodedObject := fun _ t h =>
    if 1 ≤ h ∧ h ≤ n ∧ (t = ObjectType.AnyObject ∨ t = ObjectType.CommitObject) then
      Except.ok ⟨ObjectType.CommitObject, h, if h = 1 then [] else [h - 1]⟩
    else Except.error ErrObjectNotFound
  Shallow := fun _ => Except.ok []
  SetShallow := fun _ _ => ((), none)

/-- A shallow repository: the commits 1 and 2, of which 2 is a shallow
boundary, and the shallow boundary 5. -/
def exampleShallow : MemObjects :=
  { objects := exampleObjects.objects, shallow := [5, 2] }

/-- The fast-forward test on a storage in memory, with fuel for 16 commits;
the histories of the examples are shorter. -/
def exampleFastForward (st : MemStorage) (old new : Hash) : Bool × Option GoError :=
  (isFastForward storageObjects st 16 old new).getD (false, none)

/-- A local repository with the commits 1 and 2 (1 is the parent of 2, see
`exampleObjects`) and the commit 3 without parents, in which
`refs/heads/main` is at 1, `refs/heads/topic` at 3 and `refs/heads/next`
at 1. -/
def exampleLocal : MemStorage :=
  { refs := [("refs/heads/main", NewHashReference "refs/heads/main" 1),
             ("refs/heads/topic", NewHashReference "refs/heads/topic" 3),
             ("refs/heads/next", NewHashReference "refs/heads/next" 1)],
    objs := { objects := exampleObjects.objects ++
                [(3, { t := ObjectType.CommitObject, h := 3, parents := [] })],
              shallow := [] } }

/-- The refspec `refs/heads/*:refs/heads/*`, without force. -/
def exampleBranchSpec : RefSpec :=
  { force := false, src := "refs/heads/*", dst := "refs/heads/*" }

/-- What the remote has for the branches: `main`, `topic` and `next` at 2,
which descends from 1 and not from 3. -/
def exampleBranches : List Reference :=
  [NewHashReference "refs/heads/main" 2, NewHashReference "refs/heads/topic" 2,
   NewHashReference "refs/heads/next" 2]

/-- The local repository `exampleLocal` after `main` and `next` have moved to
2; `topic` is where it was. -/
def exampleLocalAfter : MemStorage :=
  { exampleLocal with
    refs := [("refs/heads/main", NewHashReference "refs/heads/main" 2),
             ("refs/heads/topic", NewHashReference "refs/heads/topic" 3),
             ("refs/heads/next", NewHashReference "refs/heads/next" 2)] }

/-- A reference storage in which a competitor has put `refs/heads/main` at
9. -/
def exampleCompetitor : MemRefs :=
  [("refs/heads/main", NewHashReference "refs/heads/main" 9)]

/-- What a remote advertises: the branch `main` at 2, the tag `v1` at 2 and
the tag `v2` at 7. -/
def exampleTaggedRemote : MemRefs :=
  [("refs/heads/main", NewHashReference "refs/heads/main" 2),
   ("refs/tags/v1", NewHashReference "refs/tags/v1" 2),
   ("refs/tags/v2", NewHashReference "refs/tags/v2" 7)]

/-- The local repository `exampleLocal` after `main` has moved to 2 and the
tag `v1` has been stored. -/
def exampleLocalTagged : MemStorage :=
  { exampleLocal with
    refs := [("refs/heads/main", NewHashReference "refs/heads/main" 2),
             ("refs/heads/topic", NewHashReference "refs/heads/topic" 3),
             ("refs/heads/next", NewHashReference "refs/heads/next" 1),
             ("refs/tags/v1", NewHashReference "refs/tags/v1" 2)] }

/-- A request for the archive of `HEAD` that names no format. -/
def exampleArchiveRequest : UploadArchiveRequest :=
  { Reference := "HEAD", Hash := ZeroHash, Format := "", Prefix := "" }

/-- The stream of a response: `ACK`, a flush packet and two packets of
archive bytes. -/
def exampleArchiveStream : Scanner :=
  { packets := ["ACK", "0000", "archive ", "bytes"], err := none }

/-- A shallow clone: commit 2, whose parent 1 is cut off (2 is in the
shallow list), with `refs/heads/main` at 2. -/
def exampleShallowClone : MemStorage :=
  { refs := [("refs/heads/main", NewHashReference "refs/heads/main" 2)],
    objs := { objects := [(2, { t := ObjectType.CommitObject, h := 2, parents := [1] })],
              shallow := [2] } }

/-- The advertisement of a remote whose only branch `main` is at 2. -/
def exampleMainAdvertisement : AdvRefs :=
  { NewAdvRefs with
    Capabilities := ⟨[("ofs-delta", [])]⟩, References := [("refs/heads/main", 2)] }

/-- A fetch of all the branches with `Depth` 0, the default. -/
def exampleFetchOptions : FetchOptions :=
  { RefSpecs := [exampleBranchSpec], Depth := 0, Progress := none, Tags := TagMode.NoTags,
    Force := false }

/-- A request constructor for the examples: the request of
`NewUploadPackRequestFromCapabilities` with the `ofs-delta` capability when
it is advertised, without wants, haves and shallows, and with depth 0. -/
def exampleFromCapabilities (adv : CapabilityList) : UploadPackRequest :=
  { Capabilities := if adv.Supports OFSDelta then ⟨[(OFSDelta, [])]⟩ else NewList,
    Wants := [], Shallows := [], Depth := 0, Haves := [] }

/-- The references of an advertisement for the examples: one hash reference
for each advertised name. -/
def exampleAllReferences (ar : AdvRefs) : Except GoError MemRefs :=
  Except.ok (ar.References.map (fun e => (e.1, NewHashReference e.1 e.2)))

/-- A session for the examples, whose answer to every request is an empty
pack without shallow OIDs. -/
def exampleUploadPack (_ : UploadPackRequest) : Except GoError (UploadPackResponse MemStorage) :=
  Except.ok { Shallows := [], UpdateObjectStorage := fun _ st => (st, none), Close := none }

/-- A session after a handshake whose advertisement carries both `side-band`
and `side-band-64k`, and `ofs-delta`. -/
def exampleSidebandSession : packSession :=
  { conn := some exampleWire, service := "git-upload-pack",
    srvrsp := some
      { Version := 1,
        Capabilities := ⟨[("side-band", []), ("side-band-64k", []), ("ofs-delta", [])]⟩,
        AdvRefs := some { NewAdvRefs with
          Capabilities := ⟨[("side-band", []), ("side-band-64k", []), ("ofs-delta", [])]⟩,
          References := [("refs/heads/main", 7)] } } }

/-- An object store with the commits 1 and 2 of `exampleObjects` and the
blob 4. -/
def exampleMixedObjects : MemObjects :=
  { objects := exampleObjects.objects ++ [(4, { t := ObjectType.BlobObject, h := 4, parents := [] })],
    shallow := [] }

/-- Local references of every kind: a branch at the commit 2, a branch at 9,
which the remote advertises, a reference to the blob 4, a reference to the
missing object 6, and a symbolic `HEAD`. -/
def exampleLocalReferences : List Reference :=
  [NewHashReference "refs/heads/main" 2, NewHashReference "refs/remotes/origin/main" 9,
   NewHashReference "refs/blob" 4, NewHashReference "refs/heads/lost" 6,
   NewSymbolicReference "HEAD" "refs/heads/main"]

/-- A request for the archive of `HEAD` in the format `tar`. -/
def exampleTarRequest : UploadArchiveRequest :=
  { Reference := "HEAD", Hash := ZeroHash, Format := "tar", Prefix := "" }

/-- The refspec `refs/tags/v1:refs/remotes/origin/v1`, which is not a
wildcard. -/
def exampleTagSpec : RefSpec :=
  { force := false, src := "refs/tags/v1", dst := "refs/remotes/origin/v1" }

/-- What a remote with releases advertises: the branch `main` at 2 and the
tags `v0` at 1, `v1` at 2 and `v2` at 7. -/
def exampleReleases : MemRefs :=
  [("refs/heads/main", NewHashReference "refs/heads/main" 2),
   ("refs/tags/v0", NewHashReference "refs/tags/v0" 1),
   ("refs/tags/v1", NewHashReference "refs/tags/v1" 2),
   ("refs/tags/v2", NewHashReference "refs/tags/v2" 7)]

/-- The local repository `exampleLocal` after the tag `v1` of the remote has
been stored as `refs/remotes/origin/v1` and as the tag `v1`. -/
def exampleLocalRelease : MemStorage :=
  { exampleLocal with
    refs := [("refs/heads/main", NewHashReference "refs/heads/main" 1),
             ("refs/heads/topic", NewHashReference "refs/heads/topic" 3),
             ("refs/heads/next", NewHashReference "refs/heads/next" 1),
             ("refs/remotes/origin/v1", NewHashReference "refs/remotes/origin/v1" 2),
             ("refs/tags/v1", NewHashReference "refs/tags/v1" 2)] }

/-- The local repository `exampleLocal` with the tag `v1` at 1, which the
remote has moved to 2 since. -/
def exampleMovedTag : MemStorage :=
  { exampleLocal with
    refs := [("refs/heads/main", NewHashReference "refs/heads/main" 1),
             ("refs/heads/topic", NewHashReference "refs/heads/topic" 3),
             ("refs/heads/next", NewHashReference "refs/heads/next" 1),
             ("refs/tags/v1", NewHashReference "refs/tags/v1" 1)] }

/-! ## Theorems -/

/-- C1: `Command.Action` returns create exactly when old is zero and new is
not, delete exactly when new is zero and old is not, update exactly when both
are non-zero and invalid exactly when both are zero. -/
theorem Command.Action_cases (c : Command) :
    (c.Action = Action.Create ↔ c.Old = ZeroHash ∧ c.New ≠ ZeroHash) ∧
    (c.Action = Action.Delete ↔ c.New = ZeroHash ∧ c.Old ≠ ZeroHash) ∧
    (c.Action = Action.Update ↔ c.Old ≠ ZeroHash ∧ c.New ≠ ZeroHash) ∧
    (c.Action = Action.Invalid ↔ c.Old = ZeroHash ∧ c.New = ZeroHash) := by
  unfold Command.Action
  by_cases h1 : c.Old = ZeroHash <;> by_cases h2 : c.New = ZeroHash <;> simp [h1, h2]

/-! ### The loop body -/

theorem updateReferencesBody_eq {σ : Type} (S : ReferenceStorer σ) (s : rpStatus) (st : σ)
    (cmd : Command) :
    updateReferencesBody S s st cmd =
      (recordOutcome s cmd.Name (bodyOutcome S st cmd).1, (bodyOutcome S st cmd).2) := by
  unfold updateReferencesBody bodyOutcome
  rcases h : referenceExists S st cmd.Name with ⟨ok, _ | err⟩
  · cases hA : cmd.Action <;> cases ok <;> simp [recordOutcome]
  · simp [recordOutcome]

theorem updateReferences_cons {σ : Type} (S : ReferenceStorer σ) (s : rpStatus) (st : σ)
    (cmd : Command) (rest : List Command) :
    updateReferences S s st (cmd :: rest) =
      updateReferences S (recordOutcome s cmd.Name (bodyOutcome S st cmd).1)
        (bodyOutcome S st cmd).2 rest := by
  simp [updateReferences, updateReferencesBody_eq]

theorem updateReferences_append {σ : Type} (S : ReferenceStorer σ) (pre post : List Command) :
    ∀ (s : rpStatus) (st : σ),
      updateReferences S s st (pre ++ post) =
        updateReferences S (updateReferences S s st pre).1 (updateReferences S s st pre).2 post := by
  induction pre with
  | nil => intro s st; simp [updateReferences]
  | cons c cs ih => intro s st; simp [updateReferences, ih]

theorem mapGet_mapSet {κ ν : Type} [DecidableEq κ] (m : List (κ × ν)) (k : κ) (v : ν) :
    mapGet (mapSet m k v) k = some v := by
  induction m with
  | nil => simp [mapSet, mapGet]
  | cons e rest ih =>
    obtain ⟨k', v'⟩ := e
    by_cases h : k' = k
    · simp [mapSet, mapGet, h]
    · simp [mapSet, mapGet, h, ih]

theorem setStatus_cmdStatus (s : rpStatus) (n : ReferenceName) (e : Option GoError) :
    (setStatus s n e).cmdStatus = mapSet s.cmdStatus n e := by
  unfold setStatus
  cases hs : s.firstErr <;> cases e <;> simp [hs]

theorem setStatus_unpackErr (s : rpStatus) (n : ReferenceName) (e : Option GoError) :
    (setStatus s n e).unpackErr = s.unpackErr := by
  unfold setStatus
  cases hs : s.firstErr <;> cases e <;> simp [hs]

theorem setStatus_firstErr (s : rpStatus) (n : ReferenceName) (e : Option GoError) :
    (setStatus s n e).firstErr = (match s.firstErr with | some x => some x | none => e) := by
  unfold setStatus
  cases hs : s.firstErr <;> cases e <;> simp [hs]

/-- C2: when the loop of `updateReferences` reaches a command (after the
commands `pre`, with status `s1` and storer state `st1`): a create whose
reference exists, a delete or an update whose reference does not exist gets
status `ErrUpdateReference` and the loop goes on with the storer state
untouched; a create of an absent reference and an update of an existing one
call `SetReference`, a delete of an existing one calls `RemoveReference`, and
the result of the call is the recorded status. -/
theorem updateReferences_existence_checks {σ : Type} (S : ReferenceStorer σ) (s s1 : rpStatus)
    (st st1 : σ) (pre post : List Command) (cmd : Command)
    (hpre : updateReferences S s st pre = (s1, st1)) :
    (((cmd.Action = Action.Create ∧ referenceExists S st1 cmd.Name = (true, none)) ∨
      (cmd.Action = Action.Delete ∧ referenceExists S st1 cmd.Name = (false, none)) ∨
      (cmd.Action = Action.Update ∧ referenceExists S st1 cmd.Name = (false, none))) →
        updateReferences S s st (pre ++ cmd :: post) =
          updateReferences S (setStatus s1 cmd.Name (some ErrUpdateReference)) st1 post ∧
        mapGet (setStatus s1 cmd.Name (some ErrUpdateReference)).cmdStatus cmd.Name =
          some (some ErrUpdateReference)) ∧
    (((cmd.Action = Action.Create ∧ referenceExists S st1 cmd.Name = (false, none)) ∨
      (cmd.Action = Action.Update ∧ referenceExists S st1 cmd.Name = (true, none))) →
        updateReferences S s st (pre ++ cmd :: post) =
          updateReferences S
            (setStatus s1 cmd.Name (S.SetReference st1 (NewHashReference cmd.Name cmd.New)).2)
            (S.SetReference st1 (NewHashReference cmd.Name cmd.New)).1 post) ∧
    ((cmd.Action = Action.Delete ∧ referenceExists S st1 cmd.Name = (true, none)) →
        updateReferences S s st (pre ++ cmd :: post) =
          updateReferences S (setStatus s1 cmd.Name (S.RemoveReference st1 cmd.Name).2)
            (S.RemoveReference st1 cmd.Name).1 post) := by
  have happ : updateReferences S s st (pre ++ cmd :: post) =
      updateReferences S (recordOutcome s1 cmd.Name (bodyOutcome S st1 cmd).1)
        (bodyOutcome S st1 cmd).2 post := by
    rw [updateReferences_append, hpre, updateReferences_cons]
  refine ⟨?_, ?_, ?_⟩
  · intro h
    refine ⟨?_, ?_⟩
    · rw [happ]
      rcases h with ⟨hA, hE⟩ | ⟨hA, hE⟩ | ⟨hA, hE⟩ <;>
        simp [bodyOutcome, hA, hE, recordOutcome]
    · rw [setStatus_cmdStatus, mapGet_mapSet]
  · intro h
    rw [happ]
    rcases h with ⟨hA, hE⟩ | ⟨hA, hE⟩ <;> simp [bodyOutcome, hA, hE, recordOutcome]
  · rintro ⟨hA, hE⟩
    rw [happ]
    simp [bodyOutcome, hA, hE, recordOutcome]

/-- Witness for C2 on the in-memory storer: a create of the existing
`refs/heads/main` is refused, a create of the absent `refs/heads/new` is
written, and a delete of the existing `refs/heads/old` is carried out. -/
theorem updateReferences_existence_checks_witness :
    (updateReferences memStorer emptyStatus exampleRefs ([] ++ ⟨"refs/heads/main", 0, 5⟩ :: []) =
        updateReferences memStorer
          (setStatus emptyStatus "refs/heads/main" (some ErrUpdateReference)) exampleRefs [] ∧
      mapGet (setStatus emptyStatus "refs/heads/main" (some ErrUpdateReference)).cmdStatus
        "refs/heads/main" = some (some ErrUpdateReference)) ∧
    updateReferences memStorer emptyStatus exampleRefs ([] ++ ⟨"refs/heads/new", 0, 5⟩ :: []) =
      updateReferences memStorer
        (setStatus emptyStatus "refs/heads/new"
          (memStorer.SetReference exampleRefs (NewHashReference "refs/heads/new" 5)).2)
        (memStorer.SetReference exampleRefs (NewHashReference "refs/heads/new" 5)).1 [] ∧
    updateReferences memStorer emptyStatus exampleRefs ([] ++ ⟨"refs/heads/old", 7, 0⟩ :: []) =
      updateReferences memStorer
        (setStatus emptyStatus "refs/heads/old"
          (memStorer.RemoveReference exampleRefs "refs/heads/old").2)
        (memStorer.RemoveReference exampleRefs "refs/heads/old").1 [] :=
  ⟨(updateReferences_existence_checks memStorer emptyStatus emptyStatus exampleRefs exampleRefs
      [] [] ⟨"refs/heads/main", 0, 5⟩ rfl).1 (Or.inl ⟨by decide, by decide⟩),
   (updateReferences_existence_checks memStorer emptyStatus emptyStatus exampleRefs exampleRefs
      [] [] ⟨"refs/heads/new", 0, 5⟩ rfl).2.1 (Or.inl ⟨by decide, by decide⟩),
   (updateReferences_existence_checks memStorer emptyStatus emptyStatus exampleRefs exampleRefs
      [] [] ⟨"refs/heads/old", 7, 0⟩ rfl).2.2 ⟨by decide, by decide⟩⟩

/-! ### Unpack failure -/

theorem recordOutcome_unpackErr (s : rpStatus) (n : ReferenceName)
    (o : Option (Option GoError)) : (recordOutcome s n o).unpackErr = s.unpackErr := by
  cases o with
  | none => rfl
  | some e => simp [recordOutcome, setStatus_unpackErr]

theorem updateReferences_unpackErr {σ : Type} (S : ReferenceStorer σ) (cmds : List Command) :
    ∀ (s : rpStatus) (st : σ), (updateReferences S s st cmds).1.unpackErr = s.unpackErr := by
  induction cmds with
  | nil => intro s st; rfl
  | cons c cs ih =>
    intro s st
    rw [updateReferences_cons, ih, recordOutcome_unpackErr]

/-- C4: when applying the attached packfile fails with error `e` (leaving the
storer in state `st1`), `ReceivePack` returns the state `st1` as the unpack
step left it, so no reference is written or removed, a report-status whose
unpack status is the text of `e` and which has no command status, and `e` as
its error; when the unpack step returns no error (which is also the case
without a packfile) the unpack status of the report is `ok`. -/
theorem ReceivePack_unpack_status {σ : Type} (S : ReferenceStorer σ) (st st1 : σ)
    (req : ReferenceUpdateRequest σ) :
    (∀ e, writePackfile st req.Packfile = (st1, some e) →
      ReceivePack S st req =
        (st1, some { UnpackStatus := e.Error, CommandStatuses := [] }, some e)) ∧
    (writePackfile st req.Packfile = (st1, none) →
      ∃ rs, (ReceivePack S st req).2.1 = some rs ∧ rs.UnpackStatus = "ok") := by
  refine ⟨?_, ?_⟩
  · intro e h
    cases hp : req.Packfile with
    | none => rw [hp] at h; simp [writePackfile] at h
    | some pf =>
      rw [hp] at h
      simp [ReceivePack, hp, h, reportStatus, NewReportStatus]
  · intro h
    cases hp : req.Packfile with
    | none => simp [ReceivePack, hp, reportStatus, NewReportStatus, updateReferences_unpackErr]
    | some pf =>
      rw [hp] at h
      simp [ReceivePack, hp, h, reportStatus, NewReportStatus, updateReferences_unpackErr]

/-- Witness for C4: a request with a packfile that fails to unpack, and one
with a packfile that unpacks. -/
theorem ReceivePack_unpack_status_witness :
    ReceivePack memStorer exampleRefs { exampleMix with Packfile := some brokenPack } =
      (exampleRefs, some { UnpackStatus := "malformed pack file", CommandStatuses := [] },
        some (Errorf "malformed pack file")) ∧
    ∃ rs, (ReceivePack memStorer exampleRefs exampleFailThenCreate).2.1 = some rs ∧
      rs.UnpackStatus = "ok" :=
  ⟨(ReceivePack_unpack_status memStorer exampleRefs exampleRefs
      { exampleMix with Packfile := some brokenPack }).1 (Errorf "malformed pack file") rfl,
   (ReceivePack_unpack_status memStorer exampleRefs exampleRefs exampleFailThenCreate).2 rfl⟩

/-! ### Continuation after a failure, first error -/

theorem commandError_eq {σ : Type} (S : ReferenceStorer σ) (st : σ) (cmd : Command) :
    commandError S st cmd =
      (match (bodyOutcome S st cmd).1 with | none => none | some e => e) := by
  unfold commandError
  rw [updateReferencesBody_eq]
  cases h : (bodyOutcome S st cmd).1 with
  | none => simp [recordOutcome, emptyStatus]
  | some e => simp [recordOutcome, setStatus_firstErr, emptyStatus]

theorem commandEffect_eq {σ : Type} (S : ReferenceStorer σ) (st : σ) (cmd : Command) :
    commandEffect S st cmd = (bodyOutcome S st cmd).2 := by
  unfold commandEffect
  rw [updateReferencesBody_eq]

theorem recordOutcome_firstErr (s : rpStatus) (n : ReferenceName) (o : Option (Option GoError)) :
    (recordOutcome s n o).firstErr =
      (match s.firstErr with
       | some x => some x
       | none => (match o with | none => none | some e => e)) := by
  cases o with
  | none => cases h : s.firstErr <;> simp [recordOutcome, h]
  | some e => simp [recordOutcome, setStatus_firstErr]

theorem updateReferences_state_firstErr {σ : Type} (S : ReferenceStorer σ) (cmds : List Command) :
    ∀ (s : rpStatus) (st : σ),
      (updateReferences S s st cmds).2 = applyAll S st cmds ∧
      (updateReferences S s st cmds).1.firstErr =
        (match s.firstErr with
         | some x => some x
         | none => firstFailure S st cmds) := by
  induction cmds with
  | nil =>
    intro s st
    cases h : s.firstErr <;> simp [updateReferences, applyAll, firstFailure, h]
  | cons c cs ih =>
    intro s st
    rw [updateReferences_cons]
    obtain ⟨ih1, ih2⟩ := ih (recordOutcome s c.Name (bodyOutcome S st c).1) (bodyOutcome S st c).2
    refine ⟨?_, ?_⟩
    · rw [ih1]; simp [applyAll, commandEffect_eq]
    · rw [ih2, recordOutcome_firstErr]
      cases hs : s.firstErr with
      | some x => simp
      | none =>
        simp only [firstFailure, commandError_eq, commandEffect_eq]

/-- C5: after a successful unpack step (or without a packfile) the storer
state `ReceivePack` leaves is the one obtained by applying every command of
the request in order, each on the state left by the one before it, whether
or not earlier commands failed; and the error it returns is the error of the
first failing command in request order, `nil` when none fails. -/
theorem ReceivePack_continues_first_error {σ : Type} (S : ReferenceStorer σ) (st st1 : σ)
    (req : ReferenceUpdateRequest σ) (hunpack : writePackfile st req.Packfile = (st1, none)) :
    (ReceivePack S st req).1 = applyAll S st1 req.Commands ∧
    (ReceivePack S st req).2.2 = firstFailure S st1 req.Commands := by
  have key := updateReferences_state_firstErr S req.Commands
    { cmdStatus := [], firstErr := none, unpackErr := none }
  cases hp : req.Packfile with
  | none =>
    rw [hp] at hunpack
    simp only [writePackfile, Prod.mk.injEq, and_true] at hunpack
    subst hunpack
    simpa [ReceivePack, hp] using key st
  | some pf =>
    rw [hp] at hunpack
    simpa [ReceivePack, hp, hunpack] using key st1

/-- Witness for C5: the first command fails, the second is still applied,
and the error returned is that of the first. -/
theorem ReceivePack_continues_first_error_witness :
    writePackfile exampleRefs exampleFailThenCreate.Packfile = (exampleRefs, none) ∧
    firstFailure memStorer exampleRefs exampleFailThenCreate.Commands =
      some ErrUpdateReference ∧
    memStorer.Reference (applyAll memStorer exampleRefs exampleFailThenCreate.Commands)
      "refs/heads/new" = Except.ok (NewHashReference "refs/heads/new" 6) ∧
    (ReceivePack memStorer exampleRefs exampleFailThenCreate).1 =
      applyAll memStorer exampleRefs exampleFailThenCreate.Commands ∧
    (ReceivePack memStorer exampleRefs exampleFailThenCreate).2.2 =
      firstFailure memStorer exampleRefs exampleFailThenCreate.Commands :=
  ⟨rfl, by decide, rfl,
    ReceivePack_continues_first_error memStorer exampleRefs exampleRefs
      exampleFailThenCreate rfl⟩

/-! ### The per-command statuses of the report -/

theorem mapSet_of_not_mem {κ ν : Type} [DecidableEq κ] (m : List (κ × ν)) (k : κ) (v : ν)
    (h : k ∉ m.map Prod.fst) : mapSet m k v = m ++ [(k, v)] := by
  induction m with
  | nil => rfl
  | cons e rest ih =>
    obtain ⟨k', v'⟩ := e
    simp only [List.map_cons, List.mem_cons, not_or] at h
    have hne : ¬ k' = k := fun hk => h.1 hk.symm
    simp [mapSet, hne, ih h.2]

theorem bodyOutcome_recorded {σ : Type} (S : ReferenceStorer σ) (st : σ) (cmd : Command)
    (h : cmd.Action ≠ Action.Invalid) :
    (bodyOutcome S st cmd).1 = some (commandError S st cmd) := by
  rw [commandError_eq]
  unfold bodyOutcome
  rcases hE : referenceExists S st cmd.Name with ⟨ok, _ | err⟩
  · cases hA : cmd.Action <;> cases ok <;> simp_all
  · simp

/-- The entry of the report for one recorded status. -/
theorem reportStatus_statuses (s : rpStatus) :
    (reportStatus s).CommandStatuses =
      s.cmdStatus.map (fun p => { ReferenceName := p.1, Status := statusText p.2 }) := by
  unfold reportStatus
  cases hu : s.unpackErr <;> simp [NewReportStatus] <;>
    (intro a b _; cases b <;> simp [statusText])

theorem updateReferences_statuses {σ : Type} (S : ReferenceStorer σ) (cmds : List Command) :
    ∀ (s : rpStatus) (st : σ),
      (cmds.map Command.Name).Nodup →
      (∀ c ∈ cmds, c.Action ≠ Action.Invalid) →
      (∀ c ∈ cmds, c.Name ∉ s.cmdStatus.map Prod.fst) →
      (reportStatus (updateReferences S s st cmds).1).CommandStatuses =
        (reportStatus s).CommandStatuses ++ expectedStatuses S st cmds := by
  induction cmds with
  | nil => intro s st _ _ _; simp [updateReferences, expectedStatuses]
  | cons c cs ih =>
    intro s st hnd hval hfresh
    have hc : c.Name ∉ s.cmdStatus.map Prod.fst := hfresh c (List.mem_cons_self _ _)
    simp only [List.map_cons, List.nodup_cons] at hnd
    rw [updateReferences_cons, bodyOutcome_recorded S st c (hval c (List.mem_cons_self _ _))]
    have hs : (recordOutcome s c.Name (some (commandError S st c))).cmdStatus =
        s.cmdStatus ++ [(c.Name, commandError S st c)] := by
      simp [recordOutcome, setStatus_cmdStatus, mapSet_of_not_mem _ _ _ hc]
    rw [ih _ _ hnd.2 (fun x hx => hval x (List.mem_cons_of_mem _ hx))]
    · rw [reportStatus_statuses, reportStatus_statuses, hs]
      simp [expectedStatuses, commandEffect_eq]
    · intro x hx
      rw [hs]
      simp only [List.map_append, List.map_cons, List.map_nil, List.mem_append,
        List.mem_singleton, not_or]
      refine ⟨hfresh x (List.mem_cons_of_mem _ hx), ?_⟩
      intro hxc
      exact hnd.1 (hxc ▸ List.mem_map_of_mem Command.Name hx)

/-- C6, as amended: for a request whose unpack step succeeds, whose commands
name pairwise distinct references and none of whose commands is invalid, the
command statuses of the report are, up to order, the list `expectedStatuses`
that has exactly one entry for each command, under the name of the command,
with status `ok` when the command succeeded and the text of its error
otherwise. -/
theorem ReceivePack_report_per_command {σ : Type} (S : ReferenceStorer σ) (st st1 : σ)
    (req : ReferenceUpdateRequest σ) (hunpack : writePackfile st req.Packfile = (st1, none))
    (hnd : (req.Commands.map Command.Name).Nodup)
    (hval : ∀ c ∈ req.Commands, c.Action ≠ Action.Invalid) :
    ∃ rs, (ReceivePack S st req).2.1 = some rs ∧
      rs.CommandStatuses.Perm (expectedStatuses S st1 req.Commands) ∧
      (expectedStatuses S st1 req.Commands).map CommandStatus.ReferenceName =
        req.Commands.map Command.Name ∧
      rs.CommandStatuses.length = req.Commands.length := by
  have key := updateReferences_statuses S req.Commands
    { cmdStatus := [], firstErr := none, unpackErr := none } st1 hnd hval (by simp)
  have hlen : ∀ (cmds : List Command) (x : σ),
      (expectedStatuses S x cmds).length = cmds.length ∧
      (expectedStatuses S x cmds).map CommandStatus.ReferenceName = cmds.map Command.Name := by
    intro cmds
    induction cmds with
    | nil => intro x; simp [expectedStatuses]
    | cons c cs ih => intro x; simp [expectedStatuses, ih]
  have hrs : (ReceivePack S st req).2.1 =
      some (reportStatus (updateReferences S
        { cmdStatus := [], firstErr := none, unpackErr := none } st1 req.Commands).1) := by
    cases hp : req.Packfile with
    | none =>
      rw [hp] at hunpack
      simp only [writePackfile, Prod.mk.injEq, and_true] at hunpack
      subst hunpack
      simp [ReceivePack, hp]
    | some pf =>
      rw [hp] at hunpack
      simp [ReceivePack, hp, hunpack]
  refine ⟨_, hrs, ?_, (hlen req.Commands st1).2, ?_⟩
  · rw [key]; simp [reportStatus_statuses]
  · rw [key]; simp [reportStatus_statuses, (hlen req.Commands st1).1]

/-- Witness for C6 as amended: the create / delete / update mix. -/
theorem ReceivePack_report_per_command_witness :
    writePackfile exampleRefs exampleMix.Packfile = (exampleRefs, none) ∧
    (exampleMix.Commands.map Command.Name).Nodup ∧
    (∀ c ∈ exampleMix.Commands, c.Action ≠ Action.Invalid) ∧
    ∃ rs, (ReceivePack memStorer exampleRefs exampleMix).2.1 = some rs ∧
      rs.CommandStatuses.Perm (expectedStatuses memStorer exampleRefs exampleMix.Commands) ∧
      (expectedStatuses memStorer exampleRefs exampleMix.Commands).map
        CommandStatus.ReferenceName = exampleMix.Commands.map Command.Name ∧
      rs.CommandStatuses.length = exampleMix.Commands.length :=
  ⟨rfl, by decide, by decide,
    ReceivePack_report_per_command memStorer exampleRefs exampleRefs exampleMix rfl
      (by decide) (by decide)⟩

/-- C6 fails as stated: with two creates of the same absent reference the
first succeeds and the second fails, yet the report has a single entry for
the two commands (the failure); and a command with zero old and new OIDs
gets no entry at all. -/
theorem ReceivePack_report_not_per_command :
    (exampleSameName.Commands.length = 2 ∧
      commandError memStorer exampleRefs ⟨"refs/heads/new", 0, 5⟩ = none ∧
      (ReceivePack memStorer exampleRefs exampleSameName).2.1 =
        some { UnpackStatus := "ok",
               CommandStatuses := [⟨"refs/heads/new", "failed to update ref"⟩] }) ∧
    (exampleInvalid.Commands.length = 1 ∧
      (ReceivePack memStorer exampleRefs exampleInvalid).2.1 =
        some { UnpackStatus := "ok", CommandStatuses := [] }) := by
  refine ⟨⟨rfl, by decide, by decide⟩, rfl, by decide⟩

/-! ### The in-memory storer is lawful -/

theorem mapGet_mapSet_ne {κ ν : Type} [DecidableEq κ] (m : List (κ × ν)) (k k' : κ) (v : ν)
    (h : k' ≠ k) : mapGet (mapSet m k v) k' = mapGet m k' := by
  induction m with
  | nil => simp [mapSet, mapGet, h.symm]
  | cons e rest ih =>
    obtain ⟨a, b⟩ := e
    by_cases ha : a = k
    · subst ha; simp [mapSet, mapGet, h.symm]
    · by_cases hb : a = k'
      · subst hb; simp [mapSet, mapGet, ha]
      · simp [mapSet, mapGet, ha, hb, ih]

theorem mapGet_mapDelete {κ ν : Type} [DecidableEq κ] (m : List (κ × ν)) (k : κ) :
    mapGet (mapDelete m k) k = none := by
  induction m with
  | nil => rfl
  | cons e rest ih =>
    obtain ⟨a, b⟩ := e
    have ih1 : mapGet (rest.filter (fun e => !decide (e.1 = k))) k = none := ih
    by_cases ha : a = k
    · simpa [mapDelete, List.filter_cons, ha] using ih1
    · simpa [mapDelete, List.filter_cons, ha, mapGet] using ih1

theorem mapGet_mapDelete_ne {κ ν : Type} [DecidableEq κ] (m : List (κ × ν)) (k k' : κ)
    (h : k' ≠ k) : mapGet (mapDelete m k) k' = mapGet m k' := by
  induction m with
  | nil => rfl
  | cons e rest ih =>
    obtain ⟨a, b⟩ := e
    have ih1 : mapGet (rest.filter (fun e => !decide (e.1 = k))) k' = mapGet rest k' := ih
    by_cases ha : a = k
    · have hak : ¬ a = k' := fun hk => h (hk ▸ ha)
      simpa [mapDelete, List.filter_cons, ha, mapGet, hak, h.symm] using ih1
    · by_cases hb : a = k'
      · subst hb; simp [mapDelete, List.filter_cons, ha, mapGet]
      · simpa [mapDelete, List.filter_cons, ha, mapGet, hb] using ih1

theorem memStorer_writesSucceed : WritesSucceed memStorer where
  set_ok := fun _ _ => rfl
  remove_ok := fun _ _ => rfl
  get_set := fun st r => by simp [memStorer, mapGet_mapSet]
  get_remove := fun st n => by simp [memStorer, mapGet_mapDelete]

theorem memStorer_writesFramed : WritesFramed memStorer where
  get_set_ne := fun st r n h => by simp [memStorer, mapGet_mapSet_ne _ _ _ _ h]
  get_remove_ne := fun st n m h => by simp [memStorer, mapGet_mapDelete_ne _ _ _ h]

/-! ### The create / delete / update mix -/

theorem ReceivePack_of_unpack_ok {σ : Type} (S : ReferenceStorer σ) (st st1 : σ)
    (req : ReferenceUpdateRequest σ) (hunpack : writePackfile st req.Packfile = (st1, none)) :
    ReceivePack S st req =
      ((updateReferences S emptyStatus st1 req.Commands).2,
        some (reportStatus (updateReferences S emptyStatus st1 req.Commands).1),
        (updateReferences S emptyStatus st1 req.Commands).1.firstErr) := by
  cases hp : req.Packfile with
  | none =>
    rw [hp] at hunpack
    simp only [writePackfile, Prod.mk.injEq, and_true] at hunpack
    subst hunpack
    simp [ReceivePack, hp, emptyStatus]
  | some pf =>
    rw [hp] at hunpack
    simp [ReceivePack, hp, hunpack, emptyStatus]

theorem reportStatus_unpack (s : rpStatus) :
    (reportStatus s).UnpackStatus = statusText s.unpackErr := by
  unfold reportStatus
  cases hu : s.unpackErr <;> simp [NewReportStatus, statusText]

theorem reportStatus_eq (s : rpStatus) :
    reportStatus s =
      { UnpackStatus := statusText s.unpackErr,
        CommandStatuses :=
          s.cmdStatus.map (fun p => { ReferenceName := p.1, Status := statusText p.2 }) } := by
  have h1 := reportStatus_unpack s
  have h2 := reportStatus_statuses s
  cases hr : reportStatus s
  simp_all

theorem referenceExists_congr {σ : Type} (S : ReferenceStorer σ) (st st1 : σ) (n : ReferenceName)
    (h : S.Reference st1 n = S.Reference st n) :
    referenceExists S st1 n = referenceExists S st n := by
  unfold referenceExists
  rw [h]

theorem existencePrecondition_valid {σ : Type} (S : ReferenceStorer σ) (st : σ) (cmd : Command)
    (h : existencePrecondition S st cmd) : cmd.Action ≠ Action.Invalid := by
  rcases h with ⟨hA, _⟩ | ⟨hA | hA, _⟩ <;> simp [hA]

/-- One command whose existence precondition holds, on a storer whose writes
succeed: no error, the named reference is written or removed, all other
names are untouched. -/
theorem command_ok {σ : Type} (S : ReferenceStorer σ) (hW : WritesSucceed S)
    (hF : WritesFramed S) (st : σ) (cmd : Command) (h : existencePrecondition S st cmd) :
    commandError S st cmd = none ∧
    (∀ n, n ≠ cmd.Name → S.Reference (commandEffect S st cmd) n = S.Reference st n) ∧
    S.Reference (commandEffect S st cmd) cmd.Name =
      (if cmd.Action = Action.Delete then Except.error ErrReferenceNotFound
       else Except.ok (NewHashReference cmd.Name cmd.New)) := by
  have hset := hW.get_set st (NewHashReference cmd.Name cmd.New)
  have hsetne := hF.get_set_ne st (NewHashReference cmd.Name cmd.New)
  simp only [NewHashReference] at hset hsetne
  rw [commandError_eq, commandEffect_eq]
  rcases h with ⟨hA, hE⟩ | ⟨hA | hA, hE⟩
  · simp [bodyOutcome, hA, hE, hW.set_ok, NewHashReference, hset]
    exact hsetne
  · simp [bodyOutcome, hA, hE, hW.remove_ok, hW.get_remove]
    exact fun n hn => hF.get_remove_ne st cmd.Name n hn
  · simp [bodyOutcome, hA, hE, hW.set_ok, NewHashReference, hset]
    exact hsetne

theorem applyAll_mix {σ : Type} (S : ReferenceStorer σ) (hW : WritesSucceed S)
    (hF : WritesFramed S) (cmds : List Command) :
    ∀ st : σ, (cmds.map Command.Name).Nodup →
      (∀ c ∈ cmds, existencePrecondition S st c) →
      firstFailure S st cmds = none ∧
      expectedStatuses S st cmds = cmds.map (fun c => { ReferenceName := c.Name, Status := "ok" }) ∧
      (∀ n, n ∉ cmds.map Command.Name → S.Reference (applyAll S st cmds) n = S.Reference st n) ∧
      (∀ c ∈ cmds, S.Reference (applyAll S st cmds) c.Name =
        (if c.Action = Action.Delete then Except.error ErrReferenceNotFound
         else Except.ok (NewHashReference c.Name c.New))) := by
  induction cmds with
  | nil => intro st _ _; simp [firstFailure, expectedStatuses, applyAll]
  | cons c cs ih =>
    intro st hnd hpre
    simp only [List.map_cons, List.nodup_cons] at hnd
    obtain ⟨herr, hframe, hval⟩ := command_ok S hW hF st c (hpre c (List.mem_cons_self _ _))
    have hne : ∀ x ∈ cs, x.Name ≠ c.Name := fun x hx hxc =>
      hnd.1 (hxc ▸ List.mem_map_of_mem Command.Name hx)
    have hpre1 : ∀ x ∈ cs, existencePrecondition S (commandEffect S st c) x := by
      intro x hx
      have h0 := hpre x (List.mem_cons_of_mem _ hx)
      unfold existencePrecondition at h0 ⊢
      rw [referenceExists_congr S st (commandEffect S st c) x.Name (hframe _ (hne x hx))]
      exact h0
    obtain ⟨i1, i2, i3, i4⟩ := ih (commandEffect S st c) hnd.2 hpre1
    refine ⟨?_, ?_, ?_, ?_⟩
    · simp [firstFailure, herr, i1]
    · simp [expectedStatuses, herr, i2, statusText]
    · intro n hn
      simp only [List.map_cons, List.mem_cons, not_or] at hn
      simp only [applyAll]
      rw [i3 n hn.2, hframe n hn.1]
    · intro x hx
      simp only [applyAll]
      rcases List.mem_cons.1 hx with rfl | hx
      · rw [i3 _ hnd.1, hval]
      · exact i4 x hx

/-- C3: for a request whose unpack step succeeds and whose commands are
creates, deletes and updates on pairwise distinct names, each with its
existence precondition holding in the storage (create: absent; delete and
update: present), on a storer whose writes succeed: `ReceivePack` returns a
nil error and a report with unpack status `ok` and status `ok` for every
command, and afterwards each created or updated reference points to the new
OID of its command and each deleted reference is absent. -/
theorem ReceivePack_mix_ok {σ : Type} (S : ReferenceStorer σ) (hW : WritesSucceed S)
    (hF : WritesFramed S) (st st1 : σ) (req : ReferenceUpdateRequest σ)
    (hunpack : writePackfile st req.Packfile = (st1, none))
    (hnd : (req.Commands.map Command.Name).Nodup)
    (hpre : ∀ c ∈ req.Commands, existencePrecondition S st1 c) :
    (ReceivePack S st req).2.2 = none ∧
    (∃ rs, (ReceivePack S st req).2.1 = some rs ∧ rs.UnpackStatus = "ok" ∧
      rs.CommandStatuses.Perm
        (req.Commands.map (fun c => { ReferenceName := c.Name, Status := "ok" }))) ∧
    (∀ c ∈ req.Commands, S.Reference (ReceivePack S st req).1 c.Name =
      (if c.Action = Action.Delete then Except.error ErrReferenceNotFound
       else Except.ok (NewHashReference c.Name c.New))) := by
  obtain ⟨m1, m2, _, m4⟩ := applyAll_mix S hW hF req.Commands st1 hnd hpre
  obtain ⟨k1, k2⟩ := updateReferences_state_firstErr S req.Commands emptyStatus st1
  have hst := updateReferences_statuses S req.Commands emptyStatus st1 hnd
    (fun c hc => existencePrecondition_valid S st1 c (hpre c hc)) (by simp [emptyStatus])
  rw [ReceivePack_of_unpack_ok S st st1 req hunpack]
  refine ⟨?_, ⟨_, rfl, ?_, ?_⟩, ?_⟩
  · rw [k2, m1]; rfl
  · rw [reportStatus_unpack, updateReferences_unpackErr]; rfl
  · rw [hst, m2]; simp [reportStatus_statuses, emptyStatus]
  · intro c hc
    simp only [k1]
    exact m4 c hc

/-- Witness for C3: the three commands of scenario 5 on a storage in which
`refs/heads/new` is absent and `refs/heads/old`, `refs/heads/main` exist. -/
theorem ReceivePack_mix_ok_witness :
    (memStorer.Reference (ReceivePack memStorer exampleRefs exampleMix).1 "refs/heads/new" =
        Except.ok (NewHashReference "refs/heads/new" 5) ∧
      memStorer.Reference (ReceivePack memStorer exampleRefs exampleMix).1 "refs/heads/old" =
        Except.error ErrReferenceNotFound ∧
      memStorer.Reference (ReceivePack memStorer exampleRefs exampleMix).1 "refs/heads/main" =
        Except.ok (NewHashReference "refs/heads/main" 2)) ∧
    ((ReceivePack memStorer exampleRefs exampleMix).2.2 = none ∧
    (∃ rs, (ReceivePack memStorer exampleRefs exampleMix).2.1 = some rs ∧
      rs.UnpackStatus = "ok" ∧
      rs.CommandStatuses.Perm
        (exampleMix.Commands.map (fun c => { ReferenceName := c.Name, Status := "ok" }))) ∧
    (∀ c ∈ exampleMix.Commands,
      memStorer.Reference (ReceivePack memStorer exampleRefs exampleMix).1 c.Name =
        (if c.Action = Action.Delete then Except.error ErrReferenceNotFound
         else Except.ok (NewHashReference c.Name c.New)))) :=
  ⟨⟨rfl, rfl, rfl⟩,
    ReceivePack_mix_ok memStorer memStorer_writesSucceed memStorer_writesFramed exampleRefs
      exampleRefs exampleMix rfl (by decide) (by decide)⟩

/-! ### No comparison with the old OID -/

/-- C7, as amended: `ReceivePack` checks only that the reference exists, not
that its value equals the old OID of the command.  An update or delete
command on an existing reference (whatever its current value `cur`) performs
its write or removal; and on a storer whose writes succeed, two update
commands with the same name applied one after the other to an existing
reference both succeed: the error is nil, the report holds the status `ok`
for the name, and the reference ends at the new OID of the second command. -/
theorem ReceivePack_old_not_compared {σ : Type} (S : ReferenceStorer σ) (hW : WritesSucceed S)
    (st : σ) (caps : CapabilityList) (c c1 c2 : Command) (cur cur1 : Reference)
    (hc : c.Action = Action.Update ∨ c.Action = Action.Delete)
    (hcur : S.Reference st c.Name = Except.ok cur)
    (h1 : c1.Action = Action.Update) (h2 : c2.Action = Action.Update)
    (hn : c2.Name = c1.Name) (hcur1 : S.Reference st c1.Name = Except.ok cur1) :
    (ReceivePack S st { Capabilities := caps, Commands := [c], Packfile := none }).1 =
      (if c.Action = Action.Delete then (S.RemoveReference st c.Name).1
       else (S.SetReference st (NewHashReference c.Name c.New)).1) ∧
    commandError S st c1 = none ∧
    commandError S (commandEffect S st c1) c2 = none ∧
    (ReceivePack S st { Capabilities := caps, Commands := [c1, c2], Packfile := none }).2 =
      (some { UnpackStatus := "ok", CommandStatuses := [⟨c1.Name, "ok"⟩] }, none) ∧
    S.Reference
      (ReceivePack S st { Capabilities := caps, Commands := [c1, c2], Packfile := none }).1
      c1.Name = Except.ok (NewHashReference c1.Name c2.New) := by
  have e0 : referenceExists S st c.Name = (true, none) := by
    simp [referenceExists, hcur]
  have e1 : referenceExists S st c1.Name = (true, none) := by
    simp [referenceExists, hcur1]
  have hset := hW.get_set st (NewHashReference c1.Name c1.New)
  simp only [NewHashReference] at hset
  have e2 : referenceExists S (S.SetReference st (NewHashReference c1.Name c1.New)).1 c1.Name =
      (true, none) := by
    simp [referenceExists, NewHashReference, hset]
  have hset2 := hW.get_set (S.SetReference st (NewHashReference c1.Name c1.New)).1
    (NewHashReference c1.Name c2.New)
  simp only [NewHashReference] at hset2 e2
  have b1 : bodyOutcome S st c1 =
      (some none, (S.SetReference st (NewHashReference c1.Name c1.New)).1) := by
    simp [bodyOutcome, e1, h1, hW.set_ok]
  have b2 : bodyOutcome S (S.SetReference st (NewHashReference c1.Name c1.New)).1 c2 =
      (some none, (S.SetReference (S.SetReference st (NewHashReference c1.Name c1.New)).1
        (NewHashReference c1.Name c2.New)).1) := by
    simp [bodyOutcome, hn, NewHashReference, e2, h2, hW.set_ok]
  have r1 := ReceivePack_of_unpack_ok S st st
    { Capabilities := caps, Commands := [c], Packfile := none } rfl
  have r2 := ReceivePack_of_unpack_ok S st st
    { Capabilities := caps, Commands := [c1, c2], Packfile := none } rfl
  have u2 : updateReferences S emptyStatus st [c1, c2] =
      (setStatus (setStatus emptyStatus c1.Name none) c1.Name none,
        (S.SetReference (S.SetReference st (NewHashReference c1.Name c1.New)).1
          (NewHashReference c1.Name c2.New)).1) := by
    rw [updateReferences_cons, b1]
    simp only []
    rw [updateReferences_cons, b2, hn]
    rfl
  refine ⟨?_, ?_, ?_, ?_, ?_⟩
  · rw [r1]
    simp only []
    rw [updateReferences_cons]
    simp only [updateReferences]
    rcases hc with hA | hA <;> simp [bodyOutcome, e0, hA]
  · rw [commandError_eq, b1]
  · rw [commandError_eq, commandEffect_eq, b1, b2]
  · rw [r2]
    simp only [u2, reportStatus_eq, setStatus_cmdStatus, setStatus_unpackErr,
      setStatus_firstErr]
    simp [emptyStatus, mapSet, statusText]
  · rw [r2]
    simp only [u2]
    simpa [NewHashReference] using hset2

/-- Witness for C7 as amended, on the in-memory storer with
`refs/heads/main` stored at OID 1. -/
theorem ReceivePack_old_not_compared_witness :
    (ReceivePack memStorer exampleRefs
        { Capabilities := NewList, Commands := [⟨"refs/heads/main", 9, 2⟩],
          Packfile := none }).1 =
      (if (⟨"refs/heads/main", 9, 2⟩ : Command).Action = Action.Delete then
        (memStorer.RemoveReference exampleRefs "refs/heads/main").1
       else (memStorer.SetReference exampleRefs (NewHashReference "refs/heads/main" 2)).1) ∧
    commandError memStorer exampleRefs ⟨"refs/heads/main", 1, 2⟩ = none ∧
    commandError memStorer (commandEffect memStorer exampleRefs ⟨"refs/heads/main", 1, 2⟩)
      ⟨"refs/heads/main", 1, 3⟩ = none ∧
    (ReceivePack memStorer exampleRefs
        { Capabilities := NewList,
          Commands := [⟨"refs/heads/main", 1, 2⟩, ⟨"refs/heads/main", 1, 3⟩],
          Packfile := none }).2 =
      (some { UnpackStatus := "ok", CommandStatuses := [⟨"refs/heads/main", "ok"⟩] }, none) ∧
    memStorer.Reference
      (ReceivePack memStorer exampleRefs
        { Capabilities := NewList,
          Commands := [⟨"refs/heads/main", 1, 2⟩, ⟨"refs/heads/main", 1, 3⟩],
          Packfile := none }).1
      "refs/heads/main" = Except.ok (NewHashReference "refs/heads/main" 3) :=
  ReceivePack_old_not_compared memStorer memStorer_writesSucceed exampleRefs NewList
    ⟨"refs/heads/main", 9, 2⟩ ⟨"refs/heads/main", 1, 2⟩ ⟨"refs/heads/main", 1, 3⟩
    (NewHashReference "refs/heads/main" 1) (NewHashReference "refs/heads/main" 1)
    (Or.inl (by decide)) rfl (by decide) (by decide) rfl rfl

/-- C7 fails as stated: with `refs/heads/main` stored at OID 1, the two
updates `(main, 1, 2)` and `(main, 1, 3)` applied one after the other both
succeed, the second although the reference is then at 2 and not at its old
OID 1; and an update whose old OID 9 is not the stored OID takes effect. -/
theorem ReceivePack_not_compare_and_set :
    (commandError memStorer exampleRefs ⟨"refs/heads/main", 1, 2⟩ = none ∧
      mapGet (commandEffect memStorer exampleRefs ⟨"refs/heads/main", 1, 2⟩) "refs/heads/main" =
        some (NewHashReference "refs/heads/main" 2) ∧
      commandError memStorer (commandEffect memStorer exampleRefs ⟨"refs/heads/main", 1, 2⟩)
        ⟨"refs/heads/main", 1, 3⟩ = none ∧
      (ReceivePack memStorer exampleRefs exampleTwoUpdates).2.2 = none ∧
      mapGet (ReceivePack memStorer exampleRefs exampleTwoUpdates).1 "refs/heads/main" =
        some (NewHashReference "refs/heads/main" 3)) ∧
    (mapGet exampleRefs "refs/heads/main" = some (NewHashReference "refs/heads/main" 1) ∧
      (ReceivePack memStorer exampleRefs exampleStaleUpdate).2.2 = none ∧
      mapGet (ReceivePack memStorer exampleRefs exampleStaleUpdate).1 "refs/heads/main" =
        some (NewHashReference "refs/heads/main" 2)) := by
  decide

/-! ### Capability check of the receive-pack service -/

theorem checkSupportedCapabilitiesLoop_isSome (cur : CapabilityList) (l : List Capability) :
    (checkSupportedCapabilitiesLoop cur l).isSome ↔ ∃ c ∈ l, cur.Supports c = false := by
  induction l with
  | nil => simp [checkSupportedCapabilitiesLoop]
  | cons c rest ih =>
    unfold checkSupportedCapabilitiesLoop
    cases h : cur.Supports c <;> simp [h, ih]

/-- C8: `checkSupportedCapabilities(cur, req)` returns an error if and only
if some capability of `req` is not supported by `cur`; and when the decoded
receive-pack request asks for a capability that the advertisement built by
the server does not support, `ServeReceivePack` returns an error with the
storer state unchanged, and with the same outcome whatever function stands
in the place of `ReceivePack`, which is therefore not invoked. -/
theorem ServeReceivePack_unsupported_capability {σ : Type} (S : ReferenceStorer σ)
    (cur reqCaps : CapabilityList) (cmd : ServerCommand σ) (st : σ) (ar : AdvRefs)
    (req : ReferenceUpdateRequest σ) :
    ((checkSupportedCapabilities cur reqCaps).isSome ↔
      ∃ c ∈ reqCaps.All, cur.Supports c = false) ∧
    (advertiseReferences S st true = Except.ok ar →
      cmd.DecodeRequest = Except.ok req →
      (∃ c ∈ req.Capabilities.All, ar.Capabilities.Supports c = false) →
      ∃ e, ServeReceivePack S cmd st = (st, some e) ∧
        ∀ receive, ServeReceivePackWith S receive cmd st = (st, some e)) := by
  refine ⟨checkSupportedCapabilitiesLoop_isSome cur reqCaps.All, ?_⟩
  intro had hdec hcap
  have hchk := (checkSupportedCapabilitiesLoop_isSome ar.Capabilities req.Capabilities.All).2 hcap
  obtain ⟨e0, he0⟩ := Option.isSome_iff_exists.1 hchk
  have he1 : checkSupportedCapabilities ar.Capabilities req.Capabilities = some e0 := he0
  cases henc : cmd.EncodeAdvRefs ar with
  | some err =>
    refine ⟨Errorf ("error in advertised references encoding: " ++ err.Error), ?_, ?_⟩
    · simp only [ServeReceivePack, ServeReceivePackWith, had, henc]
    · intro receive
      simp only [ServeReceivePackWith, had, henc]
  | none =>
    refine ⟨e0, ?_, ?_⟩
    · simp only [ServeReceivePack, ServeReceivePackWith, had, henc, hdec, he1]
    · intro receive
      simp only [ServeReceivePackWith, had, henc, hdec, he1]

/-- Witness for C8: a request that asks for `side-band-64k` on a push
advertisement, which carries `agent`, `ofs-delta`, `delete-refs` and
`report-status`. -/
theorem ServeReceivePack_unsupported_capability_witness :
    ∃ e, ServeReceivePack memStorer exampleUnsupported exampleRefs = (exampleRefs, some e) ∧
      ∀ receive, ServeReceivePackWith memStorer receive exampleUnsupported exampleRefs =
        (exampleRefs, some e) :=
  (ServeReceivePack_unsupported_capability memStorer NewList NewList exampleUnsupported
    exampleRefs
    { Head := none,
      Capabilities := ⟨[("agent", ["go-git/5.x"]), ("ofs-delta", []), ("delete-refs", []),
        ("report-status", [])]⟩,
      References := [("refs/heads/old", 7), ("refs/heads/main", 1)],
      Peeled := [], Shallows := [] }
    { Capabilities := ⟨[("report-status", []), ("side-band-64k", [])]⟩,
      Commands := [⟨"refs/heads/new", 0, 5⟩],
      Packfile := some goodPack }).2 rfl rfl ⟨"side-band-64k", by decide, by decide⟩

/-! ### The client's capability filter -/

theorem Supports_Delete (l : CapabilityList) (c d : Capability) :
    (l.Delete c).Supports d = (!decide (d = c) && l.Supports d) := by
  obtain ⟨es⟩ := l
  simp only [CapabilityList.Delete, CapabilityList.Supports]
  induction es with
  | nil => simp
  | cons e rest ih =>
    by_cases hc : e.1 = c
    · by_cases hd : e.1 = d
      · have hdc : d = c := hd ▸ hc
        simp [List.filter_cons, hc, ih, hdc]
      · have hcd : ¬ c = d := fun h => hd (hc.trans h)
        simp [List.filter_cons, hc, ih, hcd]
    · by_cases hd : e.1 = d
      · have hdc : ¬ d = c := fun h => hc (hd.trans h)
        simp [List.filter_cons, hc, hd, hdc]
      · simp [List.filter_cons, hc, hd, ih]

theorem Supports_deleteAll (cs : List Capability) :
    ∀ (l : CapabilityList) (d : Capability),
      (deleteAll l cs).Supports d = (!decide (d ∈ cs) && l.Supports d) := by
  induction cs with
  | nil => intro l d; simp [deleteAll]
  | cons c rest ih =>
    intro l d
    simp only [deleteAll, ih, Supports_Delete, List.mem_cons]
    by_cases h1 : d = c <;> by_cases h2 : d ∈ rest <;> simp [h1, h2]

/-- C9: after `FilterUnsupportedCapabilities` a capability list supports
none of `multi_ack`, `multi_ack_detailed` and `thin-pack` (and supports every
other capability exactly when it did before); and the response of a
successful `Handshake`, which is also the response stored in the session,
carries an advertisement whose capabilities have been filtered this way. -/
theorem FilterUnsupportedCapabilities_spec (L : CapabilityList) (p : packSession)
    (connect : String → Except GoError Connection) (forPush : Bool) :
    ((FilterUnsupportedCapabilities L).Supports MultiACK = false ∧
      (FilterUnsupportedCapabilities L).Supports MultiACKDetailed = false ∧
      (FilterUnsupportedCapabilities L).Supports ThinPack = false ∧
      ∀ d, d ∉ UnsupportedCapabilities →
        (FilterUnsupportedCapabilities L).Supports d = L.Supports d) ∧
    (∀ p1 resp, p.Handshake connect forPush = (p1, Except.ok resp) →
      p1.srvrsp = some resp ∧
      resp.Capabilities.Supports MultiACK = false ∧
      resp.Capabilities.Supports MultiACKDetailed = false ∧
      resp.Capabilities.Supports ThinPack = false ∧
      ∃ ar0 conn, connect (if forPush then ReceivePackServiceName else UploadPackServiceName) =
          Except.ok conn ∧ conn.DecodeAdvRefs = Except.ok ar0 ∧
        resp.Capabilities = FilterUnsupportedCapabilities ar0.Capabilities ∧
        resp.AdvRefs = some { ar0 with
          Capabilities := FilterUnsupportedCapabilities ar0.Capabilities }) := by
  have hf : ∀ (l : CapabilityList),
      (FilterUnsupportedCapabilities l).Supports MultiACK = false ∧
      (FilterUnsupportedCapabilities l).Supports MultiACKDetailed = false ∧
      (FilterUnsupportedCapabilities l).Supports ThinPack = false := by
    intro l
    simp [FilterUnsupportedCapabilities, Supports_deleteAll, UnsupportedCapabilities]
  refine ⟨⟨(hf L).1, (hf L).2.1, (hf L).2.2, ?_⟩, ?_⟩
  · intro d hd
    simp [FilterUnsupportedCapabilities, Supports_deleteAll, hd]
  · intro p1 resp h
    unfold packSession.Handshake at h
    simp only [] at h
    cases hc : connect (if forPush then ReceivePackServiceName else UploadPackServiceName) with
    | error err => rw [hc] at h; simp at h
    | ok conn =>
      rw [hc] at h
      simp only [] at h
      cases hp : conn.PeekPacketString with
      | error err => rw [hp] at h; simp at h
      | ok pkt =>
        rw [hp] at h
        simp only [] at h
        cases hd : conn.DecodeAdvRefs with
        | error err => rw [hd] at h; simp at h
        | ok ar0 =>
          rw [hd] at h
          simp only [] at h
          by_cases he : (!forPush && ar0.IsEmpty) = true
          · rw [if_pos he] at h; simp at h
          · rw [if_neg he] at h
            simp only [Prod.mk.injEq, Except.ok.injEq] at h
            obtain ⟨h1, h2⟩ := h
            subst h2
            subst h1
            exact ⟨rfl, (hf _).1, (hf _).2.1, (hf _).2.2, ar0, conn, rfl, hd, rfl, rfl⟩

/-- Witness for C9: a handshake on a connection whose advertisement carries
`multi_ack`, `multi_ack_detailed` and `thin-pack` (twice). -/
theorem FilterUnsupportedCapabilities_spec_witness :
    ({ conn := none, service := "", srvrsp := none } : packSession).Handshake
        (fun _ => Except.ok exampleConnection) false =
      ({ conn := some exampleConnection, service := "git-upload-pack",
         srvrsp := some
          { Version := 1, Capabilities := ⟨[("ofs-delta", [])]⟩,
            AdvRefs := some { NewAdvRefs with
              Capabilities := ⟨[("ofs-delta", [])]⟩,
              References := [("refs/heads/main", 1)] } } },
       Except.ok
          { Version := 1, Capabilities := ⟨[("ofs-delta", [])]⟩,
            AdvRefs := some { NewAdvRefs with
              Capabilities := ⟨[("ofs-delta", [])]⟩,
              References := [("refs/heads/main", 1)] } }) ∧
    (({ Version := 1, Capabilities := ⟨[("ofs-delta", [])]⟩,
        AdvRefs := some { NewAdvRefs with
          Capabilities := ⟨[("ofs-delta", [])]⟩,
          References := [("refs/heads/main", 1)] } } : ServiceResponse).Capabilities.Supports
      ThinPack = false) :=
  ⟨rfl,
    (((FilterUnsupportedCapabilities_spec NewList
      ({ conn := none, service := "", srvrsp := none } : packSession)
      (fun _ => Except.ok exampleConnection) false).2 _ _ rfl).2.2.2.1)⟩

/-! ### The exact-SHA1 gate of fetch -/

theorem containsIsExact_eq (refs : List RefSpec) :
    ∀ acc : Bool, containsIsExact acc refs = (acc || refs.any (fun s => s.IsExactSHA1)) := by
  induction refs with
  | nil => intro acc; simp [containsIsExact]
  | cons r rest ih =>
    intro acc
    simp only [containsIsExact, ih, List.any_cons]
    cases r.IsExactSHA1 <;> cases acc <;> simp

theorem setCapability_ok (req : UploadPackRequest) (c : Capability) :
    ∃ r, req.setCapability c = Except.ok r := by
  unfold UploadPackRequest.setCapability CapabilityList.Set
  by_cases h : req.Capabilities.Supports c = true <;> simp [h]

theorem newUploadPackRequest_ok (fromCapabilities : CapabilityList → UploadPackRequest)
    (o : FetchOptions) (ar : AdvRefs) :
    ∃ req, newUploadPackRequest fromCapabilities o ar = Except.ok req := by
  unfold newUploadPackRequest
  have step : ∀ (b : Bool) (r : UploadPackRequest) (c : Capability),
      ∃ r1, (if b = true then r.setCapability c else Except.ok r) = Except.ok r1 := by
    intro b r c
    cases b
    · exact ⟨r, rfl⟩
    · simpa using setCapability_ok r c
  have step0 : ∃ r1, (if o.Depth ≠ 0 then
      ({ fromCapabilities ar.Capabilities with Depth := o.Depth }).setCapability Shallow
      else Except.ok (fromCapabilities ar.Capabilities)) = Except.ok r1 := by
    by_cases hd : o.Depth ≠ 0
    · rw [if_pos hd]; exact setCapability_ok _ _
    · rw [if_neg hd]; exact ⟨_, rfl⟩
  obtain ⟨r1, h1⟩ := step0
  obtain ⟨r2, h2⟩ := step (o.Progress.isNone && ar.Capabilities.Supports NoProgress) r1 NoProgress
  obtain ⟨r3, h3⟩ := step (o.RefSpecs.all (fun s => s.IsWildcard) &&
    decide (o.Tags = TagMode.TagFollowing) && ar.Capabilities.Supports IncludeTag) r2 IncludeTag
  refine ⟨r3, ?_⟩
  simp only [h1, h2]
  exact h3

/-- C10: `isSupportedRefSpec(specs, ar)` returns `ErrExactSHA1NotSupported`
if and only if some spec is an exact-SHA1 spec and the advertisement
supports neither `allow-tip-sha1-in-want` nor `allow-reachable-sha1-in-want`
(and it returns no other error); in that case `Fetch`, once it has the
advertisement, returns this error with the local storage unchanged, whatever
the steps after the gate are: the wants are not computed and the session's
`UploadPack` is not called. -/
theorem isSupportedRefSpec_gate {σ : Type} (specs : List RefSpec) (ar : AdvRefs)
    (fromCapabilities : CapabilityList → UploadPackRequest) (st : σ) (o : FetchOptions) :
    (isSupportedRefSpec specs ar = some ErrExactSHA1NotSupported ↔
      (∃ s ∈ specs, s.IsExactSHA1 = true) ∧
        ar.Capabilities.Supports AllowTipSHA1InWant = false ∧
        ar.Capabilities.Supports AllowReachableSHA1InWant = false) ∧
    (∀ e, isSupportedRefSpec specs ar = some e → e = ErrExactSHA1NotSupported) ∧
    (isSupportedRefSpec o.RefSpecs ar = some ErrExactSHA1NotSupported →
      ∀ afterGate : σ → AdvRefs → UploadPackRequest → σ × Option MemRefs × Option GoError,
        Fetch fromCapabilities (Except.ok ar) afterGate st o =
          (st, none, some ErrExactSHA1NotSupported)) := by
  refine ⟨?_, ?_, ?_⟩
  · unfold isSupportedRefSpec
    rw [containsIsExact_eq]
    cases h1 : specs.any (fun s => s.IsExactSHA1) <;>
      cases h2 : ar.Capabilities.Supports AllowReachableSHA1InWant <;>
      cases h3 : ar.Capabilities.Supports AllowTipSHA1InWant <;>
      simp_all
  · intro e h
    unfold isSupportedRefSpec at h
    split at h
    · simp at h
    · split at h
      · simp at h
      · exact (Option.some.inj h).symm
  · intro h afterGate
    obtain ⟨req, hreq⟩ := newUploadPackRequest_ok fromCapabilities o ar
    simp only [Fetch, hreq, h]

/-- Witness for C10: the exact-SHA1 refspec of scenario 2 against an
advertisement without the two capabilities. -/
theorem isSupportedRefSpec_gate_witness :
    isSupportedRefSpec exampleOptions.RefSpecs exampleAdvertisement =
      some ErrExactSHA1NotSupported ∧
    ∀ afterGate : MemRefs → AdvRefs → UploadPackRequest → MemRefs × Option MemRefs × Option GoError,
      Fetch (fun l => { Capabilities := l, Wants := [], Shallows := [], Depth := 0, Haves := [] })
        (Except.ok exampleAdvertisement) afterGate exampleRefs exampleOptions =
        (exampleRefs, none, some ErrExactSHA1NotSupported) :=
  ⟨by decide,
    (isSupportedRefSpec_gate (σ := MemRefs) [] exampleAdvertisement
      (fun l => { Capabilities := l, Wants := [], Shallows := [], Depth := 0, Haves := [] })
      exampleRefs exampleOptions).2.2 (by decide)⟩

/-! ### Empty repositories -/

theorem Add_snd (l : CapabilityList) (c : Capability) (values : List String) :
    (l.Add c values).2 = none := by
  unfold CapabilityList.Add
  split <;> rfl

theorem setHEAD_snd (σ : Type) (S : ReferenceStorer σ) (st : σ) (ar ar1 : AdvRefs) :
    (setHEAD S st ar).2 = (setHEAD S st ar1).2 := by
  unfold setHEAD
  cases hH : S.Reference st HEAD with
  | error err => by_cases he : err = ErrReferenceNotFound <;> simp [he]
  | ok ref =>
    by_cases hs : ref.t = ReferenceType.SymbolicReference
    · simp only [hs, if_true, AdvRefs.AddReference, Add_snd]
      cases hR : ResolveReference S st ref.target with
      | error err => by_cases he : err = ErrReferenceNotFound <;> simp [he]
      | ok ref1 => by_cases h1 : ref1.t = ReferenceType.HashReference <;> simp [h1]
    · by_cases h1 : ref.t = ReferenceType.HashReference <;> simp [hs, h1]

theorem setHEAD_References (σ : Type) (S : ReferenceStorer σ) (st : σ) (ar : AdvRefs) :
    (setHEAD S st ar).1.References = ar.References := by
  unfold setHEAD
  cases hH : S.Reference st HEAD with
  | error err => by_cases he : err = ErrReferenceNotFound <;> simp [he]
  | ok ref =>
    by_cases hs : ref.t = ReferenceType.SymbolicReference
    · simp only [hs, if_true, AdvRefs.AddReference, Add_snd]
      cases hR : ResolveReference S st ref.target with
      | error err => by_cases he : err = ErrReferenceNotFound <;> simp [he]
      | ok ref1 => by_cases h1 : ref1.t = ReferenceType.HashReference <;> simp [h1]
    · by_cases h1 : ref.t = ReferenceType.HashReference <;> simp [hs, h1]

theorem setSupportedCapabilities_new (forPush : Bool) :
    setSupportedCapabilities NewList forPush =
      (⟨[(Agent, [DefaultAgent]), (OFSDelta, [])] ++
          (if forPush then [(DeleteRefs, []), (ReportStatusCap, [])] else [])⟩, none) := by
  cases forPush <;> rfl

theorem setReferences_fold_nohash (refs : List Reference)
    (h : ∀ r ∈ refs, r.t ≠ ReferenceType.HashReference) (ar : AdvRefs) :
    refs.foldl (fun (a : AdvRefs) ref =>
        if ref.t ≠ ReferenceType.HashReference then a
        else { a with References := mapSet a.References ref.n ref.h }) ar = ar := by
  induction refs generalizing ar with
  | nil => rfl
  | cons r rest ih =>
    have hr : r.t ≠ ReferenceType.HashReference := h r (List.mem_cons_self _ _)
    simp only [List.foldl_cons, hr, ne_eq, not_false_eq_true, if_true]
    exact ih (fun x hx => h x (List.mem_cons_of_mem _ hx)) ar

theorem advertiseReferences_eq {σ : Type} (S : ReferenceStorer σ) (st : σ) (forPush : Bool)
    (ar1 ar2 : AdvRefs)
    (h1 : setReferences S st { NewAdvRefs with
      Capabilities := (setSupportedCapabilities NewList forPush).1 } = (ar1, none))
    (h2 : setHEAD S st ar1 = (ar2, none)) :
    advertiseReferences S st forPush =
      (if !forPush && ar2.References.length == 0 then Except.error ErrEmptyRemoteRepository
       else Except.ok ar2) := by
  unfold advertiseReferences
  have hc : setSupportedCapabilities NewAdvRefs.Capabilities forPush =
      ((setSupportedCapabilities NewList forPush).1, none) := by
    rw [show NewAdvRefs.Capabilities = NewList from rfl, setSupportedCapabilities_new]
  simp only [hc, h1, h2]

/-- C11: on a storage whose reference iteration yields no hash reference and
whose `HEAD` resolution raises no error, `advertiseReferences` for fetch
fails with `ErrEmptyRemoteRepository` while for push it succeeds with an
empty reference map; and a `Handshake` that has read an advertisement `ar0`
returns `ErrEmptyRemoteRepository` when `forPush` is false and `ar0` is
empty, and a response in every other case, in particular for push. -/
theorem advertiseReferences_empty {σ : Type} (S : ReferenceStorer σ) (st : σ)
    (refs : List Reference) (hiter : S.IterReferences st = Except.ok refs)
    (hnohash : ∀ r ∈ refs, r.t ≠ ReferenceType.HashReference)
    (hhead : (setHEAD S st NewAdvRefs).2 = none) :
    advertiseReferences S st false = Except.error ErrEmptyRemoteRepository ∧
    (∃ ar, advertiseReferences S st true = Except.ok ar ∧ ar.References = []) ∧
    (∀ (p : packSession) (connect : String → Except GoError Connection) (forPush : Bool)
      (conn : Connection) (pkt : String) (ar0 : AdvRefs),
      connect (if forPush then ReceivePackServiceName else UploadPackServiceName) =
        Except.ok conn →
      conn.PeekPacketString = Except.ok pkt → conn.DecodeAdvRefs = Except.ok ar0 →
      ((forPush = false ∧ ar0.IsEmpty = true) →
        (p.Handshake connect forPush).2 = Except.error ErrEmptyRemoteRepository) ∧
      ((forPush = true ∨ ar0.IsEmpty = false) →
        ∃ resp, (p.Handshake connect forPush).2 = Except.ok resp)) := by
  have key : ∀ forPush : Bool, ∃ ar2, ar2.References = [] ∧
      advertiseReferences S st forPush =
        (if !forPush && ar2.References.length == 0 then Except.error ErrEmptyRemoteRepository
         else Except.ok ar2) := by
    intro forPush
    have h1 : setReferences S st { NewAdvRefs with
        Capabilities := (setSupportedCapabilities NewList forPush).1 } =
        ({ NewAdvRefs with Capabilities := (setSupportedCapabilities NewList forPush).1 },
          none) := by
      unfold setReferences
      rw [hiter]
      simp only [setReferences_fold_nohash refs hnohash]
    have h2e := setHEAD_snd σ S st { NewAdvRefs with
      Capabilities := (setSupportedCapabilities NewList forPush).1 } NewAdvRefs
    rw [hhead] at h2e
    have h2r := setHEAD_References σ S st { NewAdvRefs with
      Capabilities := (setSupportedCapabilities NewList forPush).1 }
    refine ⟨(setHEAD S st { NewAdvRefs with
      Capabilities := (setSupportedCapabilities NewList forPush).1 }).1, ?_, ?_⟩
    · rw [h2r]; rfl
    · exact advertiseReferences_eq S st forPush _ _ h1 (Prod.ext rfl h2e)
  refine ⟨?_, ?_, ?_⟩
  · obtain ⟨ar2, hr, he⟩ := key false
    rw [he, hr]; rfl
  · obtain ⟨ar2, hr, he⟩ := key true
    exact ⟨ar2, by rw [he]; rfl, hr⟩
  · intro p connect forPush conn pkt ar0 hc hp hd
    refine ⟨?_, ?_⟩
    · rintro ⟨hf, he⟩
      subst hf
      simp only [packSession.Handshake, hc, hp, hd, he] at hc ⊢
      simp [hc, hp, hd, he]
    · intro h
      have hne : (!forPush && ar0.IsEmpty) = false := by
        rcases h with h | h <;> simp [h]
      simp only [packSession.Handshake, hc, hp, hd, hne]
      exact ⟨_, rfl⟩

/-- Witness for C11: a repository without commits, whose `HEAD` points to
an unborn branch. -/
theorem advertiseReferences_empty_witness :
    advertiseReferences memStorer exampleUnborn false = Except.error ErrEmptyRemoteRepository ∧
    (∃ ar, advertiseReferences memStorer exampleUnborn true = Except.ok ar ∧
      ar.References = []) ∧
    (({ conn := none, service := "", srvrsp := none } : packSession).Handshake
        (fun _ => Except.ok exampleEmptyConnection) false).2 =
      Except.error ErrEmptyRemoteRepository ∧
    ∃ resp, (({ conn := none, service := "", srvrsp := none } : packSession).Handshake
        (fun _ => Except.ok exampleEmptyConnection) true).2 = Except.ok resp :=
  ⟨(advertiseReferences_empty memStorer exampleUnborn
      [NewSymbolicReference "HEAD" "refs/heads/master"] rfl (by decide) rfl).1,
   (advertiseReferences_empty memStorer exampleUnborn
      [NewSymbolicReference "HEAD" "refs/heads/master"] rfl (by decide) rfl).2.1,
   ((advertiseReferences_empty memStorer exampleUnborn
      [NewSymbolicReference "HEAD" "refs/heads/master"] rfl (by decide) rfl).2.2
      { conn := none, service := "", srvrsp := none } (fun _ => Except.ok exampleEmptyConnection)
      false exampleEmptyConnection "0000" _ rfl rfl rfl).1 ⟨rfl, rfl⟩,
   ((advertiseReferences_empty memStorer exampleUnborn
      [NewSymbolicReference "HEAD" "refs/heads/master"] rfl (by decide) rfl).2.2
      { conn := none, service := "", srvrsp := none } (fun _ => Except.ok exampleEmptyConnection)
      true exampleEmptyConnection "0000" _ rfl rfl rfl).2 (Or.inl rfl)⟩

/-! ### Contents of the server advertisement -/

theorem setReferences_eq {σ : Type} (S : ReferenceStorer σ) (st : σ) (ar : AdvRefs) :
    setReferences S st ar =
      (match S.IterReferences st with
       | Except.error err => (ar, some err)
       | Except.ok refs => (refs.foldl setReferencesStep ar, none)) := by
  unfold setReferences
  cases S.IterReferences st <;> rfl

theorem fold_setReferencesStep_Capabilities (refs : List Reference) (a : AdvRefs) :
    (refs.foldl setReferencesStep a).Capabilities = a.Capabilities := by
  induction refs generalizing a with
  | nil => rfl
  | cons r rest ih =>
    simp only [List.foldl_cons, ih]
    unfold setReferencesStep
    split <;> rfl

theorem fold_setReferencesStep_sound (refs : List Reference) :
    ∀ (a : AdvRefs) (n : String) (h : Hash),
      mapGet (refs.foldl setReferencesStep a).References n = some h →
      mapGet a.References n = some h ∨
        ∃ r ∈ refs, r.t = ReferenceType.HashReference ∧ r.n = n ∧ r.h = h := by
  induction refs with
  | nil => intro a n h hg; exact Or.inl hg
  | cons r rest ih =>
    intro a n h hg
    simp only [List.foldl_cons] at hg
    rcases ih _ n h hg with h1 | ⟨q, hq, hq1⟩
    · by_cases ht : r.t = ReferenceType.HashReference
      · simp only [setReferencesStep, ht, ne_eq, not_true_eq_false, if_false] at h1
        by_cases hn : n = r.n
        · subst hn
          rw [mapGet_mapSet] at h1
          exact Or.inr ⟨r, List.mem_cons_self _ _, ht, rfl, Option.some.inj h1⟩
        · rw [mapGet_mapSet_ne _ _ _ _ hn] at h1
          exact Or.inl h1
      · simp only [setReferencesStep, ht, ne_eq, not_false_eq_true, if_true] at h1
        exact Or.inl h1
    · exact Or.inr ⟨q, List.mem_cons_of_mem _ hq, hq1⟩

theorem fold_setReferencesStep_frame (refs : List Reference) :
    ∀ (a : AdvRefs) (n : String),
      (∀ r ∈ refs, r.t = ReferenceType.HashReference → r.n ≠ n) →
      mapGet (refs.foldl setReferencesStep a).References n = mapGet a.References n := by
  induction refs with
  | nil => intro a n _; rfl
  | cons r rest ih =>
    intro a n hn
    simp only [List.foldl_cons]
    rw [ih _ n (fun q hq => hn q (List.mem_cons_of_mem _ hq))]
    by_cases ht : r.t = ReferenceType.HashReference
    · have hne : n ≠ r.n := fun h => hn r (List.mem_cons_self _ _) ht h.symm
      simp only [setReferencesStep, ht, ne_eq, not_true_eq_false, if_false]
      exact mapGet_mapSet_ne _ _ _ _ hne
    · simp only [setReferencesStep, ht, ne_eq, not_false_eq_true, if_true]

theorem fold_setReferencesStep_complete (refs : List Reference) :
    ∀ (a : AdvRefs), (refs.map (fun r => r.n)).Nodup →
      ∀ r ∈ refs, r.t = ReferenceType.HashReference →
        mapGet (refs.foldl setReferencesStep a).References r.n = some r.h := by
  induction refs with
  | nil => intro a _ r hr; cases hr
  | cons q rest ih =>
    intro a hnd r hr ht
    simp only [List.map_cons, List.nodup_cons] at hnd
    simp only [List.foldl_cons]
    rcases List.mem_cons.1 hr with rfl | hr
    · rw [fold_setReferencesStep_frame rest _ r.n]
      · simp only [setReferencesStep, ht, ne_eq, not_true_eq_false, if_false]
        exact mapGet_mapSet _ _ _
      · intro x hx _ hxn
        exact hnd.1 (hxn ▸ List.mem_map_of_mem (fun r => r.n) hx)
    · exact ih _ hnd.2 r hr ht

theorem setHEAD_Capabilities (σ : Type) (S : ReferenceStorer σ) (st : σ) (ar : AdvRefs) :
    (setHEAD S st ar).1.Capabilities = ar.Capabilities ∨
      ∃ v, (setHEAD S st ar).1.Capabilities = (ar.Capabilities.Add SymRef [v]).1 := by
  unfold setHEAD
  cases hH : S.Reference st HEAD with
  | error err => by_cases he : err = ErrReferenceNotFound <;> simp [he]
  | ok ref =>
    by_cases hs : ref.t = ReferenceType.SymbolicReference
    · right
      refine ⟨ref.n ++ ":" ++ ref.target, ?_⟩
      simp only [hs, if_true, AdvRefs.AddReference, Add_snd]
      cases hR : ResolveReference S st ref.target with
      | error err => by_cases he : err = ErrReferenceNotFound <;> simp [he]
      | ok ref1 => by_cases h1 : ref1.t = ReferenceType.HashReference <;> simp [h1]
    · left
      by_cases h1 : ref.t = ReferenceType.HashReference <;> simp [hs, h1]

theorem advertiseReferences_ok_inv {σ : Type} (S : ReferenceStorer σ) (st : σ) (forPush : Bool)
    (ar : AdvRefs) (refs : List Reference)
    (hadv : advertiseReferences S st forPush = Except.ok ar)
    (hiter : S.IterReferences st = Except.ok refs) :
    ar = (setHEAD S st (refs.foldl setReferencesStep { NewAdvRefs with
      Capabilities := (setSupportedCapabilities NewList forPush).1 })).1 := by
  have h1 : setReferences S st { NewAdvRefs with
      Capabilities := (setSupportedCapabilities NewList forPush).1 } =
      (refs.foldl setReferencesStep { NewAdvRefs with
        Capabilities := (setSupportedCapabilities NewList forPush).1 }, none) := by
    rw [setReferences_eq, hiter]
  rcases h2 : setHEAD S st (refs.foldl setReferencesStep { NewAdvRefs with
      Capabilities := (setSupportedCapabilities NewList forPush).1 }) with ⟨ar2, _ | e⟩
  · rw [advertiseReferences_eq S st forPush _ _ h1 h2] at hadv
    split at hadv
    · cases hadv
    · exact (Except.ok.inj hadv).symm
  · unfold advertiseReferences at hadv
    have hc : setSupportedCapabilities NewAdvRefs.Capabilities forPush =
        ((setSupportedCapabilities NewList forPush).1, none) := by
      rw [show NewAdvRefs.Capabilities = NewList from rfl, setSupportedCapabilities_new]
    simp only [hc, h1, h2] at hadv
    cases hadv

/-- C12: `setSupportedCapabilities` seeds a new list with exactly
`agent=<DefaultAgent()>` and `ofs-delta`, and for push with `delete-refs` and
`report-status` in addition; the advertisement `advertiseReferences` returns
carries this list, followed by one `symref` entry when `HEAD` is symbolic;
and its reference map has an entry only for hash references of the storage,
with their OID, one for every hash reference (the names of the storage being
distinct) and none for a reference that is not a hash reference. -/
theorem advertiseReferences_contents {σ : Type} (S : ReferenceStorer σ) (st : σ)
    (forPush : Bool) (ar : AdvRefs) (refs : List Reference)
    (hadv : advertiseReferences S st forPush = Except.ok ar)
    (hiter : S.IterReferences st = Except.ok refs) :
    setSupportedCapabilities NewList false =
      (⟨[(Agent, [DefaultAgent]), (OFSDelta, [])]⟩, none) ∧
    setSupportedCapabilities NewList true =
      (⟨[(Agent, [DefaultAgent]), (OFSDelta, []), (DeleteRefs, []), (ReportStatusCap, [])]⟩,
        none) ∧
    (ar.Capabilities = (setSupportedCapabilities NewList forPush).1 ∨
      ∃ v, ar.Capabilities.entries =
        (setSupportedCapabilities NewList forPush).1.entries ++ [(SymRef, [v])]) ∧
    (∀ n h, mapGet ar.References n = some h →
      ∃ r ∈ refs, r.t = ReferenceType.HashReference ∧ r.n = n ∧ r.h = h) ∧
    ((refs.map (fun r => r.n)).Nodup →
      (∀ r ∈ refs, r.t = ReferenceType.HashReference →
        mapGet ar.References r.n = some r.h) ∧
      (∀ r ∈ refs, r.t ≠ ReferenceType.HashReference → mapGet ar.References r.n = none)) := by
  have hinv := advertiseReferences_ok_inv S st forPush ar refs hadv hiter
  have hrefs : ar.References = (refs.foldl setReferencesStep { NewAdvRefs with
      Capabilities := (setSupportedCapabilities NewList forPush).1 }).References := by
    rw [hinv, setHEAD_References]
  have hsound : ∀ n h, mapGet ar.References n = some h →
      ∃ r ∈ refs, r.t = ReferenceType.HashReference ∧ r.n = n ∧ r.h = h := by
    intro n h hg
    rw [hrefs] at hg
    rcases fold_setReferencesStep_sound refs _ n h hg with h0 | h1
    · simp [NewAdvRefs, mapGet] at h0
    · exact h1
  refine ⟨rfl, rfl, ?_, hsound, ?_⟩
  · rcases setHEAD_Capabilities σ S st (refs.foldl setReferencesStep { NewAdvRefs with
        Capabilities := (setSupportedCapabilities NewList forPush).1 }) with h | ⟨v, h⟩
    · left
      rw [hinv, h, fold_setReferencesStep_Capabilities]
    · right
      refine ⟨v, ?_⟩
      rw [hinv, h, fold_setReferencesStep_Capabilities]
      cases forPush <;> rfl
  · intro hnd
    refine ⟨?_, ?_⟩
    · intro r hr ht
      rw [hrefs]
      exact fold_setReferencesStep_complete refs _ hnd r hr ht
    · intro r hr ht
      cases hg : mapGet ar.References r.n with
      | none => rfl
      | some h =>
        exfalso
        obtain ⟨q, hq, hqt, hqn, _⟩ := hsound r.n h hg
        have hqr : q = r := by
          have hinj := List.inj_on_of_nodup_map hnd
          exact hinj hq hr hqn
        exact ht (hqr ▸ hqt)

/-- Witness for C12: the advertisement for push of a repository with two
branches and a symbolic `HEAD`. -/
theorem advertiseReferences_contents_witness :
    advertiseReferences memStorer exampleRepository true =
      Except.ok
        { Head := some 1,
          Capabilities := ⟨[("agent", ["go-git/5.x"]), ("ofs-delta", []), ("delete-refs", []),
            ("report-status", []), ("symref", ["HEAD:refs/heads/main"])]⟩,
          References := [("refs/heads/main", 1), ("refs/heads/old", 7)],
          Peeled := [], Shallows := [] } ∧
    mapGet ([("refs/heads/main", 1), ("refs/heads/old", 7)] : List (String × Hash)) "HEAD" =
      none :=
  ⟨rfl,
    ((advertiseReferences_contents memStorer exampleRepository true
      { Head := some 1,
        Capabilities := ⟨[("agent", ["go-git/5.x"]), ("ofs-delta", []), ("delete-refs", []),
          ("report-status", []), ("symref", ["HEAD:refs/heads/main"])]⟩,
        References := [("refs/heads/main", 1), ("refs/heads/old", 7)],
        Peeled := [], Shallows := [] }
      [NewSymbolicReference "HEAD" "refs/heads/main",
        NewHashReference "refs/heads/main" 1, NewHashReference "refs/heads/old" 7]
      rfl rfl).2.2.2.2 (by decide)).2 (NewSymbolicReference "HEAD" "refs/heads/main")
      (by decide) (by decide)⟩

/-! ### Reference expansion -/

theorem ExpandRefLoop_first {σ : Type} (S : ReferenceStorer σ) (st : σ) (name : ReferenceName)
    (pre : List (String → String)) :
    ∀ (ret : Option GoError) (rule : String → String) (post : List (String → String))
      (r : Reference),
      (∀ q ∈ pre, ∃ e, ResolveReference S st (q name) = Except.error e) →
      ResolveReference S st (rule name) = Except.ok r →
      ExpandRefLoop S st name ret (pre ++ rule :: post) = (some r, none) := by
  induction pre with
  | nil => intro ret rule post r _ hr; simp [ExpandRefLoop, hr]
  | cons q qs ih =>
    intro ret rule post r hpre hr
    obtain ⟨e, he⟩ := hpre q (List.mem_cons_self _ _)
    simp only [List.cons_append, ExpandRefLoop, he]
    exact ih _ rule post r (fun x hx => hpre x (List.mem_cons_of_mem _ hx)) hr

theorem ExpandRefLoop_none {σ : Type} (S : ReferenceStorer σ) (st : σ) (name : ReferenceName)
    (rules : List (String → String)) :
    ∀ (e : GoError),
      (∀ q ∈ rules, ∃ e1, ResolveReference S st (q name) = Except.error e1) →
      ExpandRefLoop S st name (some e) rules = (none, some e) := by
  induction rules with
  | nil => intro e _; rfl
  | cons q qs ih =>
    intro e hall
    obtain ⟨e1, he1⟩ := hall q (List.mem_cons_self _ _)
    simp only [ExpandRefLoop, he1]
    exact ih e (fun x hx => hall x (List.mem_cons_of_mem _ hx))

/-- C13: `ExpandRef` tries the rules identity, `refs/<n>`, `refs/tags/<n>`,
`refs/heads/<n>`, `refs/remotes/<n>`, `refs/remotes/<n>/HEAD` in this order
and returns the reference resolved by the first rule that resolves, with a
nil error; when no rule resolves it returns a nil reference and the error of
the identity rule. -/
theorem ExpandRef_spec {σ : Type} (S : ReferenceStorer σ) (st : σ) (name : ReferenceName) :
    RefRevParseRules.map (fun rule => rule name) =
      [name, "refs/" ++ name, "refs/tags/" ++ name, "refs/heads/" ++ name,
        "refs/remotes/" ++ name, "refs/remotes/" ++ name ++ "/HEAD"] ∧
    (∀ (pre : List (String → String)) (rule : String → String)
      (post : List (String → String)) (r : Reference),
      RefRevParseRules = pre ++ rule :: post →
      (∀ q ∈ pre, ∃ e, ResolveReference S st (q name) = Except.error e) →
      ResolveReference S st (rule name) = Except.ok r →
      ExpandRef S st name = (some r, none)) ∧
    (∀ e : GoError, ResolveReference S st name = Except.error e →
      (∀ q ∈ RefRevParseRules, ∃ e1, ResolveReference S st (q name) = Except.error e1) →
      ExpandRef S st name = (none, some e)) := by
  refine ⟨rfl, ?_, ?_⟩
  · intro pre rule post r hsplit hpre hr
    unfold ExpandRef
    rw [hsplit]
    exact ExpandRefLoop_first S st name pre none rule post r hpre hr
  · intro e he hall
    have hstep : ∀ rest : List (String → String),
        ExpandRefLoop S st name none ((fun n => n) :: rest) =
          ExpandRefLoop S st name (some e) rest := by
      intro rest
      simp only [ExpandRefLoop, he]
    unfold ExpandRef RefRevParseRules
    rw [hstep]
    apply ExpandRefLoop_none
    intro q hq
    exact hall q (List.mem_cons_of_mem _ hq)

/-- Witness for C13: the short name `main` is resolved by the fourth rule,
and the unknown name `gone` yields the error of the identity rule. -/
theorem ExpandRef_spec_witness :
    ExpandRef memStorer exampleRefs "main" =
      (some (NewHashReference "refs/heads/main" 1), none) ∧
    ExpandRef memStorer exampleRefs "gone" = (none, some ErrReferenceNotFound) :=
  ⟨(ExpandRef_spec memStorer exampleRefs "main").2.1
      [fun n => n, fun n => "refs/" ++ n, fun n => "refs/tags/" ++ n]
      (fun n => "refs/heads/" ++ n)
      [fun n => "refs/remotes/" ++ n, fun n => "refs/remotes/" ++ n ++ "/HEAD"]
      (NewHashReference "refs/heads/main" 1) rfl
      (by
        intro q hq
        simp only [List.mem_cons, List.mem_singleton, List.not_mem_nil, or_false] at hq
        rcases hq with rfl | rfl | rfl <;> exact ⟨ErrReferenceNotFound, rfl⟩)
      rfl,
   (ExpandRef_spec memStorer exampleRefs "gone").2.2 ErrReferenceNotFound rfl
      (by
        intro q hq
        simp only [RefRevParseRules, List.mem_cons, List.mem_singleton, List.not_mem_nil,
          or_false] at hq
        rcases hq with rfl | rfl | rfl | rfl | rfl | rfl <;> exact ⟨ErrReferenceNotFound, rfl⟩)⟩

/-! ### Selection of the references to fetch -/

theorem calculateRefsLoop_pre {σ : Type} (S : ReferenceStorer σ) (st : σ)
    (pre rest : List RefSpec) :
    ∀ (refs : MemRefs) (acc : List (List Reference)),
      (∀ q ∈ pre, ∀ m, (doCalculateRefs S st q m).2.2 = none) →
      ∃ refs1 acc1, calculateRefsLoop S st refs acc (pre ++ rest) =
        calculateRefsLoop S st refs1 acc1 rest := by
  induction pre with
  | nil => intro refs acc _; exact ⟨refs, acc, rfl⟩
  | cons q qs ih =>
    intro refs acc h
    have hq := h q (List.mem_cons_self _ _) refs
    rcases hd : doCalculateRefs S st q refs with ⟨l, refs1, e⟩
    rw [hd] at hq
    simp only at hq
    subst hq
    simp only [List.cons_append, calculateRefsLoop, hd]
    exact ih refs1 (acc ++ [l]) (fun x hx => h x (List.mem_cons_of_mem _ hx))

theorem forEachReference_unmatched {σ : Type} (S : ReferenceStorer σ) (st : σ) (s : RefSpec)
    (l : List Reference) (h : ∀ r ∈ l, s.Match r.n = false) (cs : calcState) :
    forEachReference (fun cs ref =>
      if !s.Match ref.n then (cs, none) else onMatched S st cs ref) cs l = (cs, none) := by
  induction l with
  | nil => rfl
  | cons r rest ih =>
    have hr := h r (List.mem_cons_self _ _)
    simp only [forEachReference, hr, Bool.not_false, if_true]
    exact ih (fun x hx => h x (List.mem_cons_of_mem _ hx))

/-- C14: for a refspec that is neither a wildcard nor an exact-SHA1 spec and
whose source `ExpandRef` fails to expand, `doCalculateRefs` returns the
`NoMatchingRefSpecError` of this refspec, whatever the error of the
expansion was, and so does `calculateRefs` when the specs before it select
without error; for a wildcard spec that matches no remote reference
`doCalculateRefs` returns the empty list without error, and so does
`calculateRefs`. -/
theorem calculateRefs_no_match {σ : Type} (S : ReferenceStorer σ) (st : σ) (s : RefSpec)
    (refs : MemRefs) (pre post : List RefSpec) (tagMode : TagMode) :
    (s.IsWildcard = false → s.IsExactSHA1 = false →
      (∃ e, (ExpandRef S st s.Src).2 = some e) →
      doCalculateRefs S st s refs = ([], refs, some (NoMatchingRefSpecError s)) ∧
      ((∀ q ∈ pre, ∀ m, (doCalculateRefs S st q m).2.2 = none) →
        calculateRefs S st (pre ++ s :: post) tagMode =
          Except.error (NoMatchingRefSpecError s))) ∧
    (s.IsWildcard = true → s.IsExactSHA1 = false →
      ∀ l, S.IterReferences st = Except.ok l → (∀ r ∈ l, s.Match r.n = false) →
      doCalculateRefs S st s refs = ([], refs, none) ∧
      (tagMode ≠ TagMode.AllTags → calculateRefs S st [s] tagMode = Except.ok ([], [[]]))) := by
  refine ⟨?_, ?_⟩
  · intro hw hx ⟨e, he⟩
    have hdo : ∀ m, doCalculateRefs S st s m = ([], m, some (NoMatchingRefSpecError s)) := by
      intro m
      rcases hE : ExpandRef S st s.Src with ⟨o, e1⟩
      rw [hE] at he
      simp only at he
      subst he
      simp [doCalculateRefs, hw, hx, hE]
    refine ⟨hdo refs, ?_⟩
    intro hpre
    unfold calculateRefs
    have hsplit : (if tagMode = TagMode.AllTags then (pre ++ s :: post) ++ [refspecAllTags]
        else pre ++ s :: post) =
        pre ++ s :: (if tagMode = TagMode.AllTags then post ++ [refspecAllTags] else post) := by
      split <;> simp
    rw [hsplit]
    obtain ⟨refs1, acc1, h1⟩ := calculateRefsLoop_pre S st pre
      (s :: (if tagMode = TagMode.AllTags then post ++ [refspecAllTags] else post)) [] [] hpre
    rw [h1]
    simp only [calculateRefsLoop, hdo]
  · intro hw hx l hl hm
    have hdo : ∀ m, doCalculateRefs S st s m = ([], m, none) := by
      intro m
      unfold doCalculateRefs
      simp only [hx, hw, hl, Bool.false_eq_true, if_false, if_true,
        forEachReference_unmatched S st s l hm]
    refine ⟨hdo refs, ?_⟩
    intro ht
    simp [calculateRefs, ht, calculateRefsLoop, hdo]

/-- Witness for C14: the source `nope` expands to no remote reference, and
the wildcard `refs/pull/*` matches none. -/
theorem calculateRefs_no_match_witness :
    (doCalculateRefs memStorer exampleRemote exampleMissingSpec [] =
        ([], [], some (NoMatchingRefSpecError exampleMissingSpec)) ∧
      calculateRefs memStorer exampleRemote ([exampleHeadsSpec] ++ exampleMissingSpec :: [])
        TagMode.TagFollowing = Except.error (NoMatchingRefSpecError exampleMissingSpec)) ∧
    (doCalculateRefs memStorer exampleRemote examplePullSpec [] = ([], [], none) ∧
      calculateRefs memStorer exampleRemote [examplePullSpec] TagMode.TagFollowing =
        Except.ok ([], [[]])) :=
  ⟨⟨((calculateRefs_no_match memStorer exampleRemote exampleMissingSpec [] [exampleHeadsSpec] []
        TagMode.TagFollowing).1 rfl rfl ⟨ErrReferenceNotFound, rfl⟩).1,
     ((calculateRefs_no_match memStorer exampleRemote exampleMissingSpec [] [exampleHeadsSpec] []
        TagMode.TagFollowing).1 rfl rfl ⟨ErrReferenceNotFound, rfl⟩).2
        (by
          intro q hq m
          rw [List.mem_singleton.1 hq]
          rfl)⟩,
   ⟨((calculateRefs_no_match memStorer exampleRemote examplePullSpec [] [] []
        TagMode.TagFollowing).2 rfl rfl
        [NewHashReference "refs/heads/main" 1, NewHashReference "refs/tags/v1" 3,
          NewSymbolicReference "refs/heads/link" "refs/heads/main"] rfl (by decide)).1,
     ((calculateRefs_no_match memStorer exampleRemote examplePullSpec [] [] []
        TagMode.TagFollowing).2 rfl rfl
        [NewHashReference "refs/heads/main" 1, NewHashReference "refs/tags/v1" 3,
          NewSymbolicReference "refs/heads/link" "refs/heads/main"] rfl (by decide)).2
        (by decide)⟩⟩

theorem forEachReference_select {σ : Type} (S : ReferenceStorer σ) (st : σ) (s : RefSpec)
    (l : List Reference) :
    (∀ r ∈ l, s.Match r.n = true → r.t = ReferenceType.SymbolicReference →
      ∃ t, ResolveReference S st r.n = Except.ok t) →
    ∀ cs : calcState,
      (forEachReference (fun cs ref =>
        if !s.Match ref.n then (cs, none) else onMatched S st cs ref) cs l).1.refList =
          cs.refList ++ selectWildcard S st s l ∧
      (forEachReference (fun cs ref =>
        if !s.Match ref.n then (cs, none) else onMatched S st cs ref) cs l).2 = none := by
  induction l with
  | nil => intro _ cs; simp [forEachReference, selectWildcard]
  | cons r rest ih =>
    intro hres cs
    have ih1 := ih (fun x hx => hres x (List.mem_cons_of_mem _ hx))
    by_cases hm : s.Match r.n = true
    · by_cases hs : r.t = ReferenceType.SymbolicReference
      · obtain ⟨t, ht⟩ := hres r (List.mem_cons_self _ _) hm hs
        have hcb : onMatched S st cs r =
            ({ matched := true, refList := cs.refList ++ [NewHashReference r.n t.h],
               refs := (memStorer.SetReference cs.refs (NewHashReference r.n t.h)).1 }, none) := by
          simp [onMatched, hs, ht, NewHashReference, memStorer]
        have hsel : selectWildcard S st s (r :: rest) =
            NewHashReference r.n t.h :: selectWildcard S st s rest := by
          simp [selectWildcard, List.filterMap_cons, hm, hs, ht]
        simp only [forEachReference, hm, Bool.not_true, Bool.false_eq_true, if_false, hcb, hsel]
        obtain ⟨i1, i2⟩ := ih1 ⟨true, cs.refList ++ [NewHashReference r.n t.h],
          (memStorer.SetReference cs.refs (NewHashReference r.n t.h)).1⟩
        exact ⟨by rw [i1]; simp, i2⟩
      · by_cases hh : r.t = ReferenceType.HashReference
        · have hcb : onMatched S st cs r =
              ({ matched := true, refList := cs.refList ++ [r],
                 refs := (memStorer.SetReference cs.refs r).1 }, none) := by
            simp [onMatched, hs, hh, memStorer]
          have hsel : selectWildcard S st s (r :: rest) = r :: selectWildcard S st s rest := by
            simp [selectWildcard, List.filterMap_cons, hm, hs, hh]
          simp only [forEachReference, hm, Bool.not_true, Bool.false_eq_true, if_false, hcb,
            hsel]
          obtain ⟨i1, i2⟩ := ih1 ⟨true, cs.refList ++ [r],
            (memStorer.SetReference cs.refs r).1⟩
          exact ⟨by rw [i1]; simp, i2⟩
        · have hcb : onMatched S st cs r = (cs, none) := by
            simp [onMatched, hs, hh]
          have hsel : selectWildcard S st s (r :: rest) = selectWildcard S st s rest := by
            simp [selectWildcard, List.filterMap_cons, hm, hs, hh]
          simp only [forEachReference, hm, Bool.not_true, Bool.false_eq_true, if_false, hcb,
            hsel]
          exact ih1 cs
    · have hm1 : s.Match r.n = false := by simpa using hm
      have hsel : selectWildcard S st s (r :: rest) = selectWildcard S st s rest := by
        simp [selectWildcard, List.filterMap_cons, hm1]
      simp only [forEachReference, hm1, Bool.not_false, if_true, hsel]
      exact ih1 cs

theorem onMatched_error {σ : Type} (S : ReferenceStorer σ) (st : σ) (cs : calcState)
    (r : Reference) (e : GoError) (h : (onMatched S st cs r).2 = some e) :
    r.t = ReferenceType.SymbolicReference ∧ ResolveReference S st r.n = Except.error e := by
  unfold onMatched at h
  by_cases hs : r.t = ReferenceType.SymbolicReference
  · cases hR : ResolveReference S st r.n with
    | error err =>
      simp only [hs, if_true, hR] at h
      exact ⟨hs, by rw [Option.some.inj h]⟩
    | ok t => simp [hs, hR, NewHashReference, memStorer] at h
  · by_cases hh : r.t = ReferenceType.HashReference <;> simp [hs, hh, memStorer] at h

theorem forEachReference_fails {σ : Type} (S : ReferenceStorer σ) (st : σ) (s : RefSpec)
    (l : List Reference) :
    (∀ r ∈ l, ∀ e, ResolveReference S st r.n = Except.error e → e ≠ ErrStop) →
    (∃ r ∈ l, s.Match r.n = true ∧ r.t = ReferenceType.SymbolicReference ∧
      ∃ e, ResolveReference S st r.n = Except.error e) →
    ∀ cs : calcState, ∃ r ∈ l, ∃ e, s.Match r.n = true ∧
      r.t = ReferenceType.SymbolicReference ∧ ResolveReference S st r.n = Except.error e ∧
      (forEachReference (fun cs ref =>
        if !s.Match ref.n then (cs, none) else onMatched S st cs ref) cs l).2 = some e := by
  induction l with
  | nil => rintro _ ⟨r, hr, _⟩; cases hr
  | cons r rest ih =>
    intro hstop hbad cs
    have ih1 := ih (fun x hx => hstop x (List.mem_cons_of_mem _ hx))
    have hrest : ¬ (s.Match r.n = true ∧ r.t = ReferenceType.SymbolicReference ∧
        ∃ e, ResolveReference S st r.n = Except.error e) →
        ∃ x ∈ rest, s.Match x.n = true ∧ x.t = ReferenceType.SymbolicReference ∧
          ∃ e, ResolveReference S st x.n = Except.error e := by
      intro hnot
      obtain ⟨x, hx, hx1⟩ := hbad
      rcases List.mem_cons.1 hx with rfl | hx
      · exact absurd hx1 hnot
      · exact ⟨x, hx, hx1⟩
    by_cases hm : s.Match r.n = true
    · rcases hcb : onMatched S st cs r with ⟨cs1, _ | e⟩
      · have hnot : ¬ (s.Match r.n = true ∧ r.t = ReferenceType.SymbolicReference ∧
            ∃ e, ResolveReference S st r.n = Except.error e) := by
          rintro ⟨_, hs, e, he⟩
          have : (onMatched S st cs r).2 = some e := by
            simp [onMatched, hs, he]
          rw [hcb] at this
          cases this
        obtain ⟨x, hx, e, h1, h2, h3, h4⟩ := ih1 (hrest hnot) cs1
        refine ⟨x, List.mem_cons_of_mem _ hx, e, h1, h2, h3, ?_⟩
        simp only [forEachReference, hm, Bool.not_true, Bool.false_eq_true, if_false, hcb]
        exact h4
      · obtain ⟨hs, he⟩ := onMatched_error S st cs r e (by rw [hcb])
        have hne : e ≠ ErrStop := hstop r (List.mem_cons_self _ _) e he
        refine ⟨r, List.mem_cons_self _ _, e, hm, hs, he, ?_⟩
        simp only [forEachReference, hm, Bool.not_true, Bool.false_eq_true, if_false, hcb, hne]
    · have hm1 : s.Match r.n = false := by simpa using hm
      have hnot : ¬ (s.Match r.n = true ∧ r.t = ReferenceType.SymbolicReference ∧
          ∃ e, ResolveReference S st r.n = Except.error e) := by
        rintro ⟨h, _⟩
        exact hm h
      obtain ⟨x, hx, e, h1, h2, h3, h4⟩ := ih1 (hrest hnot) cs
      refine ⟨x, List.mem_cons_of_mem _ hx, e, h1, h2, h3, ?_⟩
      simp only [forEachReference, hm1, Bool.not_false, if_true]
      exact h4

/-- C15, as amended: for a wildcard refspec over the remote references `l`,
when every matching symbolic reference resolves, the list `calculateRefs`
selects consists of exactly the references of `l` whose name matches the
source pattern, a symbolic one replaced by a hash reference of the same name
with the OID of its resolved target; and when a matching symbolic reference
does not resolve, `calculateRefs` fails with the error of such a resolution
and selects nothing. -/
theorem calculateRefs_wildcard {σ : Type} (S : ReferenceStorer σ) (st : σ) (s : RefSpec)
    (l : List Reference) (refs : MemRefs) (post : List RefSpec) (tagMode : TagMode)
    (hw : s.IsWildcard = true) (hx : s.IsExactSHA1 = false)
    (hl : S.IterReferences st = Except.ok l) :
    ((∀ r ∈ l, s.Match r.n = true → r.t = ReferenceType.SymbolicReference →
        ∃ t, ResolveReference S st r.n = Except.ok t) →
      (doCalculateRefs S st s refs).1 = selectWildcard S st s l ∧
      (doCalculateRefs S st s refs).2.2 = none ∧
      (tagMode ≠ TagMode.AllTags →
        ∃ m, calculateRefs S st [s] tagMode = Except.ok (m, [selectWildcard S st s l]))) ∧
    ((∀ r ∈ l, ∀ e, ResolveReference S st r.n = Except.error e → e ≠ ErrStop) →
      (∃ r ∈ l, s.Match r.n = true ∧ r.t = ReferenceType.SymbolicReference ∧
        ∃ e, ResolveReference S st r.n = Except.error e) →
      ∃ r ∈ l, ∃ e, s.Match r.n = true ∧ r.t = ReferenceType.SymbolicReference ∧
        ResolveReference S st r.n = Except.error e ∧
        (doCalculateRefs S st s refs).2.2 = some e ∧
        calculateRefs S st (s :: post) tagMode = Except.error e) := by
  have hdo : ∀ m, doCalculateRefs S st s m =
      ((forEachReference (fun cs ref =>
          if !s.Match ref.n then (cs, none) else onMatched S st cs ref)
          { matched := false, refList := [], refs := m } l).1.refList,
       (forEachReference (fun cs ref =>
          if !s.Match ref.n then (cs, none) else onMatched S st cs ref)
          { matched := false, refList := [], refs := m } l).1.refs,
       (forEachReference (fun cs ref =>
          if !s.Match ref.n then (cs, none) else onMatched S st cs ref)
          { matched := false, refList := [], refs := m } l).2) := by
    intro m
    unfold doCalculateRefs
    simp only [hx, hw, hl, Bool.false_eq_true, if_false, if_true]
  refine ⟨?_, ?_⟩
  · intro hres
    have hsel := forEachReference_select S st s l hres
    refine ⟨?_, ?_, ?_⟩
    · rw [hdo]; simpa using (hsel { matched := false, refList := [], refs := refs }).1
    · rw [hdo]; exact (hsel { matched := false, refList := [], refs := refs }).2
    · intro ht
      obtain ⟨h1, h2⟩ := hsel ⟨false, [], []⟩
      simp only [List.nil_append] at h1
      refine ⟨(forEachReference (fun cs ref =>
          if !s.Match ref.n then (cs, none) else onMatched S st cs ref)
          ⟨false, [], []⟩ l).1.refs, ?_⟩
      simp only [calculateRefs, ht, if_false, calculateRefsLoop, hdo, h1, h2, List.nil_append]
  · intro hstop hbad
    obtain ⟨r, hr, e, h1, h2, h3, h4⟩ := forEachReference_fails S st s l hstop hbad
      ⟨false, [], refs⟩
    obtain ⟨r0, hr0, e0, g1, g2, g3, g4⟩ := forEachReference_fails S st s l hstop hbad
      ⟨false, [], []⟩
    have he : e0 = e := by
      have hind : ∀ (l1 : List Reference) (c1 c2 : calcState),
          (forEachReference (fun cs ref =>
            if !s.Match ref.n then (cs, none) else onMatched S st cs ref) c1 l1).2 =
          (forEachReference (fun cs ref =>
            if !s.Match ref.n then (cs, none) else onMatched S st cs ref) c2 l1).2 := by
        intro l1
        induction l1 with
        | nil => intro c1 c2; rfl
        | cons x xs ihx =>
          intro c1 c2
          by_cases hm : s.Match x.n = true
          · have hon : (onMatched S st c1 x).2 = (onMatched S st c2 x).2 := by
              unfold onMatched
              by_cases hs : x.t = ReferenceType.SymbolicReference
              · cases hR : ResolveReference S st x.n <;>
                  simp [hs, hR, NewHashReference, memStorer]
              · by_cases hh : x.t = ReferenceType.HashReference <;> simp [hs, hh, memStorer]
            rcases hc1 : onMatched S st c1 x with ⟨a1, o1⟩
            rcases hc2 : onMatched S st c2 x with ⟨a2, o2⟩
            rw [hc1, hc2] at hon
            simp only at hon
            subst hon
            simp only [forEachReference, hm, Bool.not_true, Bool.false_eq_true, if_false, hc1,
              hc2]
            cases o1 with
            | none => exact ihx a1 a2
            | some err => by_cases hst : err = ErrStop <;> simp [hst]
          · have hm1 : s.Match x.n = false := by simpa using hm
            simp only [forEachReference, hm1, Bool.not_false, if_true]
            exact ihx c1 c2
      have := hind l { matched := false, refList := [], refs := [] }
        { matched := false, refList := [], refs := refs }
      rw [g4, h4] at this
      exact Option.some.inj this
    subst he
    refine ⟨r, hr, e0, h1, h2, h3, ?_, ?_⟩
    · rw [hdo]; exact h4
    · unfold calculateRefs
      have hsp : (if tagMode = TagMode.AllTags then (s :: post) ++ [refspecAllTags]
          else s :: post) =
          s :: (if tagMode = TagMode.AllTags then post ++ [refspecAllTags] else post) := by
        split <;> simp
      rw [hsp]
      simp only [calculateRefsLoop, hdo, g4]

/-- Witness for C15 as amended: the branches of a remote with a symbolic
reference to a branch, and of a remote with a symbolic reference to a
missing branch. -/
theorem calculateRefs_wildcard_witness :
    ((doCalculateRefs memStorer exampleRemote exampleHeadsSpec []).1 =
        [NewHashReference "refs/heads/main" 1, NewHashReference "refs/heads/link" 1] ∧
      (doCalculateRefs memStorer exampleRemote exampleHeadsSpec []).2.2 = none) ∧
    (∃ r ∈ [NewHashReference "refs/heads/main" 1,
        NewSymbolicReference "refs/heads/link" "refs/heads/gone"], ∃ e,
      exampleHeadsSpec.Match r.n = true ∧ r.t = ReferenceType.SymbolicReference ∧
      ResolveReference memStorer exampleDangling r.n = Except.error e ∧
      (doCalculateRefs memStorer exampleDangling exampleHeadsSpec []).2.2 = some e ∧
      calculateRefs memStorer exampleDangling (exampleHeadsSpec :: []) TagMode.TagFollowing =
        Except.error e) :=
  ⟨⟨((calculateRefs_wildcard memStorer exampleRemote exampleHeadsSpec
        [NewHashReference "refs/heads/main" 1, NewHashReference "refs/tags/v1" 3,
          NewSymbolicReference "refs/heads/link" "refs/heads/main"] [] []
        TagMode.TagFollowing rfl rfl rfl).1
        (by
          intro r hr _ hs
          simp only [List.mem_cons, List.mem_singleton, List.not_mem_nil, or_false] at hr
          rcases hr with rfl | rfl | rfl
          · cases hs
          · cases hs
          · exact ⟨NewHashReference "refs/heads/main" 1, rfl⟩)).1,
     ((calculateRefs_wildcard memStorer exampleRemote exampleHeadsSpec
        [NewHashReference "refs/heads/main" 1, NewHashReference "refs/tags/v1" 3,
          NewSymbolicReference "refs/heads/link" "refs/heads/main"] [] []
        TagMode.TagFollowing rfl rfl rfl).1
        (by
          intro r hr _ hs
          simp only [List.mem_cons, List.mem_singleton, List.not_mem_nil, or_false] at hr
          rcases hr with rfl | rfl | rfl
          · cases hs
          · cases hs
          · exact ⟨NewHashReference "refs/heads/main" 1, rfl⟩)).2.1⟩,
   (calculateRefs_wildcard memStorer exampleDangling exampleHeadsSpec
      [NewHashReference "refs/heads/main" 1,
        NewSymbolicReference "refs/heads/link" "refs/heads/gone"] [] []
      TagMode.TagFollowing rfl rfl rfl).2
      (by
        intro r hr e he
        simp only [List.mem_cons, List.mem_singleton, List.not_mem_nil, or_false] at hr
        rcases hr with rfl | rfl
        · cases he
        · have h1 : (Except.error ErrReferenceNotFound : Except GoError Reference) =
              Except.error e := he
          rw [← Except.error.inj h1]
          decide)
      ⟨NewSymbolicReference "refs/heads/link" "refs/heads/gone", by simp, rfl, rfl,
        ErrReferenceNotFound, rfl⟩⟩

/-- C15 fails as stated: with the branch `refs/heads/main` and the symbolic
reference `refs/heads/link` to a missing branch on the remote, the wildcard
`refs/heads/*` does not select `refs/heads/main` and leave the symbolic
reference out: `calculateRefs` fails with the error of the resolution. -/
theorem calculateRefs_wildcard_unresolved :
    exampleHeadsSpec.Match "refs/heads/main" = true ∧
    exampleHeadsSpec.Match "refs/heads/link" = true ∧
    ResolveReference memStorer exampleDangling "refs/heads/link" =
      Except.error ErrReferenceNotFound ∧
    calculateRefs memStorer exampleDangling [exampleHeadsSpec] TagMode.TagFollowing =
      Except.error ErrReferenceNotFound :=
  ⟨rfl, rfl, rfl, rfl⟩

/-! ### Wants -/

theorem mapSet_keys {κ ν : Type} [DecidableEq κ] (m : List (κ × ν)) (k : κ) (v : ν) :
    (mapSet m k v).map Prod.fst =
      (if k ∈ m.map Prod.fst then m.map Prod.fst else m.map Prod.fst ++ [k]) := by
  induction m with
  | nil => simp [mapSet]
  | cons e rest ih =>
    obtain ⟨a, b⟩ := e
    by_cases ha : a = k
    · subst ha; simp [mapSet]
    · have hka : ¬ k = a := fun h => ha h.symm
      simp only [mapSet, ha, if_false, List.map_cons, ih, List.mem_cons, hka, false_or]
      split <;> simp

theorem objectExists_fst {σ : Type} (O : ObjectStorer σ) (st : σ) (h : Hash) :
    (objectExists O st h).1 = false ↔
      O.EncodedObject st ObjectType.AnyObject h = Except.error ErrObjectNotFound := by
  unfold objectExists
  cases hE : O.EncodedObject st ObjectType.AnyObject h with
  | error err =>
    by_cases he : err = ErrObjectNotFound
    · simp [he]
    · simp [he]
  | ok o => simp

theorem getWantsLoop_spec {σ : Type} (O : ObjectStorer σ) (st : σ) (shallow : Bool)
    (l : List Reference) :
    ∀ (wants result : List (Hash × Bool)),
      getWantsLoop O st shallow wants l = Except.ok result →
      ((wants.map Prod.fst).Nodup → (result.map Prod.fst).Nodup) ∧
      (∀ h, h ∈ result.map Prod.fst ↔ h ∈ wants.map Prod.fst ∨
        ∃ r ∈ l, r.h = h ∧ ((objectExists O st h).1 = false ∨ shallow = true)) := by
  induction l with
  | nil =>
    intro wants result h
    simp only [getWantsLoop, Except.ok.injEq] at h
    subst h
    simp
  | cons r rest ih =>
    intro wants result h
    rcases hE : objectExists O st r.h with ⟨ok, _ | err⟩
    · simp only [getWantsLoop, hE] at h
      obtain ⟨i1, i2⟩ := ih _ result h
      by_cases hc : (!ok || shallow) = true
      · rw [if_pos hc] at i1 i2
        have hc1 : (objectExists O st r.h).1 = false ∨ shallow = true := by
          rw [hE]
          cases ok <;> cases shallow <;> simp_all
        refine ⟨?_, ?_⟩
        · intro hnd
          apply i1
          rw [mapSet_keys]
          split
          · exact hnd
          · rename_i hk
            exact List.Nodup.append hnd (List.nodup_singleton _) (by simpa using hk)
        · intro x
          rw [i2 x, mapSet_keys]
          constructor
          · rintro (hx | ⟨q, hq, hq1⟩)
            · by_cases hk : r.h ∈ wants.map Prod.fst
              · rw [if_pos hk] at hx; exact Or.inl hx
              · rw [if_neg hk] at hx
                rcases List.mem_append.1 hx with hx | hx
                · exact Or.inl hx
                · have hxr : x = r.h := by simpa using hx
                  subst hxr
                  exact Or.inr ⟨r, List.mem_cons_self _ _, rfl, hc1⟩
            · exact Or.inr ⟨q, List.mem_cons_of_mem _ hq, hq1⟩
          · rintro (hx | ⟨q, hq, hq1, hq2⟩)
            · left
              split
              · exact hx
              · exact List.mem_append_left _ hx
            · rcases List.mem_cons.1 hq with rfl | hq
              · left
                subst hq1
                split
                · assumption
                · simp
              · exact Or.inr ⟨q, hq, hq1, hq2⟩
      · rw [if_neg hc] at i1 i2
        have hc1 : ¬ ((objectExists O st r.h).1 = false ∨ shallow = true) := by
          rw [hE]
          cases ok <;> cases shallow <;> simp_all
        refine ⟨i1, ?_⟩
        intro x
        rw [i2 x]
        constructor
        · rintro (hx | ⟨q, hq, hq1⟩)
          · exact Or.inl hx
          · exact Or.inr ⟨q, List.mem_cons_of_mem _ hq, hq1⟩
        · rintro (hx | ⟨q, hq, hq1, hq2⟩)
          · exact Or.inl hx
          · rcases List.mem_cons.1 hq with rfl | hq
            · subst hq1
              exact absurd hq2 hc1
            · exact Or.inr ⟨q, hq, hq1, hq2⟩
    · simp [getWantsLoop, hE] at h

theorem getWantsLoop_total {σ : Type} (O : ObjectStorer σ) (st : σ) (shallow : Bool)
    (l : List Reference) :
    ∀ (wants : List (Hash × Bool)),
      (∀ r ∈ l, (objectExists O st r.h).2 = none) →
      ∃ result, getWantsLoop O st shallow wants l = Except.ok result := by
  induction l with
  | nil => intro wants _; exact ⟨wants, rfl⟩
  | cons r rest ih =>
    intro wants h
    have hr := h r (List.mem_cons_self _ _)
    rcases hE : objectExists O st r.h with ⟨ok, e⟩
    rw [hE] at hr
    simp only at hr
    subst hr
    simp only [getWantsLoop, hE]
    exact ih _ (fun x hx => h x (List.mem_cons_of_mem _ hx))

/-- C16: `getWants` returns a list when no object lookup raises an error
other than "not found"; the list it returns has no duplicates and holds
exactly the OIDs `h` of the selected references such that the object `h` is
absent from the local store, or the local shallow list is non-empty and
`depth` is not 1; so when every selected object is present and the
repository is not shallow or `depth` is 1, the list is empty. -/
theorem getWants_spec {σ : Type} (O : ObjectStorer σ) (st : σ) (refs : MemRefs) (depth : Int) :
    ((∀ e ∈ refs, (objectExists O st e.2.h).2 = none) →
      ∃ result, getWants O st refs depth = Except.ok result) ∧
    (∀ result, getWants O st refs depth = Except.ok result →
      result.Nodup ∧
      ∀ h, h ∈ result ↔ ∃ e ∈ refs, e.2.h = h ∧
        (O.EncodedObject st ObjectType.AnyObject h = Except.error ErrObjectNotFound ∨
          ((∃ s, O.Shallow st = Except.ok s ∧ s ≠ []) ∧ depth ≠ 1))) ∧
    ((∀ e ∈ refs, ∃ o, O.EncodedObject st ObjectType.AnyObject e.2.h = Except.ok o) →
      (¬ (∃ s, O.Shallow st = Except.ok s ∧ s ≠ []) ∨ depth = 1) →
      getWants O st refs depth = Except.ok []) := by
  have hsh : ∀ b : Bool, b = (if depth ≠ 1 then
        (match O.Shallow st with
         | Except.ok s => decide (s.length > 0)
         | Except.error _ => false)
        else false) →
      (b = true ↔ ((∃ s, O.Shallow st = Except.ok s ∧ s ≠ []) ∧ depth ≠ 1)) := by
    intro b hb
    subst hb
    by_cases hd : depth = 1
    · simp [hd]
    · cases hS : O.Shallow st with
      | error err => simp [hd]
      | ok s => simp [hd, List.length_pos]
  have hmain : ∀ result, getWants O st refs depth = Except.ok result →
      result.Nodup ∧
      ∀ h, h ∈ result ↔ ∃ e ∈ refs, e.2.h = h ∧
        (O.EncodedObject st ObjectType.AnyObject h = Except.error ErrObjectNotFound ∨
          ((∃ s, O.Shallow st = Except.ok s ∧ s ≠ []) ∧ depth ≠ 1)) := by
    intro result h
    unfold getWants at h
    simp only at h
    cases hL : getWantsLoop O st (if depth ≠ 1 then
        (match O.Shallow st with
         | Except.ok s => decide (s.length > 0)
         | Except.error _ => false)
        else false) [] (refs.map (fun e => e.2)) with
    | error err => rw [hL] at h; cases h
    | ok wants =>
      rw [hL] at h
      simp only [Except.ok.injEq] at h
      subst h
      obtain ⟨i1, i2⟩ := getWantsLoop_spec O st _ _ [] wants hL
      refine ⟨by simpa using i1 (by simp), ?_⟩
      intro x
      have := i2 x
      simp only [List.map_nil, List.not_mem_nil, false_or] at this
      have hx : x ∈ wants.map (fun e => e.1) ↔ x ∈ wants.map Prod.fst := Iff.rfl
      rw [hx, this]
      constructor
      · rintro ⟨r, hr, hrx, hc⟩
        obtain ⟨e, he, her⟩ := List.mem_map.1 hr
        refine ⟨e, he, by rw [her]; exact hrx, ?_⟩
        rcases hc with hc | hc
        · exact Or.inl ((objectExists_fst O st x).1 hc)
        · exact Or.inr ((hsh _ rfl).1 hc)
      · rintro ⟨e, he, hex, hc⟩
        refine ⟨e.2, List.mem_map_of_mem (fun e => e.2) he, hex, ?_⟩
        rcases hc with hc | hc
        · exact Or.inl ((objectExists_fst O st x).2 hc)
        · exact Or.inr ((hsh _ rfl).2 hc)
  have htotal : (∀ e ∈ refs, (objectExists O st e.2.h).2 = none) →
      ∃ result, getWants O st refs depth = Except.ok result := by
    intro hok
    obtain ⟨wants, hw⟩ := getWantsLoop_total O st (if depth ≠ 1 then
        (match O.Shallow st with
         | Except.ok s => decide (s.length > 0)
         | Except.error _ => false)
        else false) (refs.map (fun e => e.2)) [] (by
          intro r hr
          obtain ⟨e, he, her⟩ := List.mem_map.1 hr
          rw [← her]
          exact hok e he)
    refine ⟨wants.map (fun e => e.1), ?_⟩
    unfold getWants
    simp only [hw]
  refine ⟨htotal, hmain, ?_⟩
  intro hpresent hns
  obtain ⟨result, hres⟩ := htotal (by
    intro e he
    obtain ⟨o, ho⟩ := hpresent e he
    simp [objectExists, ho])
  obtain ⟨_, hmem⟩ := hmain result hres
  have hempty : result = [] := by
    apply List.eq_nil_iff_forall_not_mem.2
    intro x hx
    obtain ⟨e, he, hex, hc⟩ := (hmem x).1 hx
    rcases hc with hc | ⟨hc1, hc2⟩
    · obtain ⟨o, ho⟩ := hpresent e he
      rw [hex, hc] at ho
      cases ho
    · rcases hns with hns | hns
      · exact hns hc1
      · exact hc2 hns
  rw [hres, hempty]

/-- Witness for C16: five selected references over three OIDs, of which the
commit 2 is stored locally. -/
theorem getWants_spec_witness :
    (∃ result, getWants memObjectStorer exampleObjects exampleSelected 0 = Except.ok result ∧
      result.Perm [5, 6] ∧ result.Nodup) ∧
    (∃ result, getWants memObjectStorer { exampleObjects with shallow := [1] }
      exampleSelected 0 = Except.ok result ∧ result.Perm [2, 5, 6]) ∧
    getWants memObjectStorer exampleObjects [("refs/heads/a", NewHashReference "refs/heads/a" 2)]
      0 = Except.ok [] :=
  ⟨⟨[5, 6], rfl, List.Perm.refl _,
      ((getWants_spec memObjectStorer exampleObjects exampleSelected 0).2.1 [5, 6] rfl).1⟩,
    ⟨[2, 5, 6], rfl, List.Perm.refl _⟩,
    (getWants_spec memObjectStorer exampleObjects
      [("refs/heads/a", NewHashReference "refs/heads/a" 2)] 0).2.2
      (by
        intro e he
        rw [List.mem_singleton.1 he]
        exact ⟨⟨ObjectType.CommitObject, 2, [1]⟩, rfl⟩)
      (Or.inl (by
        rintro ⟨s, hs, hne⟩
        have h1 : (Except.ok [] : Except GoError (List Hash)) = Except.ok s := hs
        exact hne (Except.ok.inj h1).symm))⟩

/-! ### Haves -/

theorem mapSet_keys_added (m : List (Hash × Bool)) (k : Hash) (v : Bool) :
    ∃ added : List Hash, (mapSet m k v).map Prod.fst = m.map Prod.fst ++ added ∧
      added.length ≤ 1 := by
  rw [mapSet_keys]
  split
  · exact ⟨[], by simp, by simp⟩
  · exact ⟨[k], rfl, by simp⟩

theorem walkHaves_keys {σ : Type} (O : ObjectStorer σ) (st : σ)
    (remoteRefs : List (Hash × Bool)) (n : Nat) :
    ∀ (w : commitPreIterator) (haves : List (Hash × Bool)),
      ∃ added : List Hash,
        (walkHaves O st remoteRefs n w haves).map Prod.fst = haves.map Prod.fst ++ added ∧
        added.length ≤ n := by
  induction n with
  | zero => intro w haves; exact ⟨[], by simp [walkHaves], by simp⟩
  | succ n ih =>
    intro w haves
    unfold walkHaves
    rcases hN : w.Next O st (mapHas haves) with err | _ | ⟨c, w1⟩
    · exact ⟨[], by simp, by simp⟩
    · exact ⟨[], by simp, by simp⟩
    · simp only
      obtain ⟨a1, h1, l1⟩ := mapSet_keys_added haves c.Hash true
      by_cases hstop : n = 0 ∨ mapHas remoteRefs c.Hash = true
      · rw [if_pos hstop]
        exact ⟨a1, h1, by omega⟩
      · rw [if_neg hstop]
        obtain ⟨a2, h2, l2⟩ := ih w1 (mapSet haves c.Hash true)
        refine ⟨a1 ++ a2, ?_, ?_⟩
        · rw [h2, h1, List.append_assoc]
        · rw [List.length_append]; omega

theorem GetHavesFromRef_keys {σ : Type} (O : ObjectStorer σ) (st : σ) (ref : Reference)
    (remoteRefs haves : List (Hash × Bool)) (depth : Int) :
    ∃ added : List Hash,
      (GetHavesFromRef O st ref remoteRefs haves depth).map Prod.fst =
        haves.map Prod.fst ++ added ∧
      added.length ≤ 100 ∧ (0 < depth → depth < 100 → added.length ≤ depth.toNat) := by
  unfold GetHavesFromRef
  simp only
  by_cases h1 : mapHas haves ref.h = true
  · rw [if_pos h1]
    exact ⟨[], by simp, by simp, fun _ _ => by simp⟩
  · rw [if_neg h1]
    by_cases h2 : mapHas remoteRefs ref.h = true
    · rw [if_pos h2]
      obtain ⟨a, ha, la⟩ := mapSet_keys_added haves ref.h true
      exact ⟨a, ha, by omega, fun hd _ => by omega⟩
    · rw [if_neg h2]
      cases hC : GetCommit O st ref.h with
      | error err =>
        obtain ⟨a, ha, la⟩ := mapSet_keys_added haves ref.h true
        exact ⟨a, ha, by omega, fun hd _ => by omega⟩
      | ok commit =>
        simp only
        obtain ⟨a, ha, la⟩ := walkHaves_keys O st remoteRefs
          (if depth > 0 ∧ depth < maxHavesToVisitPerRef then depth.toNat
           else maxHavesToVisitPerRef) (NewCommitPreorderIter commit) haves
        refine ⟨a, ha, ?_, ?_⟩
        · by_cases hd : depth > 0 ∧ depth < (maxHavesToVisitPerRef : Int)
          · rw [if_pos hd] at la
            have : depth.toNat < 100 := by
              have := hd.2
              simp only [maxHavesToVisitPerRef] at this
              omega
            omega
          · rw [if_neg hd] at la
            simpa [maxHavesToVisitPerRef] using la
        · intro hd0 hd1
          have hd : depth > 0 ∧ depth < (maxHavesToVisitPerRef : Int) := by
            refine ⟨hd0, ?_⟩
            simp only [maxHavesToVisitPerRef]
            exact_mod_cast hd1
          rw [if_pos hd] at la
          exact la

/-- C17: one call of `GetHavesFromRef` extends the keys of `haves` by at
most 100 hashes, and by at most `depth` hashes when `0 < depth < 100`; and
the walk ends with the commit it has just added when the hash of that commit
is advertised by the remote: the commit is in `haves`, the walker is not
asked for another commit. -/
theorem GetHavesFromRef_bound {σ : Type} (O : ObjectStorer σ) (st : σ) (ref : Reference)
    (remoteRefs haves : List (Hash × Bool)) (depth : Int) :
    (∃ added : List Hash,
      (GetHavesFromRef O st ref remoteRefs haves depth).map Prod.fst =
        haves.map Prod.fst ++ added ∧
      added.length ≤ 100 ∧ (0 < depth → depth < 100 → added.length ≤ depth.toNat)) ∧
    (∀ (n : Nat) (w w1 : commitPreIterator) (c : Commit) (hv : List (Hash × Bool)),
      w.Next O st (mapHas hv) = Except.ok (some (c, w1)) →
      mapHas remoteRefs c.Hash = true →
      walkHaves O st remoteRefs (n + 1) w hv = mapSet hv c.Hash true) ∧
    (mapHas haves ref.h = false → mapHas remoteRefs ref.h = true →
      GetHavesFromRef O st ref remoteRefs haves depth = mapSet haves ref.h true) := by
  refine ⟨GetHavesFromRef_keys O st ref remoteRefs haves depth, ?_, ?_⟩
  · intro n w w1 c hv hN hR
    unfold walkHaves
    simp only [hN, hR, or_true, if_true]
  · intro h1 h2
    unfold GetHavesFromRef
    simp only [h1, h2, Bool.false_eq_true, if_false, if_true]

/-- Witness for C17: a chain of five commits whose third commit is
advertised by the remote, and the same chain with depth 2. -/
theorem GetHavesFromRef_bound_witness :
    GetHavesFromRef (chainStorer 5) () (NewHashReference "refs/heads/main" 5) [(3, true)] [] 0 =
      [(5, true), (4, true), (3, true)] ∧
    GetHavesFromRef (chainStorer 5) () (NewHashReference "refs/heads/main" 5) [] [] 2 =
      [(5, true), (4, true)] ∧
    walkHaves (chainStorer 5) () [(5, true)] (99 + 1)
        (NewCommitPreorderIter ⟨5, [4]⟩) [] = mapSet [] 5 true ∧
    GetHavesFromRef (chainStorer 5) () (NewHashReference "refs/heads/main" 5) [(5, true)] [] 0 =
      mapSet [] 5 true :=
  ⟨by decide, by decide,
    (GetHavesFromRef_bound (chainStorer 5) () (NewHashReference "refs/heads/main" 5)
      [(5, true)] [] 0).2.1 99 (NewCommitPreorderIter ⟨5, [4]⟩)
      (commitPreIterator.visit [] [] ⟨5, [4]⟩) ⟨5, [4]⟩ [] rfl rfl,
    (GetHavesFromRef_bound (chainStorer 5) () (NewHashReference "refs/heads/main" 5)
      [(5, true)] [] 0).2.2 rfl rfl⟩

/-- C18, as amended: when `depth` is 0, `GetHavesFromRef` does not walk
without limit: it extends the keys of `haves` by at most
`maxHavesToVisitPerRef` = 100 hashes, so of more than 100 distinct hashes
that are not in `haves` (a chain of more than 100 commits) at least one is
not added. -/
theorem GetHavesFromRef_depth_zero {σ : Type} (O : ObjectStorer σ) (st : σ) (ref : Reference)
    (remoteRefs haves : List (Hash × Bool)) (chain : List Hash) (hnd : chain.Nodup)
    (hlen : 100 < chain.length) (hfresh : ∀ h ∈ chain, h ∉ haves.map Prod.fst) :
    (∃ added : List Hash,
      (GetHavesFromRef O st ref remoteRefs haves 0).map Prod.fst = haves.map Prod.fst ++ added ∧
      added.length ≤ maxHavesToVisitPerRef) ∧
    ∃ h ∈ chain, h ∉ (GetHavesFromRef O st ref remoteRefs haves 0).map Prod.fst := by
  obtain ⟨added, hk, hl, _⟩ := GetHavesFromRef_keys O st ref remoteRefs haves 0
  refine ⟨⟨added, hk, hl⟩, ?_⟩
  by_contra hall
  push_neg at hall
  have hsub : chain ⊆ added := by
    intro h hh
    have := hall h hh
    rw [hk] at this
    rcases List.mem_append.1 this with h1 | h1
    · exact absurd h1 (hfresh h hh)
    · exact h1
  have := (List.Nodup.subperm hnd hsub).length_le
  omega

section
set_option maxRecDepth 100000

/-- Witness for C18 as amended: the chain of the commits 1 to 101 with the
tip 101. -/
theorem GetHavesFromRef_depth_zero_witness :
    (∃ added : List Hash,
      (GetHavesFromRef (chainStorer 101) () (NewHashReference "refs/heads/main" 101) [] []
        0).map Prod.fst = ([] : List (Hash × Bool)).map Prod.fst ++ added ∧
      added.length ≤ maxHavesToVisitPerRef) ∧
    ∃ h ∈ List.range' 1 101, h ∉ (GetHavesFromRef (chainStorer 101) ()
      (NewHashReference "refs/heads/main" 101) [] [] 0).map Prod.fst :=
  GetHavesFromRef_depth_zero (chainStorer 101) () (NewHashReference "refs/heads/main" 101)
    [] [] (List.range' 1 101) (List.nodup_range' 1 101) (by simp) (by simp)

/-- C18 fails as stated: with `depth` 0 and a chain of the 101 commits 1 to
101, none advertised by the remote, `GetHavesFromRef` from the tip 101 adds
the 100 commits 101 to 2 and leaves the commit 1 of the chain out. -/
theorem GetHavesFromRef_depth_zero_stops :
    GetCommit (chainStorer 101) () 1 = Except.ok ⟨1, []⟩ ∧
    GetCommit (chainStorer 101) () 2 = Except.ok ⟨2, [1]⟩ ∧
    (GetHavesFromRef (chainStorer 101) () (NewHashReference "refs/heads/main" 101) [] []
      0).length = 100 ∧
    mapHas (GetHavesFromRef (chainStorer 101) () (NewHashReference "refs/heads/main" 101) [] []
      0) 2 = true ∧
    mapHas (GetHavesFromRef (chainStorer 101) () (NewHashReference "refs/heads/main" 101) [] []
      0) 1 = false := by
  refine ⟨rfl, rfl, ?_, ?_, ?_⟩ <;> decide

end

/-! ### Negotiation -/

/-- C19: the code at the failing inputs.  With a wanted OID and no haves,
the haves do not cover the wants, yet `Negotiate` writes a single flush
packet, sends no upload-request and returns nil; with the haves 2 and 1 and
the want 2, the haves cover the wants, yet the full negotiation
(upload-request, haves, done) is performed: `isSubset` is called with the
haves as needle and the wants as haystack. -/
theorem Negotiate_subset_swapped :
    isSubset [] [7] = true ∧
    Negotiate memObjectStorer exampleObjects
        { Wants := [7], Haves := [], Depth := 0, IncludeTags := false, Progress := none }
        exampleSession.Supports exampleWire =
      some (exampleObjects, [Sent.flush], none) ∧
    isSubset [2, 1] [2] = false ∧
    Negotiate memObjectStorer exampleObjects
        { Wants := [2], Haves := [2, 1], Depth := 0, IncludeTags := false, Progress := none }
        exampleSession.Supports exampleWire =
      some (exampleObjects,
        [Sent.uploadRequest
            { Capabilities := ⟨[("ofs-delta", []), ("no-progress", [])]⟩, Wants := [2],
              Shallows := [], Depth := 0 },
          Sent.uploadHaves [2, 1] true, Sent.done], none) := by
  decide

/-- C20, as amended: when the want set of the request is empty, `Negotiate`
writes nothing to the connection, neither an upload-request nor a flush, and
returns the error `no wants specified`; `packSession.Fetch` on a session
with a connection returns this error, without reading a packfile. -/
theorem Negotiate_empty_wants {σ : Type} (O : ObjectStorer σ) (st : σ) (req : FetchPackRequest)
    (Supports : Capability → Option Bool) (conn : Connection) (p : packSession)
    (UpdateObjectStorage : Option SidebandType → σ → σ × Option GoError)
    (hw : req.Wants = []) :
    Negotiate O st req Supports conn = some (st, [], some (Errorf "no wants specified")) ∧
    (∀ c, p.conn = some c →
      p.Fetch O st UpdateObjectStorage req =
        some (st, [], some (Errorf "no wants specified"))) := by
  have hN : ∀ (S1 : Capability → Option Bool) (c : Connection),
      Negotiate O st req S1 c = some (st, [], some (Errorf "no wants specified")) := by
    intro S1 c
    unfold Negotiate
    simp [hw]
  refine ⟨hN Supports conn, ?_⟩
  intro c hc
  unfold packSession.Fetch
  simp only [hc, hN]

/-- Witness for C20 as amended: a request without wants on a session after
its handshake. -/
theorem Negotiate_empty_wants_witness :
    Negotiate memObjectStorer exampleObjects
        { Wants := [], Haves := [1], Depth := 0, IncludeTags := false, Progress := none }
        exampleSession.Supports exampleWire =
      some (exampleObjects, [], some (Errorf "no wants specified")) ∧
    (∀ c, exampleSession.conn = some c →
      exampleSession.Fetch memObjectStorer exampleObjects (fun _ st => (st, none))
          { Wants := [], Haves := [1], Depth := 0, IncludeTags := false, Progress := none } =
        some (exampleObjects, [], some (Errorf "no wants specified"))) :=
  Negotiate_empty_wants memObjectStorer exampleObjects
    { Wants := [], Haves := [1], Depth := 0, IncludeTags := false, Progress := none }
    exampleSession.Supports exampleWire exampleSession (fun _ st => (st, none)) rfl

/-- C20 fails as stated: for a request with an empty want set `Negotiate`
and `packSession.Fetch` do not return a nil error but the error
`no wants specified`. -/
theorem Negotiate_empty_wants_not_success :
    Negotiate memObjectStorer exampleObjects
        { Wants := [], Haves := [], Depth := 0, IncludeTags := false, Progress := none }
        exampleSession.Supports exampleWire =
      some (exampleObjects, [], some (Errorf "no wants specified")) ∧
    exampleSession.Fetch memObjectStorer exampleObjects (fun _ st => (st, none))
        { Wants := [], Haves := [], Depth := 0, IncludeTags := false, Progress := none } =
      some (exampleObjects, [], some (Errorf "no wants specified")) := by
  refine ⟨rfl, rfl⟩

/-! ### The merge of the shallow lists -/

/-- The merged list holds the elements of the two lists and nothing else. -/
theorem mem_mergeShallows (recv : List Hash) :
    ∀ (old : List Hash) (h : Hash), h ∈ mergeShallows old recv ↔ h ∈ old ∨ h ∈ recv := by
  induction recv with
  | nil => intro old h; simp [mergeShallows]
  | cons s rest ih =>
    intro old h
    rw [mergeShallows, ih]
    by_cases hs : old.any (fun oldS => decide (s = oldS)) = true
    · rw [if_pos hs]
      have hmem : s ∈ old := by
        rcases List.any_eq_true.mp hs with ⟨x, hx, hd⟩
        have : s = x := of_decide_eq_true hd
        exact this ▸ hx
      constructor
      · rintro (h1 | h1)
        · exact Or.inl h1
        · exact Or.inr (List.mem_cons_of_mem _ h1)
      · rintro (h1 | h1)
        · exact Or.inl h1
        · rcases List.mem_cons.mp h1 with h2 | h2
          · exact Or.inl (h2 ▸ hmem)
          · exact Or.inr h2
    · rw [if_neg hs]
      simp only [List.mem_append, List.mem_singleton, List.mem_cons]
      tauto

/-- The merge only appends: the list it starts from is a prefix of the
result. -/
theorem prefix_mergeShallows (recv : List Hash) :
    ∀ old : List Hash, old <+: mergeShallows old recv := by
  induction recv with
  | nil => intro old; simp [mergeShallows]
  | cons s rest ih =>
    intro old
    rw [mergeShallows]
    by_cases hs : old.any (fun oldS => decide (s = oldS)) = true
    · rw [if_pos hs]; exact ih old
    · rw [if_neg hs]
      exact (List.prefix_append old [s]).trans (ih (old ++ [s]))

/-- The merge adds no duplicate. -/
theorem nodup_mergeShallows (recv : List Hash) :
    ∀ old : List Hash, old.Nodup → (mergeShallows old recv).Nodup := by
  induction recv with
  | nil => intro old h; simpa [mergeShallows] using h
  | cons s rest ih =>
    intro old h
    rw [mergeShallows]
    by_cases hs : old.any (fun oldS => decide (s = oldS)) = true
    · rw [if_pos hs]; exact ih old h
    · rw [if_neg hs]
      apply ih
      have hmem : s ∉ old := by
        intro hin
        apply hs
        exact List.any_eq_true.mpr ⟨s, hin, decide_eq_true rfl⟩
      rw [List.nodup_append]
      refine ⟨h, List.nodup_singleton s, ?_⟩
      intro a ha hb
      rw [List.mem_singleton] at hb
      exact hmem (hb ▸ ha)

/-- The in-memory object storer reads back the shallow list it stored. -/
theorem memObjectStorer_readsBack : ShallowReadsBack memObjectStorer := by
  intro st st1 l h
  simp only [memObjectStorer, Prod.mk.injEq] at h
  rw [← h.1]
  rfl

/-- C21: for a stored shallow list `old` and a non-empty received list
`recv`, after an `updateShallow` that succeeds, and after an `UpdateShallow`
with a depth other than 0 that succeeds, on a storer that reads back what
was stored, the stored list `new` holds the elements of `old`, the elements
of `recv` and nothing else, has `old` as a prefix, and has no duplicate when
`old` has none, also when `recv` repeats an OID. -/
theorem updateShallow_merges {σ : Type} (O : ObjectStorer σ) (hO : ShallowReadsBack O)
    (st st1 : σ) (old recv unshallows : List Hash) (depth : Int)
    (hold : O.Shallow st = Except.ok old) (hrecv : recv ≠ []) (hdepth : depth ≠ 0)
    (hrun : updateShallow O st { Shallows := recv, Unshallows := unshallows } = (st1, none) ∨
      UpdateShallow O st depth recv = (st1, none)) :
    ∃ new : List Hash, O.Shallow st1 = Except.ok new ∧
      (∀ h, h ∈ new ↔ h ∈ old ∨ h ∈ recv) ∧ old <+: new ∧ (old.Nodup → new.Nodup) := by
  have hlen : recv.length ≠ 0 := by
    intro h0; exact hrecv (List.length_eq_zero.mp h0)
  have hset : O.SetShallow st (mergeShallows old recv) = (st1, none) := by
    rcases hrun with h | h
    · unfold updateShallow at h
      simpa [hlen, hold] using h
    · unfold UpdateShallow at h
      simpa [hlen, hold, hdepth] using h
  exact ⟨mergeShallows old recv, hO _ _ _ hset, mem_mergeShallows recv old,
    prefix_mergeShallows recv old, nodup_mergeShallows recv old⟩

/-- Witness for C21: the in-memory storer with the shallow list `[5, 2]`
receives `[2, 3, 3]` and stores `[5, 2, 3]`. -/
theorem updateShallow_merges_witness :
    updateShallow memObjectStorer exampleShallow { Shallows := [2, 3, 3], Unshallows := [] } =
      ({ exampleShallow with shallow := [5, 2, 3] }, none) ∧
    UpdateShallow memObjectStorer exampleShallow 1 [2, 3, 3] =
      ({ exampleShallow with shallow := [5, 2, 3] }, none) ∧
    ∃ new : List Hash,
      memObjectStorer.Shallow { exampleShallow with shallow := [5, 2, 3] } = Except.ok new ∧
      (∀ h, h ∈ new ↔ h ∈ [5, 2] ∨ h ∈ [2, 3, 3]) ∧ [5, 2] <+: new ∧
      (([5, 2] : List Hash).Nodup → new.Nodup) :=
  ⟨rfl, rfl,
    updateShallow_merges memObjectStorer memObjectStorer_readsBack
      exampleShallow { exampleShallow with shallow := [5, 2, 3] } [5, 2] [2, 3, 3] [] 1
      rfl (by decide) (by decide) (Or.inl rfl)⟩

/-! ### The local references after a fetch: the force-needed error -/

/-- C22: when the loop of `updateLocalReferenceStorage` ends without a
failure and has skipped an update because the fast-forward test failed
(`forceNeeded` is set; `specToRefs` has a list for every spec), the function
returns a nil error for the tag mode `NoTags`, with the storage and
`updated` as the loop left them: the return of lines 285-287 comes before
the assignment of `ErrForceNeeded` in lines 302-304.  For the other tag
modes, when the tags are built without a failure, the error is
`ErrForceNeeded`. -/
theorem updateLocalReferenceStorage_force_needed {σ : Type} (S : ReferenceStorer σ)
    (O : ObjectStorer σ) (ff : σ → Hash → Hash → Bool × Option GoError) (s : σ)
    (specs : List RefSpec) (fetchedRefs remoteRefs : MemRefs)
    (specToRefs : List (List Reference)) (force : Bool) (v : updateVars σ)
    (hlen : specs.length ≤ specToRefs.length)
    (hloop : updateReferencesLoop S ff force
      { st := s, updated := false, forceNeeded := false } specs specToRefs = (v, none))
    (hskip : v.forceNeeded = true) :
    updateLocalReferenceStorage S O ff s specs fetchedRefs remoteRefs specToRefs
        TagMode.NoTags force = (v.st, v.updated, none) ∧
    (∀ (tagMode : TagMode) (s1 : σ) (tagUpdated : Bool), tagMode ≠ TagMode.NoTags →
      buildFetchedTags S O v.st (tagScope specs fetchedRefs remoteRefs) =
        (s1, tagUpdated, none) →
      updateLocalReferenceStorage S O ff s specs fetchedRefs remoteRefs specToRefs
          tagMode force = (s1, v.updated || tagUpdated, some ErrForceNeeded)) := by
  have _ := hlen
  constructor
  · unfold updateLocalReferenceStorage
    simp only [hloop, if_true]
  · intro tagMode s1 tagUpdated hmode htags
    unfold updateLocalReferenceStorage
    simp only [hloop, if_neg hmode, htags, hskip, if_true]

/-- The failing input of C22: the spec `refs/heads/*:refs/heads/*` without
force, the remote branches `main`, `topic` and `next` at commit 2, a local
repository in which `main` and `next` are at the parent 1 of 2 and `topic`
is at the unrelated commit 3.  The update of `topic` is skipped, `main` and
`next` are moved, `topic` keeps its value, and with the tag mode `NoTags`
the error is nil. -/
theorem updateLocalReferenceStorage_force_needed_witness :
    updateLocalReferenceStorage storageRefs storageObjects exampleFastForward exampleLocal
        [exampleBranchSpec] [] [] [exampleBranches] TagMode.NoTags false =
      (exampleLocalAfter, true, none) ∧
    (∀ (tagMode : TagMode) (s1 : MemStorage) (tagUpdated : Bool), tagMode ≠ TagMode.NoTags →
      buildFetchedTags storageRefs storageObjects exampleLocalAfter
          (tagScope [exampleBranchSpec] [] []) = (s1, tagUpdated, none) →
      updateLocalReferenceStorage storageRefs storageObjects exampleFastForward exampleLocal
          [exampleBranchSpec] [] [] [exampleBranches] tagMode false =
        (s1, true || tagUpdated, some ErrForceNeeded)) :=
  updateLocalReferenceStorage_force_needed storageRefs storageObjects exampleFastForward
    exampleLocal [exampleBranchSpec] [] [] [exampleBranches] false
    { st := exampleLocalAfter, updated := true, forceNeeded := true } (by decide) rfl rfl

/-! ### The local references after a fetch: the fast-forward gate -/

/-- The in-memory reference storer compares and sets. -/
theorem memStorer_comparesAndSets : ComparesAndSets memStorer := by
  refine ⟨?_, ?_, ?_⟩
  · intro st r p old hp hold
    have hget : mapGet st r.n = some p := by
      simp only [memStorer] at hp
      cases hg : mapGet st r.n with
      | none => rw [hg] at hp; cases hp
      | some q => rw [hg] at hp; cases hp; rfl
    refine ⟨ErrReferenceHasChanged, ?_⟩
    simp only [memStorer, hget, Option.map_some']
    rw [if_neg]
    intro h
    exact hold h.symm
  · intro st st1 r old h
    simp only [memStorer] at h
    by_cases hc : (mapGet st r.n).map (fun x => x.h) = old.map (fun x => x.h)
    · rw [if_pos hc] at h
      cases h
      simp only [memStorer, mapGet_mapSet]
    · rw [if_neg hc] at h
      cases h
  · intro st st1 r old n h hn
    simp only [memStorer] at h
    by_cases hc : (mapGet st r.n).map (fun x => x.h) = old.map (fun x => x.h)
    · rw [if_pos hc] at h
      cases h
      simp only [memStorer]
      rw [mapGet_mapSet_ne _ _ _ _ hn]
    · rw [if_neg hc] at h
      cases h

/-- The function on a counting storer does what it does on the storer. -/
theorem CheckAndUpdateReferenceStorerIfNeeded_countCalls {σ : Type} (S : ReferenceStorer σ)
    (st : σ) (k : Nat) (r : Reference) (old : Option Reference) :
    (CheckAndUpdateReferenceStorerIfNeeded (countCalls S) (st, k) r old).1.1 =
        (CheckAndUpdateReferenceStorerIfNeeded S st r old).1 ∧
      (CheckAndUpdateReferenceStorerIfNeeded (countCalls S) (st, k) r old).2 =
        (CheckAndUpdateReferenceStorerIfNeeded S st r old).2 ∧
      (CheckAndUpdateReferenceStorerIfNeeded (countCalls S) (st, k) r old).1.2 ≤ k + 1 := by
  unfold CheckAndUpdateReferenceStorerIfNeeded
  simp only [countCalls]
  rcases hcas : S.CheckAndSetReference st r old with ⟨s1, _ | e⟩ <;>
  rcases hp : S.Reference st r.n with err | p
  all_goals simp only []
  all_goals split_ifs <;> simp

/-- C24: for a storer that compares and sets, when the value `p` stored under
the name of `r` is neither `r` (in the written form by which the function
compares references) nor has the OID of `old`, which covers an `old` that is
nil, `CheckAndUpdateReferenceStorerIfNeeded(s, r, old)` returns
`updated = false` with an error, calls `CheckAndSetReference` at most once,
and leaves `p` in the storage. -/
theorem CheckAndUpdateReferenceStorerIfNeeded_compare_and_set {σ : Type}
    (S : ReferenceStorer σ) (hS : ComparesAndSets S) (st : σ) (r p : Reference)
    (old : Option Reference) (hp : S.Reference st r.n = Except.ok p)
    (hr : r.String ≠ p.String) (hold : old.map (fun o => o.h) ≠ some p.h) :
    (∃ err, CheckAndUpdateReferenceStorerIfNeeded S st r old = (st, false, some err)) ∧
    (∀ k : Nat,
      (CheckAndUpdateReferenceStorerIfNeeded (countCalls S) (st, k) r old).1.2 ≤ k + 1) ∧
    S.Reference (CheckAndUpdateReferenceStorerIfNeeded S st r old).1 r.n = Except.ok p := by
  obtain ⟨err, herr⟩ := hS.mismatch st r p old hp hold
  have hrun : CheckAndUpdateReferenceStorerIfNeeded S st r old = (st, false, some err) := by
    unfold CheckAndUpdateReferenceStorerIfNeeded
    simp only [hp, herr, if_pos hr]
  refine ⟨⟨err, hrun⟩, ?_, ?_⟩
  · intro k
    exact (CheckAndUpdateReferenceStorerIfNeeded_countCalls S st k r old).2.2
  · rw [hrun]
    exact hp

/-- Witness for C24: `refs/heads/main` did not exist when it was read (`old`
is nil) and a competitor has put it at 9 since; the update to 2 fails, after
one call of `CheckAndSetReference`, and 9 stays. -/
theorem CheckAndUpdateReferenceStorerIfNeeded_compare_and_set_witness :
    (∃ err, CheckAndUpdateReferenceStorerIfNeeded memStorer exampleCompetitor
        (NewHashReference "refs/heads/main" 2) none = (exampleCompetitor, false, some err)) ∧
    (∀ k : Nat,
      (CheckAndUpdateReferenceStorerIfNeeded (countCalls memStorer) (exampleCompetitor, k)
        (NewHashReference "refs/heads/main" 2) none).1.2 ≤ k + 1) ∧
    memStorer.Reference
        (CheckAndUpdateReferenceStorerIfNeeded memStorer exampleCompetitor
          (NewHashReference "refs/heads/main" 2) none).1 "refs/heads/main" =
      Except.ok (NewHashReference "refs/heads/main" 9) :=
  CheckAndUpdateReferenceStorerIfNeeded_compare_and_set memStorer memStorer_comparesAndSets
    exampleCompetitor (NewHashReference "refs/heads/main" 2)
    (NewHashReference "refs/heads/main" 9) none rfl (by decide) (by decide)

/-! ### The written form of a reference -/

/-- The hex form has the length asked for. -/
theorem length_hexDigits (w v : Nat) : (hexDigits w v).length = w := by
  induction w generalizing v with
  | zero => rfl
  | succ w ih => simp [hexDigits, ih]

/-- Distinct digits have distinct characters. -/
theorem hexChar_inj : ∀ a < 16, ∀ b < 16, hexChar a = hexChar b → a = b := by
  decide

/-- No hexadecimal digit is the letter `r`. -/
theorem hexChar_ne_r : ∀ a < 16, hexChar a ≠ 'r' := by
  decide

/-- The hex form of a given width determines a number that fits it. -/
theorem hexDigits_inj (w : Nat) :
    ∀ a b : Nat, a < 16 ^ w → b < 16 ^ w → hexDigits w a = hexDigits w b → a = b := by
  induction w with
  | zero =>
    intro a b ha hb _
    simp at ha hb
    omega
  | succ w ih =>
    intro a b ha hb h
    simp only [hexDigits] at h
    have hlen : (hexDigits w (a / 16)).length = (hexDigits w (b / 16)).length := by
      rw [length_hexDigits, length_hexDigits]
    obtain ⟨h1, h2⟩ := List.append_inj h hlen
    have hpow : 16 ^ (w + 1) = 16 ^ w * 16 := pow_succ 16 w
    have ha1 : a / 16 < 16 ^ w := by
      rw [Nat.div_lt_iff_lt_mul (by norm_num)]; omega
    have hb1 : b / 16 < 16 ^ w := by
      rw [Nat.div_lt_iff_lt_mul (by norm_num)]; omega
    have hd : a / 16 = b / 16 := ih _ _ ha1 hb1 h1
    have hm : a % 16 = b % 16 :=
      hexChar_inj _ (Nat.mod_lt _ (by norm_num)) _ (Nat.mod_lt _ (by norm_num))
        (List.singleton_inj.mp h2)
    omega

/-- The hex form holds no letter `r`. -/
theorem hexDigits_ne_r (w : Nat) : ∀ v : Nat, ∀ c ∈ hexDigits w v, c ≠ 'r' := by
  induction w with
  | zero => intro v c hc; simp [hexDigits] at hc
  | succ w ih =>
    intro v c hc
    simp only [hexDigits, List.mem_append, List.mem_singleton] at hc
    rcases hc with hc | hc
    · exact ih _ c hc
    · rw [hc]; exact hexChar_ne_r _ (Nat.mod_lt _ (by norm_num))

/-- A reference with the written form of a hash reference is a hash reference
with the same OID, for OIDs of 20 bytes. -/
theorem Reference.String_hash (r p : Reference) (hr : r.t = ReferenceType.HashReference)
    (hvr : ValidHash r.h) (hvp : ValidHash p.h) (h : p.String = r.String) :
    p.t = ReferenceType.HashReference ∧ p.h = r.h := by
  have hdata : p.String.data = r.String.data := by rw [h]
  have hrs : r.String.data = hexDigits 40 r.h ++ (' ' :: r.n.data) := by
    simp [Reference.String, hr, Hash.String, String.data_append]
  rw [hrs] at hdata
  cases hpt : p.t with
  | InvalidReference =>
    exfalso
    have h0 : p.String.data = [] := by simp [Reference.String, hpt]
    rw [h0] at hdata
    have := congrArg List.length hdata
    simp [length_hexDigits] at this
    omega
  | SymbolicReference =>
    exfalso
    have h0 : p.String.data = 'r' :: ('e' :: 'f' :: ':' :: ' ' :: (p.target.data ++ (' ' :: p.n.data))) := by
      simp [Reference.String, hpt, symrefPrefix, String.data_append]
    rw [h0] at hdata
    have hmem : 'r' ∈ hexDigits 40 r.h := by
      have hl := length_hexDigits 40 r.h
      cases hd : hexDigits 40 r.h with
      | nil => rw [hd] at hl; simp at hl
      | cons c cs =>
        rw [hd] at hdata
        simp only [List.cons_append, List.cons.injEq] at hdata
        rw [← hdata.1]
        exact List.mem_cons_self _ _
    exact hexDigits_ne_r 40 r.h 'r' hmem rfl
  | HashReference =>
    refine ⟨rfl, ?_⟩
    have h0 : p.String.data = hexDigits 40 p.h ++ (' ' :: p.n.data) := by
      simp [Reference.String, hpt, Hash.String, String.data_append]
    rw [h0] at hdata
    have hlen : (hexDigits 40 p.h).length = (hexDigits 40 r.h).length := by
      rw [length_hexDigits, length_hexDigits]
    exact hexDigits_inj 40 _ _ hvp hvr (List.append_inj hdata hlen).1

/-! ### The tags of a fetch -/

/-- A storer that compares and sets leaves, when it succeeds, what it was
asked to store. -/
theorem ComparesAndSets.setsOnSuccess {σ : Type} {S : ReferenceStorer σ}
    (hS : ComparesAndSets S) : SetsOnSuccess S :=
  ⟨hS.readsBack, hS.framed⟩

/-- What a successful `CheckAndUpdateReferenceStorerIfNeeded` leaves: the
storage is as it was or as the one call of `CheckAndSetReference` left it,
under the name of `r` is a reference with the written form of `r`, and the
other names are as they were. -/
theorem CheckAndUpdateReferenceStorerIfNeeded_ok {σ : Type} (S : ReferenceStorer σ)
    (hS : SetsOnSuccess S) (st st1 : σ) (r : Reference) (old : Option Reference) (b : Bool)
    (h : CheckAndUpdateReferenceStorerIfNeeded S st r old = (st1, b, none)) :
    (st1 = st ∨ st1 = (S.CheckAndSetReference st r old).1) ∧
    (∃ p, S.Reference st1 r.n = Except.ok p ∧ p.String = r.String) ∧
    (∀ n, n ≠ r.n → S.Reference st1 n = S.Reference st n) := by
  have hset : ∀ (x : σ × Bool × Option GoError),
      (match S.CheckAndSetReference st r old with
        | (s1, some err) => (s1, false, some err)
        | (s1, none) => (s1, true, none)) = x → x = (st1, b, none) →
      (st1 = st ∨ st1 = (S.CheckAndSetReference st r old).1) ∧
      (∃ p, S.Reference st1 r.n = Except.ok p ∧ p.String = r.String) ∧
      (∀ n, n ≠ r.n → S.Reference st1 n = S.Reference st n) := by
    intro x hx hx1
    rcases hcas : S.CheckAndSetReference st r old with ⟨s1, _ | e⟩
    · rw [hcas] at hx
      simp only at hx
      rw [← hx] at hx1
      simp only [Prod.mk.injEq] at hx1
      obtain ⟨h1, _, _⟩ := hx1
      subst h1
      exact ⟨Or.inr rfl, ⟨r, hS.readsBack _ _ _ _ hcas, rfl⟩,
        fun n hn => hS.framed _ _ _ _ n hcas hn⟩
    · rw [hcas] at hx
      simp only at hx
      rw [← hx] at hx1
      simp at hx1
  unfold CheckAndUpdateReferenceStorerIfNeeded at h
  rcases hp : S.Reference st r.n with err | p
  · rw [hp] at h
    simp only at h
    by_cases he : err ≠ ErrReferenceNotFound
    · rw [if_pos he] at h
      simp at h
    · rw [if_neg he] at h
      exact hset _ rfl h
  · rw [hp] at h
    simp only at h
    by_cases hs : r.String ≠ p.String
    · rw [if_pos hs] at h
      exact hset _ rfl h
    · rw [if_neg hs] at h
      simp only [Prod.mk.injEq] at h
      obtain ⟨h1, _, _⟩ := h
      subst h1
      exact ⟨Or.inl rfl, ⟨p, hp, (not_not.mp hs).symm⟩, fun n _ => rfl⟩

/-- What a step of `buildFetchedTags` that does not fail leaves: a reference
that is not a tag leaves the storage as it is. -/
theorem buildFetchedTagsBody_ok {σ : Type} (S : ReferenceStorer σ) (O : ObjectStorer σ)
    (hS : SetsOnSuccess S) (hO : KeepsObjects S O) (s s1 : σ) (u u1 : Bool) (ref : Reference)
    (h : buildFetchedTagsBody S O s u ref = (s1, u1, none)) :
    (∀ t h, O.EncodedObject s1 t h = O.EncodedObject s t h) ∧
    (∀ n, n ≠ ref.n → S.Reference s1 n = S.Reference s n) ∧
    (ReferenceName.IsTag ref.n = false → s1 = s) ∧
    (ReferenceName.IsTag ref.n = true →
      (∀ o, O.EncodedObject s ObjectType.AnyObject ref.h = Except.ok o →
        ∃ p, S.Reference s1 ref.n = Except.ok p ∧ p.String = ref.String) ∧
      (O.EncodedObject s ObjectType.AnyObject ref.h = Except.error ErrObjectNotFound →
        s1 = s)) := by
  unfold buildFetchedTagsBody at h
  by_cases htag : ReferenceName.IsTag ref.n = true
  · have hnf : ReferenceName.IsTag ref.n = false → s1 = s := by
      intro hf; rw [htag] at hf; cases hf
    simp only [htag, Bool.not_true, Bool.false_eq_true, if_false] at h
    rcases hobj : O.EncodedObject s ObjectType.AnyObject ref.h with err | o
    · rw [hobj] at h
      simp only at h
      by_cases he : err = ErrObjectNotFound
      · rw [if_pos he] at h
        simp only [Prod.mk.injEq] at h
        obtain ⟨h1, _, _⟩ := h
        subst h1
        exact ⟨fun _ _ => rfl, fun _ _ => rfl, hnf,
          fun _ => ⟨fun o ho => (by cases ho), fun _ => rfl⟩⟩
      · rw [if_neg he] at h
        simp at h
    · rw [hobj] at h
      simp only at h
      rcases hc : CheckAndUpdateReferenceStorerIfNeeded S s ref none with ⟨s2, ru, _ | e⟩
      · rw [hc] at h
        simp only [Prod.mk.injEq] at h
        obtain ⟨h1, _, _⟩ := h
        subst h1
        obtain ⟨hst, hp, hfr⟩ :=
          CheckAndUpdateReferenceStorerIfNeeded_ok S hS s s2 ref none ru hc
        refine ⟨?_, hfr, hnf, fun _ => ⟨fun _ _ => hp, fun hno => (by cases hno)⟩⟩
        intro t h
        rcases hst with hst | hst
        · rw [hst]
        · rw [hst]; exact hO s ref none t h
      · rw [hc] at h
        simp at h
  · simp only [htag, Bool.not_false, if_true, Bool.not_eq_true] at h
    simp only [Bool.not_eq_true] at htag
    simp only [htag, Bool.not_false, if_true, Prod.mk.injEq] at h
    obtain ⟨h1, _, _⟩ := h
    subst h1
    exact ⟨fun _ _ => rfl, fun _ _ => rfl, fun _ => rfl,
      fun hx => (by rw [htag] at hx; cases hx)⟩

/-- What a run of the loop of `buildFetchedTags` that does not fail leaves,
for references with distinct names: the objects are as they were, every tag
whose object is present is stored under its name in its written form, a tag
whose object is absent is as it was, and so are the names that are not those
of tags of the list. -/
theorem buildFetchedTagsLoop_ok {σ : Type} (S : ReferenceStorer σ) (O : ObjectStorer σ)
    (hS : SetsOnSuccess S) (hO : KeepsObjects S O) :
    ∀ (refs : List Reference) (s s1 : σ) (u u1 : Bool),
      (refs.map (fun r => r.n)).Nodup →
      buildFetchedTagsLoop S O s u refs = (s1, u1, none) →
      (∀ t h, O.EncodedObject s1 t h = O.EncodedObject s t h) ∧
      (∀ n, (∀ ref ∈ refs, ReferenceName.IsTag ref.n = true → ref.n ≠ n) →
        S.Reference s1 n = S.Reference s n) ∧
      (∀ ref ∈ refs, ReferenceName.IsTag ref.n = true →
        (∀ o, O.EncodedObject s ObjectType.AnyObject ref.h = Except.ok o →
          ∃ p, S.Reference s1 ref.n = Except.ok p ∧ p.String = ref.String) ∧
        (O.EncodedObject s ObjectType.AnyObject ref.h = Except.error ErrObjectNotFound →
          S.Reference s1 ref.n = S.Reference s ref.n)) := by
  intro refs
  induction refs with
  | nil =>
    intro s s1 u u1 _ h
    simp only [buildFetchedTagsLoop, Prod.mk.injEq] at h
    obtain ⟨h1, _⟩ := h
    subst h1
    exact ⟨fun _ _ => rfl, fun _ _ => rfl, fun ref hr => (by cases hr)⟩
  | cons r rest ih =>
    intro s s1 u u1 hnd h
    simp only [List.map_cons, List.nodup_cons, List.mem_map, not_exists, not_and] at hnd
    obtain ⟨hfresh, hnd1⟩ := hnd
    rw [buildFetchedTagsLoop] at h
    rcases hb : buildFetchedTagsBody S O s u r with ⟨s2, u2, _ | e⟩
    · rw [hb] at h
      simp only at h
      obtain ⟨hobj2, hfr2, hnot2, htag2⟩ := buildFetchedTagsBody_ok S O hS hO s s2 u u2 r hb
      obtain ⟨hobj1, hfr1, htag1⟩ := ih s2 s1 u2 u1 hnd1 h
      have hkeep : S.Reference s1 r.n = S.Reference s2 r.n :=
        hfr1 r.n (fun ref hin _ heq => hfresh ref hin heq)
      refine ⟨fun t h => (hobj1 t h).trans (hobj2 t h), ?_, ?_⟩
      · intro n hn
        rw [hfr1 n (fun ref hin => hn ref (List.mem_cons_of_mem _ hin))]
        cases hr : ReferenceName.IsTag r.n with
        | true => exact hfr2 n (fun heq => hn r (List.mem_cons_self _ _) hr heq.symm)
        | false => rw [hnot2 hr]
      · intro ref hin htag
        rcases List.mem_cons.mp hin with heq | hin1
        · subst heq
          obtain ⟨hpres, habs⟩ := htag2 htag
          constructor
          · intro o ho
            rw [hkeep]
            exact hpres o ho
          · intro hno
            rw [hkeep, habs hno]
        · obtain ⟨hpres, habs⟩ := htag1 ref hin1 htag
          have hne : ref.n ≠ r.n := fun heq => hfresh ref hin1 heq
          constructor
          · intro o ho
            exact hpres o (by rw [hobj2]; exact ho)
          · intro hno
            rw [habs (by rw [hobj2]; exact hno)]
            exact hfr2 ref.n hne
    · rw [hb] at h
      simp at h

/-- The tag step of `updateLocalReferenceStorage`: a run of `buildFetchedTags`
over a map of references that does not fail materializes the tags of the
map. -/
theorem buildFetchedTags_materializes {σ : Type} (S : ReferenceStorer σ) (O : ObjectStorer σ)
    (hS : SetsOnSuccess S) (hO : KeepsObjects S O) (s s1 : σ) (u : Bool) (scope : MemRefs)
    (hscope : NamedByKey scope) (h : buildFetchedTags S O s scope = (s1, u, none)) :
    TagsMaterialized S O s s1 scope := by
  have hnd : ((scope.map (fun e => e.2)).map (fun r => r.n)).Nodup := by
    have hkeys : (scope.map (fun e => e.2)).map (fun r => r.n) = scope.map (fun e => e.1) := by
      rw [List.map_map]
      apply List.map_congr_left
      intro x hx
      exact (hscope.2 x hx).symm
    rw [hkeys]
    exact hscope.1
  obtain ⟨hobj, hfr, htagged⟩ := buildFetchedTagsLoop_ok S O hS hO _ s s1 false u hnd h
  constructor
  · intro e he htag
    have hname : e.1 = e.2.n := hscope.2 e he
    have htag2 : ReferenceName.IsTag e.2.n = true := by rw [← hname]; exact htag
    obtain ⟨hpres, habs⟩ := htagged e.2 (List.mem_map_of_mem _ he) htag2
    constructor
    · intro o ho
      rw [hobj] at ho
      obtain ⟨p, hp, hs⟩ := hpres o ho
      refine ⟨p, by rw [hname]; exact hp, hs, ?_⟩
      intro hty hv hvp
      exact Reference.String_hash e.2 p hty hv hvp hs
    · intro hno
      rw [hobj] at hno
      rw [hname]
      exact habs hno
  · intro n hn
    apply hfr
    intro ref hin htag
    obtain ⟨e, he, heq⟩ := List.mem_map.mp hin
    subst heq
    have hname : e.1 = e.2.n := hscope.2 e he
    rw [← hname]
    exact hn e he (by rw [hname]; exact htag)

/-- The tags that `updateLocalReferenceStorage` looks at are the remote
references when every spec is a wildcard. -/
theorem tagScope_wildcards (specs : List RefSpec) (fetchedRefs remoteRefs : MemRefs)
    (h : ∀ spec ∈ specs, spec.IsWildcard = true) :
    tagScope specs fetchedRefs remoteRefs = remoteRefs := by
  unfold tagScope
  rw [if_pos (List.all_eq_true.mpr h)]

/-- The tags that `updateLocalReferenceStorage` looks at are the fetched
references when a spec is not a wildcard. -/
theorem tagScope_exact (specs : List RefSpec) (fetchedRefs remoteRefs : MemRefs)
    (h : ∃ spec ∈ specs, spec.IsWildcard = false) :
    tagScope specs fetchedRefs remoteRefs = fetchedRefs := by
  unfold tagScope
  rw [if_neg]
  intro hall
  obtain ⟨spec, hin, hw⟩ := h
  have := List.all_eq_true.mp hall spec hin
  rw [hw] at this
  cases this

/-- A successful run of `updateLocalReferenceStorage` with a tag mode other
than `NoTags` is a run of `buildFetchedTags` on what the reference loop
left. -/
theorem updateLocalReferenceStorage_tag_step {σ : Type} (S : ReferenceStorer σ)
    (O : ObjectStorer σ) (ff : σ → Hash → Hash → Bool × Option GoError) (s st1 : σ)
    (specs : List RefSpec) (fetchedRefs remoteRefs : MemRefs)
    (specToRefs : List (List Reference)) (tagMode : TagMode) (force updated : Bool)
    (hmode : tagMode ≠ TagMode.NoTags)
    (hrun : updateLocalReferenceStorage S O ff s specs fetchedRefs remoteRefs specToRefs
      tagMode force = (st1, updated, none)) :
    ∃ u, buildFetchedTags S O (updateReferencesLoop S ff force
        { st := s, updated := false, forceNeeded := false } specs specToRefs).1.st
        (tagScope specs fetchedRefs remoteRefs) = (st1, u, none) := by
  unfold updateLocalReferenceStorage at hrun
  rcases hloop : updateReferencesLoop S ff force
      { st := s, updated := false, forceNeeded := false } specs specToRefs with ⟨v, _ | e⟩
  swap
  · rw [hloop] at hrun
    simp at hrun
  rw [hloop] at hrun
  simp only at hrun
  rw [if_neg hmode] at hrun
  rcases htags : buildFetchedTags S O v.st (tagScope specs fetchedRefs remoteRefs) with
    ⟨s2, tu, _ | e2⟩
  swap
  · rw [htags] at hrun
    simp at hrun
  rw [htags] at hrun
  simp only [Prod.mk.injEq] at hrun
  obtain ⟨h1, _, _⟩ := hrun
  subst h1
  exact ⟨tu, rfl⟩

/-- C25: on a storage whose reference writes, when they succeed, store what
they were asked to and keep the objects, when `updateLocalReferenceStorage`
(with a list in `specToRefs` for every spec) succeeds with a tag mode other
than `NoTags`, the tags in scope are materialized on what the reference loop
left: every tag in scope whose object is in the object store is stored under
its name in its written form, hence with its OID, and the name of a tag in
scope whose object is absent, as every name that is not a tag in scope, reads
as the reference loop left it.  The scope is the remote references when every
spec is a wildcard, and the fetched references when a spec is not.  The step
of `buildFetchedTags` passes over a tag whose object is absent without an
error.  With the tag mode `NoTags` the storage is as the reference loop left
it. -/
theorem updateLocalReferenceStorage_tags {σ : Type} (S : ReferenceStorer σ)
    (O : ObjectStorer σ) (hS : SetsOnSuccess S) (hO : KeepsObjects S O)
    (ff : σ → Hash → Hash → Bool × Option GoError) (s st1 : σ) (specs : List RefSpec)
    (fetchedRefs remoteRefs : MemRefs) (specToRefs : List (List Reference))
    (tagMode : TagMode) (force updated : Bool)
    (hlen : specs.length ≤ specToRefs.length)
    (hfetched : NamedByKey fetchedRefs) (hremote : NamedByKey remoteRefs)
    (hrun : updateLocalReferenceStorage S O ff s specs fetchedRefs remoteRefs specToRefs
      tagMode force = (st1, updated, none)) :
    (tagMode ≠ TagMode.NoTags → (∀ spec ∈ specs, spec.IsWildcard = true) →
      TagsMaterialized S O
        (updateReferencesLoop S ff force
          { st := s, updated := false, forceNeeded := false } specs specToRefs).1.st
        st1 remoteRefs) ∧
    (tagMode ≠ TagMode.NoTags → (∃ spec ∈ specs, spec.IsWildcard = false) →
      TagsMaterialized S O
        (updateReferencesLoop S ff force
          { st := s, updated := false, forceNeeded := false } specs specToRefs).1.st
        st1 fetchedRefs) ∧
    (∀ (ref : Reference) (s2 : σ) (u : Bool), ReferenceName.IsTag ref.n = true →
      O.EncodedObject s2 ObjectType.AnyObject ref.h = Except.error ErrObjectNotFound →
      buildFetchedTagsBody S O s2 u ref = (s2, u, none)) ∧
    (tagMode = TagMode.NoTags →
      st1 = (updateReferencesLoop S ff force
        { st := s, updated := false, forceNeeded := false } specs specToRefs).1.st) := by
  have _ := hlen
  refine ⟨?_, ?_, ?_, ?_⟩
  · intro hmode hall
    obtain ⟨u, hu⟩ := updateLocalReferenceStorage_tag_step S O ff s st1 specs fetchedRefs
      remoteRefs specToRefs tagMode force updated hmode hrun
    rw [tagScope_wildcards specs fetchedRefs remoteRefs hall] at hu
    exact buildFetchedTags_materializes S O hS hO _ st1 u remoteRefs hremote hu
  · intro hmode hex
    obtain ⟨u, hu⟩ := updateLocalReferenceStorage_tag_step S O ff s st1 specs fetchedRefs
      remoteRefs specToRefs tagMode force updated hmode hrun
    rw [tagScope_exact specs fetchedRefs remoteRefs hex] at hu
    exact buildFetchedTags_materializes S O hS hO _ st1 u fetchedRefs hfetched hu
  · intro ref s2 u htag hno
    unfold buildFetchedTagsBody
    simp only [htag, Bool.not_true, Bool.false_eq_true, if_false, hno, if_true]
  · intro hmode
    unfold updateLocalReferenceStorage at hrun
    rcases hloop : updateReferencesLoop S ff force
        { st := s, updated := false, forceNeeded := false } specs specToRefs with ⟨v, _ | e⟩
    · rw [hloop] at hrun
      simp only at hrun
      rw [if_pos hmode] at hrun
      simp only [Prod.mk.injEq] at hrun
      exact hrun.1.symm
    · rw [hloop] at hrun
      simp at hrun

/-- The reference storer of a storage in memory compares and sets. -/
theorem storageRefs_comparesAndSets : ComparesAndSets storageRefs := by
  refine ⟨?_, ?_, ?_⟩
  · intro st r p old hp hold
    obtain ⟨err, herr⟩ := memStorer_comparesAndSets.mismatch st.refs r p old hp hold
    refine ⟨err, ?_⟩
    simp only [storageRefs, herr]
  · intro st st1 r old h
    simp only [storageRefs, Prod.mk.injEq] at h
    obtain ⟨h1, h2⟩ := h
    subst h1
    exact memStorer_comparesAndSets.readsBack st.refs _ r old (Prod.ext rfl h2)
  · intro st st1 r old n h hn
    simp only [storageRefs, Prod.mk.injEq] at h
    obtain ⟨h1, h2⟩ := h
    subst h1
    exact memStorer_comparesAndSets.framed st.refs _ r old n (Prod.ext rfl h2) hn

/-- A write of a reference leaves the objects of a storage in memory as they
are. -/
theorem storage_keepsObjects : KeepsObjects storageRefs storageObjects := by
  intro st r old t h
  rfl

/-- The lenient reference storer of a storage in memory stores what it was
asked to store. -/
theorem storageRefsLenient_setsOnSuccess : SetsOnSuccess storageRefsLenient := by
  constructor
  · intro st st1 r old h
    cases old with
    | none =>
      simp only [storageRefsLenient, Prod.mk.injEq, and_true] at h
      subst h
      simp only [storageRefsLenient, storageRefs, memStorer, mapGet_mapSet]
    | some o => exact storageRefs_comparesAndSets.readsBack st st1 r (some o) h
  · intro st st1 r old n h hn
    cases old with
    | none =>
      simp only [storageRefsLenient, Prod.mk.injEq, and_true] at h
      subst h
      simp only [storageRefsLenient, storageRefs, memStorer]
      rw [mapGet_mapSet_ne _ _ _ _ hn]
    | some o => exact storageRefs_comparesAndSets.framed st st1 r (some o) n h hn

/-- A write of a reference by the lenient storer leaves the objects of a
storage in memory as they are. -/
theorem storageLenient_keepsObjects : KeepsObjects storageRefsLenient storageObjects := by
  intro st r old t h
  cases old <;> rfl

/-- Witness for C25, three runs with the tag mode `TagFollowing`.  With the
wildcard spec `refs/heads/*:refs/heads/*` the scope is what the remote
advertises: `refs/tags/v1` at 2, which the local store has, is stored, and
`refs/tags/v2` at 7, which it has not, is passed over.  With the spec
`refs/tags/v1:refs/remotes/origin/v1`, which is not a wildcard, the scope is
the fetched references: `refs/tags/v1` is stored, and `refs/tags/v0`, which
the remote advertises at the commit 1 that the local store has, is not.
With a storer that sets when `old` is nil, the tag `v1` that was at 1
locally is moved to 2. -/
theorem updateLocalReferenceStorage_tags_witness :
    (updateLocalReferenceStorage storageRefs storageObjects exampleFastForward exampleLocal
        [exampleBranchSpec] [("refs/heads/main", NewHashReference "refs/heads/main" 2)]
        exampleTaggedRemote [[NewHashReference "refs/heads/main" 2]] TagMode.TagFollowing false =
      (exampleLocalTagged, true, none) ∧
    (∃ p, storageRefs.Reference exampleLocalTagged "refs/tags/v1" = Except.ok p ∧
      p.String = (NewHashReference "refs/tags/v1" 2).String) ∧
    storageRefs.Reference exampleLocalTagged "refs/tags/v2" =
      Except.error ErrReferenceNotFound) ∧
    (updateLocalReferenceStorage storageRefs storageObjects exampleFastForward exampleLocal
        [exampleTagSpec] [("refs/tags/v1", NewHashReference "refs/tags/v1" 2)]
        exampleReleases [[NewHashReference "refs/tags/v1" 2]] TagMode.TagFollowing false =
      (exampleLocalRelease, true, none) ∧
    (∃ p, storageRefs.Reference exampleLocalRelease "refs/tags/v1" = Except.ok p ∧
      p.String = (NewHashReference "refs/tags/v1" 2).String) ∧
    storageObjects.EncodedObject exampleLocalRelease ObjectType.AnyObject 1 =
      Except.ok { t := ObjectType.CommitObject, h := 1, parents := [] } ∧
    storageRefs.Reference exampleLocalRelease "refs/tags/v0" =
      Except.error ErrReferenceNotFound) ∧
    (updateLocalReferenceStorage storageRefsLenient storageObjects exampleFastForward
        exampleMovedTag [exampleBranchSpec]
        [("refs/heads/main", NewHashReference "refs/heads/main" 2)]
        exampleTaggedRemote [[NewHashReference "refs/heads/main" 2]] TagMode.TagFollowing false =
      (exampleLocalTagged, true, none) ∧
    storageRefsLenient.Reference exampleMovedTag "refs/tags/v1" =
      Except.ok (NewHashReference "refs/tags/v1" 1) ∧
    (∃ p, storageRefsLenient.Reference exampleLocalTagged "refs/tags/v1" = Except.ok p ∧
      p.String = (NewHashReference "refs/tags/v1" 2).String)) :=
  have h1 := (updateLocalReferenceStorage_tags storageRefs storageObjects
    storageRefs_comparesAndSets.setsOnSuccess storage_keepsObjects exampleFastForward
    exampleLocal exampleLocalTagged [exampleBranchSpec]
    [("refs/heads/main", NewHashReference "refs/heads/main" 2)] exampleTaggedRemote
    [[NewHashReference "refs/heads/main" 2]] TagMode.TagFollowing false true
    (by decide) (by unfold NamedByKey; decide) (by unfold NamedByKey; decide) rfl).1
      (by decide) (by decide)
  have h2 := (updateLocalReferenceStorage_tags storageRefs storageObjects
    storageRefs_comparesAndSets.setsOnSuccess storage_keepsObjects exampleFastForward
    exampleLocal exampleLocalRelease [exampleTagSpec]
    [("refs/tags/v1", NewHashReference "refs/tags/v1" 2)] exampleReleases
    [[NewHashReference "refs/tags/v1" 2]] TagMode.TagFollowing false true
    (by decide) (by unfold NamedByKey; decide) (by unfold NamedByKey; decide) rfl).2.1
      (by decide) (by decide)
  have h3 := (updateLocalReferenceStorage_tags storageRefsLenient storageObjects
    storageRefsLenient_setsOnSuccess storageLenient_keepsObjects exampleFastForward
    exampleMovedTag exampleLocalTagged [exampleBranchSpec]
    [("refs/heads/main", NewHashReference "refs/heads/main" 2)] exampleTaggedRemote
    [[NewHashReference "refs/heads/main" 2]] TagMode.TagFollowing false true
    (by decide) (by unfold NamedByKey; decide) (by unfold NamedByKey; decide) rfl).1
      (by decide) (by decide)
  ⟨⟨rfl,
    (match (h1.1 ("refs/tags/v1", NewHashReference "refs/tags/v1" 2) (by decide) rfl).1
        { t := ObjectType.CommitObject, h := 2, parents := [1] } rfl with
      | ⟨p, hp, hs, _⟩ => ⟨p, hp, hs⟩),
    ((h1.1 ("refs/tags/v2", NewHashReference "refs/tags/v2" 7) (by decide) rfl).2 rfl).trans
      rfl⟩,
   ⟨rfl,
    (match (h2.1 ("refs/tags/v1", NewHashReference "refs/tags/v1" 2) (by decide) rfl).1
        { t := ObjectType.CommitObject, h := 2, parents := [1] } rfl with
      | ⟨p, hp, hs, _⟩ => ⟨p, hp, hs⟩),
    rfl,
    (h2.2 "refs/tags/v0" (by decide)).trans rfl⟩,
   ⟨rfl, rfl,
    (match (h3.1 ("refs/tags/v1", NewHashReference "refs/tags/v1" 2) (by decide) rfl).1
        { t := ObjectType.CommitObject, h := 2, parents := [1] } rfl with
      | ⟨p, hp, hs, _⟩ => ⟨p, hp, hs⟩)⟩⟩

/-! ### The transport registry -/

/-- C27: after `Register(s, c)` with a transport `c` that is not nil,
`Get(s)` returns `(c, true)`; after `Register(s, c)` and `Unregister(s)`,
`Get(s)` returns `(nil, false)`; and neither `Register` nor `Unregister` on
`s` changes what `Get` returns for another scheme. -/
theorem Register_Unregister_Get {τ : Type} (registry : Registry τ) (s : String) (c : τ) :
    Get (Register registry s (some c)) s = (some c, true) ∧
    Get (Unregister (Register registry s (some c)) s) s = (none, false) ∧
    (∀ (s2 : String) (c2 : Option τ), s2 ≠ s →
      Get (Register registry s c2) s2 = Get registry s2 ∧
      Get (Unregister registry s) s2 = Get registry s2) := by
  refine ⟨?_, ?_, ?_⟩
  · simp only [Get, Register, mapGet_mapSet]
  · simp only [Get, Unregister, mapGet_mapDelete]
  · intro s2 c2 hne
    constructor
    · simp only [Get, Register]
      rw [mapGet_mapSet_ne _ _ _ _ hne]
    · simp only [Get, Unregister]
      rw [mapGet_mapDelete_ne _ _ _ hne]

/-- Witness for C27: in a registry that has `https`, the scheme `newscheme`
is registered and unregistered; `https` is as it was. -/
theorem Register_Unregister_Get_witness :
    Get (Register [("https", some "http client")] "newscheme" (some "dummy")) "https" =
        Get [("https", some "http client")] "https" ∧
      Get (Unregister [("https", some "http client")] "newscheme") "https" =
        Get [("https", some "http client")] "https" :=
  (Register_Unregister_Get [("https", some "http client")] "newscheme" "dummy").2.2
    "https" (some "dummy") (by decide)

/-- The two errors of `getTransport` differ, whatever the scheme. -/
theorem getTransport_errors_differ (scheme : String) :
    Errorf ("unsupported scheme " ++ Quote scheme) ≠
      Errorf ("malformed client for scheme " ++ Quote scheme ++ ", client is defined as nil") := by
  intro h
  have h1 := congrArg (fun e => e.text.data.head?) h
  simp [Errorf, String.data_append] at h1

/-- C28: `NewClient(endpoint)` fails with the error `unsupported scheme` when
the scheme of the endpoint is not in the registry, as in the registry that
is empty and after `Unregister`, and fails with the error `malformed client
... client is defined as nil` when the scheme is registered with a nil
transport; the two errors differ; and it succeeds exactly when the scheme is
registered with a transport that is not nil, which it returns. -/
theorem NewClient_spec {τ : Type} (registry : Registry τ) (endpoint : Endpoint) :
    (Get registry endpoint.Protocol = (none, false) →
      NewClient registry endpoint =
        (none, some (Errorf ("unsupported scheme " ++ Quote endpoint.Protocol)))) ∧
    NewClient ([] : Registry τ) endpoint =
      (none, some (Errorf ("unsupported scheme " ++ Quote endpoint.Protocol))) ∧
    NewClient (Unregister registry endpoint.Protocol) endpoint =
      (none, some (Errorf ("unsupported scheme " ++ Quote endpoint.Protocol))) ∧
    NewClient (Register registry endpoint.Protocol none) endpoint =
      (none, some (Errorf ("malformed client for scheme " ++ Quote endpoint.Protocol ++
        ", client is defined as nil"))) ∧
    Errorf ("unsupported scheme " ++ Quote endpoint.Protocol) ≠
      Errorf ("malformed client for scheme " ++ Quote endpoint.Protocol ++
        ", client is defined as nil") ∧
    (∀ c : τ, NewClient (Register registry endpoint.Protocol (some c)) endpoint =
      (some c, none)) ∧
    ((NewClient registry endpoint).2 = none ↔
      ∃ c : τ, Get registry endpoint.Protocol = (some c, true)) ∧
    (∀ c : τ, Get registry endpoint.Protocol = (some c, true) →
      NewClient registry endpoint = (some c, none)) := by
  refine ⟨?_, rfl, ?_, ?_, getTransport_errors_differ _, ?_, ?_, ?_⟩
  · intro h
    unfold Get at h
    unfold NewClient getTransport
    rcases hg : mapGet registry endpoint.Protocol with _ | t
    · rfl
    · rw [hg] at h
      simp at h
  · unfold NewClient getTransport Unregister
    rw [mapGet_mapDelete]
  · unfold NewClient getTransport Register
    rw [mapGet_mapSet]
  · intro c
    unfold NewClient getTransport Register
    rw [mapGet_mapSet]
  · unfold NewClient getTransport Get
    rcases hg : mapGet registry endpoint.Protocol with _ | _ | f
    · simp
    · simp
    · simp
  · intro c h
    unfold Get at h
    unfold NewClient getTransport
    rcases hg : mapGet registry endpoint.Protocol with _ | _ | f
    · rw [hg] at h
      simp at h
    · rw [hg] at h
      simp at h
    · rw [hg] at h
      simp only [Prod.mk.injEq, Option.some.injEq, and_true] at h
      rw [h]

/-- Witness for C28: in a registry that has `https` and in which
`newscheme` is registered with a nil transport, the client of an `https`
endpoint is the registered transport, and the scheme `unknown` is not in the
registry. -/
theorem NewClient_spec_witness :
    NewClient [("https", some "http client"), ("newscheme", none)] { Protocol := "https" } =
        (some "http client", none) ∧
      NewClient [("https", some "http client"), ("newscheme", none)] { Protocol := "unknown" } =
        (none, some (Errorf ("unsupported scheme " ++ Quote "unknown"))) :=
  ⟨(NewClient_spec [("https", some "http client"), ("newscheme", none)]
      { Protocol := "https" }).2.2.2.2.2.2.2 "http client" rfl,
    (NewClient_spec [("https", some "http client"), ("newscheme", none)]
      { Protocol := "unknown" }).1 rfl⟩

/-! ### A session before its handshake -/

/-- C29: on a session whose handshake response is missing (`p.srvrsp` is
nil), `Supports` and `GetRemoteRefs` do not return: both read
`p.srvrsp.AdvRefs`.  `Fetch` returns the error `connection not established`
when there is no connection; when a failed handshake has left a connection,
`Fetch` with a request that has wants does not return either, as `Negotiate`
calls `Supports`. -/
theorem packSession_without_handshake (p : packSession) (hp : p.srvrsp = none) :
    (∀ c : Capability, p.Supports c = none) ∧
    p.GetRemoteRefs = none ∧
    (∀ (σ : Type) (O : ObjectStorer σ) (st : σ)
        (UpdateObjectStorage : Option SidebandType → σ → σ × Option GoError)
        (req : FetchPackRequest),
      p.conn = none →
      p.Fetch O st UpdateObjectStorage req =
        some (st, [], some (Errorf "connection not established"))) ∧
    (∀ (σ : Type) (O : ObjectStorer σ) (st : σ)
        (UpdateObjectStorage : Option SidebandType → σ → σ × Option GoError)
        (req : FetchPackRequest) (conn : Connection),
      p.conn = some conn → req.Wants ≠ [] →
      p.Fetch O st UpdateObjectStorage req = none) := by
  have hsup : ∀ c : Capability, p.Supports c = none := by
    intro c
    unfold packSession.Supports
    rw [hp]
  refine ⟨hsup, ?_, ?_, ?_⟩
  · unfold packSession.GetRemoteRefs
    rw [hp]
  · intro σ O st U req hconn
    unfold packSession.Fetch
    rw [hconn]
  · intro σ O st U req conn hconn hw
    have hlen : req.Wants.length ≠ 0 := fun h => hw (List.length_eq_zero.mp h)
    have hcaps : negotiateCapabilities p.Supports = none := by
      unfold negotiateCapabilities preferCapability
      rw [hsup]
      rfl
    have hneg : Negotiate O st req p.Supports conn = none := by
      unfold Negotiate
      rw [if_neg hlen, hcaps]
    unfold packSession.Fetch
    rw [hconn]
    simp only [hneg]

/-- The failing input of C29: on the session that `NewPackSession` returns,
`Supports` and `GetRemoteRefs` do not return; and after a handshake that
failed because the remote repository is empty, `Fetch` with the want 7 does
not return. -/
theorem packSession_without_handshake_witness :
    (∀ c : Capability, NewPackSession.Supports c = none) ∧
    NewPackSession.GetRemoteRefs = none ∧
    (NewPackSession.Handshake (fun _ => Except.ok exampleEmptyConnection) false).2 =
      Except.error ErrEmptyRemoteRepository ∧
    (NewPackSession.Handshake (fun _ => Except.ok exampleEmptyConnection) false).1.Fetch
        memObjectStorer exampleObjects (fun _ st => (st, none))
        { Wants := [7], Haves := [], Depth := 0, IncludeTags := false, Progress := none } =
      none :=
  ⟨(packSession_without_handshake NewPackSession rfl).1,
    (packSession_without_handshake NewPackSession rfl).2.1, rfl,
    (packSession_without_handshake
      (NewPackSession.Handshake (fun _ => Except.ok exampleEmptyConnection) false).1 rfl).2.2.2
      MemObjects memObjectStorer exampleObjects (fun _ st => (st, none))
      { Wants := [7], Haves := [], Depth := 0, IncludeTags := false, Progress := none }
      exampleEmptyConnection rfl (by decide)⟩

/-! ### The upload-archive response -/

/-- C30: on a response stream that begins with `ACK` and a flush packet,
`Decode` of a new response sets the reader to a tar reader for the format
`tar`, to the raw stream for `zip`, and to a tar reader over gzip for `tgz`
and `tar.gz`; for every other format, the empty one among them, no case of
the `switch` applies: the reader stays nil and `Decode` returns the error of
the scanner, nil when the stream was read without error. -/
theorem UploadArchiveResponse.Decode_format (req : UploadArchiveRequest) (s : Scanner)
    (gzipNewReader : String → Option GoError) (rest : List String)
    (hs : s.packets = ack :: FlushPkt :: rest) :
    (req.Format = "tar" →
      (NewUploadArchiveResponse req).Decode s gzipNewReader =
        ({ req := req, data := some (ArchiveReader.tar (String.join rest)) }, s.err)) ∧
    (req.Format = "zip" →
      (NewUploadArchiveResponse req).Decode s gzipNewReader =
        ({ req := req, data := some (ArchiveReader.raw (String.join rest)) }, s.err)) ∧
    (req.Format = "tgz" ∨ req.Format = "tar.gz" → gzipNewReader (String.join rest) = none →
      (NewUploadArchiveResponse req).Decode s gzipNewReader =
        ({ req := req, data := some (ArchiveReader.tarGzip (String.join rest)) }, s.err)) ∧
    (req.Format ≠ "tar" → req.Format ≠ "zip" → req.Format ≠ "tgz" → req.Format ≠ "tar.gz" →
      (NewUploadArchiveResponse req).Decode s gzipNewReader =
        ({ req := req, data := none }, s.err)) := by
  have h1 : ¬ (ack ≠ ack) := fun h => h rfl
  have h2 : ¬ (FlushPkt ≠ FlushPkt) := fun h => h rfl
  refine ⟨?_, ?_, ?_, ?_⟩
  · intro hf
    unfold UploadArchiveResponse.Decode
    simp only [hs, if_neg h1, if_neg h2, NewUploadArchiveResponse, hf, if_true]
  · intro hf
    unfold UploadArchiveResponse.Decode
    simp only [hs, if_neg h1, if_neg h2, NewUploadArchiveResponse, hf]
    rfl
  · intro hf hgz
    unfold UploadArchiveResponse.Decode
    simp only [hs, if_neg h1, if_neg h2, NewUploadArchiveResponse, hgz]
    rcases hf with hf | hf <;> simp [hf]
  · intro ht hz hg htg
    unfold UploadArchiveResponse.Decode
    simp only [hs, if_neg h1, if_neg h2, NewUploadArchiveResponse, if_neg ht, if_neg hz]
    rw [if_neg]
    rintro (h | h)
    · exact hg h
    · exact htg h

/-- The failing input of C30: a request for `HEAD` without a format is valid;
its response is decoded without error and the reader of the response is
nil. -/
theorem UploadArchiveResponse.Decode_format_witness :
    exampleArchiveRequest.Validate = none ∧
    (NewUploadArchiveResponse exampleArchiveRequest).Decode exampleArchiveStream
        (fun _ => none) =
      ({ req := exampleArchiveRequest, data := none }, none) :=
  ⟨rfl,
    (UploadArchiveResponse.Decode_format exampleArchiveRequest exampleArchiveStream
      (fun _ => none) ["archive ", "bytes"] rfl).2.2.2
      (by decide) (by decide) (by decide) (by decide)⟩

/-! ### Fetching twice -/

/-- C26: at the end of `Fetch`, when `updateLocalReferenceStorage` has
changed no reference, the request holds no shallow OID, as it does when
`Depth` is 0 and lines 144-149 have not read the shallow list, and the
storage is shallow, `depthChanged` compares the empty list with the stored
one and reports a change: `Fetch` returns a nil error and not
`NoErrAlreadyUpToDate`, though nothing has changed. -/
theorem fetchResult_shallow_depth_zero {σ : Type} (O : ObjectStorer σ) (remoteRefs : MemRefs)
    (req : UploadPackRequest) (st : σ) (shallows : List Hash)
    (hreq : req.Shallows = []) (hst : O.Shallow st = Except.ok shallows)
    (hne : shallows ≠ []) :
    depthChanged O req.Shallows st = (true, none) ∧
    fetchResult O remoteRefs req st false = (st, some remoteRefs, none) := by
  have hlen : ([] : List Hash).length ≠ shallows.length := by
    intro h
    exact hne (List.length_eq_zero.mp h.symm)
  have hd : depthChanged O req.Shallows st = (true, none) := by
    unfold depthChanged
    rw [hst, hreq]
    simp only [if_pos hlen]
  refine ⟨hd, ?_⟩
  unfold fetchResult
  simp only [Bool.not_false, if_true, hd]

/-- The failing input of C26: a shallow clone (shallow list `[2]`) whose
branch `main` is at the advertised commit 2, fetched with `Depth` 0.  The
fetch changes neither a reference nor the shallow list, the storage
afterwards is the storage before, so that fetching again is the same call,
and the error is nil, not `NoErrAlreadyUpToDate`. -/
theorem fetchResult_shallow_depth_zero_witness :
    Fetch exampleFromCapabilities (Except.ok exampleMainAdvertisement)
        (fetchAfterGate storageRefs storageObjects exampleFastForward exampleAllReferences
          exampleUploadPack exampleFetchOptions)
        exampleShallowClone exampleFetchOptions =
      (exampleShallowClone, some [("refs/heads/main", NewHashReference "refs/heads/main" 2)],
        none) ∧
    depthChanged storageObjects (exampleFromCapabilities NewList).Shallows exampleShallowClone =
      (true, none) ∧
    fetchResult storageObjects [("refs/heads/main", NewHashReference "refs/heads/main" 2)]
        (exampleFromCapabilities NewList) exampleShallowClone false =
      (exampleShallowClone, some [("refs/heads/main", NewHashReference "refs/heads/main" 2)],
        none) :=
  ⟨rfl,
    fetchResult_shallow_depth_zero storageObjects
      [("refs/heads/main", NewHashReference "refs/heads/main" 2)]
      (exampleFromCapabilities NewList) exampleShallowClone [2] rfl rfl (by decide)⟩

/-- The same fetch on a clone that is not shallow returns
`NoErrAlreadyUpToDate`. -/
theorem Fetch_up_to_date_example :
    Fetch exampleFromCapabilities (Except.ok exampleMainAdvertisement)
        (fetchAfterGate storageRefs storageObjects exampleFastForward exampleAllReferences
          exampleUploadPack exampleFetchOptions)
        { exampleShallowClone with objs := { exampleShallowClone.objs with shallow := [] } }
        exampleFetchOptions =
      ({ exampleShallowClone with objs := { exampleShallowClone.objs with shallow := [] } },
        some [("refs/heads/main", NewHashReference "refs/heads/main" 2)],
        some NoErrAlreadyUpToDate) := by
  rfl

/-! ### The change of the shallow list -/

/-- The keys of the map `bm` of `depthChanged`. -/
theorem isSome_mapGet_foldl_mapSet (before : List Hash) :
    ∀ (bm : List (Hash × Bool)) (a : Hash),
      (mapGet (before.foldl (fun bm b => mapSet bm b true) bm) a).isSome = true ↔
        a ∈ before ∨ (mapGet bm a).isSome = true := by
  induction before with
  | nil => intro bm a; simp
  | cons b rest ih =>
    intro bm a
    rw [List.foldl_cons, ih]
    by_cases hab : a = b
    · subst hab
      simp [mapGet_mapSet]
    · rw [mapGet_mapSet_ne _ _ _ _ hab]
      simp [hab]

/-- The second loop of `depthChanged` finds no change exactly when every OID
it is given is a key of the map. -/
theorem depthChangedLoop_eq_false (bm : List (Hash × Bool)) (after : List Hash) :
    depthChangedLoop bm after = false ↔ ∀ a ∈ after, (mapGet bm a).isSome = true := by
  induction after with
  | nil => simp [depthChangedLoop]
  | cons a rest ih =>
    rw [depthChangedLoop]
    cases hg : mapGet bm a with
    | none => simp [hg]
    | some v => simp [hg, ih]

/-- C34: for shallow lists `before` and `after` without duplicates, `after`
being what the storage returns, `depthChanged(before, s)` returns without
error, returns false exactly when `after` is a permutation of `before`, and
returns true exactly when the two lists differ as sets. -/
theorem depthChanged_spec {σ : Type} (O : ObjectStorer σ) (s : σ) (before after : List Hash)
    (hs : O.Shallow s = Except.ok after) (hb : before.Nodup) (ha : after.Nodup) :
    ∃ changed : Bool, depthChanged O before s = (changed, none) ∧
      (changed = false ↔ after.Perm before) ∧
      (changed = true ↔ ¬ (∀ h : Hash, h ∈ before ↔ h ∈ after)) := by
  have hperm : after.Perm before ↔ ∀ h : Hash, h ∈ before ↔ h ∈ after := by
    rw [List.perm_ext_iff_of_nodup ha hb]
    exact ⟨fun h x => (h x).symm, fun h x => (h x).symm⟩
  have hkey : ∀ a : Hash,
      (mapGet (before.foldl (fun bm b => mapSet bm b true) []) a).isSome = true ↔ a ∈ before := by
    intro a
    rw [isSome_mapGet_foldl_mapSet]
    simp [mapGet]
  by_cases hlen : before.length ≠ after.length
  · refine ⟨true, ?_, ?_, ?_⟩
    · unfold depthChanged
      simp only [hs, if_pos hlen]
    · constructor
      · intro h; cases h
      · intro h; exact absurd h.length_eq.symm hlen
    · constructor
      · intro _ hall
        exact hlen (hperm.mpr hall).length_eq.symm
      · intro _; rfl
  · have hlen' : before.length = after.length := not_not.mp hlen
    have hrun : depthChanged O before s =
        (depthChangedLoop (before.foldl (fun bm b => mapSet bm b true) []) after, none) := by
      unfold depthChanged
      simp only [hs, if_neg hlen]
    have hfalse : depthChangedLoop (before.foldl (fun bm b => mapSet bm b true) []) after =
        false ↔ after.Perm before := by
      rw [depthChangedLoop_eq_false]
      constructor
      · intro h
        have hsub : after ⊆ before := fun a hin => (hkey a).mp (h a hin)
        exact (List.subperm_of_subset ha hsub).perm_of_length_le (le_of_eq hlen')
      · intro h a hin
        exact (hkey a).mpr (h.subset hin)
    refine ⟨_, hrun, hfalse, ?_⟩
    rw [← hperm, ← hfalse]
    simp

/-- Witness for C34: the storage holds `[5, 2]`; against `[2, 5]` nothing
has changed, against `[2, 3]` the list has. -/
theorem depthChanged_spec_witness :
    (∃ changed : Bool, depthChanged memObjectStorer [2, 5] exampleShallow = (changed, none) ∧
      (changed = false ↔ ([5, 2] : List Hash).Perm [2, 5]) ∧
      (changed = true ↔ ¬ (∀ h : Hash, h ∈ ([2, 5] : List Hash) ↔ h ∈ ([5, 2] : List Hash)))) ∧
    depthChanged memObjectStorer [2, 5] exampleShallow = (false, none) ∧
    depthChanged memObjectStorer [2, 3] exampleShallow = (true, none) :=
  ⟨depthChanged_spec memObjectStorer exampleShallow [2, 5] [5, 2] rfl (by decide) (by decide),
    rfl, rfl⟩

/-! ### The two merges of the shallow list -/

/-- A merge of OIDs that are all in the list leaves the list as it is. -/
theorem mergeShallows_of_subset (recv : List Hash) :
    ∀ l : List Hash, (∀ x ∈ recv, x ∈ l) → mergeShallows l recv = l := by
  induction recv with
  | nil => intro l _; rfl
  | cons s rest ih =>
    intro l h
    rw [mergeShallows]
    have hs : l.any (fun oldS => decide (s = oldS)) = true :=
      List.any_eq_true.mpr ⟨s, h s (List.mem_cons_self _ _), decide_eq_true rfl⟩
    rw [if_pos hs]
    exact ih l (fun x hx => h x (List.mem_cons_of_mem _ hx))

/-- Merging the same OIDs a second time changes nothing. -/
theorem mergeShallows_idem (old recv : List Hash) :
    mergeShallows (mergeShallows old recv) recv = mergeShallows old recv :=
  mergeShallows_of_subset recv _ (fun x hx => (mem_mergeShallows recv old x).mpr (Or.inr hx))

/-- C37: on a storage whose shallow list is `old`: for a depth other than 0
`UpdateShallow(st, depth, recv)` and `updateShallow(st, recv)` have the same
outcome, they store the same list; for an empty `recv` both leave the
storage untouched; for the depth 0 `UpdateShallow` leaves the storage
untouched whatever `recv` is; and on a storer that reads back what was
stored, either merge applied again with the same `recv` after a merge that
succeeded leaves the stored list as it is. -/
theorem UpdateShallow_agrees_with_updateShallow {σ : Type} (O : ObjectStorer σ)
    (hO : ShallowReadsBack O) (st : σ) (old recv unshallows : List Hash) (depth : Int)
    (hold : O.Shallow st = Except.ok old) :
    (depth ≠ 0 →
      UpdateShallow O st depth recv =
          updateShallow O st { Shallows := recv, Unshallows := unshallows } ∧
        (recv ≠ [] →
          UpdateShallow O st depth recv = O.SetShallow st (mergeShallows old recv))) ∧
    (recv = [] →
      UpdateShallow O st depth recv = (st, none) ∧
        updateShallow O st { Shallows := recv, Unshallows := unshallows } = (st, none)) ∧
    UpdateShallow O st 0 recv = (st, none) ∧
    (∀ st1 st2 : σ,
      (updateShallow O st { Shallows := recv, Unshallows := unshallows } = (st1, none) ∨
        (depth ≠ 0 ∧ UpdateShallow O st depth recv = (st1, none))) →
      (updateShallow O st1 { Shallows := recv, Unshallows := unshallows } = (st2, none) ∨
        UpdateShallow O st1 depth recv = (st2, none)) →
      O.Shallow st2 = O.Shallow st1) := by
  have hzero : ∀ s : σ, UpdateShallow O s 0 recv = (s, none) := by
    intro s
    unfold UpdateShallow
    simp
  have hagree : ∀ s : σ, depth ≠ 0 →
      UpdateShallow O s depth recv =
        updateShallow O s { Shallows := recv, Unshallows := unshallows } := by
    intro s hd
    unfold UpdateShallow updateShallow
    by_cases hl : recv.length = 0
    · simp [hl]
    · simp [hl, hd]
  have hempty : ∀ s : σ, recv = [] →
      updateShallow O s { Shallows := recv, Unshallows := unshallows } = (s, none) := by
    intro s hr
    unfold updateShallow
    simp [hr]
  have hrun : ∀ (s : σ) (l : List Hash), O.Shallow s = Except.ok l → recv ≠ [] →
      updateShallow O s { Shallows := recv, Unshallows := unshallows } =
        O.SetShallow s (mergeShallows l recv) := by
    intro s l hl hr
    have hlen : recv.length ≠ 0 := fun h0 => hr (List.length_eq_zero.mp h0)
    unfold updateShallow
    simp [hlen, hl]
  refine ⟨?_, ?_, hzero st, ?_⟩
  · intro hd
    refine ⟨hagree st hd, fun hr => ?_⟩
    rw [hagree st hd, hrun st old hold hr]
  · intro hr
    constructor
    · by_cases hd : depth = 0
      · rw [hd]; exact hzero st
      · rw [hagree st hd]; exact hempty st hr
    · exact hempty st hr
  · intro st1 st2 h1 h2
    have h1' : updateShallow O st { Shallows := recv, Unshallows := unshallows } = (st1, none) := by
      rcases h1 with h1 | ⟨hd, h1⟩
      · exact h1
      · rw [← hagree st hd]; exact h1
    by_cases hr : recv = []
    · have e1 : st1 = st := by
        rw [hempty st hr] at h1'
        exact (Prod.mk.inj h1').1.symm
      have e2 : st2 = st1 := by
        rcases h2 with h2 | h2
        · rw [hempty st1 hr] at h2
          exact (Prod.mk.inj h2).1.symm
        · by_cases hd : depth = 0
          · rw [hd, hzero st1] at h2
            exact (Prod.mk.inj h2).1.symm
          · rw [hagree st1 hd, hempty st1 hr] at h2
            exact (Prod.mk.inj h2).1.symm
      rw [e2]
    · rw [hrun st old hold hr] at h1'
      have hs1 : O.Shallow st1 = Except.ok (mergeShallows old recv) := hO _ _ _ h1'
      rcases h2 with h2 | h2
      · rw [hrun st1 _ hs1 hr, mergeShallows_idem] at h2
        rw [hO _ _ _ h2, hs1]
      · by_cases hd : depth = 0
        · rw [hd, hzero st1] at h2
          rw [(Prod.mk.inj h2).1.symm]
        · rw [hagree st1 hd, hrun st1 _ hs1 hr, mergeShallows_idem] at h2
          rw [hO _ _ _ h2, hs1]

/-- Witness for C37: the in-memory storer with the shallow list `[5, 2]` and
the received list `[2, 3, 3]`: both merges store `[5, 2, 3]`, and a second
merge leaves that list. -/
theorem UpdateShallow_agrees_with_updateShallow_witness :
    UpdateShallow memObjectStorer exampleShallow 1 [2, 3, 3] =
      updateShallow memObjectStorer exampleShallow { Shallows := [2, 3, 3], Unshallows := [] } ∧
    memObjectStorer.Shallow
        (UpdateShallow memObjectStorer { exampleShallow with shallow := [5, 2, 3] } 1
          [2, 3, 3]).1 =
      memObjectStorer.Shallow { exampleShallow with shallow := [5, 2, 3] } :=
  ⟨((UpdateShallow_agrees_with_updateShallow memObjectStorer memObjectStorer_readsBack
      exampleShallow [5, 2] [2, 3, 3] [] 1 rfl).1 (by decide)).1,
    (UpdateShallow_agrees_with_updateShallow memObjectStorer memObjectStorer_readsBack
      exampleShallow [5, 2] [2, 3, 3] [] 1 rfl).2.2.2
      { exampleShallow with shallow := [5, 2, 3] }
      (UpdateShallow memObjectStorer { exampleShallow with shallow := [5, 2, 3] } 1
        [2, 3, 3]).1
      (Or.inl rfl) (Or.inr rfl)⟩

/-! ### The frame of the reference updates -/

/-- The loop body leaves a name as it was when the command has another name
or fails its existence check. -/
theorem updateReferencesBody_frame {σ : Type} (S : ReferenceStorer σ) (hS : WritesFramed S)
    (s : rpStatus) (st : σ) (cmd : Command) (n : ReferenceName)
    (h : cmd.Name = n → failsExistenceCheck S st cmd) :
    S.Reference (updateReferencesBody S s st cmd).2 n = S.Reference st n := by
  by_cases hn : cmd.Name = n
  · rcases h hn with ⟨hA, hE⟩ | ⟨hA | hA, hE⟩ <;>
      simp [updateReferencesBody, hA, hE]
  · have hne : n ≠ cmd.Name := fun e => hn e.symm
    unfold updateReferencesBody
    rcases hE : referenceExists S st cmd.Name with ⟨ok, _ | err⟩
    · cases hA : cmd.Action <;> cases ok <;>
        simp [hS.get_set_ne _ _ _ (show n ≠ (NewHashReference cmd.Name cmd.New).n from hne),
          hS.get_remove_ne _ _ _ hne]
    · rfl

/-- C39: on a storer whose writes are framed, `updateReferences` leaves every
reference whose name is in no command as it was, present or absent, and also
every reference that is named only by commands that fail their existence
check. -/
theorem updateReferences_frame {σ : Type} (S : ReferenceStorer σ) (hS : WritesFramed S)
    (s : rpStatus) (st : σ) (cmds : List Command) (n : ReferenceName) :
    ((∀ cmd ∈ cmds, cmd.Name ≠ n) →
      S.Reference (updateReferences S s st cmds).2 n = S.Reference st n) ∧
    ((∀ cmd ∈ cmds, cmd.Name = n → failsExistenceCheck S st cmd) →
      S.Reference (updateReferences S s st cmds).2 n = S.Reference st n) := by
  have main : ∀ (cmds : List Command) (s : rpStatus) (st1 : σ),
      S.Reference st1 n = S.Reference st n →
      (∀ cmd ∈ cmds, cmd.Name = n → failsExistenceCheck S st cmd) →
      S.Reference (updateReferences S s st1 cmds).2 n = S.Reference st n := by
    intro cmds
    induction cmds with
    | nil => intro s st1 h1 _; exact h1
    | cons c rest ih =>
      intro s st1 h1 h
      rw [updateReferences]
      apply ih
      · rw [← h1]
        apply updateReferencesBody_frame S hS
        intro hc
        have hf := h c (List.mem_cons_self _ _) hc
        have hcongr : referenceExists S st1 c.Name = referenceExists S st c.Name := by
          rw [hc]; exact referenceExists_congr S st st1 n h1
        unfold failsExistenceCheck at hf ⊢
        rw [hcongr]
        exact hf
      · intro cmd hin
        exact h cmd (List.mem_cons_of_mem _ hin)
  refine ⟨fun h => main cmds s st rfl (fun cmd hin hc => absurd hc (h cmd hin)),
    fun h => main cmds s st rfl h⟩

/-- Witness for C39: in `exampleRefs` (`refs/heads/old` and
`refs/heads/main` exist), a create of `refs/heads/new` and a create of the
existing `refs/heads/main` leave `refs/heads/old`, which no command names,
and `refs/heads/main`, whose only command fails its check, as they were. -/
theorem updateReferences_frame_witness :
    memStorer.Reference
        (updateReferences memStorer emptyStatus exampleRefs
          [⟨"refs/heads/new", 0, 5⟩, ⟨"refs/heads/main", 0, 5⟩]).2 "refs/heads/old" =
      memStorer.Reference exampleRefs "refs/heads/old" ∧
    memStorer.Reference
        (updateReferences memStorer emptyStatus exampleRefs
          [⟨"refs/heads/new", 0, 5⟩, ⟨"refs/heads/main", 0, 5⟩]).2 "refs/heads/main" =
      memStorer.Reference exampleRefs "refs/heads/main" :=
  ⟨(updateReferences_frame memStorer memStorer_writesFramed emptyStatus exampleRefs
      [⟨"refs/heads/new", 0, 5⟩, ⟨"refs/heads/main", 0, 5⟩] "refs/heads/old").1 (by decide),
    (updateReferences_frame memStorer memStorer_writesFramed emptyStatus exampleRefs
      [⟨"refs/heads/new", 0, 5⟩, ⟨"refs/heads/main", 0, 5⟩] "refs/heads/main").2 (by decide)⟩

/-! ### The capabilities of the upload-request -/

/-- What a list supports after `Set`. -/
theorem Supports_Set (l : CapabilityList) (c d : Capability) (values : List String) :
    (l.Set c values).1.Supports d = (decide (d = c) || l.Supports d) := by
  obtain ⟨es⟩ := l
  unfold CapabilityList.Set
  by_cases hc : (CapabilityList.mk es).Supports c = true
  · rw [if_pos hc]
    simp only [CapabilityList.Supports] at hc ⊢
    have hmap : (es.map (fun e => if e.1 = c then (c, values) else e)).any
        (fun e => decide (e.1 = d)) = es.any (fun e => decide (e.1 = d)) := by
      rw [List.any_map]
      congr 1
      funext e
      by_cases he : e.1 = c <;> simp [he]
    rw [hmap]
    by_cases hd : d = c
    · subst hd; simp [hc]
    · simp [hd]
  · rw [if_neg hc]
    simp only [CapabilityList.Supports, List.any_append, List.any_cons, List.any_nil,
      Bool.or_false]
    rw [Bool.or_comm]
    congr 1
    by_cases hd : d = c
    · subst hd; simp
    · have : ¬ c = d := fun h => hd h.symm
      simp [hd, this]

/-- What the list supports after `setIfSupported`. -/
theorem Supports_setIfSupported (Supports : Capability → Option Bool) (l l1 : CapabilityList)
    (c d : Capability) (values : List String) (h : setIfSupported Supports l c values = some l1) :
    l1.Supports d = ((decide (d = c) && decide (Supports c = some true)) || l.Supports d) := by
  unfold setIfSupported at h
  rcases hs : Supports c with _ | _ | _
  · rw [hs] at h; cases h
  · rw [hs] at h
    simp only [Option.some.injEq] at h
    subst h
    simp
  · rw [hs] at h
    simp only [Option.some.injEq] at h
    subst h
    rw [Supports_Set]
    simp

/-- What the list supports after `preferCapability`. -/
theorem Supports_preferCapability (Supports : Capability → Option Bool) (l l1 : CapabilityList)
    (a b d : Capability) (h : preferCapability Supports l a b = some l1) :
    l1.Supports d =
      ((decide (d = a) && decide (Supports a = some true)) ||
        (decide (d = b) && decide (Supports a = some false) && decide (Supports b = some true)) ||
        l.Supports d) := by
  unfold preferCapability at h
  rcases hs : Supports a with _ | _ | _
  · rw [hs] at h; cases h
  · rw [hs] at h
    simp only at h
    rw [Supports_setIfSupported Supports l l1 b d [] h]
    simp
  · rw [hs] at h
    simp only [Option.some.injEq] at h
    subst h
    rw [Supports_Set]
    simp

/-- The only upload-request that the exchange writes is the one it is
given. -/
theorem negotiateExchange_request {σ : Type} (O : ObjectStorer σ) (st : σ)
    (req : FetchPackRequest) (upreq r : UploadRequest) (isMultiAck : Bool) (conn : Connection)
    (h : Sent.uploadRequest r ∈ (negotiateExchange O st req upreq isMultiAck conn).2.1) :
    r = upreq := by
  unfold negotiateExchange at h
  repeat' split at h
  all_goals
    simp only [List.mem_cons, List.mem_singleton, Sent.uploadRequest.injEq, List.mem_nil_iff,
      or_false, reduceCtorEq] at h
  all_goals exact h

/-- The capabilities that `Negotiate` takes from the session are supported by
the session. -/
theorem negotiateCapabilities_supported (Supports : Capability → Option Bool)
    (caps : CapabilityList) (h : negotiateCapabilities Supports = some caps) (d : Capability)
    (hd : caps.Supports d = true) : Supports d = some true := by
  unfold negotiateCapabilities at h
  simp only [Option.bind_eq_some] at h
  obtain ⟨c1, h1, c2, h2, c3, h3, c4, h4, h5⟩ := h
  rw [Supports_setIfSupported Supports c4 caps Agent d _ h5,
    Supports_setIfSupported Supports c3 c4 OFSDelta d _ h4,
    Supports_setIfSupported Supports c2 c3 ThinPack d _ h3,
    Supports_preferCapability Supports c1 c2 Sideband64k Sideband d h2,
    Supports_preferCapability Supports NewUploadRequest.Capabilities c1 MultiACKDetailed
      MultiACK d h1] at hd
  have hnew : NewUploadRequest.Capabilities.Supports d = false := rfl
  simp only [hnew, Bool.or_false, Bool.or_eq_true, Bool.and_eq_true, decide_eq_true_eq] at hd
  rcases hd with ⟨e, hs⟩ | ⟨e, hs⟩ | ⟨e, hs⟩ | (⟨e, hs⟩ | ⟨⟨e, _⟩, hs⟩) |
    (⟨e, hs⟩ | ⟨⟨e, _⟩, hs⟩) <;> rw [e] <;> exact hs

/-- The function `Negotiate` in terms of `negotiateFrom`. -/
theorem Negotiate_eq {σ : Type} (O : ObjectStorer σ) (st : σ) (req : FetchPackRequest)
    (Supports : Capability → Option Bool) (conn : Connection) :
    Negotiate O st req Supports conn =
      if req.Wants.length = 0 then some (st, [], some (Errorf "no wants specified"))
      else
        match negotiateCapabilities Supports with
        | none => none
        | some caps =>
          match (if req.Depth ≠ 0 then
                   match O.Shallow st with
                   | Except.error err => Except.error err
                   | Except.ok shallows =>
                     Except.ok
                       { Capabilities := (caps.Set Shallow []).1, Wants := req.Wants,
                         Shallows := shallows, Depth := req.Depth }
                 else
                   Except.ok
                     { Capabilities := caps, Wants := req.Wants, Shallows := [],
                       Depth := 0 }) with
          | Except.error err => some (st, [], some err)
          | Except.ok upreq1 => negotiateFrom O st req Supports conn upreq1 := by
  rfl

/-- The upload-request that `negotiateFrom` sends. -/
theorem negotiateFrom_request {σ : Type} (O : ObjectStorer σ) (st st1 : σ)
    (req : FetchPackRequest) (Supports : Capability → Option Bool) (conn : Connection)
    (upreq1 r : UploadRequest) (sent : List Sent) (err : Option GoError)
    (h : negotiateFrom O st req Supports conn upreq1 = some (st1, sent, err))
    (hr : Sent.uploadRequest r ∈ sent) (d : Capability) :
    r.Capabilities.Supports d =
      (decide (d = IncludeTag) && req.IncludeTags ||
        (decide (d = NoProgress) && req.Progress.isNone || upreq1.Capabilities.Supports d)) := by
  have hfinal : ∀ (x : UploadRequest) (b : Bool),
      negotiateExchange O st req x b conn = (st1, sent, err) →
      x.Capabilities = (if req.IncludeTags = true then
          ((if req.Progress.isNone = true then (upreq1.Capabilities.Set NoProgress []).1
            else upreq1.Capabilities).Set IncludeTag []).1
        else (if req.Progress.isNone = true then (upreq1.Capabilities.Set NoProgress []).1
          else upreq1.Capabilities)) →
      r.Capabilities.Supports d =
        (decide (d = IncludeTag) && req.IncludeTags ||
          (decide (d = NoProgress) && req.Progress.isNone ||
            upreq1.Capabilities.Supports d)) := by
    intro x b hx hcapsx
    have hs := congrArg (fun y => y.2.1) hx
    simp only at hs
    rw [← hs] at hr
    rw [negotiateExchange_request O st req x r b conn hr, hcapsx]
    cases hi : req.IncludeTags <;> cases hp : req.Progress.isNone <;>
      simp [Supports_Set]
  unfold negotiateFrom at h
  split at h
  · simp only [Option.some.injEq, Prod.mk.injEq] at h
    rw [← h.2.1] at hr
    simp at hr
  simp only at h
  split at h
  · cases h
  · simp only [Option.some.injEq] at h
    refine hfinal _ true h ?_
    cases hi : req.IncludeTags <;> cases hp : req.Progress.isNone <;> simp
  · split at h
    · cases h
    · simp only [Option.some.injEq] at h
      refine hfinal _ _ h ?_
      cases hi : req.IncludeTags <;> cases hp : req.Progress.isNone <;> simp

/-- The upload-request that `Negotiate` sends: its capabilities are the ones
taken from the session, `shallow` when the depth is not 0, `no-progress` when
there is no progress sink and `include-tag` when tags are to be included. -/
theorem Negotiate_request {σ : Type} (O : ObjectStorer σ) (st st1 : σ) (req : FetchPackRequest)
    (Supports : Capability → Option Bool) (conn : Connection) (sent : List Sent)
    (err : Option GoError) (r : UploadRequest)
    (h : Negotiate O st req Supports conn = some (st1, sent, err))
    (hr : Sent.uploadRequest r ∈ sent) :
    ∃ caps, negotiateCapabilities Supports = some caps ∧
      ∀ d : Capability, r.Capabilities.Supports d =
        (decide (d = IncludeTag) && req.IncludeTags ||
          (decide (d = NoProgress) && req.Progress.isNone ||
            (decide (d = Shallow) && decide (req.Depth ≠ 0) || caps.Supports d))) := by
  rw [Negotiate_eq] at h
  by_cases hw : req.Wants.length = 0
  · rw [if_pos hw] at h
    simp only [Option.some.injEq, Prod.mk.injEq] at h
    rw [← h.2.1] at hr
    cases hr
  rw [if_neg hw] at h
  rcases hcaps : negotiateCapabilities Supports with _ | caps
  · rw [hcaps] at h; cases h
  rw [hcaps] at h
  simp only at h
  refine ⟨caps, rfl, ?_⟩
  intro d
  by_cases hd : req.Depth ≠ 0
  · rw [if_pos hd] at h
    rcases hsh : O.Shallow st with e | shallows
    · rw [hsh] at h
      simp only [Option.some.injEq, Prod.mk.injEq] at h
      rw [← h.2.1] at hr
      cases hr
    · rw [hsh] at h
      simp only at h
      rw [negotiateFrom_request O st st1 req Supports conn _ r sent err h hr d]
      simp [Supports_Set, hd]
  · rw [if_neg hd] at h
    simp only at h
    rw [negotiateFrom_request O st st1 req Supports conn _ r sent err h hr d]
    simp [hd]

/-- What a request supports after `setCapability`. -/
theorem Supports_setCapability (req r : UploadPackRequest) (c d : Capability)
    (h : req.setCapability c = Except.ok r) :
    r.Capabilities.Supports d = (decide (d = c) || req.Capabilities.Supports d) := by
  unfold UploadPackRequest.setCapability at h
  rcases hs : req.Capabilities.Set c [] with ⟨l, _ | e⟩
  · rw [hs] at h
    simp only [Except.ok.injEq] at h
    rw [← h]
    have := Supports_Set req.Capabilities c d []
    rw [hs] at this
    exact this
  · rw [hs] at h
    cases h

/-- The capabilities of the request of `newUploadPackRequest`: the ones of
the constructor, `shallow` when the depth is not 0, `no-progress` when there
is no progress sink and it is advertised, and `include-tag` when every spec
is a wildcard, the tag mode is `TagFollowing` and it is advertised. -/
theorem newUploadPackRequest_capabilities
    (fromCapabilities : CapabilityList → UploadPackRequest) (o : FetchOptions) (ar : AdvRefs)
    (req : UploadPackRequest) (h : newUploadPackRequest fromCapabilities o ar = Except.ok req)
    (d : Capability) :
    req.Capabilities.Supports d =
      (decide (d = IncludeTag) &&
          (o.RefSpecs.all (fun s => s.IsWildcard) && decide (o.Tags = TagMode.TagFollowing) &&
            ar.Capabilities.Supports IncludeTag) ||
        (decide (d = NoProgress) && (o.Progress.isNone && ar.Capabilities.Supports NoProgress) ||
          (decide (d = Shallow) && decide (o.Depth ≠ 0) ||
            (fromCapabilities ar.Capabilities).Capabilities.Supports d))) := by
  unfold newUploadPackRequest at h
  simp only at h
  split at h
  · cases h
  rename_i req1 h1
  split at h
  · cases h
  rename_i req2 h2
  have e1 : req1.Capabilities.Supports d =
      (decide (d = Shallow) && decide (o.Depth ≠ 0) ||
        (fromCapabilities ar.Capabilities).Capabilities.Supports d) := by
    by_cases hd : o.Depth ≠ 0
    · rw [if_pos hd] at h1
      rw [Supports_setCapability _ _ Shallow d h1]
      simp [hd]
    · rw [if_neg hd] at h1
      simp only [Except.ok.injEq] at h1
      rw [← h1]
      simp [hd]
  have e2 : req2.Capabilities.Supports d =
      (decide (d = NoProgress) && (o.Progress.isNone && ar.Capabilities.Supports NoProgress) ||
        req1.Capabilities.Supports d) := by
    by_cases hp : (o.Progress.isNone && ar.Capabilities.Supports NoProgress) = true
    · rw [if_pos hp] at h2
      rw [Supports_setCapability _ _ NoProgress d h2]
      simp [hp]
    · rw [if_neg hp] at h2
      simp only [Except.ok.injEq] at h2
      rw [← h2]
      simp only [Bool.not_eq_true] at hp
      simp [hp]
  by_cases hi : (o.RefSpecs.all (fun s => s.IsWildcard) &&
      decide (o.Tags = TagMode.TagFollowing) && ar.Capabilities.Supports IncludeTag) = true
  · rw [if_pos hi] at h
    rw [Supports_setCapability _ _ IncludeTag d h, e2, e1]
    simp [hi]
  · rw [if_neg hi] at h
    simp only [Except.ok.injEq] at h
    rw [← h, e2, e1]
    simp only [Bool.not_eq_true] at hi
    simp [hi]

/-- C31, as amended: every capability of the upload-request that `Negotiate`
sends, other than `shallow`, `no-progress` and `include-tag`, is supported by
the session, and `shallow` is in the request whenever the depth is not 0,
supported or not.  In the request of `newUploadPackRequest` every capability
other than `shallow` is advertised or comes from the constructor of the
request, and `shallow` is in the request whenever the depth is not 0. -/
theorem Negotiate_request_capabilities {σ : Type} (O : ObjectStorer σ) (st st1 : σ)
    (req : FetchPackRequest) (Supports : Capability → Option Bool) (conn : Connection)
    (sent : List Sent) (err : Option GoError) (r : UploadRequest)
    (h : Negotiate O st req Supports conn = some (st1, sent, err))
    (hr : Sent.uploadRequest r ∈ sent) :
    (∀ d : Capability, r.Capabilities.Supports d = true →
      d ≠ Shallow → d ≠ NoProgress → d ≠ IncludeTag → Supports d = some true) ∧
    (req.Depth ≠ 0 → r.Capabilities.Supports Shallow = true) ∧
    (∀ (fromCapabilities : CapabilityList → UploadPackRequest) (o : FetchOptions) (ar : AdvRefs)
        (upr : UploadPackRequest),
      newUploadPackRequest fromCapabilities o ar = Except.ok upr →
      (∀ d : Capability, upr.Capabilities.Supports d = true → d ≠ Shallow →
        ar.Capabilities.Supports d = true ∨
          (fromCapabilities ar.Capabilities).Capabilities.Supports d = true) ∧
      (o.Depth ≠ 0 → upr.Capabilities.Supports Shallow = true)) := by
  obtain ⟨caps, hcaps, hall⟩ := Negotiate_request O st st1 req Supports conn sent err r h hr
  refine ⟨?_, ?_, ?_⟩
  · intro d hd h1 h2 h3
    rw [hall d] at hd
    simp only [h1, h2, h3, decide_False, Bool.false_and, Bool.false_or] at hd
    exact negotiateCapabilities_supported Supports caps hcaps d hd
  · intro hd
    rw [hall Shallow]
    simp [hd]
  · intro fromCapabilities o ar upr hreq
    have hcap := newUploadPackRequest_capabilities fromCapabilities o ar upr hreq
    constructor
    · intro d hd h1
      rw [hcap d] at hd
      simp only [h1, decide_False, Bool.false_and, Bool.false_or, Bool.or_eq_true,
        Bool.and_eq_true, decide_eq_true_eq] at hd
      rcases hd with ⟨e, _, hs⟩ | ⟨e, _, hs⟩ | hs
      · left; rw [e]; exact hs
      · left; rw [e]; exact hs
      · right; exact hs
    · intro hd
      rw [hcap Shallow]
      simp [hd]

/-- Witness for C31 as amended: on a session that supports `ofs-delta` only,
a request with the depth 1 is sent with `ofs-delta` and `shallow`. -/
theorem Negotiate_request_capabilities_witness :
    (∀ d : Capability,
      ({ Capabilities := ⟨[("ofs-delta", []), ("shallow", [])]⟩, Wants := [7],
         Shallows := [], Depth := 1 } : UploadRequest).Capabilities.Supports d = true →
      d ≠ Shallow → d ≠ NoProgress → d ≠ IncludeTag → exampleSession.Supports d = some true) ∧
    (({ Wants := [7], Haves := [1], Depth := 1, IncludeTags := false,
        Progress := some () } : FetchPackRequest).Depth ≠ 0 →
      ({ Capabilities := ⟨[("ofs-delta", []), ("shallow", [])]⟩, Wants := [7],
         Shallows := [], Depth := 1 } : UploadRequest).Capabilities.Supports Shallow = true) :=
  ⟨(Negotiate_request_capabilities memObjectStorer exampleObjects exampleObjects
      { Wants := [7], Haves := [1], Depth := 1, IncludeTags := false, Progress := some () }
      exampleSession.Supports exampleWire
      [Sent.uploadRequest
          { Capabilities := ⟨[("ofs-delta", []), ("shallow", [])]⟩, Wants := [7],
            Shallows := [], Depth := 1 },
        Sent.uploadHaves [1] true, Sent.done] none
      { Capabilities := ⟨[("ofs-delta", []), ("shallow", [])]⟩, Wants := [7],
        Shallows := [], Depth := 1 } (by decide) (by decide)).1,
    (Negotiate_request_capabilities memObjectStorer exampleObjects exampleObjects
      { Wants := [7], Haves := [1], Depth := 1, IncludeTags := false, Progress := some () }
      exampleSession.Supports exampleWire
      [Sent.uploadRequest
          { Capabilities := ⟨[("ofs-delta", []), ("shallow", [])]⟩, Wants := [7],
            Shallows := [], Depth := 1 },
        Sent.uploadHaves [1] true, Sent.done] none
      { Capabilities := ⟨[("ofs-delta", []), ("shallow", [])]⟩, Wants := [7],
        Shallows := [], Depth := 1 } (by decide) (by decide)).2.1⟩

/-- C31 fails as stated: the session supports `ofs-delta` only, and the
upload-request that `Negotiate` sends for the depth 1 carries `shallow`; the
advertisement has `ofs-delta` only, and the request of
`newUploadPackRequest` for the depth 1 carries `shallow`. -/
theorem Negotiate_request_not_subset :
    Negotiate memObjectStorer exampleObjects
        { Wants := [7], Haves := [1], Depth := 1, IncludeTags := false, Progress := some () }
        exampleSession.Supports exampleWire =
      some (exampleObjects,
        [Sent.uploadRequest
            { Capabilities := ⟨[("ofs-delta", []), ("shallow", [])]⟩, Wants := [7],
              Shallows := [], Depth := 1 },
          Sent.uploadHaves [1] true, Sent.done], none) ∧
    exampleSession.Supports Shallow = some false ∧
    newUploadPackRequest exampleFromCapabilities
        { RefSpecs := [exampleBranchSpec], Depth := 1, Progress := some (),
          Tags := TagMode.NoTags, Force := false } exampleMainAdvertisement =
      Except.ok
        { Capabilities := ⟨[("ofs-delta", []), ("shallow", [])]⟩, Wants := [], Shallows := [],
          Depth := 1, Haves := [] } ∧
    exampleMainAdvertisement.Capabilities.Supports Shallow = false := by
  refine ⟨by decide, by decide, rfl, by decide⟩

/-! ### The side-band variant -/

/-- What the capabilities that `Negotiate` takes from the session support. -/
theorem negotiateCapabilities_Supports (Supports : Capability → Option Bool)
    (caps : CapabilityList) (h : negotiateCapabilities Supports = some caps) (d : Capability) :
    caps.Supports d =
      (decide (d = Agent) && decide (Supports Agent = some true) ||
        (decide (d = OFSDelta) && decide (Supports OFSDelta = some true) ||
          (decide (d = ThinPack) && decide (Supports ThinPack = some true) ||
            (decide (d = Sideband64k) && decide (Supports Sideband64k = some true) ||
                decide (d = Sideband) && decide (Supports Sideband64k = some false) &&
                  decide (Supports Sideband = some true) ||
              (decide (d = MultiACKDetailed) && decide (Supports MultiACKDetailed = some true) ||
                decide (d = MultiACK) && decide (Supports MultiACKDetailed = some false) &&
                  decide (Supports MultiACK = some true)))))) := by
  unfold negotiateCapabilities at h
  simp only [Option.bind_eq_some] at h
  obtain ⟨c1, h1, c2, h2, c3, h3, c4, h4, h5⟩ := h
  rw [Supports_setIfSupported Supports c4 caps Agent d _ h5,
    Supports_setIfSupported Supports c3 c4 OFSDelta d _ h4,
    Supports_setIfSupported Supports c2 c3 ThinPack d _ h3,
    Supports_preferCapability Supports c1 c2 Sideband64k Sideband d h2,
    Supports_preferCapability Supports NewUploadRequest.Capabilities c1 MultiACKDetailed
      MultiACK d h1]
  have hnew : NewUploadRequest.Capabilities.Supports d = false := rfl
  rw [hnew, Bool.or_false]

/-- C32: on a session that supports both `side-band` and `side-band-64k`,
the upload-request that `Negotiate` sends asks for `side-band-64k` and not
for `side-band`, and `FetchPack` reads the packfile through the `side-band`
demultiplexer: its `switch` tests `side-band` first.  The function
`buildSidebandIfSupported` tests `side-band` first as well, on the
capabilities of the request. -/
theorem FetchPack_sideband_variant (Supports : Capability → Option Bool)
    (hs : Supports Sideband = some true) (hs64 : Supports Sideband64k = some true) :
    (∀ (σ : Type) (O : ObjectStorer σ) (st st1 : σ) (req : FetchPackRequest) (conn : Connection)
        (sent : List Sent) (err : Option GoError) (r : UploadRequest),
      Negotiate O st req Supports conn = some (st1, sent, err) →
      Sent.uploadRequest r ∈ sent →
      r.Capabilities.Supports Sideband64k = true ∧ r.Capabilities.Supports Sideband = false) ∧
    (∀ (σ : Type) (UpdateObjectStorage : Option SidebandType → σ → σ × Option GoError) (st : σ),
      FetchPack Supports UpdateObjectStorage st =
        some (UpdateObjectStorage (some SidebandType.Sideband) st)) ∧
    (∀ l : CapabilityList, l.Supports Sideband = true →
      buildSidebandIfSupported l = some SidebandType.Sideband) := by
  refine ⟨?_, ?_, ?_⟩
  · intro σ O st st1 req conn sent err r h hr
    obtain ⟨caps, hcaps, hall⟩ := Negotiate_request O st st1 req Supports conn sent err r h hr
    have hc := negotiateCapabilities_Supports Supports caps hcaps
    constructor
    · rw [hall, hc]
      simp [hs64]
    · have hs64' : Supports "side-band-64k" = some true := hs64
      rw [hall, hc]
      simp [hs64', Sideband, IncludeTag, NoProgress, Shallow, Agent, OFSDelta, ThinPack,
        Sideband64k, MultiACKDetailed, MultiACK]
  · intro σ U st
    unfold FetchPack
    rw [hs]
  · intro l hl
    unfold buildSidebandIfSupported
    rw [if_pos hl]

/-- The failing input of C32: a session whose server advertises `side-band`
and `side-band-64k`: the request asks for `side-band-64k`, the packfile is
read through the `side-band` demultiplexer. -/
theorem FetchPack_sideband_variant_witness :
    Negotiate memObjectStorer exampleObjects
        { Wants := [7], Haves := [1], Depth := 0, IncludeTags := false, Progress := some () }
        exampleSidebandSession.Supports exampleWire =
      some (exampleObjects,
        [Sent.uploadRequest
            { Capabilities := ⟨[("side-band-64k", []), ("ofs-delta", [])]⟩, Wants := [7],
              Shallows := [], Depth := 0 },
          Sent.uploadHaves [1] true, Sent.done], none) ∧
    FetchPack exampleSidebandSession.Supports
        (fun demux (st : MemObjects) => (st, demux.map (fun _ => Errorf "demultiplexed"))) exampleObjects =
      some ((fun demux (st : MemObjects) => (st, demux.map (fun _ => Errorf "demultiplexed")))
        (some SidebandType.Sideband) exampleObjects) :=
  ⟨by decide,
    (FetchPack_sideband_variant exampleSidebandSession.Supports rfl rfl).2.1 MemObjects _
      exampleObjects⟩

/-! ### The filtered capabilities of a session -/

/-- After a handshake that succeeds the session holds the response, whose
advertisement is the one received with its capabilities filtered. -/
theorem Handshake_ok_srvrsp (p p1 : packSession)
    (connect : String → Except GoError Connection) (forPush : Bool) (resp : ServiceResponse)
    (h : p.Handshake connect forPush = (p1, Except.ok resp)) :
    ∃ ar0 : AdvRefs, p1.srvrsp = some resp ∧
      resp.AdvRefs = some { ar0 with
        Capabilities := FilterUnsupportedCapabilities ar0.Capabilities } := by
  unfold packSession.Handshake at h
  simp only [] at h
  cases hc : connect (if forPush then ReceivePackServiceName else UploadPackServiceName) with
  | error err => rw [hc] at h; simp at h
  | ok conn =>
    rw [hc] at h
    simp only [] at h
    cases hp : conn.PeekPacketString with
    | error err => rw [hp] at h; simp at h
    | ok pkt =>
      rw [hp] at h
      simp only [] at h
      cases hd : conn.DecodeAdvRefs with
      | error err => rw [hd] at h; simp at h
      | ok ar0 =>
        rw [hd] at h
        simp only [] at h
        by_cases he : (!forPush && ar0.IsEmpty) = true
        · rw [if_pos he] at h; simp at h
        · rw [if_neg he] at h
          simp only [Prod.mk.injEq, Except.ok.injEq] at h
          obtain ⟨h1, h2⟩ := h
          subst h2
          subst h1
          exact ⟨ar0, rfl, rfl⟩

/-- C33: on a session whose `Handshake` succeeded, whatever the server
advertised, `Supports` returns false for `multi_ack`, `multi_ack_detailed`
and `thin-pack`, and the upload-request that `Negotiate` sends on that
session carries none of the three. -/
theorem packSession_Supports_filtered (p p1 : packSession)
    (connect : String → Except GoError Connection) (forPush : Bool) (resp : ServiceResponse)
    (h : p.Handshake connect forPush = (p1, Except.ok resp)) :
    (p1.Supports MultiACK = some false ∧ p1.Supports MultiACKDetailed = some false ∧
      p1.Supports ThinPack = some false) ∧
    (∀ (σ : Type) (O : ObjectStorer σ) (st st1 : σ) (req : FetchPackRequest) (conn : Connection)
        (sent : List Sent) (err : Option GoError) (r : UploadRequest),
      Negotiate O st req p1.Supports conn = some (st1, sent, err) →
      Sent.uploadRequest r ∈ sent →
      r.Capabilities.Supports MultiACK = false ∧
        r.Capabilities.Supports MultiACKDetailed = false ∧
        r.Capabilities.Supports ThinPack = false) := by
  obtain ⟨ar0, hrsp, har⟩ := Handshake_ok_srvrsp p p1 connect forPush resp h
  have hsup : ∀ c : Capability, c ∈ UnsupportedCapabilities → p1.Supports c = some false := by
    intro c hc
    unfold packSession.Supports
    rw [hrsp]
    simp only [har]
    simp [FilterUnsupportedCapabilities, Supports_deleteAll, hc]
  have h1 : p1.Supports MultiACK = some false := hsup _ (by simp [UnsupportedCapabilities])
  have h2 : p1.Supports MultiACKDetailed = some false :=
    hsup _ (by simp [UnsupportedCapabilities])
  have h3 : p1.Supports ThinPack = some false := hsup _ (by simp [UnsupportedCapabilities])
  refine ⟨⟨h1, h2, h3⟩, ?_⟩
  intro σ O st st1 req conn sent err r hneg hr
  obtain ⟨caps, hcaps, hall⟩ := Negotiate_request O st st1 req p1.Supports conn sent err r hneg hr
  have hnot : ∀ c : Capability, p1.Supports c = some false → c ≠ IncludeTag → c ≠ NoProgress →
      c ≠ Shallow → r.Capabilities.Supports c = false := by
    intro c hc n1 n2 n3
    rw [hall c]
    have hcap : caps.Supports c = false := by
      cases hv : caps.Supports c with
      | false => rfl
      | true =>
        have := negotiateCapabilities_supported p1.Supports caps hcaps c hv
        rw [hc] at this
        cases this
    simp [n1, n2, n3, hcap]
  exact ⟨hnot _ h1 (by decide) (by decide) (by decide),
    hnot _ h2 (by decide) (by decide) (by decide),
    hnot _ h3 (by decide) (by decide) (by decide)⟩

/-- Witness for C33: after the handshake on a connection whose advertisement
carries `multi_ack`, `multi_ack_detailed` and `thin-pack`, the session
supports none of them. -/
theorem packSession_Supports_filtered_witness :
    (NewPackSession.Handshake (fun _ => Except.ok exampleConnection) false).1.Supports
        MultiACK = some false ∧
    (NewPackSession.Handshake (fun _ => Except.ok exampleConnection) false).1.Supports
        MultiACKDetailed = some false ∧
    (NewPackSession.Handshake (fun _ => Except.ok exampleConnection) false).1.Supports
        ThinPack = some false :=
  (packSession_Supports_filtered NewPackSession
    (NewPackSession.Handshake (fun _ => Except.ok exampleConnection) false).1
    (fun _ => Except.ok exampleConnection) false
    { Version := 1, Capabilities := ⟨[("ofs-delta", [])]⟩,
      AdvRefs := some { NewAdvRefs with
        Capabilities := ⟨[("ofs-delta", [])]⟩,
        References := [("refs/heads/main", 1)] } } rfl).1

/-! ### The haves of all the local references -/

/-- A key that the map has with the value true is among its keys. -/
theorem mem_keys_of_mapHas (m : List (Hash × Bool)) (h : Hash) (hm : mapHas m h = true) :
    h ∈ m.map Prod.fst := by
  induction m with
  | nil => simp [mapHas, mapGet] at hm
  | cons e rest ih =>
    obtain ⟨a, b⟩ := e
    by_cases ha : a = h
    · simp [ha]
    · have : mapHas rest h = true := by
        simpa [mapHas, mapGet, ha] using hm
      simp [ih this]

/-- The key that is set is among the keys. -/
theorem mem_keys_mapSet (m : List (Hash × Bool)) (k : Hash) (v : Bool) :
    k ∈ (mapSet m k v).map Prod.fst := by
  rw [mapSet_keys]
  split
  · assumption
  · simp

/-- Setting a key keeps the keys distinct. -/
theorem nodup_keys_mapSet (m : List (Hash × Bool)) (k : Hash) (v : Bool)
    (hm : (m.map Prod.fst).Nodup) : ((mapSet m k v).map Prod.fst).Nodup := by
  rw [mapSet_keys]
  split
  · exact hm
  · rename_i hk
    rw [List.nodup_append]
    refine ⟨hm, List.nodup_singleton k, ?_⟩
    intro a ha hb
    rw [List.mem_singleton] at hb
    exact hk (hb ▸ ha)

/-- The walk keeps the keys of `haves` distinct. -/
theorem walkHaves_nodup {σ : Type} (O : ObjectStorer σ) (st : σ)
    (remoteRefs : List (Hash × Bool)) (n : Nat) :
    ∀ (w : commitPreIterator) (haves : List (Hash × Bool)), (haves.map Prod.fst).Nodup →
      ((walkHaves O st remoteRefs n w haves).map Prod.fst).Nodup := by
  induction n with
  | zero => intro w haves h; simpa [walkHaves] using h
  | succ n ih =>
    intro w haves h
    unfold walkHaves
    rcases hN : w.Next O st (mapHas haves) with err | _ | ⟨c, w1⟩
    · exact h
    · exact h
    · simp only
      split
      · exact nodup_keys_mapSet haves c.Hash true h
      · exact ih w1 _ (nodup_keys_mapSet haves c.Hash true h)

/-- One call of `GetHavesFromRef` keeps the keys distinct, keeps the keys
that were there, and, on a store that has its objects under their OIDs, has
the OID of the reference among the keys. -/
theorem GetHavesFromRef_adds {σ : Type} (O : ObjectStorer σ) (st : σ) (hO : StoredUnderOID O st)
    (ref : Reference) (remoteRefs haves : List (Hash × Bool)) (depth : Int)
    (hnd : (haves.map Prod.fst).Nodup) :
    ((GetHavesFromRef O st ref remoteRefs haves depth).map Prod.fst).Nodup ∧
    (∀ k ∈ haves.map Prod.fst, k ∈ (GetHavesFromRef O st ref remoteRefs haves depth).map Prod.fst) ∧
    ref.h ∈ (GetHavesFromRef O st ref remoteRefs haves depth).map Prod.fst := by
  have hmono : ∀ k ∈ haves.map Prod.fst,
      k ∈ (GetHavesFromRef O st ref remoteRefs haves depth).map Prod.fst := by
    intro k hk
    obtain ⟨added, hadd, _⟩ := GetHavesFromRef_keys O st ref remoteRefs haves depth
    rw [hadd]
    exact List.mem_append_left _ hk
  refine ⟨?_, hmono, ?_⟩
  · unfold GetHavesFromRef
    simp only
    split
    · exact hnd
    · split
      · exact nodup_keys_mapSet _ _ _ hnd
      · split
        · exact nodup_keys_mapSet _ _ _ hnd
        · exact walkHaves_nodup O st remoteRefs _ _ _ hnd
  · by_cases h1 : mapHas haves ref.h = true
    · exact hmono _ (mem_keys_of_mapHas haves ref.h h1)
    · unfold GetHavesFromRef
      simp only [if_neg h1]
      by_cases h2 : mapHas remoteRefs ref.h = true
      · rw [if_pos h2]
        exact mem_keys_mapSet _ _ _
      · rw [if_neg h2]
        rcases hc : GetCommit O st ref.h with err | commit
        · exact mem_keys_mapSet _ _ _
        · simp only
          have hhash : commit.Hash = ref.h := by
            unfold GetCommit at hc
            rcases ho : O.EncodedObject st ObjectType.CommitObject ref.h with e | o
            · rw [ho] at hc; cases hc
            · rw [ho] at hc
              simp only at hc
              split at hc
              · cases hc
              · cases hc
                exact hO _ _ _ ho
          obtain ⟨n, hn⟩ : ∃ n : Nat,
              (if depth > 0 ∧ depth < maxHavesToVisitPerRef then depth.toNat
                else maxHavesToVisitPerRef) = n + 1 := by
            split
            · rename_i hd
              exact ⟨depth.toNat - 1, by omega⟩
            · exact ⟨99, rfl⟩
          rw [hn]
          have hnext : (NewCommitPreorderIter commit).Next O st (mapHas haves) =
              Except.ok (some (commit, commitPreIterator.visit [] [] commit)) := by
            have hfalse : mapHas haves commit.Hash = false := by
              rw [hhash]; simpa using h1
            simp [commitPreIterator.Next, NewCommitPreorderIter, hfalse]
          unfold walkHaves
          simp only [hnext]
          split
          · rw [hhash]; exact mem_keys_mapSet _ _ _
          · obtain ⟨added, hadd, _⟩ := walkHaves_keys O st remoteRefs n
              (commitPreIterator.visit [] [] commit) (mapSet haves commit.Hash true)
            rw [hadd]
            apply List.mem_append_left
            rw [hhash]
            exact mem_keys_mapSet _ _ _

/-- The loop of `GetHaves` keeps the keys distinct, keeps the keys that were
there and has the OID of every hash reference of the list among the keys. -/
theorem GetHavesLoop_adds {σ : Type} (O : ObjectStorer σ) (st : σ) (hO : StoredUnderOID O st)
    (remoteRefs : List (Hash × Bool)) (depth : Int) :
    ∀ (localRefs : List Reference) (haves : List (Hash × Bool)), (haves.map Prod.fst).Nodup →
      ((GetHavesLoop O st remoteRefs depth haves localRefs).map Prod.fst).Nodup ∧
      (∀ k ∈ haves.map Prod.fst,
        k ∈ (GetHavesLoop O st remoteRefs depth haves localRefs).map Prod.fst) ∧
      (∀ ref ∈ localRefs, ref.t = ReferenceType.HashReference →
        ref.h ∈ (GetHavesLoop O st remoteRefs depth haves localRefs).map Prod.fst) := by
  intro localRefs
  induction localRefs with
  | nil =>
    intro haves hnd
    exact ⟨hnd, fun k hk => hk, fun ref hr => (by cases hr)⟩
  | cons r rest ih =>
    intro haves hnd
    rw [GetHavesLoop]
    by_cases h1 : mapHas haves r.h = true
    · rw [if_pos h1]
      obtain ⟨i1, i2, i3⟩ := ih haves hnd
      refine ⟨i1, i2, ?_⟩
      intro ref hin hty
      rcases List.mem_cons.mp hin with heq | hin1
      · rw [heq]
        exact i2 _ (mem_keys_of_mapHas haves r.h h1)
      · exact i3 ref hin1 hty
    · rw [if_neg h1]
      by_cases h2 : r.t ≠ ReferenceType.HashReference
      · rw [if_pos h2]
        obtain ⟨i1, i2, i3⟩ := ih haves hnd
        refine ⟨i1, i2, ?_⟩
        intro ref hin hty
        rcases List.mem_cons.mp hin with heq | hin1
        · rw [heq] at hty
          exact absurd hty h2
        · exact i3 ref hin1 hty
      · rw [if_neg h2]
        obtain ⟨g1, g2, g3⟩ := GetHavesFromRef_adds O st hO r remoteRefs haves depth hnd
        obtain ⟨i1, i2, i3⟩ := ih _ g1
        refine ⟨i1, fun k hk => i2 k (g2 k hk), ?_⟩
        intro ref hin hty
        rcases List.mem_cons.mp hin with heq | hin1
        · rw [heq]
          exact i2 _ g3
        · exact i3 ref hin1 hty

/-- The loop of `GetHaves` passes over the references that are not hash
references. -/
theorem GetHavesLoop_filter {σ : Type} (O : ObjectStorer σ) (st : σ)
    (remoteRefs : List (Hash × Bool)) (depth : Int) :
    ∀ (localRefs : List Reference) (haves : List (Hash × Bool)),
      GetHavesLoop O st remoteRefs depth haves
          (localRefs.filter (fun ref => decide (ref.t = ReferenceType.HashReference))) =
        GetHavesLoop O st remoteRefs depth haves localRefs := by
  intro localRefs
  induction localRefs with
  | nil => intro haves; rfl
  | cons r rest ih =>
    intro haves
    by_cases hty : r.t = ReferenceType.HashReference
    · have hne : ¬ (r.t ≠ ReferenceType.HashReference) := fun h => h hty
      rw [List.filter_cons_of_pos (by simpa using hty), GetHavesLoop, GetHavesLoop]
      simp only [ih]
    · rw [List.filter_cons_of_neg (by simpa using hty), ih]
      conv_rhs => rw [GetHavesLoop]
      rw [if_pos hty]
      simp

/-- C36: when the enumeration of the remote references succeeds, `GetHaves`
succeeds, whatever the object store answers during the walks; on a store
that has its objects under their OIDs the list it returns has no duplicate
and holds the OID of every local hash reference; and the local references
that are not hash references contribute nothing: without them the result is
the same. -/
theorem GetHaves_spec {σ ρ : Type} (R : ReferenceStorer ρ) (O : ObjectStorer σ)
    (localRefs : List Reference) (remoteRefStorer : ρ) (s : σ) (depth : Int)
    (remoteRefs : List (Hash × Bool))
    (hR : GetRemoteRefsFromStorer R remoteRefStorer = Except.ok remoteRefs) :
    ∃ result : List Hash,
      GetHaves R O localRefs remoteRefStorer s depth = Except.ok result ∧
      GetHaves R O
          (localRefs.filter (fun ref => decide (ref.t = ReferenceType.HashReference)))
          remoteRefStorer s depth = Except.ok result ∧
      (StoredUnderOID O s →
        result.Nodup ∧
        ∀ ref ∈ localRefs, ref.t = ReferenceType.HashReference → ref.h ∈ result) := by
  refine ⟨(GetHavesLoop O s remoteRefs depth [] localRefs).map (fun e => e.1), ?_, ?_, ?_⟩
  · unfold GetHaves
    rw [hR]
  · unfold GetHaves
    rw [hR]
    simp only [GetHavesLoop_filter]
  · intro hO
    obtain ⟨i1, _, i3⟩ := GetHavesLoop_adds O s hO remoteRefs depth localRefs [] (by simp)
    exact ⟨i1, i3⟩

/-- Witness for C36: local references to a commit, to an OID that the remote
advertises, to a blob and to a missing object, and a symbolic `HEAD`; the
haves are the commit 2 with its parent 1 and the OIDs 9, 4 and 6. -/
theorem GetHaves_spec_witness :
    GetHaves memStorer memObjectStorer exampleLocalReferences
        [("refs/heads/main", NewHashReference "refs/heads/main" 9)] exampleMixedObjects 0 =
      Except.ok [2, 1, 9, 4, 6] ∧
    ∃ result : List Hash,
      GetHaves memStorer memObjectStorer exampleLocalReferences
          [("refs/heads/main", NewHashReference "refs/heads/main" 9)] exampleMixedObjects 0 =
        Except.ok result ∧
      GetHaves memStorer memObjectStorer
          (exampleLocalReferences.filter
            (fun ref => decide (ref.t = ReferenceType.HashReference)))
          [("refs/heads/main", NewHashReference "refs/heads/main" 9)] exampleMixedObjects 0 =
        Except.ok result ∧
      (StoredUnderOID memObjectStorer exampleMixedObjects →
        result.Nodup ∧
        ∀ ref ∈ exampleLocalReferences, ref.t = ReferenceType.HashReference → ref.h ∈ result) :=
  ⟨rfl,
    GetHaves_spec memStorer memObjectStorer exampleLocalReferences
      [("refs/heads/main", NewHashReference "refs/heads/main" 9)] exampleMixedObjects 0
      [(9, true)] rfl⟩

/-! ### The upload-archive request on the wire -/

/-- The second loop of the decoder succeeds only on an even number of
arguments. -/
theorem decodeOptions_ok_even (line : String) :
    ∀ (n : Nat) (args : List String) (format pre : String) (x : String × String),
      args.length ≤ n → decodeOptions line args format pre = some (Except.ok x) →
      args.length % 2 = 0 := by
  intro n
  induction n with
  | zero =>
    intro args format pre x hlen _
    have : args = [] := List.length_eq_zero.mp (Nat.le_zero.mp hlen)
    rw [this]; rfl
  | succ n ih =>
    intro args format pre x hlen h
    match args, hlen, h with
    | [], _, _ => rfl
    | [name], _, h =>
      unfold decodeOptions at h
      split at h <;> cases h
    | name :: value :: rest, hlen, h =>
      unfold decodeOptions at h
      have hrest : rest.length ≤ n := by
        simp only [List.length_cons] at hlen
        omega
      simp only [List.length_cons]
      split at h
      · have := ih rest _ _ x hrest h
        omega
      · split at h
        · have := ih rest _ _ x hrest h
          omega
        · cases h

/-- C38: `uaReqDecoder.Decode` returns without an error only when the stream
holds exactly one argument packet, and the request it yields has neither a
format nor a prefix: the loop over the arguments reads the names of the
options at the even indices, where the encoder has put their values.  Hence
no request with a format or a prefix is decoded from what `Encode` wrote. -/
theorem uaReqDecoder.Decode_single_argument (v r : UploadArchiveRequest) (lines : List String)
    (h : uaReqDecoder.Decode v lines = some (r, none)) :
    ∃ a : String, collectArguments lines [] = Except.ok [a] ∧
      r = { Reference := a, Hash := NewHash a, Format := "", Prefix := "" } := by
  unfold uaReqDecoder.Decode at h
  rcases hc : collectArguments lines [] with err | args
  · rw [hc] at h
    simp at h
  · rw [hc] at h
    simp only at h
    by_cases hodd : args.length % 2 ≠ 1
    · rw [if_pos hodd] at h
      simp at h
    · rw [if_neg hodd] at h
      have hodd1 : args.length % 2 = 1 := not_not.mp hodd
      rcases hd : decodeOptions (lines.getLastD "") (args.drop 2) "" "" with _ | res
      · rw [hd] at h; cases h
      · rw [hd] at h
        rcases res with err | ⟨format, pre⟩
        · simp at h
        · simp only [Option.some.injEq, Prod.mk.injEq, and_true] at h
          have heven := decodeOptions_ok_even _ _ _ _ _ _ (le_refl _) hd
          rw [List.length_drop] at heven
          match args, hodd1, heven, hd, h with
          | [a], _, _, hd, h =>
            simp only [List.drop_succ_cons, List.drop_nil, decodeOptions, Option.some.injEq,
              Except.ok.injEq, Prod.mk.injEq] at hd
            refine ⟨a, rfl, ?_⟩
            rw [← h, ← hd.1, ← hd.2]
            rfl
          | [], h1, _, _, _ => simp at h1
          | a :: b :: rest, h1, h2, _, _ =>
            simp only [List.length_cons] at h1 h2
            omega

/-- The failing input of C38: the request for `HEAD` in the format `tar` is
valid, has a zero hash and no blank in its fields.  `Encode` writes three
argument packets and a flush; `Decode` of their payloads fails, with the
flush read as an empty payload and without it, with the line feeds and
without them; and what `Decode` accepts, a single argument packet, has no
format. -/
theorem uaReqDecoder.Decode_single_argument_witness :
    exampleTarRequest.Validate = none ∧
    uaReqEncoder.Encode exampleTarRequest =
      ([Packet.data "argument HEAD\n", Packet.data "argument --format\n",
        Packet.data "argument tar\n", Packet.flush], none) ∧
    uaReqDecoder.Decode ⟨"", 0, "", ""⟩ (scanPackets (uaReqEncoder.Encode exampleTarRequest).1) =
      some (⟨"", 0, "", ""⟩, some (NewErrUnexpectedData "invalid argument" "")) ∧
    uaReqDecoder.Decode ⟨"", 0, "", ""⟩
        ["argument HEAD\n", "argument --format\n", "argument tar\n"] =
      some (⟨"", 0, "", ""⟩, some (NewErrUnexpectedData "invalid argument" "argument tar\n")) ∧
    uaReqDecoder.Decode ⟨"", 0, "", ""⟩ ["argument HEAD", "argument --format", "argument tar"] =
      some (⟨"", 0, "", ""⟩, some (NewErrUnexpectedData "invalid argument" "argument tar")) ∧
    (∃ a : String, collectArguments ["argument HEAD"] [] = Except.ok [a] ∧
      (⟨"HEAD", NewHash "HEAD", "", ""⟩ : UploadArchiveRequest) =
        { Reference := a, Hash := NewHash a, Format := "", Prefix := "" }) :=
  ⟨rfl, by decide, by decide, by decide, by decide,
    uaReqDecoder.Decode_single_argument ⟨"", 0, "", ""⟩ ⟨"HEAD", NewHash "HEAD", "", ""⟩
      ["argument HEAD"] (by decide)⟩

/-! ### The fast-forward test -/

/-- Marking a commit of the graph as seen leaves fewer commits to see. -/
theorem length_unseen_lt (commits seen : List Hash) (h : Hash) (hin : h ∈ commits)
    (hns : h ∉ seen) :
    (commits.filter (fun x => !(h :: seen).contains x)).length <
      (commits.filter (fun x => !seen.contains x)).length := by
  have hff : commits.filter (fun x => !(h :: seen).contains x) =
      (commits.filter (fun x => !seen.contains x)).filter (fun x => !decide (x = h)) := by
    rw [List.filter_filter]
    apply List.filter_congr
    intro x _
    by_cases hx : x = h <;> simp [hx]
  rw [hff]
  apply List.length_filter_lt_length_iff_exists.mpr
  refine ⟨h, ?_, by simp⟩
  simp [List.mem_filter, hin, hns]

/-- The search of the walker among its pending parents, in a commit graph:
either every pending parent has been seen and the walk is at its end, or the
pending parents up to the first one that has not been seen are passed over
and that one is visited. -/
theorem nextPending_graph {σ : Type} (O : ObjectStorer σ) (s : σ) (commits seen : List Hash)
    (hG : CommitGraph O s commits) :
    ∀ pending : List Hash, (∀ p ∈ pending, p ∈ commits) →
      (nextPending O s (fun _ => false) seen pending = Except.ok none ∧
        ∀ y ∈ pending, y ∈ seen) ∨
      ∃ (pre : List Hash) (h : Hash) (hs : List Hash) (c : Commit),
        pending = pre ++ h :: hs ∧ (∀ y ∈ pre, y ∈ seen) ∧ h ∉ seen ∧
        GetCommit O s h = Except.ok c ∧ c.Hash = h ∧
        nextPending O s (fun _ => false) seen pending =
          Except.ok (some (c, commitPreIterator.visit seen hs c)) := by
  intro pending
  induction pending with
  | nil => intro _; left; exact ⟨rfl, fun y hy => (by cases hy)⟩
  | cons h hs ih =>
    intro hsub
    obtain ⟨c, hc, hh, _⟩ := hG h (hsub h (List.mem_cons_self _ _))
    by_cases hseen : h ∈ seen
    · have hstep : nextPending O s (fun _ => false) seen (h :: hs) =
          nextPending O s (fun _ => false) seen hs := by
        rw [nextPending, hc]
        simp [hh, hseen]
      rcases ih (fun p hp => hsub p (List.mem_cons_of_mem _ hp)) with ⟨h1, h2⟩ | hex
      · left
        refine ⟨hstep.trans h1, ?_⟩
        intro y hy
        rcases List.mem_cons.mp hy with e | e
        · rw [e]; exact hseen
        · exact h2 y e
      · right
        obtain ⟨pre, h', hs', c', e1, e2, e3, e4, e5, e6⟩ := hex
        refine ⟨h :: pre, h', hs', c', by rw [e1]; rfl, ?_, e3, e4, e5, hstep.trans e6⟩
        intro y hy
        rcases List.mem_cons.mp hy with e | e
        · rw [e]; exact hseen
        · exact e2 y e
    · right
      refine ⟨[], h, hs, c, rfl, fun y hy => (by cases hy), hseen, hc, hh, ?_⟩
      rw [nextPending, hc]
      simp [hh, hseen]

/-- In a state of the walk whose seen commits have all their parents seen or
pending, a seen commit that reaches a commit not yet seen does so through a
pending parent that has not been seen. -/
theorem Reaches_frontier {σ : Type} (O : ObjectStorer σ) (s : σ) (seen pending : List Hash)
    (old : Hash) (hold : old ∉ seen)
    (hclosed : ∀ x ∈ seen, ∀ c, GetCommit O s x = Except.ok c →
      ∀ p ∈ c.ParentHashes, p ∈ seen ∨ p ∈ pending)
    (x : Hash) (hr : Reaches O s x old) (hx : x ∈ seen) :
    ∃ z ∈ pending, z ∉ seen ∧ Reaches O s z old := by
  induction hr with
  | refl a => exact absurd hx hold
  | step a p b c hc hp _ ih =>
    by_cases hps : p ∈ seen
    · exact ih hold hps
    · rcases hclosed a hx c hc p hp with h1 | h1
      · exact absurd h1 hps
      · exact ⟨p, h1, hps, by assumption⟩

/-- The walk of `isFastForward` from a state in which the start commit has
been visited, in a commit graph, with fuel for the commits not yet seen: it
ends without error, and finds `old` exactly when a pending parent that has
not been seen reaches `old`. -/
theorem isFastForwardWalk_graph {σ : Type} (O : ObjectStorer σ) (s : σ) (commits : List Hash)
    (old : Hash) (hG : CommitGraph O s commits) :
    ∀ (n : Nat) (seen pending : List Hash) (fuel : Nat),
      (commits.filter (fun x => !seen.contains x)).length ≤ n → n + 1 ≤ fuel →
      old ∉ seen →
      (∀ x ∈ seen, ∀ c, GetCommit O s x = Except.ok c →
        ∀ p ∈ c.ParentHashes, p ∈ seen ∨ p ∈ pending) →
      (∀ p ∈ pending, p ∈ commits) →
      ∃ b : Bool,
        isFastForwardWalk O s old fuel { start := none, seen := seen, pending := pending } =
          some (b, none) ∧
        (b = true ↔ ∃ y ∈ pending, y ∉ seen ∧ Reaches O s y old) := by
  intro n
  induction n with
  | zero =>
    intro seen pending fuel hcount hfuel hold hclosed hsub
    obtain ⟨f, rfl⟩ : ∃ f, fuel = f + 1 := ⟨fuel - 1, by omega⟩
    rcases nextPending_graph O s commits seen hG pending hsub with ⟨h1, h2⟩ | hex
    · refine ⟨false, ?_, ?_⟩
      · rw [isFastForwardWalk]
        simp [commitPreIterator.Next, h1]
      · constructor
        · intro h; cases h
        · rintro ⟨y, hy, hns, _⟩
          exact absurd (h2 y hy) hns
    · obtain ⟨pre, h, hs, c, e1, _, e3, _, _, _⟩ := hex
      have hin : h ∈ commits := hsub h (by rw [e1]; simp)
      have := length_unseen_lt commits seen h hin e3
      omega
  | succ n ih =>
    intro seen pending fuel hcount hfuel hold hclosed hsub
    obtain ⟨f, rfl⟩ : ∃ f, fuel = f + 1 := ⟨fuel - 1, by omega⟩
    rcases nextPending_graph O s commits seen hG pending hsub with ⟨h1, h2⟩ | hex
    · refine ⟨false, ?_, ?_⟩
      · rw [isFastForwardWalk]
        simp [commitPreIterator.Next, h1]
      · constructor
        · intro h; cases h
        · rintro ⟨y, hy, hns, _⟩
          exact absurd (h2 y hy) hns
    · obtain ⟨pre, h, hs, c, e1, e2, e3, e4, e5, e6⟩ := hex
      have hin : h ∈ commits := hsub h (by rw [e1]; simp)
      obtain ⟨c', hc', _, hparents⟩ := hG h hin
      have hcc : c' = c := by
        rw [e4] at hc'
        exact (Except.ok.inj hc').symm
      subst hcc
      by_cases hfound : h = old
      · refine ⟨true, ?_, ?_⟩
        · rw [isFastForwardWalk]
          simp [commitPreIterator.Next, e6, e5, hfound]
        · constructor
          · intro _
            exact ⟨h, by rw [e1]; simp, e3, by rw [hfound]; exact Reaches.refl old⟩
          · intro _; rfl
      · have hstep : isFastForwardWalk O s old (f + 1)
            { start := none, seen := seen, pending := pending } =
            isFastForwardWalk O s old f (commitPreIterator.visit seen hs c') := by
          rw [isFastForwardWalk]
          simp [commitPreIterator.Next, e6, e5, hfound]
        have hvisit : commitPreIterator.visit seen hs c' =
            { start := none, seen := h :: seen,
              pending := c'.ParentHashes.filter (fun x => !(h :: seen).contains x) ++ hs } := by
          simp [commitPreIterator.visit, e5]
        have hold' : old ∉ h :: seen := by
          intro hm
          rcases List.mem_cons.mp hm with e | e
          · exact hfound e.symm
          · exact hold e
        have hclosed' : ∀ x ∈ h :: seen, ∀ c, GetCommit O s x = Except.ok c →
            ∀ p ∈ c.ParentHashes, p ∈ h :: seen ∨
              p ∈ c'.ParentHashes.filter (fun x => !(h :: seen).contains x) ++ hs := by
          intro x hx cx hcx p hp
          by_cases hps : p ∈ h :: seen
          · exact Or.inl hps
          · right
            rcases List.mem_cons.mp hx with e | e
            · rw [e, e4] at hcx
              have : c' = cx := Except.ok.inj hcx
              subst this
              apply List.mem_append_left
              simp only [List.mem_filter]
              refine ⟨hp, ?_⟩
              simpa using hps
            · rcases hclosed x e cx hcx p hp with h1 | h1
              · exact absurd (List.mem_cons_of_mem _ h1) hps
              · rw [e1] at h1
                rcases List.mem_append.mp h1 with h2 | h2
                · exact absurd (List.mem_cons_of_mem _ (e2 p h2)) hps
                · rcases List.mem_cons.mp h2 with h3 | h3
                  · exact absurd (by rw [h3]; exact List.mem_cons_self _ _) hps
                  · exact List.mem_append_right _ h3
        have hsub' : ∀ p ∈ c'.ParentHashes.filter (fun x => !(h :: seen).contains x) ++ hs,
            p ∈ commits := by
          intro p hp
          rcases List.mem_append.mp hp with h1 | h1
          · exact hparents p (List.mem_filter.mp h1).1
          · exact hsub p (by rw [e1]; simp [h1])
        have hcount' : (commits.filter (fun x => !(h :: seen).contains x)).length ≤ n := by
          have := length_unseen_lt commits seen h hin e3
          omega
        obtain ⟨b, hb, hiff⟩ := ih (h :: seen) _ f hcount' (by omega) hold' hclosed' hsub'
        refine ⟨b, by rw [hstep, hvisit]; exact hb, ?_⟩
        rw [hiff]
        constructor
        · rintro ⟨y, hy, hns, hr⟩
          rcases List.mem_append.mp hy with h1 | h1
          · exact ⟨h, by rw [e1]; simp, e3,
              Reaches.step h y old c' e4 (List.mem_filter.mp h1).1 hr⟩
          · exact ⟨y, by rw [e1]; simp [h1], fun hm => hns (List.mem_cons_of_mem _ hm), hr⟩
        · rintro ⟨y, hy, hns, hr⟩
          by_cases hyh : y = h
          · rw [hyh] at hr
            exact Reaches_frontier O s (h :: seen) _ old hold' hclosed' h hr
              (List.mem_cons_self _ _)
          · rw [e1] at hy
            rcases List.mem_append.mp hy with h1 | h1
            · exact absurd (e2 y h1) hns
            · rcases List.mem_cons.mp h1 with h2 | h2
              · exact absurd h2 hyh
              · refine ⟨y, List.mem_append_right _ h2, ?_, hr⟩
                intro hm
                rcases List.mem_cons.mp hm with e | e
                · exact hyh e
                · exact hns e

/-- C35: in a finite commit graph whose walk raises no error, with fuel for
its commits, `isFastForward(s, old, new)` for a commit `new` of the graph
returns without error, and returns true exactly when `old` is reached by the
parent walk started at `new`: `old` is `new` or an ancestor of `new`.  When
`new` is not a commit of the store, the error of the lookup is returned. -/
theorem isFastForward_spec {σ : Type} (O : ObjectStorer σ) (s : σ) (commits : List Hash)
    (old new : Hash) (hG : CommitGraph O s commits) (hnew : new ∈ commits) :
    (∀ fuel : Nat, commits.length + 1 ≤ fuel →
      ∃ b : Bool, isFastForward O s fuel old new = some (b, none) ∧
        (b = true ↔ Reaches O s new old)) ∧
    (∀ (other : Hash) (err : GoError) (fuel : Nat), GetCommit O s other = Except.error err →
      isFastForward O s fuel old other = some (false, some err)) := by
  constructor
  · intro fuel hfuel
    obtain ⟨c, hc, hh, hparents⟩ := hG new hnew
    obtain ⟨f, rfl⟩ : ∃ f, fuel = f + 1 := ⟨fuel - 1, by omega⟩
    have hnext : (NewCommitPreorderIter c).Next O s (fun _ => false) =
        Except.ok (some (c, commitPreIterator.visit [] [] c)) := by
      simp [commitPreIterator.Next, NewCommitPreorderIter]
    unfold isFastForward
    rw [hc]
    simp only
    by_cases hfound : new = old
    · refine ⟨true, ?_, ?_⟩
      · rw [isFastForwardWalk, hnext]
        simp [hh, hfound]
      · constructor
        · intro _; rw [hfound]; exact Reaches.refl old
        · intro _; rfl
    · have hstep : isFastForwardWalk O s old (f + 1) (NewCommitPreorderIter c) =
          isFastForwardWalk O s old f (commitPreIterator.visit [] [] c) := by
        rw [isFastForwardWalk, hnext]
        simp [hh, hfound]
      have hvisit : commitPreIterator.visit [] [] c =
          { start := none, seen := [new],
            pending := c.ParentHashes.filter (fun x => !([new] : List Hash).contains x) } := by
        simp [commitPreIterator.visit, hh]
      have hold' : old ∉ [new] := by
        intro hm
        exact hfound (List.mem_singleton.mp hm).symm
      have hclosed' : ∀ x ∈ [new], ∀ cx, GetCommit O s x = Except.ok cx →
          ∀ p ∈ cx.ParentHashes, p ∈ [new] ∨
            p ∈ c.ParentHashes.filter (fun x => !([new] : List Hash).contains x) := by
        intro x hx cx hcx p hp
        rw [List.mem_singleton.mp hx, hc] at hcx
        have : c = cx := Except.ok.inj hcx
        subst this
        by_cases hps : p ∈ [new]
        · exact Or.inl hps
        · right
          simp only [List.mem_filter]
          exact ⟨hp, by simpa using hps⟩
      have hsub' : ∀ p ∈ c.ParentHashes.filter (fun x => !([new] : List Hash).contains x),
          p ∈ commits := fun p hp => hparents p (List.mem_filter.mp hp).1
      have hcount' : (commits.filter (fun x => !([new] : List Hash).contains x)).length ≤
          commits.length - 1 := by
        have h1 := length_unseen_lt commits [] new hnew (by simp)
        have h2 : (commits.filter (fun x => !([] : List Hash).contains x)).length ≤
            commits.length := List.length_filter_le _ _
        omega
      have hpos : 0 < commits.length := List.length_pos_of_mem hnew
      obtain ⟨b, hb, hiff⟩ := isFastForwardWalk_graph O s commits old hG (commits.length - 1)
        [new] _ f hcount' (by omega) hold' hclosed' hsub'
      refine ⟨b, by rw [hstep, hvisit]; exact hb, ?_⟩
      rw [hiff]
      constructor
      · rintro ⟨y, hy, _, hr⟩
        exact Reaches.step new y old c hc (List.mem_filter.mp hy).1 hr
      · intro hr
        exact Reaches_frontier O s [new] _ old hold' hclosed' new hr (List.mem_singleton.mpr rfl)
  · intro other err fuel he
    unfold isFastForward
    rw [he]

/-- The commits 1, 2 and 3 of `exampleLocal` are a commit graph. -/
theorem exampleLocal_graph : CommitGraph storageObjects exampleLocal [1, 2, 3] := by
  intro h hh
  simp only [List.mem_cons, List.mem_singleton, List.mem_nil_iff, or_false] at hh
  rcases hh with rfl | rfl | rfl
  · exact ⟨⟨1, []⟩, rfl, rfl, by simp⟩
  · exact ⟨⟨2, [1]⟩, rfl, rfl, by simp⟩
  · exact ⟨⟨3, []⟩, rfl, rfl, by simp⟩

/-- Witness for C35: in `exampleLocal` the commit 1 is the parent of 2 and 3
is unrelated: from 1 to 2 is a fast-forward, from 3 to 2 is not, and for the
OID 7, which the store has not, the error of the lookup is returned.  With
the local branch `main` at 1 and the remote one at 2 the update is made
without force. -/
theorem isFastForward_spec_witness :
    (∃ b : Bool, isFastForward storageObjects exampleLocal 4 1 2 = some (b, none) ∧
      (b = true ↔ Reaches storageObjects exampleLocal 2 1)) ∧
    isFastForward storageObjects exampleLocal 4 1 2 = some (true, none) ∧
    isFastForward storageObjects exampleLocal 4 3 2 = some (false, none) ∧
    isFastForward storageObjects exampleLocal 4 1 7 = some (false, some ErrObjectNotFound) ∧
    updateReferenceBody storageRefs exampleFastForward false exampleBranchSpec
        { st := exampleLocal, updated := false, forceNeeded := false }
        (NewHashReference "refs/heads/main" 2) =
      ({ st := { exampleLocal with
            refs := [("refs/heads/main", NewHashReference "refs/heads/main" 2),
                     ("refs/heads/topic", NewHashReference "refs/heads/topic" 3),
                     ("refs/heads/next", NewHashReference "refs/heads/next" 1)] },
         updated := true, forceNeeded := false }, none) :=
  ⟨(isFastForward_spec storageObjects exampleLocal [1, 2, 3] 1 2 exampleLocal_graph
      (by decide)).1 4 (by decide),
    rfl, rfl,
    (isFastForward_spec storageObjects exampleLocal [1, 2, 3] 1 2 exampleLocal_graph
      (by decide)).2 7 ErrObjectNotFound 4 rfl,
    rfl⟩

end GoGit
